import Mathlib

/-!
# Line breaking and horizontal packaging of boxesandglue

A shallow embedding of `backend/node/nodelist.go` and `backend/node/linebreak.go`.

* Nodes live in a heap of cells; a Go pointer to a node is an index into the heap and the
  `prev`/`next` links are optional indices.  Loops that follow `Next()` are bounded by the
  number of cells of the heap, which a chain without a cycle never exceeds.
* `float64` values are modelled by rationals extended with NaN and the two infinities.  The
  basic operations are exact; `Float64.double` rounds a value to the nearest `float64` as the
  machine does after each operation.  An adjustment ratio is held as the exact quotient of two
  integers; the computations of the code that go on from a ratio (the badness, the demerits, the
  width of a set glue) start from its nearest `float64`, which is the quotient the machine
  computes when the two integers are below 2^53, and round every further operation, one by one
  as on amd64, where the compiler fuses no operations.  The comparisons of a ratio with -1,
  -1/2, 0, 1/2, 1 and with the tolerance are made on the exact quotient.
* `bag.ScaledPoint` values are integers; the sums of lengths are assumed to stay within the
  machine range.  The demerits arithmetic of the line breaker and the width of a set glue wrap
  at 64 bits as Go's `int` does.
* The breakpoints of the line breaker form two chains over the `next` pointer, the active and the
  inactive one.  They are modelled as two lists; a record carries an identity `id` that stands for
  its address, and `from` holds the identity of the predecessor.
-/

namespace Boxesandglue

/-! ## External constants -/

/-- Lengths in scaled points, `bag.ScaledPoint`. -/
abbrev ScaledPoint := Int

/-- Constants that are declared outside of the embedded files.  `Factor` is `bag.Factor`, the
number of scaled points of one point.  `indef` is the integer that a conversion of a `float64`
to `int` yields when the value is NaN, infinite or out of range; Go leaves this value to the
implementation. -/
structure Env where
  Factor : ScaledPoint
  indef : Int
  deriving Repr

/-- The largest value of Go's 64 bit `int`, `math.MaxInt`. -/
def MaxInt : Int := 2 ^ 63 - 1

/-- Two's complement wrap-around of 64 bit integer arithmetic. -/
def wrap64 (x : Int) : Int := (x + 2 ^ 63) % 2 ^ 64 - 2 ^ 63

/-! ## Floating point values -/

/-- A `float64`: a rational number, NaN, or an infinity.  The operations `add`, `mul`, `div` and
`pow` are exact on finite values; `double` rounds their result to a `float64`. -/
inductive Float64 where
  | nan
  | ninf
  | fin (q : ℚ)
  | pinf
  deriving DecidableEq, Repr

namespace Float64

/-- Conversion `float64(i)` of an integer. -/
def ofInt (i : Int) : Float64 := fin i

/-- The comparison `a < b`; false when an operand is NaN. -/
def lt : Float64 → Float64 → Bool
  | ninf, fin _ => true
  | ninf, pinf => true
  | fin _, pinf => true
  | fin a, fin b => decide (a < b)
  | _, _ => false

/-- The comparison `a <= b`; false when an operand is NaN. -/
def le : Float64 → Float64 → Bool
  | nan, _ => false
  | _, nan => false
  | ninf, _ => true
  | _, pinf => true
  | fin a, fin b => decide (a ≤ b)
  | _, _ => false

/-- Absolute value, `math.Abs`. -/
def abs : Float64 → Float64
  | nan => nan
  | ninf => pinf
  | pinf => pinf
  | fin q => fin |q|

/-- Power with a natural exponent, `math.Pow(x, k)`. -/
def pow (x : Float64) (k : Nat) : Float64 :=
  if k = 0 then fin 1 else
  match x with
  | nan => nan
  | pinf => pinf
  | ninf => if k % 2 = 1 then ninf else pinf
  | fin q => fin (q ^ k)

/-- Sum of two floating point values. -/
def add : Float64 → Float64 → Float64
  | nan, _ => nan
  | _, nan => nan
  | fin a, fin b => fin (a + b)
  | pinf, ninf => nan
  | ninf, pinf => nan
  | pinf, _ => pinf
  | _, pinf => pinf
  | ninf, _ => ninf
  | _, ninf => ninf

/-- The infinity with the sign of `s`, NaN when `s` is zero. -/
def signedInf (s : ℚ) : Float64 :=
  if s = 0 then nan else if 0 < s then pinf else ninf

/-- Product of two floating point values. -/
def mul : Float64 → Float64 → Float64
  | nan, _ => nan
  | _, nan => nan
  | fin a, fin b => fin (a * b)
  | fin a, pinf => signedInf a
  | fin a, ninf => signedInf (-a)
  | pinf, fin b => signedInf b
  | ninf, fin b => signedInf (-b)
  | pinf, pinf => pinf
  | ninf, ninf => pinf
  | pinf, ninf => ninf
  | ninf, pinf => ninf

/-- Quotient of two floating point values.  A zero divisor is the positive zero, which is what the
conversion of the integer 0 gives. -/
def div : Float64 → Float64 → Float64
  | nan, _ => nan
  | _, nan => nan
  | fin a, fin b => if b = 0 then signedInf a else fin (a / b)
  | fin _, pinf => fin 0
  | fin _, ninf => fin 0
  | pinf, fin b => if 0 ≤ b then pinf else ninf
  | ninf, fin b => if 0 ≤ b then ninf else pinf
  | _, _ => nan

/-- Rounding to the nearest integer, halves away from zero, `math.Round`. -/
def round : Float64 → Float64
  | fin q => fin (if 0 ≤ q then (⌊q + 1 / 2⌋ : Int) else -(⌊-q + 1 / 2⌋ : Int))
  | x => x

/-- Truncation of a rational towards zero. -/
def truncQ (q : ℚ) : Int := if 0 ≤ q then ⌊q⌋ else -⌊-q⌋

/-- Conversion `int(x)`: truncation towards zero; `env.indef` when the value does not fit. -/
def toInt (env : Env) : Float64 → Int
  | fin q => if -(2 ^ 63) ≤ truncQ q ∧ truncQ q < 2 ^ 63 then truncQ q else env.indef
  | _ => env.indef

/-- The number of binary digits of `n`, counted with the given fuel. -/
def bitLength : Nat → Nat → Nat
  | 0, _ => 0
  | fuel + 1, n => if n = 0 then 0 else bitLength fuel (n / 2) + 1

/-- The power `2^z` with an integer exponent. -/
def pow2 (z : Int) : ℚ :=
  if 0 ≤ z then ((2 ^ z.toNat : Nat) : ℚ) else 1 / ((2 ^ (-z).toNat : Nat) : ℚ)

/-- The binary exponent `e` of a positive rational `x`: `2^e ≤ x < 2^(e+1)`. -/
def exponent (x : ℚ) : Int :=
  let e : Int := (bitLength x.num.natAbs x.num.natAbs : Int) - (bitLength x.den x.den : Int)
  if pow2 e ≤ x then e else e - 1

/-- Rounding of a rational that is not negative to the nearest integer, halves to the even
one. -/
def roundHalfEven (m : ℚ) : Int :=
  if m - ⌊m⌋ < 1 / 2 then ⌊m⌋
  else if 1 / 2 < m - ⌊m⌋ then ⌊m⌋ + 1
  else if ⌊m⌋ % 2 = 0 then ⌊m⌋ else ⌊m⌋ + 1

/-- Rounding to the nearest multiple of `u`, halves to the even multiple. -/
def roundTo (u x : ℚ) : ℚ :=
  if 0 ≤ x then roundHalfEven (x / u) * u else -(roundHalfEven (-x / u) * u)

/-- Rounding to 53 significant binary digits, the precision of a `float64`, with no bound on the
exponent: round to nearest, halves to even. -/
def round53 (x : ℚ) : ℚ :=
  if x = 0 then 0 else roundTo (pow2 (exponent |x| - 52)) x

/-- The `float64` nearest to a rational: rounded to 53 digits, or to a multiple of 2^-1074
below the normal range, and an infinity when the rounded value reaches 2^1024. -/
def ofRat (x : ℚ) : Float64 :=
  let y := if |x| < pow2 (-1022) then roundTo (pow2 (-1074)) x else round53 x
  if pow2 1024 ≤ |y| then (if 0 < x then pinf else ninf) else fin y

/-- The value as a `float64`: the result of an operation of the code, of which the embedding
holds the exact value, rounded as the machine rounds it. -/
def double : Float64 → Float64
  | fin q => ofRat q
  | x => x

/-- The loop of `math.Pow` of the Go library over the binary digits of the exponent `i`:
`a1 *= x1` for a digit 1 and `x1 *= x1` for every digit.  `math.Pow` runs the loop on the
fractions of `Frexp` and keeps the exponents apart, so each product is rounded to 53 digits and
none leaves the range. -/
def powLoop : Nat → Nat → ℚ → ℚ → ℚ
  | 0, _, a1, _ => a1
  | fuel + 1, i, a1, x1 =>
    if i = 0 then a1
    else powLoop fuel (i / 2) (if i % 2 = 1 then round53 (a1 * x1) else a1) (round53 (x1 * x1))

/-- The value of `math.Pow(x, k)` of the Go library for a `float64` `x` and a natural exponent
`k`, as the code uses it with the exponents 2 and 3: the products of `powLoop`, converted to the
range of a `float64` by `Ldexp` at the end. -/
def powGo (x : Float64) (k : Nat) : Float64 :=
  match x with
  | fin q => ofRat (powLoop k k 1 q)
  | x => pow x k

end Float64

/-- The value `positiveInf` of linebreak.go, `math.Inf(1.0)`. -/
def positiveInf : Float64 := Float64.pinf

/-! ## Nodes -/

/-- The order of infinity of a glue component: 0 normal, 1 fil, 2 fill, 3 filll.  The packager
indexes arrays of length four with it. -/
abbrev GlueOrder := Fin 4

/-- Order `StretchFil`. -/
def StretchFil : GlueOrder := 1

/-- Order `StretchFill`. -/
def StretchFill : GlueOrder := 2

/-- Order `StretchFilll`. -/
def StretchFilll : GlueOrder := 3

/-- A pointer to a node: the index of its cell. -/
abbrev Ref := Nat

/-- Subtypes of a glue node; `GluelineEnd` marks the glue that the driver puts at a line end. -/
inductive GlueSubtype where
  | GlueDefault
  | GluelineEnd
  deriving DecidableEq, Repr

/-- Fields of a `Glue` node. -/
structure Glue where
  Width : ScaledPoint
  Stretch : ScaledPoint
  Shrink : ScaledPoint
  StretchOrder : GlueOrder
  ShrinkOrder : GlueOrder
  Subtype : GlueSubtype
  deriving DecidableEq, Repr

/-- Fields of an `HList` node. -/
structure HList where
  Width : ScaledPoint
  Height : ScaledPoint
  Depth : ScaledPoint
  GlueSet : Float64
  Badness : Int
  List : Option Ref
  deriving DecidableEq, Repr

/-- Fields of a `VList` node. -/
structure VList where
  Width : ScaledPoint
  Height : ScaledPoint
  Depth : ScaledPoint
  List : Option Ref
  deriving DecidableEq, Repr

/-- The node types of the package, without their links. -/
inductive Node where
  | glue (g : Glue)
  | glyph (Width Height Depth : ScaledPoint)
  | rule (Width Height Depth : ScaledPoint)
  | penalty (Penalty : Int) (Width : ScaledPoint)
  | disc (Pre : Option Ref) (Penalty : Int)
  | hlist (hl : HList)
  | vlist (vl : VList)
  | image (Width Height : ScaledPoint)
  | kern (Kern : ScaledPoint)
  | startStop
  | lang
  deriving DecidableEq, Repr

/-- A node together with its `prev` and `next` links. -/
structure Cell where
  node : Node
  prev : Option Ref
  next : Option Ref
  deriving DecidableEq, Repr

/-- The store of all nodes. -/
abbrev Heap := List Cell

/-- Modelled from the spec: the constructor `NewGlue` is not part of the embedded files; a new
glue has all fields zero. -/
def NewGlue : Glue :=
  { Width := 0, Stretch := 0, Shrink := 0, StretchOrder := 0, ShrinkOrder := 0,
    Subtype := GlueSubtype.GlueDefault }

/-- Modelled from the spec: the constructor `NewHList` is not part of the embedded files; a new
horizontal list has all fields zero. -/
def NewHList : HList :=
  { Width := 0, Height := 0, Depth := 0, GlueSet := Float64.fin 0, Badness := 0, List := none }

/-- Modelled from the spec: the constructor `NewVList` is not part of the embedded files; a new
vertical list has all fields zero. -/
def NewVList : VList :=
  { Width := 0, Height := 0, Depth := 0, List := none }

/-- Modelled from the spec: the constructor `NewPenalty` is not part of the embedded files; a new
penalty has all fields zero. -/
def NewPenalty : Node := Node.penalty 0 0

namespace Heap

/-- The node behind a pointer, `none` for a pointer that does not address a cell. -/
def node (h : Heap) (p : Ref) : Option Node := h[p]?.map Cell.node

/-- The method `Next()`. -/
def Next (h : Heap) (p : Ref) : Option Ref := h[p]?.bind Cell.next

/-- The method `Prev()`. -/
def Prev (h : Heap) (p : Ref) : Option Ref := h[p]?.bind Cell.prev

/-- The method `SetNext()`. -/
def SetNext (h : Heap) (p : Ref) (v : Option Ref) : Heap :=
  match h[p]? with
  | some c => h.set p { c with next := v }
  | none => h

/-- The method `SetPrev()`. -/
def SetPrev (h : Heap) (p : Ref) (v : Option Ref) : Heap :=
  match h[p]? with
  | some c => h.set p { c with prev := v }
  | none => h

/-- Replaces the node of a cell and keeps its links. -/
def setNode (h : Heap) (p : Ref) (n : Node) : Heap :=
  match h[p]? with
  | some c => h.set p { c with node := n }
  | none => h

/-- Allocates a node without links and returns the heap and the pointer to the new node. -/
def alloc (h : Heap) (n : Node) : Heap × Ref :=
  (h ++ [{ node := n, prev := none, next := none }], h.length)

end Heap

/-- Width of a node, `getWidth`.  Node types that the function does not list are logged and have
width 0. -/
def getWidth : Node → ScaledPoint
  | Node.glue g => g.Width
  | Node.glyph w _ _ => w
  | Node.penalty _ w => w
  | Node.rule w _ _ => w
  | Node.hlist hl => hl.Width
  | Node.kern k => k
  | Node.vlist vl => vl.Width
  | Node.startStop => 0
  | Node.disc _ _ => 0
  | Node.lang => 0
  | Node.image _ _ => 0

/-- Height of a node in a vertical list, `getHeight`. -/
def getHeight : Node → ScaledPoint
  | Node.hlist hl => hl.Height + hl.Depth
  | Node.glyph _ ht dp => ht + dp
  | Node.vlist vl => vl.Height + vl.Depth
  | Node.rule _ ht _ => ht
  | Node.glue g => g.Width
  | Node.startStop => 0
  | Node.disc _ _ => 0
  | Node.lang => 0
  | Node.penalty _ _ => 0
  | Node.kern _ => 0
  | Node.image _ _ => 0

/-- Depth of a node, `getDepth`. -/
def getDepth : Node → ScaledPoint
  | Node.hlist hl => hl.Depth
  | Node.glyph _ _ dp => dp
  | Node.rule _ _ dp => dp
  | Node.vlist vl => vl.Depth
  | _ => 0

/-- The loop of `Dimensions` with the number of remaining iterations. -/
def dimensionsLoop : Nat → Heap → Option Ref → ScaledPoint → ScaledPoint
  | _, _, none, sumwd => sumwd
  | 0, _, some _, sumwd => sumwd
  | fuel + 1, h, some e, sumwd =>
    match h.node e with
    | none => sumwd
    | some v => dimensionsLoop fuel h (h.Next e) (sumwd + getWidth v)

/-- Width of the node list starting at `n`, `Dimensions`. -/
def Dimensions (h : Heap) (n : Option Ref) : ScaledPoint :=
  dimensionsLoop h.length h n 0

/-- Inserts the node `insert` right after `cur` and returns the head, `InsertAfter`. -/
def InsertAfter (h : Heap) (head cur : Option Ref) (insert : Ref) : Heap × Option Ref :=
  match cur with
  | none => (h, some insert)
  | some c =>
    let curNext := h.Next c
    let h1 :=
      match curNext with
      | some cn => (h.SetNext insert (some cn)).SetPrev cn (some insert)
      | none => h
    let h2 := h1.SetNext c (some insert)
    let h3 := h2.SetPrev insert (some c)
    match head with
    | none => (h3, some c)
    | some hd => (h3, some hd)

/-! ## The horizontal packager -/

/-- The variables of the first loop of `HpackToWithEnd`. -/
structure HpackAcc where
  glues : List Ref
  sumwd : ScaledPoint
  maxht : ScaledPoint
  maxdp : ScaledPoint
  nonGlueSumWd : ScaledPoint
  totalStretchability : GlueOrder → ScaledPoint
  totalShrinkability : GlueOrder → ScaledPoint

/-- The variables before the first iteration. -/
def HpackAcc.init : HpackAcc :=
  { glues := [], sumwd := 0, maxht := 0, maxdp := 0, nonGlueSumWd := 0,
    totalStretchability := fun _ => 0, totalShrinkability := fun _ => 0 }

/-- The type switch in the body of the first loop of `HpackToWithEnd` for the node `v` at `e`. -/
def hpackStep (e : Ref) (v : Node) (acc : HpackAcc) : HpackAcc :=
  match v with
  | Node.glue g =>
    { acc with
      sumwd := acc.sumwd + g.Width
      totalStretchability :=
        Function.update acc.totalStretchability g.StretchOrder
          (acc.totalStretchability g.StretchOrder + g.Stretch)
      totalShrinkability :=
        Function.update acc.totalShrinkability g.StretchOrder
          (acc.totalShrinkability g.StretchOrder + g.Shrink)
      glues := acc.glues ++ [e] }
  | Node.glyph w ht dp =>
    { acc with
      nonGlueSumWd := acc.nonGlueSumWd + w
      maxht := if ht > acc.maxht then ht else acc.maxht
      maxdp := if dp > acc.maxdp then dp else acc.maxdp }
  | Node.rule w ht dp =>
    { acc with
      nonGlueSumWd := acc.nonGlueSumWd + w
      maxht := if ht > acc.maxht then ht else acc.maxht
      maxdp := if dp > acc.maxdp then dp else acc.maxdp }
  | v => { acc with nonGlueSumWd := acc.nonGlueSumWd + getWidth v }

/-- The first loop of `HpackToWithEnd`: scans from `e` up to and including `lastNode` and cuts the
list behind `lastNode`. -/
def hpackScan : Nat → Heap → Option Ref → Option Ref → HpackAcc → Heap × HpackAcc
  | _, h, none, _, acc => (h, acc)
  | 0, h, some _, _, acc => (h, acc)
  | fuel + 1, h, some e, lastNode, acc =>
    match h.node e with
    | none => (h, acc)
    | some v =>
      let acc1 := hpackStep e v acc
      if some e = lastNode then
        match h.Next e with
        | some nx => ((h.SetPrev nx none).SetNext e none, acc1)
        | none => (h, acc1)
      else hpackScan fuel h (h.Next e) lastNode acc1

/-- The variables of the loop of `HpackToWithEnd` that looks for the highest orders. -/
structure HpackOrders where
  highestOrderStretch : GlueOrder
  highestOrderShrink : GlueOrder
  stretchability : ScaledPoint
  shrinkability : ScaledPoint
  deriving DecidableEq, Repr

/-- One iteration of the loop over the orders for the order `i`. -/
def hpackOrderStep (acc : HpackAcc) (o : HpackOrders) (i : GlueOrder) : HpackOrders :=
  let o1 :=
    if acc.totalStretchability i ≠ 0 ∧ o.highestOrderStretch < i then
      { o with highestOrderStretch := i, stretchability := acc.totalStretchability i }
    else o
  if acc.totalShrinkability i ≠ 0 ∧ o1.highestOrderShrink < i then
    { o1 with highestOrderShrink := i, shrinkability := acc.totalShrinkability i }
  else o1

/-- The loop `for i := GlueOrder(3); i > 0; i--` of `HpackToWithEnd`. -/
def hpackOrders (acc : HpackAcc) : HpackOrders :=
  ([3, 2, 1] : List GlueOrder).foldl (hpackOrderStep acc)
    { highestOrderStretch := 0, highestOrderShrink := 0,
      stretchability := acc.totalStretchability 0, shrinkability := acc.totalShrinkability 0 }

/-- The glue set `r` of `HpackToWithEnd`; `sumwd` is the natural width of the scanned nodes. -/
def hpackRatio (width sumwd : ScaledPoint) (o : HpackOrders) : Float64 :=
  if width = sumwd then Float64.fin 1
  else if sumwd < width then
    Float64.div (Float64.ofInt (width - sumwd)) (Float64.ofInt o.stretchability)
  else
    Float64.div (Float64.ofInt (width - sumwd)) (Float64.ofInt o.shrinkability)

/-- The badness of `HpackToWithEnd`.  The comparisons of `r` with -1 hold for the exact ratio
as for its `float64`, rounding being monotone; the power and the product are those of the
machine. -/
def hpackBadness (env : Env) (r : Float64) (o : HpackOrders) : Int :=
  let badness : Int := 10000
  let badness :=
    if r.lt (Float64.fin (-1)) then 1000000
    else if (Float64.fin (-1)).le r then
      let b := Float64.toInt env
        (Float64.round
          (Float64.mul (Float64.powGo (Float64.abs r.double) 3) (Float64.fin 100)).double)
      if b > 10000 then 10000 else b
    else badness
  if o.highestOrderShrink > 0 ∨ o.highestOrderStretch > 0 then 0 else badness

/-- The body of the loop over the collected glues: sets the width of the glue at `g` and clears
its stretch and shrink.  The state is the heap and the variable `sumwd`.  The product
`r * float64(g.Stretch)` is the rounded product of two `float64` values, its conversion to an
integer truncates, and the sum with the width wraps at 64 bits. -/
def hpackSetGlue (env : Env) (r : Float64) (o : HpackOrders)
    (st : Heap × ScaledPoint) (g : Ref) : Heap × ScaledPoint :=
  match st.1.node g with
  | some (Node.glue gl) =>
    let w :=
      if (Float64.fin 0).le r ∧ o.highestOrderStretch = gl.StretchOrder then
        wrap64 (gl.Width +
          Float64.toInt env (Float64.mul r.double (Float64.ofInt gl.Stretch).double).double)
      else if (Float64.fin (-1)).le r ∧ r.le (Float64.fin 0)
          ∧ o.highestOrderShrink = gl.ShrinkOrder then
        wrap64 (gl.Width +
          Float64.toInt env (Float64.mul r.double (Float64.ofInt gl.Shrink).double).double)
      else gl.Width
    (st.1.setNode g (Node.glue { gl with Width := w, Stretch := 0, Shrink := 0 }), st.2 + w)
  | _ => st

/-- Packs the list from `firstNode` to `lastNode` into a horizontal list of the given width,
`HpackToWithEnd`.  Returns the heap with the changed glues and the new horizontal list. -/
def HpackToWithEnd (env : Env) (h : Heap) (firstNode lastNode : Option Ref)
    (width : ScaledPoint) : Heap × HList :=
  let scan := hpackScan h.length h firstNode lastNode HpackAcc.init
  let acc := scan.2
  let sumwd := acc.sumwd + acc.nonGlueSumWd
  let o := hpackOrders acc
  let r := hpackRatio width sumwd o
  let badness := hpackBadness env r o
  let set := acc.glues.foldl (hpackSetGlue env r o) (scan.1, acc.nonGlueSumWd)
  (set.1,
    { NewHList with
      List := firstNode
      Width := width
      Depth := acc.maxdp
      Height := acc.maxht
      GlueSet := r
      Badness := badness })

/-- The loop of `Tail`: follows `Next()` up to the last node. -/
def tailLoop : Nat → Heap → Ref → Ref
  | 0, _, e => e
  | fuel + 1, h, e =>
    match h.Next e with
    | none => e
    | some nx => tailLoop fuel h nx

/-- The last node of a node list, `Tail`. -/
def Tail (h : Heap) (nl : Option Ref) : Option Ref :=
  match nl with
  | none => none
  | some e => some (tailLoop h.length h e)

/-- Packs the list starting at `firstNode` to the given width, `HpackTo`. -/
def HpackTo (env : Env) (h : Heap) (firstNode : Option Ref) (width : ScaledPoint) :
    Heap × HList :=
  HpackToWithEnd env h firstNode (Tail h firstNode) width


/-! ## The line breaker -/

/-- The settings of the line breaking algorithm, `LinebreakSettings`. -/
structure LinebreakSettings where
  HSize : ScaledPoint
  LineHeight : ScaledPoint
  Hyphenpenalty : Int
  DemeritsFitness : Int
  DoublehyphenDemerits : Int
  Tolerance : Float64
  deriving DecidableEq, Repr

/-- Settings with the defaults initialised, `NewLinebreakSettings`. -/
def NewLinebreakSettings : LinebreakSettings :=
  { HSize := 0, LineHeight := 0, DoublehyphenDemerits := 3000, DemeritsFitness := 100,
    Hyphenpenalty := 50, Tolerance := positiveInf }

/-- A feasible break point, `Breakpoint`.  `id` stands for the address of the record and `from_`
is the field `from`, the identity of the break point of the previous line.  The field `next` is
given by the position of the record in the active or the inactive list. -/
structure Breakpoint where
  id : Nat
  from_ : Option Nat
  Position : Ref
  Pre : Option Ref
  Line : Int
  Fitness : Int
  Width : ScaledPoint
  sumW : ScaledPoint
  sumY : ScaledPoint
  sumZ : ScaledPoint
  stretchFil : ScaledPoint
  stretchFill : ScaledPoint
  stretchFilll : ScaledPoint
  R : Float64
  Demerits : Int
  deriving DecidableEq, Repr

/-- The state of the line breaker, `linebreaker`.  `activeNodesA` and `inactiveNodesP` are the
chains that start at these pointers; `nextId` counts the break points allocated so far. -/
structure linebreaker where
  activeNodesA : List Breakpoint
  inactiveNodesP : List Breakpoint
  sumW : ScaledPoint
  sumY : ScaledPoint
  sumZ : ScaledPoint
  stretchFil : ScaledPoint
  stretchFill : ScaledPoint
  stretchFilll : ScaledPoint
  settings : LinebreakSettings
  nextId : Nat
  deriving DecidableEq, Repr

/-- A line breaker without break points and with all sums zero, `newLinebreaker`. -/
def newLinebreaker (settings : LinebreakSettings) : linebreaker :=
  { activeNodesA := [], inactiveNodesP := [], sumW := 0, sumY := 0, sumZ := 0,
    stretchFil := 0, stretchFill := 0, stretchFilll := 0, settings := settings, nextId := 0 }

/-- The adjustment ratio `r` of the line from the break point `a` to the node `n`,
`computeAdjustmentRatio`. -/
def computeAdjustmentRatio (h : Heap) (lb : linebreaker) (n : Ref) (a : Breakpoint) : Float64 :=
  let desiredLineWidth := lb.sumW - a.sumW
  let desiredLineWidth :=
    match h.node n with
    | some (Node.penalty _ w) => desiredLineWidth + w
    | some (Node.disc pre _) => desiredLineWidth + Dimensions h pre
    | _ => desiredLineWidth
  if desiredLineWidth < lb.settings.HSize then
    let y := lb.sumY - a.sumY
    if y > 0 then
      if lb.stretchFil > 0 ∨ lb.stretchFill > 0 ∨ lb.stretchFilll > 0 then Float64.fin 0
      else
        Float64.div (Float64.ofInt (lb.settings.HSize - desiredLineWidth))
          (Float64.ofInt (lb.sumY - a.sumY))
    else positiveInf
  else if lb.settings.HSize < desiredLineWidth then
    let z := lb.sumZ - a.sumZ
    if z > 0 then
      Float64.div (Float64.ofInt (lb.settings.HSize - desiredLineWidth)) (Float64.ofInt z)
    else positiveInf
  else Float64.fin 0

/-- The six running sums `w, y, z, stretchFil, stretchFill, stretchFilll`. -/
structure Sums where
  w : ScaledPoint
  y : ScaledPoint
  z : ScaledPoint
  stretchFil : ScaledPoint
  stretchFill : ScaledPoint
  stretchFilll : ScaledPoint
  deriving DecidableEq, Repr

/-- The loop of `computeSum` from the node `e` on; `n` is the node the scan started at. -/
def computeSumLoop : Nat → Heap → Ref → Option Ref → Sums → Sums
  | _, _, _, none, s => s
  | 0, _, _, some _, s => s
  | fuel + 1, h, n, some e, s =>
    match h.node e with
    | some (Node.glue t) =>
      let s1 := { s with w := s.w + t.Width, z := s.z + t.Shrink }
      let s2 :=
        if t.StretchOrder = StretchFil then { s1 with stretchFil := s1.stretchFil + t.Stretch }
        else if t.StretchOrder = StretchFill then
          { s1 with stretchFill := s1.stretchFill + t.Stretch }
        else if t.StretchOrder = StretchFilll then
          { s1 with stretchFilll := s1.stretchFilll + t.Stretch }
        else { s1 with y := s1.y + t.Stretch }
      computeSumLoop fuel h n (h.Next e) s2
    | some (Node.penalty p _) =>
      if p = -10000 ∧ e ≠ n then s else computeSumLoop fuel h n (h.Next e) s
    | _ => s

/-- The sums after a break at `n`, `computeSum`. -/
def computeSum (h : Heap) (lb : linebreaker) (n : Ref) : Sums :=
  computeSumLoop h.length h n (some n)
    { w := lb.sumW, y := lb.sumY, z := lb.sumZ, stretchFil := lb.stretchFil,
      stretchFill := lb.stretchFill, stretchFilll := lb.stretchFilll }

/-- The variables `dmin`, `dc`, `ac` and `rc` of `mainLoop`. -/
structure Buckets where
  dmin : Int
  dc : Fin 4 → Int
  ac : Fin 4 → Option Breakpoint
  rc : Fin 4 → Float64

/-- The values that `mainLoop` gives these variables at the start of each outer iteration. -/
def Buckets.init : Buckets :=
  { dmin := MaxInt, dc := fun _ => MaxInt, ac := fun _ => none, rc := fun _ => Float64.fin 0 }

/-- The test `ok && p.Penalty == -10000` of `mainLoop`: the node is a forced break. -/
def isForcedBreak (h : Heap) (n : Ref) : Bool :=
  match h.node n with
  | some (Node.penalty p _) => decide (p = -10000)
  | _ => false

/-- The test whether the node behind a pointer is a `Disc`. -/
def isDisc (h : Heap) (n : Ref) : Bool :=
  match h.node n with
  | some (Node.disc _ _) => true
  | _ => false

/-- The fitness class `c` of a ratio, the `switch` of `mainLoop`. -/
def fitnessClass (r : Float64) : Fin 4 :=
  if r.lt (Float64.fin (-1 / 2)) then 0
  else if r.le (Float64.fin (1 / 2)) then 1
  else if r.le (Float64.fin 1) then 2
  else 3

/-- The variables `curpenalty` and `curflagged` of `mainLoop` for the candidate `n`. -/
def curPenalty (h : Heap) (lb : linebreaker) (n : Ref) : Int × Bool :=
  match h.node n with
  | some (Node.penalty p _) => (p, false)
  | some (Node.disc _ p) => (wrap64 (lb.settings.Hyphenpenalty + p), true)
  | _ => (0, false)

set_option linter.unusedVariables false in
/-- The demerits that `mainLoop` computes for a line from the active break point `a` to the
candidate `n` with the ratio `r`, the sum with `a.Demerits` included.  The badness and the
term `onePlusBadnessSquared` are computed in `float64`: `math.Pow` multiplies with a rounding
after each product, and so do the product with 100 and the sum with 1. -/
def lineDemerits (env : Env) (h : Heap) (lb : linebreaker) (n : Ref) (a : Breakpoint)
    (r : Float64) : Int :=
  let badness := (Float64.mul (Float64.fin 100) (Float64.powGo (Float64.abs r.double) 3)).double
  let onePlusBadnessSquared :=
    Float64.toInt env (Float64.powGo (Float64.add (Float64.fin 1) badness).double 2)
  let curpenalty := (curPenalty h lb n).1
  let curflagged := (curPenalty h lb n).2
  let demerits : Int := 0
  let demerits :=
    if isDisc h a.Position then
      if curflagged then wrap64 (demerits + lb.settings.DoublehyphenDemerits) else demerits
    else demerits
  let demerits :=
    if curpenalty ≥ 0 then wrap64 (onePlusBadnessSquared + wrap64 (curpenalty * curpenalty))
    else if curpenalty > -10000 ∧ curpenalty < 0 then
      wrap64 (onePlusBadnessSquared - wrap64 (curpenalty * curpenalty))
    else onePlusBadnessSquared
  let c : Int := ((fitnessClass r).val : Int)
  let demerits :=
    if c > a.Fitness then
      if c - a.Fitness > 1 then wrap64 (demerits + lb.settings.DemeritsFitness) else demerits
    else
      if a.Fitness - c > 1 then wrap64 (demerits + lb.settings.DemeritsFitness) else demerits
  wrap64 (demerits + a.Demerits)

/-- The update of the variables of `mainLoop` for a candidate line with the given demerits:
`if demerits < dc[c] { ... }`. -/
def Buckets.record (bk : Buckets) (c : Fin 4) (demerits : Int) (a : Breakpoint) (r : Float64) :
    Buckets :=
  if demerits < bk.dc c then
    let dmin := if demerits < bk.dmin then demerits else bk.dmin
    let dmin := if dmin < 0 then MaxInt else dmin
    { dmin := dmin
      dc := Function.update bk.dc c demerits
      ac := Function.update bk.ac c (some a)
      rc := Function.update bk.rc c r }
  else bk

/-- The part of the inner loop of `mainLoop` behind the test of the feasibility window. -/
def examine (env : Env) (h : Heap) (lb : linebreaker) (n : Ref) (a : Breakpoint) (r : Float64)
    (bk : Buckets) : Buckets :=
  if (Float64.fin (-1)).le r ∧ r.lt lb.settings.Tolerance then
    bk.record (fitnessClass r) (lineDemerits env h lb n a r) a r
  else bk

/-- The break point that `mainLoop` creates at `n` for the fitness class `c` with the
predecessor `a`. -/
def newBreakpoint (env : Env) (h : Heap) (lb : linebreaker) (n : Ref) (bk : Buckets)
    (s : Sums) (c : Fin 4) (a : Breakpoint) (id : Nat) : Breakpoint :=
  { id := id
    Position := n
    Pre :=
      match h.node n with
      | some (Node.disc pre _) => pre
      | _ => none
    Line := a.Line + 1
    from_ := some a.id
    Fitness := c.val
    Width :=
      match h.node n with
      | some (Node.penalty _ w) => lb.sumW + w
      | some (Node.disc _ _) => lb.sumW + 5 * env.Factor
      | _ => lb.sumW
    sumW := s.w
    sumY := s.y
    sumZ := s.z
    stretchFil := s.stretchFil
    stretchFill := s.stretchFill
    stretchFilll := s.stretchFilll
    R := bk.rc c
    Demerits := bk.dc c }

/-- One iteration of the loop `for c := 0; c < 4; c++` of `mainLoop`.  The new break point is
linked behind `preva`, that is, appended to the part of the active list that is already passed.
`ac[c]` is nil only while `dc[c]` is `MaxInt`; the Go code would dereference nil there, the
embedding creates no break point. -/
def createStep (env : Env) (h : Heap) (n : Ref) (bk : Buckets) (s : Sums)
    (lb : linebreaker) (c : Fin 4) : linebreaker :=
  if bk.dc c ≤ wrap64 (bk.dmin + lb.settings.DemeritsFitness) then
    match bk.ac c with
    | some a =>
      { lb with
        activeNodesA := lb.activeNodesA ++ [newBreakpoint env h lb n bk s c a lb.nextId]
        nextId := lb.nextId + 1 }
    | none => lb
  else lb

/-- The part of `mainLoop` behind the inner loop: `if dmin < math.MaxInt { ... }`. -/
def createBreakpoints (env : Env) (h : Heap) (n : Ref) (lb : linebreaker) (bk : Buckets) :
    linebreaker :=
  if bk.dmin < MaxInt then
    ([0, 1, 2, 3] : List (Fin 4)).foldl (createStep env h n bk (computeSum h lb n)) lb
  else lb

/-- The removal of the active break point `a` from the active list in `mainLoop`: if the line is
too wide or the break is forced, `a` is unlinked and put in front of the inactive list; otherwise
`preva` advances to `a`. -/
def deactivate (h : Heap) (n : Ref) (a : Breakpoint) (r : Float64) (lb : linebreaker) :
    linebreaker :=
  if r.lt (Float64.fin (-1)) ∨ isForcedBreak h n then
    { lb with inactiveNodesP := a :: lb.inactiveNodesP }
  else { lb with activeNodesA := lb.activeNodesA ++ [a] }

/-- The two nested loops of `mainLoop`.  The list argument is the chain that starts at `active`;
the field `activeNodesA` of the state holds the active list up to `preva`, so that the active list
of the Go code is this field followed by the list argument.  An outer iteration ends where the
inner loop leaves with `break` or reaches the end of the chain. -/
def mainLoopScan (env : Env) (h : Heap) (n : Ref) :
    List Breakpoint → linebreaker → Buckets → linebreaker
  | [], lb, _ => lb
  | a :: rest, lb, bk =>
    let r := computeAdjustmentRatio h lb n a
    let lb1 := deactivate h n a r lb
    let bk1 := examine env h lb n a r bk
    let j := a.Line + 1
    match rest with
    | [] => createBreakpoints env h n lb1 bk1
    | b :: _ =>
      if j ≤ b.Line then
        mainLoopScan env h n rest (createBreakpoints env h n lb1 bk1) Buckets.init
      else mainLoopScan env h n rest lb1 bk1

/-- Examines the legal break `n` from all active break points, `mainLoop`. -/
def mainLoop (env : Env) (h : Heap) (lb : linebreaker) (n : Ref) : linebreaker :=
  mainLoopScan env h n lb.activeNodesA { lb with activeNodesA := [] } Buckets.init


/-! ## The driver -/

/-- The variables of the walk over the item list in `Linebreak`. -/
structure WalkState where
  lb : linebreaker
  prevItemBox : Bool
  endNode : Option Ref
  deriving DecidableEq, Repr

/-- The statements of `Linebreak` that add a glue to the running sums. -/
def addGlue (lb : linebreaker) (t : Glue) : linebreaker :=
  let lb1 := { lb with sumW := lb.sumW + t.Width, sumZ := lb.sumZ + t.Shrink }
  if t.StretchOrder = StretchFil then { lb1 with stretchFil := lb1.stretchFil + t.Stretch }
  else if t.StretchOrder = StretchFill then
    { lb1 with stretchFill := lb1.stretchFill + t.Stretch }
  else if t.StretchOrder = StretchFilll then
    { lb1 with stretchFilll := lb1.stretchFilll + t.Stretch }
  else { lb1 with sumY := lb1.sumY + t.Stretch }

/-- The body of the walk of `Linebreak` for the node `v` at `e`. -/
def walkStep (env : Env) (h : Heap) (e : Ref) (v : Node) (st : WalkState) : WalkState :=
  match v with
  | Node.glue t =>
    let lb1 := if st.prevItemBox then mainLoop env h st.lb e else st.lb
    { lb := addGlue lb1 t, prevItemBox := false, endNode := some e }
  | Node.penalty p _ =>
    { lb := if p < 10000 then mainLoop env h st.lb e else st.lb
      prevItemBox := false, endNode := some e }
  | Node.disc _ _ =>
    { lb := mainLoop env h st.lb e, prevItemBox := false, endNode := some e }
  | v =>
    { lb := { st.lb with sumW := st.lb.sumW + getWidth v }
      prevItemBox := true, endNode := some e }

/-- The walk `for e := n; e != nil; e = e.Next()` of `Linebreak`. -/
def walkLoop : Nat → Env → Heap → Option Ref → WalkState → WalkState
  | _, _, _, none, st => st
  | 0, _, _, some _, st => st
  | fuel + 1, env, h, some e, st =>
    match h.node e with
    | none => st
    | some v => walkLoop fuel env h (h.Next e) (walkStep env h e v st)

/-- The choice of the last break point in `Linebreak`: the head of the active list, or of the
inactive list when the active list is empty, replaced by each active break point whose demerits
are smaller than the smallest seen before. -/
def chooseLastNode (lb : linebreaker) : Option Breakpoint :=
  let lastNode :=
    match lb.activeNodesA with
    | a :: _ => some a
    | [] => lb.inactiveNodesP.head?
  (lb.activeNodesA.foldl
    (fun (st : Int × Option Breakpoint) e =>
      if e.Demerits < st.1 then (e.Demerits, some e) else st)
    (MaxInt, lastNode)).2

/-- The record behind the identity `i` and its `next` pointer when it is on the list `l`. -/
def nextIn : List Breakpoint → Nat → Option (Option Breakpoint)
  | [], _ => none
  | a :: rest, i => if a.id = i then some rest.head? else nextIn rest i

/-- The field `next` of the break point `e`. -/
def bpNext (lb : linebreaker) (e : Breakpoint) : Option Breakpoint :=
  match nextIn lb.activeNodesA e.id with
  | some r => r
  | none => (nextIn lb.inactiveNodesP e.id).join

/-- The break point that the field `from` of `e` points to. -/
def bpFrom (lb : linebreaker) (e : Breakpoint) : Option Breakpoint :=
  e.from_.bind fun i => (lb.inactiveNodesP ++ lb.activeNodesA).find? fun b => b.id == i

/-- The variables of the loop of `Linebreak` that builds the lines; `vert` is the vertical list,
which only grows at its head. -/
structure BacktraceState where
  heap : Heap
  curPre : Option Ref
  vert : List Node
  endNode : Option Ref
  bps : List Breakpoint
  deriving DecidableEq, Repr

/-- The variable `startPos` of the loop that builds the lines: the node behind the position of
the break point `e`, or the position itself when it has no predecessor. -/
def lineStart (h : Heap) (e : Breakpoint) : Option Ref :=
  if (h.Prev e.Position).isSome then h.Next e.Position else some e.Position

/-- The statement `if curPre != nil { InsertAfter(startPos, endNode.Prev(), curPre) }`. -/
def splicePre (h : Heap) (startPos endNode curPre : Option Ref) : Heap :=
  match curPre with
  | some cp => (InsertAfter h startPos (endNode.bind h.Prev) cp).1
  | none => h

/-- The inter-line glue for a line of the given height plus depth. -/
def lineskipGlue (settings : LinebreakSettings) (totalHeightHL : ScaledPoint) : Glue :=
  if totalHeightHL < settings.LineHeight then
    { NewGlue with Width := settings.LineHeight - totalHeightHL }
  else NewGlue

/-- The block `if startPos != nil { ... }` of the loop that builds the lines. -/
def packLine (env : Env) (lb : linebreaker) (e : Breakpoint) (startPos : Option Ref)
    (st : BacktraceState) : BacktraceState :=
  let a := st.heap.alloc (Node.glue { NewGlue with Subtype := GlueSubtype.GluelineEnd })
  let h2 := (InsertAfter a.1 startPos (st.endNode.bind a.1.Prev) a.2).1
  let hp := HpackToWithEnd env h2 startPos (st.endNode.bind h2.Prev) lb.settings.HSize
  let hl := hp.2
  let vert := Node.hlist hl :: st.vert
  if (bpNext lb e).isSome then
    { st with
      heap := hp.1
      vert := Node.glue (lineskipGlue lb.settings (hl.Height + hl.Depth)) :: vert
      endNode := some e.Position
      bps := st.bps ++ [e] }
  else { st with heap := hp.1, vert := vert }

/-- The body of the loop `for e := lastNode; e != nil; e = e.from` of `Linebreak`. -/
def backtraceStep (env : Env) (lb : linebreaker) (e : Breakpoint) (st : BacktraceState) :
    BacktraceState :=
  let startPos := lineStart st.heap e
  let st1 :=
    { st with heap := splicePre st.heap startPos st.endNode st.curPre, curPre := e.Pre }
  match startPos with
  | none => st1
  | some _ => packLine env lb e startPos st1

/-- The loop `for e := lastNode; e != nil; e = e.from` of `Linebreak`. -/
def backtraceLoop : Nat → Env → linebreaker → Option Breakpoint → BacktraceState →
    BacktraceState
  | _, _, _, none, st => st
  | 0, _, _, some _, st => st
  | fuel + 1, env, lb, some e, st =>
    backtraceLoop fuel env lb (bpFrom lb e) (backtraceStep env lb e st)

/-- The variables of the loop of `Vpack`. -/
structure VpackAcc where
  sumht : ScaledPoint
  maxwd : ScaledPoint
  lastNode : Option Node

/-- Packs a vertical list, `Vpack`.  The nodes are given as a list and the field `List` of the
result is not used. -/
def Vpack (vert : List Node) : VList :=
  let acc := vert.foldl
    (fun (acc : VpackAcc) e =>
      { sumht := acc.sumht + getHeight e
        maxwd := if getWidth e > acc.maxwd then getWidth e else acc.maxwd
        lastNode := some e })
    { sumht := 0, maxwd := 0, lastNode := none }
  let dp := match acc.lastNode with
    | some l => getDepth l
    | none => 0
  { NewVList with Depth := dp, Height := acc.sumht - dp, Width := acc.maxwd }

/-- The result of `Linebreak`: the heap after the call, the packed vertical list (`none` for a nil
result) with its nodes `vert` in order, and the break points. -/
structure LinebreakResult where
  heap : Heap
  vl : Option VList
  vert : List Node
  bps : List Breakpoint
  deriving DecidableEq, Repr

/-- The break point at the start of the paragraph that `Linebreak` puts on the active list. -/
def startBreakpoint (n : Ref) : Breakpoint :=
  { id := 0, from_ := none, Position := n, Pre := none, Line := 0, Fitness := 1, Width := 0,
    sumW := 0, sumY := 0, sumZ := 0, stretchFil := 0, stretchFill := 0, stretchFilll := 0,
    R := Float64.fin 0, Demerits := 0 }

/-- The state of the line breaker at the end of the walk of `Linebreak` over the list at `n`. -/
def linebreakWalk (env : Env) (h : Heap) (n : Ref) (settings : LinebreakSettings) : WalkState :=
  walkLoop h.length env h (some n)
    { lb := { newLinebreaker settings with activeNodesA := [startBreakpoint n], nextId := 1 }
      prevItemBox := false, endNode := none }

/-- Breaks the node list starting at `n` into lines, `Linebreak`. -/
def Linebreak (env : Env) (h : Heap) (n : Option Ref) (settings : LinebreakSettings) :
    LinebreakResult :=
  match n with
  | none => { heap := h, vl := none, vert := [], bps := [] }
  | some p =>
    let w := linebreakWalk env h p settings
    match chooseLastNode w.lb with
    | none => { heap := h, vl := some (Vpack []), vert := [], bps := [] }
    | some lastNode =>
      let bt := backtraceLoop w.lb.nextId env w.lb (some lastNode)
        { heap := h, curPre := none, vert := [], endNode := w.endNode, bps := [lastNode] }
      { heap := bt.heap, vl := some (Vpack bt.vert), vert := bt.vert, bps := bt.bps.reverse }

/-- Adds a penalty 10000, a glue 0pt plus 1fil and a penalty -10000 after `n`,
`AppendLineEndAfter`. -/
def AppendLineEndAfter (env : Env) (h : Heap) (n : Option Ref) : Heap :=
  let p := h.alloc (Node.penalty 10000 0)
  let h1 := (InsertAfter p.1 n n p.2).1
  let g := h1.alloc
    (Node.glue { NewGlue with Width := 0, Stretch := 1 * env.Factor, StretchOrder := 1 })
  let h2 := (InsertAfter g.1 n (some p.2) g.2).1
  let q := h2.alloc (Node.penalty (-10000) 0)
  (InsertAfter q.1 n (some g.2) q.2).1

/-- A heap that holds the given nodes as one doubly linked list, the first node at pointer 0. -/
def mkList (nodes : List Node) : Heap :=
  nodes.enum.map fun (i, v) =>
    { node := v
      prev := if i = 0 then none else some (i - 1)
      next := if i + 1 < nodes.length then some (i + 1) else none }



/-! ## Auxiliary notions for the statements -/

/-- The pointers that the first loop of `HpackToWithEnd` visits, in order, each with the node
behind it. -/
def hpackChain : Nat → Heap → Option Ref → Option Ref → List (Ref × Node)
  | _, _, none, _ => []
  | 0, _, some _, _ => []
  | fuel + 1, h, some e, lastNode =>
    match h.node e with
    | none => []
    | some v =>
      if some e = lastNode then [(e, v)] else (e, v) :: hpackChain fuel h (h.Next e) lastNode

/-- The nodes that `HpackToWithEnd` scans, in order. -/
def scannedNodes (h : Heap) (firstNode lastNode : Option Ref) : List Node :=
  (hpackChain h.length h firstNode lastNode).map Prod.snd

/-- The glues among a list of nodes. -/
def gluesOf (nodes : List Node) : List Glue :=
  nodes.filterMap fun v =>
    match v with
    | Node.glue g => some g
    | _ => none

/-- The sum of the natural widths of a list of nodes, glue included. -/
def naturalWidth (nodes : List Node) : ScaledPoint := (nodes.map getWidth).sum

/-- The sum of `Stretch` over the glues whose `StretchOrder` is `i`. -/
def stretchOfOrder (nodes : List Node) (i : GlueOrder) : ScaledPoint :=
  (((gluesOf nodes).filter fun g => g.StretchOrder = i).map Glue.Stretch).sum

/-- The sum of `Shrink` over the glues whose `ShrinkOrder` is `i`. -/
def shrinkOfOrder (nodes : List Node) (i : GlueOrder) : ScaledPoint :=
  (((gluesOf nodes).filter fun g => g.ShrinkOrder = i).map Glue.Shrink).sum

/-- The sum of `Shrink` over the glues whose `StretchOrder` is `i`. -/
def shrinkOfStretchOrder (nodes : List Node) (i : GlueOrder) : ScaledPoint :=
  (((gluesOf nodes).filter fun g => g.StretchOrder = i).map Glue.Shrink).sum

/-- The highest order with a non-zero total, order 0 when all totals of the infinite orders
are zero. -/
def highestOrder (total : GlueOrder → ScaledPoint) : GlueOrder :=
  if total 3 ≠ 0 then 3 else if total 2 ≠ 0 then 2 else if total 1 ≠ 0 then 1 else 0

/-- The highest orders of a list of nodes and the totals at these orders, with the totals that
`HpackToWithEnd` forms: both the stretch and the shrink of a glue count for its `StretchOrder`. -/
def scannedOrders (nodes : List Node) : HpackOrders :=
  { highestOrderStretch := highestOrder (stretchOfOrder nodes)
    highestOrderShrink := highestOrder (shrinkOfStretchOrder nodes)
    stretchability := stretchOfOrder nodes (highestOrder (stretchOfOrder nodes))
    shrinkability := shrinkOfStretchOrder nodes (highestOrder (shrinkOfStretchOrder nodes)) }

/-- The pointers to the glues among the scanned nodes. -/
def gluePointers (l : List (Ref × Node)) : List Ref :=
  l.filterMap fun pv =>
    match pv.2 with
    | Node.glue _ => some pv.1
    | _ => none

/-- The width that `HpackToWithEnd` gives a glue for the glue set `r` and the highest orders
`o`. -/
def resolvedWidth (env : Env) (r : Float64) (o : HpackOrders) (gl : Glue) : ScaledPoint :=
  if (Float64.fin 0).le r ∧ o.highestOrderStretch = gl.StretchOrder then
    wrap64 (gl.Width +
      Float64.toInt env (Float64.mul r.double (Float64.ofInt gl.Stretch).double).double)
  else if (Float64.fin (-1)).le r ∧ r.le (Float64.fin 0)
      ∧ o.highestOrderShrink = gl.ShrinkOrder then
    wrap64 (gl.Width +
      Float64.toInt env (Float64.mul r.double (Float64.ofInt gl.Shrink).double).double)
  else gl.Width

/-- An environment for the examples: 65536 scaled points per point, and the value that the
conversion instruction of amd64 yields for an operand that does not fit. -/
def exampleEnv : Env := { Factor := 65536, indef := -(2 ^ 63) }

/-- Points to scaled points in the examples. -/
def pt (x : Int) : ScaledPoint := x * exampleEnv.Factor

/-- A box of the given width in points: a glyph without height and depth. -/
def exBox (w : Int) : Node := Node.glyph (pt w) 0 0

/-- A glue of finite order with the given width, stretch and shrink in points. -/
def exGlue (w y z : Int) : Node :=
  Node.glue { NewGlue with Width := pt w, Stretch := pt y, Shrink := pt z }

/-- The list Box(10pt), Glue(5pt, 2pt, 1pt), Box(10pt) followed by the nodes that
`AppendLineEndAfter` adds. -/
def exParagraph : Heap :=
  AppendLineEndAfter exampleEnv (mkList [exBox 10, exGlue 5 2 1, exBox 10]) (some 2)

/-- The settings of the examples: the defaults with the given line width in points. -/
def exSettings (hsize : Int) : LinebreakSettings :=
  { NewLinebreakSettings with HSize := pt hsize }

/-- The line that `Linebreak` returns for the example paragraph at a width of 30pt. -/
def exLine30 : HList :=
  { Width := pt 30, Height := 0, Depth := 0, GlueSet := Float64.fin 5, Badness := 0,
    List := some 0 }

/-- A glue in points with the given stretch order and shrink order. -/
def exGlueOrd (w y z : Int) (stretchOrder shrinkOrder : GlueOrder) : Node :=
  Node.glue { NewGlue with Width := pt w, Stretch := pt y, Shrink := pt z,
                           StretchOrder := stretchOrder, ShrinkOrder := shrinkOrder }

/-- Box(10pt), Glue(0pt plus 1fil minus 1pt), Glue(0pt minus 2pt): both glues shrink with the
finite order, the first one stretches with order fil. -/
def exMixedShrink : Heap := mkList [exBox 10, exGlueOrd 0 1 1 1 0, exGlueOrd 0 0 2 0 0]

/-- Box(50pt), Glue(0pt minus 5pt), Glue(0pt plus 1fil). -/
def exOverfullFil : Heap := mkList [exBox 50, exGlue 0 0 5, exGlueOrd 0 1 0 1 0]

/-- Box(50pt), Glue(0pt minus 5pt). -/
def exOverfullFinite : Heap := mkList [exBox 50, exGlue 0 0 5]

/-- Box(10pt), Box(15pt), Glue(0pt plus 2pt minus 1pt): boxes of total width 25pt and a final
glue of finite order. -/
def exBoxesThenGlue : Heap := mkList [exBox 10, exBox 15, exGlue 0 2 1]

/-- Box(10pt), Glue(5pt plus 2pt minus 1pt), Box(10pt). -/
def exStretchLine : Heap := mkList [exBox 10, exGlue 5 2 1, exBox 10]

/-- Box(10pt), Glue(5pt plus 5pt minus 1pt), Box(10pt), Glue(5pt plus 5pt minus 1pt),
Box(200pt) followed by the nodes that `AppendLineEndAfter` adds. -/
def exOverfullParagraph : Heap :=
  AppendLineEndAfter exampleEnv
    (mkList [exBox 10, exGlue 5 5 1, exBox 10, exGlue 5 5 1, exBox 200]) (some 4)

/-- Box(10pt), Disc, Box(10pt), Disc, Box(10pt) followed by the nodes that `AppendLineEndAfter`
adds; the discretionaries have no pre-break list and the penalty 0. -/
def exDiscParagraph : Heap :=
  AppendLineEndAfter exampleEnv
    (mkList [exBox 10, Node.disc none 0, exBox 10, Node.disc none 0, exBox 10]) (some 4)

/-! ## Auxiliary notions for the statements about the line breaker -/

/-- The part of the state that `mainLoop` reads and does not change: the running sums and the
settings. -/
def linebreaker.frame (lb : linebreaker) : linebreaker :=
  { lb with activeNodesA := [], inactiveNodesP := [], nextId := 0 }

/-- The test `-1 <= r && r < lb.settings.Tolerance` of `mainLoop`. -/
def feasible (lb : linebreaker) (r : Float64) : Bool :=
  (Float64.fin (-1)).le r && r.lt lb.settings.Tolerance

/-- The test `r < -1 || ok && p.Penalty == -10000` of `mainLoop` for the active break point
`a`. -/
def deactivates (h : Heap) (lb : linebreaker) (n : Ref) (a : Breakpoint) : Bool :=
  (computeAdjustmentRatio h lb n a).lt (Float64.fin (-1)) || isForcedBreak h n

/-- The break point that a line from the active break point `a` to the candidate `n` gives:
its ratio, fitness class and demerits are those of this line, its sums are those of
`computeSum`. -/
def createdFrom (env : Env) (h : Heap) (lb : linebreaker) (n : Ref) (a : Breakpoint)
    (id : Nat) : Breakpoint :=
  { id := id
    Position := n
    Pre :=
      match h.node n with
      | some (Node.disc pre _) => pre
      | _ => none
    Line := a.Line + 1
    from_ := some a.id
    Fitness := (fitnessClass (computeAdjustmentRatio h lb n a)).val
    Width :=
      match h.node n with
      | some (Node.penalty _ w) => lb.sumW + w
      | some (Node.disc _ _) => lb.sumW + 5 * env.Factor
      | _ => lb.sumW
    sumW := (computeSum h lb n).w
    sumY := (computeSum h lb n).y
    sumZ := (computeSum h lb n).z
    stretchFil := (computeSum h lb n).stretchFil
    stretchFill := (computeSum h lb n).stretchFill
    stretchFilll := (computeSum h lb n).stretchFilll
    R := computeAdjustmentRatio h lb n a
    Demerits := lineDemerits env h lb n a (computeAdjustmentRatio h lb n a) }

/-- A break point that `mainLoop` can create at `n` from one of the break points `src`. -/
def Created (env : Env) (h : Heap) (lb : linebreaker) (n : Ref) (src : List Breakpoint)
    (bp : Breakpoint) : Prop :=
  ∃ a ∈ src, feasible lb (computeAdjustmentRatio h lb n a) = true ∧
    bp = createdFrom env h lb n a bp.id

/-- The buckets hold, for each class, nothing or a feasible line from one of `src`. -/
def BucketsFrom (env : Env) (h : Heap) (lb : linebreaker) (n : Ref) (src : List Breakpoint)
    (bk : Buckets) : Prop :=
  ∀ c : Fin 4, ∀ a, bk.ac c = some a →
    a ∈ src ∧ feasible lb (computeAdjustmentRatio h lb n a) = true ∧
    fitnessClass (computeAdjustmentRatio h lb n a) = c ∧
    bk.rc c = computeAdjustmentRatio h lb n a ∧
    bk.dc c = lineDemerits env h lb n a (computeAdjustmentRatio h lb n a)


/-! ## Auxiliary notions for the statements about heights and depths -/

/-- The `Height` field of a node that has one, 0 for the other nodes. -/
def itemHeight : Node → ScaledPoint
  | Node.glyph _ ht _ => ht
  | Node.rule _ ht _ => ht
  | Node.image _ ht => ht
  | Node.hlist hl => hl.Height
  | Node.vlist vl => vl.Height
  | _ => 0

/-- The `Depth` field of a node that has one, 0 for the other nodes. -/
def itemDepth : Node → ScaledPoint
  | Node.glyph _ _ dp => dp
  | Node.rule _ _ dp => dp
  | Node.hlist hl => hl.Depth
  | Node.vlist vl => vl.Depth
  | _ => 0

/-- The heights of the glyphs and rules among a list of nodes. -/
def glyphRuleHeights (nodes : List Node) : List ScaledPoint :=
  nodes.filterMap fun v =>
    match v with
    | Node.glyph _ ht _ => some ht
    | Node.rule _ ht _ => some ht
    | _ => none

/-- The depths of the glyphs and rules among a list of nodes. -/
def glyphRuleDepths (nodes : List Node) : List ScaledPoint :=
  nodes.filterMap fun v =>
    match v with
    | Node.glyph _ _ dp => some dp
    | Node.rule _ _ dp => some dp
    | _ => none

/-- Box(10pt) followed by a nested horizontal list of width 5pt, height 10pt and depth 3pt. -/
def exNestedBox : Heap :=
  mkList [exBox 10, Node.hlist { NewHList with Width := pt 5, Height := pt 10, Depth := pt 3 }]

/-! ## Auxiliary notions for the statements about the walk -/

/-- The variables of the walk of `Linebreak` over the list at `n` after its first `k` iterations;
with `k` the length of the heap this is the end of the walk. -/
def walkPrefix (k : Nat) (env : Env) (h : Heap) (n : Ref) (settings : LinebreakSettings) :
    WalkState :=
  walkLoop k env h (some n)
    { lb := { newLinebreaker settings with activeNodesA := [startBreakpoint n], nextId := 1 }
      prevItemBox := false, endNode := none }

/-- Box(10pt), Penalty(-50), Box(10pt) followed by the nodes that `AppendLineEndAfter` adds. -/
def exNegPenalty : Heap :=
  AppendLineEndAfter exampleEnv (mkList [exBox 10, Node.penalty (-50) 0, exBox 10]) (some 2)

/-- The break points of a list have non-decreasing `Line` in list order. -/
def LineSorted (l : List Breakpoint) : Prop := l.Pairwise fun a b => a.Line ≤ b.Line

instance (l : List Breakpoint) : Decidable (LineSorted l) := by
  unfold LineSorted
  infer_instance

/-- All break points that the line breaker holds, the active ones first. -/
def linebreaker.all (lb : linebreaker) : List Breakpoint :=
  lb.activeNodesA ++ lb.inactiveNodesP

/-- The break points of the line breaker are distinct records, allocated before `nextId`, and
the field `from` of each points to a record of the line breaker whose `Line` is one less. -/
def LbInv (lb : linebreaker) : Prop :=
  (lb.all.map Breakpoint.id).Nodup ∧ (∀ e ∈ lb.all, e.id < lb.nextId) ∧
    ∀ e ∈ lb.all, ∀ i, e.from_ = some i → ∃ b ∈ lb.all, b.id = i ∧ e.Line = b.Line + 1

/-- The variables `dmin`, `dc`, `ac` and `rc` after the inner loop of `mainLoop` has examined the
break points `seg`, started with `bk`. -/
def scanBuckets (env : Env) (h : Heap) (lb : linebreaker) (n : Ref) (seg : List Breakpoint)
    (bk : Buckets) : Buckets :=
  seg.foldl (fun bk a => examine env h lb n a (computeAdjustmentRatio h lb n a) bk) bk

/-- The lists of the line breaker after the inner loop of `mainLoop` has passed the break
points `seg`. -/
def scanDeactivate (h : Heap) (lb0 : linebreaker) (n : Ref) (seg : List Breakpoint)
    (lb : linebreaker) : linebreaker :=
  seg.foldl (fun lb a => deactivate h n a (computeAdjustmentRatio h lb0 n a) lb) lb

/-- The buckets hold for each class the first of the break points `seen` that gives a feasible
line of this class with the least demerits; a class without such a line has an empty bucket. -/
def FirstBest (env : Env) (h : Heap) (lb : linebreaker) (n : Ref) (seen : List Breakpoint)
    (bk : Buckets) : Prop :=
  ∀ c : Fin 4,
    (bk.ac c = none → bk.dc c = MaxInt ∧
      ∀ b ∈ seen, feasible lb (computeAdjustmentRatio h lb n b) = true →
        fitnessClass (computeAdjustmentRatio h lb n b) = c →
        MaxInt ≤ lineDemerits env h lb n b (computeAdjustmentRatio h lb n b)) ∧
    ∀ a, bk.ac c = some a →
      ∃ pre post, seen = pre ++ a :: post ∧
        feasible lb (computeAdjustmentRatio h lb n a) = true ∧
        fitnessClass (computeAdjustmentRatio h lb n a) = c ∧
        bk.rc c = computeAdjustmentRatio h lb n a ∧
        bk.dc c = lineDemerits env h lb n a (computeAdjustmentRatio h lb n a) ∧
        (∀ b ∈ pre, feasible lb (computeAdjustmentRatio h lb n b) = true →
          fitnessClass (computeAdjustmentRatio h lb n b) = c →
          lineDemerits env h lb n a (computeAdjustmentRatio h lb n a) <
            lineDemerits env h lb n b (computeAdjustmentRatio h lb n b)) ∧
        ∀ b ∈ post, feasible lb (computeAdjustmentRatio h lb n b) = true →
          fitnessClass (computeAdjustmentRatio h lb n b) = c →
          lineDemerits env h lb n a (computeAdjustmentRatio h lb n a) ≤
            lineDemerits env h lb n b (computeAdjustmentRatio h lb n b)

/-- Box(10pt), Penalty(0), Penalty(0), Box(10pt), Penalty(0), Box(10pt) followed by the nodes
that `AppendLineEndAfter` adds. -/
def exTwoPenalties : Heap :=
  AppendLineEndAfter exampleEnv
    (mkList [exBox 10, Node.penalty 0 0, Node.penalty 0 0, exBox 10, Node.penalty 0 0,
      exBox 10]) (some 5)

/-- The line breaker when the walk over `exTwoPenalties` with `HSize` 10pt reaches the third
penalty, the node 4. -/
def exTieState : linebreaker := (walkPrefix 4 exampleEnv exTwoPenalties 0 (exSettings 10)).lb

/-- The run of the active list of `exTieState` with `Line` 1: the break point at the second
penalty followed by the break point at the first one. -/
def exTieSeg : List Breakpoint := exTieState.activeNodesA.drop 1

/-! ## Auxiliary notions for the statements about `computeSum` -/

/-- The nodes of the list from `e` on, in order, each with its pointer. -/
def nodesFrom : Nat → Heap → Option Ref → List (Ref × Node)
  | _, _, none => []
  | 0, _, some _ => []
  | fuel + 1, h, some e =>
    match h.node e with
    | none => []
    | some v => (e, v) :: nodesFrom fuel h (h.Next e)

/-- All penalties of the heap have a value of at least -10000. -/
def penaltiesInRange (h : Heap) : Bool :=
  h.all fun c =>
    match c.node with
    | Node.penalty p _ => decide (-10000 ≤ p)
    | _ => true

/-- The item belongs to the run of glues and penalties behind a break at `n`: it is a glue, or a
penalty that is not a forced break (`p ≤ -10000`) other than `n` itself. -/
def inBreakRun (n : Ref) (ev : Ref × Node) : Bool :=
  match ev.2 with
  | Node.glue _ => true
  | Node.penalty p _ => !(decide (p ≤ -10000) && decide (ev.1 ≠ n))
  | _ => false

/-- The maximal run of consecutive glues and penalties that starts at `n` and ends before the
first item of another kind or the first forced break other than `n`. -/
def breakRun (h : Heap) (n : Ref) : List Node :=
  ((nodesFrom h.length h (some n)).takeWhile (inBreakRun n)).map Prod.snd

/-- The sums `s` increased by the contributions of the glues among `nodes`: the width and the
shrink of each glue, and its stretch filed by its stretch order. -/
def sumsPlus (s : Sums) (nodes : List Node) : Sums :=
  { w := s.w + ((gluesOf nodes).map Glue.Width).sum
    y := s.y + stretchOfOrder nodes 0
    z := s.z + ((gluesOf nodes).map Glue.Shrink).sum
    stretchFil := s.stretchFil + stretchOfOrder nodes StretchFil
    stretchFill := s.stretchFill + stretchOfOrder nodes StretchFill
    stretchFilll := s.stretchFilll + stretchOfOrder nodes StretchFilll }

/-- The running totals of the line breaker. -/
def linebreaker.sums (lb : linebreaker) : Sums :=
  { w := lb.sumW, y := lb.sumY, z := lb.sumZ, stretchFil := lb.stretchFil,
    stretchFill := lb.stretchFill, stretchFilll := lb.stretchFilll }

/-- The totals that a break point stores. -/
def Breakpoint.sums (bp : Breakpoint) : Sums :=
  { w := bp.sumW, y := bp.sumY, z := bp.sumZ, stretchFil := bp.stretchFil,
    stretchFill := bp.stretchFill, stretchFilll := bp.stretchFilll }

/-- Box(10pt), Penalty(0), Glue(5pt), Box(10pt) followed by the nodes that `AppendLineEndAfter`
adds. -/
def exGlueAfterPenalty : Heap :=
  AppendLineEndAfter exampleEnv
    (mkList [exBox 10, Node.penalty 0 0, exGlue 5 0 0, exBox 10]) (some 3)

/-! ## Auxiliary notions for the statements about demerits -/

/-- The value fits a 64 bit integer. -/
def fits64 (x : Int) : Prop := -(2 ^ 63) ≤ x ∧ x < 2 ^ 63

instance (x : Int) : Decidable (fits64 x) := by
  unfold fits64
  infer_instance

/-- The value `math.Pow(1.0+badness, 2)` of `mainLoop` for a line with the ratio `q`, where
`badness` is `100.0 * math.Pow(math.Abs(r), 3)`: every operation is rounded to a `float64`. -/
def betaDouble (q : ℚ) : Float64 :=
  Float64.powGo (Float64.add (Float64.fin 1)
    (Float64.mul (Float64.fin 100)
      (Float64.powGo (Float64.abs (Float64.fin q).double) 3)).double).double 2

/-- The term `int(math.Pow(1.0+badness, 2))` of the demerits of a line with the ratio `q`, as
the code computes it in `float64`; `2^63` stands for a value that is not finite. -/
def beta (q : ℚ) : Int :=
  match betaDouble q with
  | Float64.fin x => Float64.truncQ x
  | _ => 2 ^ 63

/-- The term `floor((1 + 100 * |r|^3)^2)` of the demerits in exact arithmetic. -/
def betaExact (q : ℚ) : Int := ⌊(1 + 100 * |q| ^ 3) ^ 2⌋

/-- The part of the demerits that the penalty `p` of the candidate gives: `p^2` for `p ≥ 0`,
`-p^2` for `-10000 < p < 0`, nothing for a forced break. -/
def penaltyPart (p : Int) : Int :=
  if 0 ≤ p then p ^ 2 else if -10000 < p then -(p ^ 2) else 0

/-- The part of the demerits for lines of very different fitness classes: `DemeritsFitness` when
the classes differ by more than one. -/
def fitnessPart (settings : LinebreakSettings) (c aFitness : Int) : Int :=
  if |c - aFitness| > 1 then settings.DemeritsFitness else 0

/-- The data that the break points of the line breaker store: the break point without `from` has
the values of the start break point; every other one names an older break point of the line
breaker as `from`, its ratio lies in the feasibility window, and its fitness class and its
demerits are those that `mainLoop` computes from this ratio and the predecessor. -/
def Stored (env : Env) (h : Heap) (lb : linebreaker) : Prop :=
  ∀ e ∈ lb.all,
    (e.from_ = none → e.Demerits = 0 ∧ e.R = Float64.fin 0 ∧ e.Fitness = 1 ∧ e.Line = 0) ∧
    ∀ i, e.from_ = some i →
      ∃ a ∈ lb.all, a.id = i ∧ a.id < e.id ∧ feasible lb e.R = true ∧
        e.Fitness = (fitnessClass e.R).val ∧
        e.Demerits = lineDemerits env h lb e.Position a e.R

/-- The penalty value `p` of a candidate: the value of a `Penalty`, 0 for a glue. -/
def penaltyOf (h : Heap) (n : Ref) : Int :=
  match h.node n with
  | some (Node.penalty p _) => p
  | _ => 0

/-- The demerits that the line from the break point `a` to the break point `e` adds: the term
of the ratio, the term of the penalty at the position of `e` and the term of the fitness
classes. -/
def lineContribution (h : Heap) (lb : linebreaker) (e a : Breakpoint) : Int :=
  match e.R with
  | Float64.fin q =>
    beta q + penaltyPart (curPenalty h lb e.Position).1 +
      fitnessPart lb.settings e.Fitness a.Fitness
  | _ => 0

/-- The sum of the contributions of the lines on the chain that ends at `e`, followed along
`from` for at most the given number of lines. -/
def chainContribution (h : Heap) (lb : linebreaker) : Nat → Breakpoint → Int
  | 0, _ => 0
  | fuel + 1, e =>
    match bpFrom lb e with
    | none => 0
    | some a => chainContribution h lb fuel a + lineContribution h lb e a

/-- No demerits of the line breaker leave the range of a 64 bit integer: for each break point
with a predecessor the term of the ratio and the sum with the demerits of the predecessor
fit. -/
def demeritsExact (h : Heap) (lb : linebreaker) : Bool :=
  lb.all.all fun e =>
    match bpFrom lb e, e.R with
    | some a, Float64.fin q =>
      decide (beta q < 2 ^ 63) && decide (fits64 (a.Demerits + lineContribution h lb e a))
    | _, _ => true

/-- Box(10pt), Glue(5pt plus 5pt minus 1pt), Box(10pt), Glue(5pt plus 5pt minus 1pt), Box(30pt),
Penalty(-50), Box(30pt) followed by the nodes that `AppendLineEndAfter` adds. -/
def exDecreasing : Heap :=
  AppendLineEndAfter exampleEnv
    (mkList [exBox 10, exGlue 5 5 1, exBox 10, exGlue 5 5 1, exBox 30, Node.penalty (-50) 0,
      exBox 30]) (some 6)

/-- The chain of break points that ends at `e`, from `e` back along `from`, for at most the
given number of break points. -/
def chainFrom (lb : linebreaker) : Nat → Breakpoint → List Breakpoint
  | 0, _ => []
  | fuel + 1, e =>
    e :: (match bpFrom lb e with
      | none => []
      | some a => chainFrom lb fuel a)

/-- The chain that `Linebreak` chooses for the list at `p`: from the chosen last break point
back to the start of the paragraph. -/
def chosenChain (env : Env) (h : Heap) (p : Ref) (settings : LinebreakSettings) :
    List Breakpoint :=
  match chooseLastNode (linebreakWalk env h p settings).lb with
  | none => []
  | some last =>
    chainFrom (linebreakWalk env h p settings).lb (linebreakWalk env h p settings).lb.nextId last

/-- No break point of the list has fewer demerits than its predecessor. -/
def demeritsMonotone (lb : linebreaker) (l : List Breakpoint) : Bool :=
  l.all fun b =>
    match bpFrom lb b with
    | some a => decide (a.Demerits ≤ b.Demerits)
    | none => true

/-- The node that the walk of `Linebreak` over the list at `e` reaches after `k` iterations,
`none` behind the end of the list. -/
def walkCursor : Nat → Heap → Option Ref → Option Ref
  | 0, _, e => e
  | _ + 1, _, none => none
  | k + 1, h, some e =>
    match h.node e with
    | none => none
    | some _ => walkCursor k h (h.Next e)

/-- The node is a forced break: a penalty with `p ≤ -10000`. -/
def forcedBreak (h : Heap) (n : Ref) : Bool :=
  match h.node n with
  | some (Node.penalty p _) => decide (p ≤ -10000)
  | _ => false

/-- The test of the deactivation rule: the ratio of the line from `a` to `n` is less than -1 or
`n` is a forced break. -/
def tooWideOrForced (h : Heap) (lb : linebreaker) (n : Ref) (a : Breakpoint) : Bool :=
  (computeAdjustmentRatio h lb n a).lt (Float64.fin (-1)) || forcedBreak h n

/-! ## Auxiliary notions for the statements about the adjustment ratio -/

/-- The natural width `L` of the candidate line from the break point `a` to the node `n`:
`lb.sumW - a.sumW` plus the width of a penalty `n` or of the pre-break list of a `Disc` `n`. -/
def candidateWidth (h : Heap) (lb : linebreaker) (n : Ref) (a : Breakpoint) : ScaledPoint :=
  lb.sumW - a.sumW +
    match h.node n with
    | some (Node.penalty _ w) => w
    | some (Node.disc pre _) => Dimensions h pre
    | _ => 0

/-- The class of a finite ratio: 0 below -0.5, 1 up to 0.5, 2 up to 1, and 3 above. -/
def classOfRatio (q : ℚ) : Int :=
  if q < -1 / 2 then 0 else if q ≤ 1 / 2 then 1 else if q ≤ 1 then 2 else 3

/-- Box(10pt) followed by the nodes that `AppendLineEndAfter` adds. -/
def exSingleBox : Heap := AppendLineEndAfter exampleEnv (mkList [exBox 10]) (some 0)

/-- The list Box(10pt), Box(20pt) and a single node Box(5pt) that is not linked. -/
def exTwoBoxesAndOne : Heap := ((mkList [exBox 10, exBox 20]).alloc (exBox 5)).1

/-- The glue of the forced-end helper: width 0, stretch `1 * bag.Factor` of order fil. -/
def helperGlue (env : Env) : Node :=
  Node.glue { NewGlue with Width := 0, Stretch := 1 * env.Factor, StretchOrder := StretchFil }

/-! ## Auxiliary notions for the statements about legal breaks -/

/-- The node that the walk of `Linebreak` over the list at `p` handles in its iteration `k`,
counted from 0. -/
def nodeAt (h : Heap) (p : Ref) (k : Nat) : Option Node :=
  (walkCursor k h (some p)).bind h.node

/-- A box in the sense of the legal break points: a glyph, rule, hlist, image or kern. -/
def isBox : Node → Bool
  | Node.glyph _ _ _ => true
  | Node.rule _ _ _ => true
  | Node.hlist _ => true
  | Node.image _ _ => true
  | Node.kern _ => true
  | _ => false

/-- The nodes that take the default case of the walk of `Linebreak` and set `prevItemBox`: all
nodes that are not a glue, a penalty or a `Disc`. -/
def setsPrevItemBox : Node → Bool
  | Node.glue _ => false
  | Node.penalty _ _ => false
  | Node.disc _ _ => false
  | _ => true

/-- The iteration `k` of the walk handles a node at which `Linebreak` invokes `mainLoop`: a
penalty below 10000, a `Disc`, or a glue whose preceding node is not a glue, a penalty or a
`Disc`. -/
def invokesMainLoop (h : Heap) (p : Ref) (k : Nat) : Bool :=
  match nodeAt h p k with
  | some (Node.penalty pv _) => decide (pv < 10000)
  | some (Node.disc _ _) => true
  | some (Node.glue _) =>
    match k with
    | 0 => false
    | j + 1 =>
      match nodeAt h p j with
      | some v => setsPrevItemBox v
      | none => false
  | _ => false

/-- Box(10pt), Lang, Glue(5pt plus 2pt minus 1pt), Box(10pt) followed by the nodes that
`AppendLineEndAfter` adds. -/
def exLangGlue : Heap :=
  AppendLineEndAfter exampleEnv (mkList [exBox 10, Node.lang, exGlue 5 2 1, exBox 10]) (some 3)

/-! ## Auxiliary notions for the statements about the vertical list -/

/-- Every glue of the vertical list is directly followed by a line box and is the inter-line
glue for the height plus depth of that box; the list holds line boxes and glues only. -/
def interlineOK (settings : LinebreakSettings) : List Node → Prop
  | [] => True
  | Node.hlist _ :: rest => interlineOK settings rest
  | Node.glue g :: rest =>
    (match rest with
      | Node.hlist hl :: _ => g = lineskipGlue settings (hl.Height + hl.Depth)
      | _ => False) ∧ interlineOK settings rest
  | _ :: _ => False

/-- Box(10pt, height 8pt), Glue(0pt), Box(10pt, height 3pt) followed by the nodes that
`AppendLineEndAfter` adds. -/
def exTwoHeights : Heap :=
  AppendLineEndAfter exampleEnv
    (mkList [Node.glyph (pt 10) (pt 8) 0, exGlue 0 0 0, Node.glyph (pt 10) (pt 3) 0]) (some 2)

/-- The settings with `HSize` 10pt and `LineHeight` 12pt. -/
def exSettingsLineHeight : LinebreakSettings :=
  { NewLinebreakSettings with HSize := pt 10, LineHeight := pt 12 }

/-! ## Style attributes and paper sizes (csshtml) -/

/-- White space in the sense of `unicode.IsSpace`, which `strings.Fields` and `bufio.ScanWords`
split at. -/
def isSpace (c : Char) : Bool :=
  c.toNat = 0x20 || (0x09 ≤ c.toNat && c.toNat ≤ 0x0D) || c.toNat = 0x85 || c.toNat = 0xA0 ||
    c.toNat = 0x1680 || (0x2000 ≤ c.toNat && c.toNat ≤ 0x200A) || c.toNat = 0x2028 ||
    c.toNat = 0x2029 || c.toNat = 0x202F || c.toNat = 0x205F || c.toNat = 0x3000

/-- The loop of `strings.Fields`: `cur` holds the characters of the field that is being read,
in reverse order. -/
def fieldsLoop : List Char → List Char → List String
  | [], cur => if cur = [] then [] else [String.mk cur.reverse]
  | c :: rest, cur =>
    if isSpace c then
      if cur = [] then fieldsLoop rest [] else String.mk cur.reverse :: fieldsLoop rest []
    else fieldsLoop rest (c :: cur)

/-- The function `strings.Fields`: the maximal runs of characters that are not white space. -/
def Fields (s : String) : List String := fieldsLoop s.data []

/-- The loop of `strings.Split(s, " ")`. -/
def splitLoop : List Char → List Char → List String
  | [], cur => [String.mk cur.reverse]
  | c :: rest, cur =>
    if c = ' ' then String.mk cur.reverse :: splitLoop rest [] else splitLoop rest (c :: cur)

/-- The call `strings.Split(s, " ")`: the pieces between single blanks, empty pieces kept. -/
def splitBlank (s : String) : List String := splitLoop s.data []

/-- The function `strings.ToLower`: every character is mapped by `unicode.ToLower`.  On ASCII
this lowers the letters A to Z and nothing else; for the other characters the case table of the
Go library, which is not part of the repository, is the parameter `unicodeToLower`. -/
def ToLower (unicodeToLower : Char → Char) (s : String) : String :=
  String.mk (s.data.map fun c => if c.toNat < 128 then Char.toLower c else unicodeToLower c)

/-- The test `strings.HasPrefix(s, p)`. -/
def startsWith (s p : String) : Bool := p.data.isPrefixOf s.data

/-- The call `strings.TrimPrefix(key, "!")`. -/
def trimBang (key : String) : String :=
  match key.data with
  | '!' :: rest => String.mk rest
  | _ => key

/-- A Go `map[string]string`. -/
abbrev StrMap := String → Option String

/-- The empty map, `make(map[string]string)`. -/
def StrMap.empty : StrMap := fun _ => none

/-- The assignment `m[k] = v`. -/
def StrMap.set (m : StrMap) (k v : String) : StrMap := fun x => if x = k then some v else m x

/-- The expression `m[k]`: the empty string for a key that is not in the map. -/
def StrMap.get (m : StrMap) (k : String) : String := (m k).getD ""

/-- The array `toprightbottomleft`. -/
def toprightbottomleft : List String := ["top", "right", "bottom", "left"]

/-- The compiled regular expressions `dimen` and `colorMatcher` of tree.go as the tests
`MatchString`; which strings they match is left open. -/
structure Regexps where
  dimen : String → Bool
  colorMatcher : String → Bool

/-- Fills the four values for top, right, bottom and left from one to four fields,
`getFourValues`. -/
def getFourValues (str : String) : StrMap :=
  match Fields str with
  | [a] => (((StrMap.empty.set "top" a).set "right" a).set "bottom" a).set "left" a
  | [a, b] => (((StrMap.empty.set "top" a).set "right" b).set "bottom" a).set "left" b
  | [a, b, c] => (((StrMap.empty.set "top" a).set "right" b).set "bottom" c).set "left" b
  | [a, b, c, d] => (((StrMap.empty.set "top" a).set "right" b).set "bottom" c).set "left" d
  | _ => StrMap.empty

/-- Whether the string is a length, `isDimension`. -/
def isDimension (rx : Regexps) (str : String) : Bool × String :=
  if str = "thick" then (true, "2pt")
  else if str = "medium" then (true, "1pt")
  else if str = "thin" then (true, "0.5pt")
  else (rx.dimen str, str)

/-- The border styles that `parseBorderAttribute` knows. -/
def borderStyles : List String :=
  ["none", "hidden", "dotted", "dashed", "solid", "double", "groove", "ridge", "inset",
    "outset"]

/-- The loop of `parseBorderAttribute` over the words of the input. -/
def parseBorderLoop (rx : Regexps) : List String → String × String × String →
    String × String × String
  | [], r => r
  | t :: rest, (width, style, color) =>
    if (isDimension rx t).1 then parseBorderLoop rx rest ((isDimension rx t).2, style, color)
    else if t ∈ borderStyles then parseBorderLoop rx rest (width, t, color)
    else if startsWith t "#" then (width, style, t)
    else if rx.colorMatcher t then (width, style, rest.foldl (fun c w => c ++ " " ++ w) t)
    else parseBorderLoop rx rest (width, style, t)

/-- Splits a value such as `1pt solid black` into width, style and colour,
`parseBorderAttribute`. -/
def parseBorderAttribute (rx : Regexps) (input : String) : String × String × String :=
  parseBorderLoop rx (Fields input) ("1pt", "none", "currentcolor")

/-- An attribute of a node, `html.Attribute`, with its key and its value. -/
structure Attribute where
  Key : String
  Val : String
  deriving DecidableEq, Repr

/-- The loop `for _, loc := range toprightbottomleft` that stores the four values under the
keys `pre ++ loc ++ post`. -/
def setFour (resolved : StrMap) (pre post : String) (values : StrMap) : StrMap :=
  toprightbottomleft.foldl (fun m loc => m.set (pre ++ loc ++ post) (values.get loc)) resolved

/-- The case `"list-style"` of `ResolveAttributes`. -/
def resolveListStyle (resolved : StrMap) (val : String) : StrMap :=
  (splitBlank val).foldl
    (fun m part =>
      if part = "inside" ∨ part = "outside" then m.set "list-style-position" part
      else if startsWith part "url" then m.set "list-style-image" part
      else m.set "list-style-type" part)
    resolved

/-- The case `"border"` of `ResolveAttributes`. -/
def resolveBorder (rx : Regexps) (resolved : StrMap) (val : String) : StrMap :=
  toprightbottomleft.foldl
    (fun m loc =>
      ((m.set ("border-" ++ loc ++ "-style") (parseBorderAttribute rx val).2.1).set
        ("border-" ++ loc ++ "-width") (parseBorderAttribute rx val).1).set
        ("border-" ++ loc ++ "-color") (parseBorderAttribute rx val).2.2)
    resolved

/-- The case `"border-radius"` of `ResolveAttributes`. -/
def resolveBorderRadius (resolved : StrMap) (val : String) : StrMap :=
  ["left", "right"].foldl
    (fun m lr =>
      ["top", "bottom"].foldl (fun m tb => m.set ("border-" ++ tb ++ "-" ++ lr ++ "-radius") val)
        m)
    resolved

/-- The case `"font"` of `ResolveAttributes`. -/
def resolveFont (rx : Regexps) (resolved : StrMap) (val : String) : StrMap :=
  let fields := Fields val
  let m := fields.enum.foldl
    (fun m (p : Nat × String) =>
      if (p.1 : Int) > (fields.length : Int) - 3 then
        if rx.dimen p.2 ∨ '%' ∈ p.2.data then m.set "font-size" p.2
        else m.set "font-name" p.2
      else m)
    resolved
  (m.set "font-style" "normal").set "font-weight" "normal"

/-- The case `"text-decoration"` of `ResolveAttributes`. -/
def resolveTextDecoration (resolved : StrMap) (val : String) : StrMap :=
  (splitBlank val).foldl
    (fun m part =>
      if part = "none" ∨ part = "underline" ∨ part = "overline" ∨ part = "line-through" then
        m.set "text-decoration-line" part
      else if part = "solid" ∨ part = "double" ∨ part = "dotted" ∨ part = "dashed" ∨
          part = "wavy" then
        m.set "text-decoration-style" part
      else m)
    resolved

/-- The switch over the key of a style attribute in `ResolveAttributes`; `key` is the key
without the exclamation mark. -/
def resolveStyleKey (rx : Regexps) (resolved : StrMap) (key val : String) : StrMap :=
  if key = "margin" then setFour resolved "margin-" "" (getFourValues val)
  else if key = "list-style" then resolveListStyle resolved val
  else if key = "padding" then setFour resolved "padding-" "" (getFourValues val)
  else if key = "border" then resolveBorder rx resolved val
  else if key = "border-radius" then resolveBorderRadius resolved val
  else if key = "border-top" ∨ key = "border-right" ∨ key = "border-bottom" ∨
      key = "border-left" then
    ((resolved.set (key ++ "-width") (parseBorderAttribute rx val).1).set (key ++ "-style")
      (parseBorderAttribute rx val).2.1).set (key ++ "-color") (parseBorderAttribute rx val).2.2
  else if key = "border-color" then
    (setFour resolved "border-" "-color" (getFourValues val)).set key val
  else if key = "border-style" then setFour resolved "border-" "-style" (getFourValues val)
  else if key = "border-width" then
    (setFour resolved "border-" "-width" (getFourValues val)).set key val
  else if key = "font" then resolveFont rx resolved val
  else if key = "text-decoration" then resolveTextDecoration resolved val
  else if key = "background" then
    (splitBlank val).foldl (fun m part => m.set "background-color" part) resolved
  else resolved.set key val

/-- The body of the loop of `ResolveAttributes` for one attribute; the state is the pair of the
maps `resolved` and `attributes`. -/
def resolveStep (rx : Regexps) (st : StrMap × StrMap) (attr : Attribute) : StrMap × StrMap :=
  if ¬ startsWith attr.Key "!" then (st.1, st.2.set attr.Key attr.Val)
  else (resolveStyleKey rx st.1 (trimBang attr.Key) attr.Val, st.2)

/-- Returns the resolved styles and the attributes of the node, `ResolveAttributes`. -/
def ResolveAttributes (rx : Regexps) (attrs : List Attribute) : StrMap × StrMap :=
  let st := attrs.foldl (resolveStep rx) (StrMap.empty, StrMap.empty)
  let resolved :=
    match st.1 "text-decoration-line" with
    | some str => if str ≠ "none" then st.1.set "text-decoration-style" "solid" else st.1
    | none => st.1
  (resolved, st.2)

/-- The variables `width`, `height` and `portrait` of `PapersizeWdHt`. -/
structure PaperState where
  width : String
  height : String
  portrait : Bool
  deriving DecidableEq, Repr

/-- The body of the loop of `PapersizeWdHt` for the field `e` with the index `i`. -/
def papersizeStep (st : PaperState) (ie : Nat × String) : PaperState :=
  let e := ie.2
  if e = "portrait" then st
  else if e = "landscape" then { st with portrait := false }
  else if e = "a5" then { st with width := "148mm", height := "210mm" }
  else if e = "a4" then { st with width := "210mm", height := "297mm" }
  else if e = "a3" then { st with width := "297mm", height := "420mm" }
  else if e = "b5" then { st with width := "176mm", height := "250mm" }
  else if e = "b4" then { st with width := "250mm", height := "353mm" }
  else if e = "jis-b5" then { st with width := "182mm", height := "257mm" }
  else if e = "jis-b4" then { st with width := "257mm", height := "364mm" }
  else if e = "letter" then { st with width := "8.5in", height := "11in" }
  else if e = "legal" then { st with width := "8.5in", height := "14in" }
  else if e = "ledger" then { st with width := "11in", height := "17in" }
  else if ie.1 = 0 then { st with width := e, height := e }
  else { st with height := e }

/-- Converts a paper size to width and height, `PapersizeWdHt`; `unicodeToLower` is the case
table of `strings.ToLower`. -/
def PapersizeWdHt (unicodeToLower : Char → Char) (typ : String) : String × String :=
  let st := (Fields (ToLower unicodeToLower typ)).enum.foldl papersizeStep
    { width := "", height := "", portrait := true }
  if st.portrait then (st.width, st.height) else (st.height, st.width)

/-- The attribute is a style rule: its key starts with an exclamation mark. -/
def isStyleRule (a : Attribute) : Bool := startsWith a.Key "!"

/-- The value of the last attribute with the key `k` among the attributes that are not style
rules. -/
def lastPlain (attrs : List Attribute) (k : String) : Option String :=
  ((attrs.filter fun a => !isStyleRule a).reverse.find? fun a => a.Key = k).map Attribute.Val

/-- Regular expressions that match nothing, for the examples. -/
def exRegexps : Regexps := { dimen := fun _ => false, colorMatcher := fun _ => false }

/-- The CSS shorthand rule in the words of the specification: the values for top, right,
bottom and left of one to four fields. One field stands for all four sides; of two fields the
first is top and bottom and the second right and left; of three the first is top, the second
right and left and the third bottom; four fields are top, right, bottom and left. -/
def specShorthand : List String → Option (String × String × String × String)
  | [a] => some (a, a, a, a)
  | [a, b] => some (a, b, a, b)
  | [a, b, c] => some (a, b, c, b)
  | [a, b, c, d] => some (a, b, c, d)
  | _ => none

/-! ## Auxiliary notions for the statements about the lines of the result -/

/-- The pointers of the nodes of each line box of the result of `Linebreak`, the lines in the
order of the vertical list: the list of a line box is followed from its field `List` along
`Next()` in the heap that `Linebreak` leaves. -/
def linesOf (r : LinebreakResult) : List (List Ref) :=
  r.vert.filterMap fun v =>
    match v with
    | Node.hlist hl => some ((nodesFrom r.heap.length r.heap hl.List).map Prod.fst)
    | _ => none

/-- Box(25pt), Glue(5pt plus 2pt minus 100pt), Box(25pt), Glue(5pt plus 2pt minus 1pt),
Box(10pt), Glue(5pt plus 2pt minus 1pt) followed by the nodes that `AppendLineEndAfter` adds. -/
def exOverlap : Heap :=
  AppendLineEndAfter exampleEnv
    (mkList [exBox 25, exGlue 5 2 100, exBox 25, exGlue 5 2 1, exBox 10, exGlue 5 2 1]) (some 5)

/-! ## The nil dereference in the creation loop -/

/-- The creation loop of `mainLoop` reads `ac[c].Line` for a class `c` whose `ac[c]` is nil:
`dmin` is below `MaxInt` and the test `dc[c] <= dmin+lb.settings.DemeritsFitness` holds for a
class without a candidate.  The Go code stops with a run-time error there. -/
def createDerefsNil (lb : linebreaker) (bk : Buckets) : Bool :=
  decide (bk.dmin < MaxInt) &&
    ([0, 1, 2, 3] : List (Fin 4)).any fun c =>
      decide (bk.dc c ≤ wrap64 (bk.dmin + lb.settings.DemeritsFitness)) && (bk.ac c).isNone

/-- One of the creation loops of `mainLoop` at `n` dereferences nil; the function follows
`mainLoopScan`. -/
def mainLoopDerefsNil (env : Env) (h : Heap) (n : Ref) :
    List Breakpoint → linebreaker → Buckets → Bool
  | [], _, _ => false
  | a :: rest, lb, bk =>
    let r := computeAdjustmentRatio h lb n a
    let lb1 := deactivate h n a r lb
    let bk1 := examine env h lb n a r bk
    let j := a.Line + 1
    match rest with
    | [] => createDerefsNil lb1 bk1
    | b :: _ =>
      if j ≤ b.Line then
        createDerefsNil lb1 bk1 ||
          mainLoopDerefsNil env h n rest (createBreakpoints env h n lb1 bk1) Buckets.init
      else mainLoopDerefsNil env h n rest lb1 bk1

/-- The iteration of the walk of `Linebreak` for the node `v` at `e` invokes `mainLoop` and
`mainLoop` dereferences nil. -/
def walkStepDerefsNil (env : Env) (h : Heap) (e : Ref) (v : Node) (st : WalkState) : Bool :=
  let main := mainLoopDerefsNil env h e st.lb.activeNodesA { st.lb with activeNodesA := [] }
    Buckets.init
  match v with
  | Node.glue _ => st.prevItemBox && main
  | Node.penalty p _ => decide (p < 10000) && main
  | Node.disc _ _ => main
  | _ => false

/-- The walk of `Linebreak` from `e` on dereferences nil in one of its iterations; the function
follows `walkLoop`. -/
def walkDerefsNil : Nat → Env → Heap → Option Ref → WalkState → Bool
  | _, _, _, none, _ => false
  | 0, _, _, some _, _ => false
  | fuel + 1, env, h, some e, st =>
    match h.node e with
    | none => false
    | some v =>
      walkStepDerefsNil env h e v st || walkDerefsNil fuel env h (h.Next e) (walkStep env h e v st)

/-- The call `Linebreak(n, settings)` with its run-time error: `none` when the walk over the
list dereferences nil in the creation loop of `mainLoop`, the result of `Linebreak`
otherwise. -/
def LinebreakRun (env : Env) (h : Heap) (n : Option Ref) (settings : LinebreakSettings) :
    Option LinebreakResult :=
  match n with
  | none => some (Linebreak env h none settings)
  | some p =>
    if walkDerefsNil h.length env h (some p)
        { lb := { newLinebreaker settings with activeNodesA := [startBreakpoint p], nextId := 1 }
          prevItemBox := false, endNode := none } then none
    else some (Linebreak env h (some p) settings)

/-- What the statement on the output of `Linebreak` uses of a well-formed item list at `p`:
`p` is a node of the heap, the list ends, and the head `p` is neither the successor of a node nor
the pre-break text of a `Disc`. -/
def WellFormed (h : Heap) (p : Ref) : Bool :=
  decide (p < h.length) && (walkCursor h.length h (some p)).isNone &&
    (List.range h.length).all fun q =>
      (h.Next q != some p) &&
        match h.node q with
        | some (Node.disc pre _) => pre != some p
        | _ => true

/-- The head `p` of the item list is a node of the heap without a predecessor and no node has
it as its successor. -/
def HeadFree (p : Nat) (h : Heap) : Prop :=
  p < h.length ∧ h.Prev p = none ∧ ∀ q : Nat, h.Next q ≠ some p

/-- The line number of a break point is not negative and at most its identity, a break point
without a predecessor stands at the head `p` of the list, and `p` is no pre-break text. -/
def ChainInv (p : Nat) (lb : linebreaker) : Prop :=
  ∀ e ∈ lb.all, 0 ≤ e.Line ∧ e.Line ≤ e.id ∧ (e.from_ = none → e.Position = p) ∧
    e.Pre ≠ some p

/-- The default settings with a line width of 10pt and `DemeritsFitness` one below the largest
integer. -/
def exHugeFitness : LinebreakSettings :=
  { NewLinebreakSettings with HSize := pt 10, DemeritsFitness := MaxInt - 1 }

/-! ## Auxiliary notions for the statement about a paragraph of one box -/

/-- The paragraph of the single node `v` followed by the nodes that `AppendLineEndAfter`
adds: `v` at pointer 0, Penalty 10000, Glue 0pt plus 1fil and Penalty -10000 at 1, 2 and 3. -/
def oneBoxParagraph (env : Env) (v : Node) : Heap :=
  AppendLineEndAfter env (mkList [v]) (some 0)

/-- The default settings with the line width `hsize`. -/
def settingsWithHSize (hsize : ScaledPoint) : LinebreakSettings :=
  { NewLinebreakSettings with HSize := hsize }

/-- The state of the line breaker in front of the last node of a paragraph of one box of width
`w`: only the start break point, no finite stretch or shrink. -/
def oneBoxState (env : Env) (w hsize : ScaledPoint) : linebreaker :=
  { settings := settingsWithHSize hsize
    activeNodesA := [startBreakpoint 0]
    inactiveNodesP := []
    nextId := 1
    sumW := 0 + w + 0
    sumY := 0
    sumZ := 0 + 0
    stretchFil := 0 + 1 * env.Factor
    stretchFill := 0
    stretchFilll := 0 }

/-! ## Auxiliary notions for the statements about penalties below -10000 -/

/-- The item belongs to the run that `computeSum` scans behind a break at `n`: it is a glue, or
a penalty that is not a penalty of exactly -10000 other than `n` itself. -/
def inSumRun (n : Ref) (ev : Ref × Node) : Bool :=
  match ev.2 with
  | Node.glue _ => true
  | Node.penalty p _ => !(decide (p = -10000) && decide (ev.1 ≠ n))
  | _ => false

/-- The run of consecutive glues and penalties that starts at `n` and ends before the first item
of another kind or the first penalty of exactly -10000 other than `n`. -/
def sumRun (h : Heap) (n : Ref) : List Node :=
  ((nodesFrom h.length h (some n)).takeWhile (inSumRun n)).map Prod.snd

/-- Box(10pt), Glue(5pt plus 2pt minus 1pt), Penalty(-20000), Glue(5pt plus 2pt minus 1pt),
Box(10pt) followed by the nodes that `AppendLineEndAfter` adds. -/
def exPenaltyBelowForced : Heap :=
  AppendLineEndAfter exampleEnv
    (mkList [exBox 10, exGlue 5 2 1, Node.penalty (-20000) 0, exGlue 5 2 1, exBox 10]) (some 4)

/-! ## Auxiliary notions for the statements about the packager without stretch -/

/-- A list of the single node Box(10pt). -/
def exLoneBox : Heap := mkList [exBox 10]

/-- Box(10pt), Glue(0pt plus 1fil minus 4pt), Glue(0pt minus 4pt): both glues shrink with the
finite order, the first one stretches with the order fil. -/
def exShrinkOrders : Heap := mkList [exBox 10, exGlueOrd 0 1 4 1 0, exGlueOrd 0 0 4 0 0]

/-! ## Auxiliary notions for the statements about the rounding of the demerits -/

/-- Box(10pt), Glue(5pt plus 1pt minus 1pt), Box(10pt), Penalty(0), Box(10pt) followed by the
nodes that `AppendLineEndAfter` adds.  At a line width of 125pt the line that ends at the penalty
has the ratio (125 - 25) / 1 = 100. -/
def exRatio100 : Heap :=
  AppendLineEndAfter exampleEnv
    (mkList [exBox 10, exGlue 5 1 1, exBox 10, Node.penalty 0 0, exBox 10]) (some 4)

/-- Box(10pt), Glue(5pt plus 1pt minus 1pt), Box(10pt), Disc, Box(10pt) followed by the nodes
that `AppendLineEndAfter` adds. -/
def exRatio100Disc : Heap :=
  AppendLineEndAfter exampleEnv
    (mkList [exBox 10, exGlue 5 1 1, exBox 10, Node.disc none 0, exBox 10]) (some 4)

/-! ## Auxiliary notions for the statements about forced breaks -/

/-- The break points of the line breaker after the walk has passed a forced break `n` at which
the break points with the identities from `n0` up to `n1` were created: the active break points
were created at `n` or later, the break points with the identities from `n0` up to `n1` are
positioned at `n`, the later ones come from a break point created at `n` or later, and when the
active list is empty the head of the inactive list was created at `n` or later. -/
def PastForced (n : Ref) (n0 n1 : Nat) (lb : linebreaker) : Prop :=
  (n0 ≤ n1 ∧ n1 ≤ lb.nextId) ∧
  (∀ b ∈ lb.activeNodesA, n0 ≤ b.id) ∧
  (∀ b ∈ lb.all, n0 ≤ b.id → b.id < n1 → b.Position = n) ∧
  (∀ b ∈ lb.all, n1 ≤ b.id → ∃ i, b.from_ = some i ∧ n0 ≤ i) ∧
  (lb.activeNodesA = [] → ∃ c, lb.inactiveNodesP.head? = some c ∧ n0 ≤ c.id)

/-- The line breaker holds no active break point, the inactive list `l` and the next identity
`i`. -/
def NoneActive (l : List Breakpoint) (i : Nat) (lb : linebreaker) : Prop :=
  lb.activeNodesA = [] ∧ lb.inactiveNodesP = l ∧ lb.nextId = i

/-- Box(10pt), Penalty(-10000), Box(10pt) followed by the nodes that `AppendLineEndAfter`
adds: a forced break in the middle of the paragraph. -/
def exForcedMid : Heap :=
  AppendLineEndAfter exampleEnv
    (mkList [exBox 10, Node.penalty (-10000) 0, exBox 10]) (some 2)
/-! ## The packager returns the requested width -/

theorem createStep_settings (env : Env) (h : Heap) (n : Ref) (bk : Buckets) (s : Sums)
    (lb : linebreaker) (c : Fin 4) :
    (createStep env h n bk s lb c).settings = lb.settings := by
  unfold createStep
  split
  · split <;> rfl
  · rfl

theorem createBreakpoints_settings (env : Env) (h : Heap) (n : Ref) (lb : linebreaker)
    (bk : Buckets) : (createBreakpoints env h n lb bk).settings = lb.settings := by
  unfold createBreakpoints
  split
  · simp [List.foldl, createStep_settings]
  · rfl

theorem deactivate_settings (h : Heap) (n : Ref) (a : Breakpoint) (r : Float64)
    (lb : linebreaker) : (deactivate h n a r lb).settings = lb.settings := by
  unfold deactivate
  split <;> rfl

theorem mainLoopScan_single (env : Env) (h : Heap) (n : Ref) (a : Breakpoint)
    (lb : linebreaker) (bk : Buckets) :
    mainLoopScan env h n [a] lb bk =
      createBreakpoints env h n (deactivate h n a (computeAdjustmentRatio h lb n a) lb)
        (examine env h lb n a (computeAdjustmentRatio h lb n a) bk) := rfl

theorem mainLoopScan_cons_cons (env : Env) (h : Heap) (n : Ref) (a b : Breakpoint)
    (rest : List Breakpoint) (lb : linebreaker) (bk : Buckets) :
    mainLoopScan env h n (a :: b :: rest) lb bk =
      if a.Line + 1 ≤ b.Line then
        mainLoopScan env h n (b :: rest)
          (createBreakpoints env h n (deactivate h n a (computeAdjustmentRatio h lb n a) lb)
            (examine env h lb n a (computeAdjustmentRatio h lb n a) bk)) Buckets.init
      else
        mainLoopScan env h n (b :: rest) (deactivate h n a (computeAdjustmentRatio h lb n a) lb)
          (examine env h lb n a (computeAdjustmentRatio h lb n a) bk) := rfl

theorem mainLoopScan_settings (env : Env) (h : Heap) (n : Ref) (l : List Breakpoint) :
    ∀ (lb : linebreaker) (bk : Buckets),
      (mainLoopScan env h n l lb bk).settings = lb.settings := by
  induction l with
  | nil => intro lb bk; rfl
  | cons a rest ih =>
    intro lb bk
    cases rest with
    | nil => rw [mainLoopScan_single, createBreakpoints_settings, deactivate_settings]
    | cons b rest2 =>
      rw [mainLoopScan_cons_cons]
      split
      · rw [ih, createBreakpoints_settings, deactivate_settings]
      · rw [ih, deactivate_settings]

theorem mainLoop_settings (env : Env) (h : Heap) (lb : linebreaker) (n : Ref) :
    (mainLoop env h lb n).settings = lb.settings := by
  unfold mainLoop
  rw [mainLoopScan_settings]

theorem addGlue_settings (lb : linebreaker) (t : Glue) :
    (addGlue lb t).settings = lb.settings := by
  unfold addGlue
  split_ifs <;> rfl

theorem walkStep_settings (env : Env) (h : Heap) (e : Ref) (v : Node) (st : WalkState) :
    (walkStep env h e v st).lb.settings = st.lb.settings := by
  cases v <;> simp only [walkStep, addGlue_settings] <;>
    (try split_ifs) <;> simp [mainLoop_settings]

theorem walkLoop_settings (fuel : Nat) (env : Env) (h : Heap) :
    ∀ (e : Option Ref) (st : WalkState),
      (walkLoop fuel env h e st).lb.settings = st.lb.settings := by
  induction fuel with
  | zero => intro e st; cases e <;> rfl
  | succ k ih =>
    intro e st
    cases e with
    | none => rfl
    | some p =>
      simp only [walkLoop]
      split
      · rfl
      · rw [ih, walkStep_settings]

theorem linebreakWalk_settings (env : Env) (h : Heap) (n : Ref) (settings : LinebreakSettings) :
    (linebreakWalk env h n settings).lb.settings = settings := by
  unfold linebreakWalk
  rw [walkLoop_settings]
  rfl

theorem HpackToWithEnd_Width (env : Env) (h : Heap) (firstNode lastNode : Option Ref)
    (width : ScaledPoint) : (HpackToWithEnd env h firstNode lastNode width).2.Width = width :=
  rfl

theorem packLine_vert (env : Env) (lb : linebreaker) (e : Breakpoint) (startPos : Option Ref)
    (st : BacktraceState)
    (hst : ∀ hl, Node.hlist hl ∈ st.vert → hl.Width = lb.settings.HSize) :
    ∀ hl, Node.hlist hl ∈ (packLine env lb e startPos st).vert →
      hl.Width = lb.settings.HSize := by
  intro hl
  unfold packLine
  simp only
  split
  · intro hmem
    simp only [List.mem_cons] at hmem
    rcases hmem with hmem | hmem | hmem
    · cases hmem
    · injection hmem with hmem
      rw [hmem]
      rfl
    · exact hst hl hmem
  · intro hmem
    simp only [List.mem_cons] at hmem
    rcases hmem with hmem | hmem
    · injection hmem with hmem
      rw [hmem]
      rfl
    · exact hst hl hmem

theorem backtraceStep_vert (env : Env) (lb : linebreaker) (e : Breakpoint)
    (st : BacktraceState)
    (hst : ∀ hl, Node.hlist hl ∈ st.vert → hl.Width = lb.settings.HSize) :
    ∀ hl, Node.hlist hl ∈ (backtraceStep env lb e st).vert → hl.Width = lb.settings.HSize := by
  unfold backtraceStep
  simp only
  split
  · exact hst
  · exact packLine_vert env lb e _ _ hst

theorem backtraceLoop_vert (fuel : Nat) (env : Env) (lb : linebreaker) :
    ∀ (e : Option Breakpoint) (st : BacktraceState),
      (∀ hl, Node.hlist hl ∈ st.vert → hl.Width = lb.settings.HSize) →
      ∀ hl, Node.hlist hl ∈ (backtraceLoop fuel env lb e st).vert →
        hl.Width = lb.settings.HSize := by
  induction fuel with
  | zero => intro e st hst; cases e <;> exact hst
  | succ k ih =>
    intro e st hst
    cases e with
    | none => exact hst
    | some b =>
      simp only [backtraceLoop]
      exact ih _ _ (backtraceStep_vert env lb b st hst)

theorem Linebreak_vert_Width (env : Env) (h : Heap) (n : Option Ref)
    (settings : LinebreakSettings) (hl : HList)
    (hmem : Node.hlist hl ∈ (Linebreak env h n settings).vert) :
    hl.Width = settings.HSize := by
  unfold Linebreak at hmem
  cases n with
  | none => simp at hmem
  | some p =>
    simp only at hmem
    split at hmem
    · simp at hmem
    · have key := backtraceLoop_vert (linebreakWalk env h p settings).lb.nextId env
        (linebreakWalk env h p settings).lb _ _ (by intro hl hm; simp at hm) hl hmem
      rw [linebreakWalk_settings] at key
      exact key

/-- C1: for every heap, first node, last node and width, `HpackToWithEnd` returns a horizontal
list whose `Width` is the requested width, and every horizontal list in the vertical list that
`Linebreak` returns has the width `settings.HSize`. -/
theorem C1_packed_width :
    (∀ (env : Env) (h : Heap) (firstNode lastNode : Option Ref) (width : ScaledPoint),
      (HpackToWithEnd env h firstNode lastNode width).2.Width = width) ∧
    (∀ (env : Env) (h : Heap) (n : Option Ref) (settings : LinebreakSettings) (hl : HList),
      Node.hlist hl ∈ (Linebreak env h n settings).vert → hl.Width = settings.HSize) :=
  ⟨HpackToWithEnd_Width, Linebreak_vert_Width⟩

/-- Witness for C1: the line of the example paragraph broken at 30pt. -/
theorem C1_packed_width_witness :
    Node.hlist exLine30 ∈ (Linebreak exampleEnv exParagraph (some 0) (exSettings 30)).vert ∧
    (HpackToWithEnd exampleEnv exParagraph (some 0) (some 5) (pt 30)).2.Width = pt 30 ∧
    exLine30.Width = (exSettings 30).HSize :=
  ⟨by decide!, C1_packed_width.1 _ _ _ _ _,
    C1_packed_width.2 exampleEnv exParagraph (some 0) _ _ (by decide!)⟩

/-! ## The first loop of the packager as a fold over the scanned nodes -/

theorem hpackScan_acc (fuel : Nat) (h : Heap) (lastNode : Option Ref) :
    ∀ (e : Option Ref) (acc : HpackAcc),
      (hpackScan fuel h e lastNode acc).2 =
        (hpackChain fuel h e lastNode).foldl (fun acc pv => hpackStep pv.1 pv.2 acc) acc := by
  induction fuel with
  | zero => intro e acc; cases e <;> rfl
  | succ k ih =>
    intro e acc
    cases e with
    | none => rfl
    | some p =>
      simp only [hpackScan, hpackChain]
      cases hn : h.node p with
      | none => rfl
      | some v =>
        simp only
        by_cases hlast : some p = lastNode
        · simp only [hlast, if_true]
          cases h.Next p <;> rfl
        · simp only [hlast, if_false, List.foldl_cons]
          exact ih _ _

theorem gluesOf_cons_glue (g : Glue) (l : List Node) :
    gluesOf (Node.glue g :: l) = g :: gluesOf l := rfl

theorem gluesOf_cons_other (v : Node) (l : List Node) (hv : ∀ g, v ≠ Node.glue g) :
    gluesOf (v :: l) = gluesOf l := by
  cases v <;> first | rfl | exact absurd rfl (hv _)

theorem hpackStep_fold (l : List (Ref × Node)) :
    ∀ (acc : HpackAcc),
      let acc1 := l.foldl (fun acc pv => hpackStep pv.1 pv.2 acc) acc
      (∀ i, acc1.totalStretchability i =
        acc.totalStretchability i + stretchOfOrder (l.map Prod.snd) i) ∧
      (∀ i, acc1.totalShrinkability i =
        acc.totalShrinkability i + shrinkOfStretchOrder (l.map Prod.snd) i) ∧
      acc1.sumwd + acc1.nonGlueSumWd =
        acc.sumwd + acc.nonGlueSumWd + naturalWidth (l.map Prod.snd) := by
  induction l with
  | nil =>
    intro acc
    simp [stretchOfOrder, shrinkOfStretchOrder, naturalWidth, gluesOf]
  | cons pv rest ih =>
    intro acc
    obtain ⟨p, v⟩ := pv
    simp only [List.foldl_cons, List.map_cons]
    obtain ⟨h1, h2, h3⟩ := ih (hpackStep p v acc)
    refine ⟨?_, ?_, ?_⟩
    · intro i
      rw [h1 i]
      cases v with
      | glue g =>
        simp only [hpackStep, stretchOfOrder, gluesOf_cons_glue, List.filter_cons]
        by_cases hi : g.StretchOrder = i
        · subst hi
          simp
          ring
        · have hi2 : ¬ i = g.StretchOrder := fun hh => hi hh.symm
          simp [hi, Function.update_noteq hi2]
      | _ => simp [hpackStep, stretchOfOrder, gluesOf_cons_other]
    · intro i
      rw [h2 i]
      cases v with
      | glue g =>
        simp only [hpackStep, shrinkOfStretchOrder, gluesOf_cons_glue, List.filter_cons]
        by_cases hi : g.StretchOrder = i
        · subst hi
          simp
          ring
        · have hi2 : ¬ i = g.StretchOrder := fun hh => hi hh.symm
          simp [hi, Function.update_noteq hi2]
      | _ => simp [hpackStep, shrinkOfStretchOrder, gluesOf_cons_other]
    · rw [h3]
      cases v <;> simp [hpackStep, naturalWidth, getWidth] <;> ring

theorem hpackOrders_eq (acc : HpackAcc) :
    hpackOrders acc =
      { highestOrderStretch := highestOrder acc.totalStretchability
        highestOrderShrink := highestOrder acc.totalShrinkability
        stretchability := acc.totalStretchability (highestOrder acc.totalStretchability)
        shrinkability := acc.totalShrinkability (highestOrder acc.totalShrinkability) } := by
  simp only [hpackOrders, List.foldl, hpackOrderStep, highestOrder]
  by_cases h3 : acc.totalStretchability 3 = 0 <;>
  by_cases h2 : acc.totalStretchability 2 = 0 <;>
  by_cases h1 : acc.totalStretchability 1 = 0 <;>
  by_cases k3 : acc.totalShrinkability 3 = 0 <;>
  by_cases k2 : acc.totalShrinkability 2 = 0 <;>
  by_cases k1 : acc.totalShrinkability 1 = 0 <;>
  simp [h3, h2, h1, k3, k2, k1]

theorem hpackStep_fold_glues (l : List (Ref × Node)) :
    ∀ (acc : HpackAcc),
      (l.foldl (fun acc pv => hpackStep pv.1 pv.2 acc) acc).glues =
        acc.glues ++ gluePointers l := by
  induction l with
  | nil => intro acc; simp [gluePointers]
  | cons pv rest ih =>
    intro acc
    obtain ⟨p, v⟩ := pv
    rw [List.foldl_cons, ih]
    cases v <;> simp [hpackStep, gluePointers, List.filterMap_cons]

theorem hpackScan_orders (h : Heap) (firstNode lastNode : Option Ref) :
    hpackOrders (hpackScan h.length h firstNode lastNode HpackAcc.init).2 =
      scannedOrders (scannedNodes h firstNode lastNode) := by
  rw [hpackOrders_eq, hpackScan_acc]
  obtain ⟨h1, h2, _⟩ := hpackStep_fold (hpackChain h.length h firstNode lastNode) HpackAcc.init
  have e1 : (List.foldl (fun acc pv => hpackStep pv.1 pv.2 acc) HpackAcc.init
      (hpackChain h.length h firstNode lastNode)).totalStretchability =
      stretchOfOrder (scannedNodes h firstNode lastNode) := by
    funext i
    rw [h1 i]
    simp [HpackAcc.init, scannedNodes]
  have e2 : (List.foldl (fun acc pv => hpackStep pv.1 pv.2 acc) HpackAcc.init
      (hpackChain h.length h firstNode lastNode)).totalShrinkability =
      shrinkOfStretchOrder (scannedNodes h firstNode lastNode) := by
    funext i
    rw [h2 i]
    simp [HpackAcc.init, scannedNodes]
  rw [e1, e2]
  rfl

theorem hpackScan_sumwd (h : Heap) (firstNode lastNode : Option Ref) :
    (hpackScan h.length h firstNode lastNode HpackAcc.init).2.sumwd +
        (hpackScan h.length h firstNode lastNode HpackAcc.init).2.nonGlueSumWd =
      naturalWidth (scannedNodes h firstNode lastNode) := by
  rw [hpackScan_acc]
  obtain ⟨_, _, h3⟩ := hpackStep_fold (hpackChain h.length h firstNode lastNode) HpackAcc.init
  rw [h3]
  simp [HpackAcc.init, scannedNodes]

theorem HpackToWithEnd_GlueSet (env : Env) (h : Heap) (firstNode lastNode : Option Ref)
    (width : ScaledPoint) :
    (HpackToWithEnd env h firstNode lastNode width).2.GlueSet =
      hpackRatio width (naturalWidth (scannedNodes h firstNode lastNode))
        (scannedOrders (scannedNodes h firstNode lastNode)) := by
  simp only [HpackToWithEnd, hpackScan_orders, hpackScan_sumwd]

theorem HpackToWithEnd_Badness (env : Env) (h : Heap) (firstNode lastNode : Option Ref)
    (width : ScaledPoint) :
    (HpackToWithEnd env h firstNode lastNode width).2.Badness =
      hpackBadness env (HpackToWithEnd env h firstNode lastNode width).2.GlueSet
        (scannedOrders (scannedNodes h firstNode lastNode)) := by
  simp only [HpackToWithEnd, hpackScan_orders, hpackScan_sumwd]

/-! ## The glue set and the badness of the packager -/

/-- C2: `HpackToWithEnd` adds the shrink of a glue to the total of the glue's `StretchOrder`.
For Box(10pt), Glue(0pt plus 1fil minus 1pt), Glue(0pt minus 2pt) packed to 7pt the natural
width is 10pt and the code divides by the shrink 1pt that it filed under the order fil, which
gives the glue set -3; the total shrink of the highest shrink order with a non-zero total, taken
over the glues by `ShrinkOrder`, is 3pt of the finite order, which gives -1. -/
theorem C2_shrink_filed_under_stretch_order :
    naturalWidth (scannedNodes exMixedShrink (some 0) none) = pt 10 ∧
    (HpackToWithEnd exampleEnv exMixedShrink (some 0) none (pt 7)).2.GlueSet =
      Float64.fin (-3) ∧
    highestOrder (shrinkOfOrder (scannedNodes exMixedShrink (some 0) none)) = 0 ∧
    shrinkOfOrder (scannedNodes exMixedShrink (some 0) none) 0 = pt 3 ∧
    Float64.div (Float64.ofInt (pt 7 - naturalWidth (scannedNodes exMixedShrink (some 0) none)))
      (Float64.ofInt (shrinkOfOrder (scannedNodes exMixedShrink (some 0) none)
        (highestOrder (shrinkOfOrder (scannedNodes exMixedShrink (some 0) none))))) =
      Float64.fin (-1) := by
  decide!

theorem fin4_cases (i : Fin 4) : i = 0 ∨ i = 1 ∨ i = 2 ∨ i = 3 := by
  revert i
  decide

theorem highestOrder_eq_zero (total : GlueOrder → ScaledPoint)
    (h0 : ∀ i : GlueOrder, i ≠ 0 → total i = 0) : highestOrder total = 0 := by
  simp [highestOrder, h0 3 (by decide), h0 2 (by decide), h0 1 (by decide)]

theorem highestOrder_ne_zero (total : GlueOrder → ScaledPoint) (i : GlueOrder) (hi : i ≠ 0)
    (ht : total i ≠ 0) : highestOrder total ≠ 0 := by
  unfold highestOrder
  by_cases h3 : total 3 = 0
  · by_cases h2 : total 2 = 0
    · by_cases h1 : total 1 = 0
      · exfalso
        rcases fin4_cases i with rfl | rfl | rfl | rfl
        · exact hi rfl
        · exact ht h1
        · exact ht h2
        · exact ht h3
      · simp [h3, h2, h1]
    · simp [h3, h2]
  · simp [h3]

theorem hpackBadness_overfull (env : Env) (r : Float64) (o : HpackOrders)
    (hr : r.lt (Float64.fin (-1)) = true) :
    hpackBadness env r o =
      if o.highestOrderShrink > 0 ∨ o.highestOrderStretch > 0 then 0 else 1000000 := by
  simp [hpackBadness, hr]

theorem fin4_pos_iff (i : Fin 4) : i > 0 ↔ i ≠ 0 := by
  revert i
  decide

/-- C3: an overfull line with glue of an infinite order gets the badness 0.  Box(50pt),
Glue(0pt minus 5pt), Glue(0pt plus 1fil) packed to 40pt has the natural width 50pt and 5pt of
shrink; the glue set is -2, which is less than -1, and the test for the overfull line sets the
badness 1,000,000, but the statement `if highestOrderShrink > 0 || highestOrderStretch > 0`
behind it resets the badness to 0.  The same line without the glue of the order fil has the
glue set -2 and the badness 1,000,000. -/
theorem C3_overfull_badness_reset :
    naturalWidth (scannedNodes exOverfullFil (some 0) none) = pt 50 ∧
    (HpackToWithEnd exampleEnv exOverfullFil (some 0) none (pt 40)).2.GlueSet =
      Float64.fin (-2) ∧
    (HpackToWithEnd exampleEnv exOverfullFil (some 0) none (pt 40)).2.GlueSet.lt
      (Float64.fin (-1)) = true ∧
    (HpackToWithEnd exampleEnv exOverfullFil (some 0) none (pt 40)).2.Badness = 0 ∧
    (HpackToWithEnd exampleEnv exOverfullFinite (some 0) none (pt 40)).2.GlueSet =
      Float64.fin (-2) ∧
    (HpackToWithEnd exampleEnv exOverfullFinite (some 0) none (pt 40)).2.Badness = 1000000 := by
  decide!

/-- The extent of the reset: whenever the glue set of `HpackToWithEnd` is less than -1, the
badness of the returned list is 1,000,000 if the totals of stretch and of shrink that the
packager forms for the infinite orders are all zero, and 0 if one of them is not zero. -/
theorem hpack_overfull_badness (env : Env) (h : Heap) (firstNode lastNode : Option Ref)
    (width : ScaledPoint)
    (hr : (HpackToWithEnd env h firstNode lastNode width).2.GlueSet.lt (Float64.fin (-1))
      = true) :
    ((∀ i : GlueOrder, i ≠ 0 →
        stretchOfOrder (scannedNodes h firstNode lastNode) i = 0 ∧
        shrinkOfStretchOrder (scannedNodes h firstNode lastNode) i = 0) →
      (HpackToWithEnd env h firstNode lastNode width).2.Badness = 1000000) ∧
    ((∃ i : GlueOrder, i ≠ 0 ∧
        (stretchOfOrder (scannedNodes h firstNode lastNode) i ≠ 0 ∨
         shrinkOfStretchOrder (scannedNodes h firstNode lastNode) i ≠ 0)) →
      (HpackToWithEnd env h firstNode lastNode width).2.Badness = 0) := by
  rw [HpackToWithEnd_Badness, hpackBadness_overfull env _ _ hr]
  simp only [fin4_pos_iff, scannedOrders]
  constructor
  · intro h0
    rw [highestOrder_eq_zero _ (fun i hi => (h0 i hi).1),
      highestOrder_eq_zero _ (fun i hi => (h0 i hi).2)]
    simp
  · rintro ⟨i, hi, hne⟩
    rcases hne with hne | hne
    · have := highestOrder_ne_zero _ i hi hne
      simp [this]
    · have := highestOrder_ne_zero _ i hi hne
      simp [this]

theorem sum_map_eq_zero {α : Type} (l : List α) (f : α → Int) (h0 : ∀ x ∈ l, f x = 0) :
    (l.map f).sum = 0 := by
  induction l with
  | nil => rfl
  | cons a rest ih =>
    rw [List.map_cons, List.sum_cons, h0 a (List.mem_cons_self _ _),
      ih (fun x hx => h0 x (List.mem_cons_of_mem _ hx))]
    rfl

theorem finite_glue_totals (nodes : List Node)
    (hfin : ∀ g ∈ gluesOf nodes, g.StretchOrder = 0 ∨ (g.Stretch = 0 ∧ g.Shrink = 0))
    (i : GlueOrder) (hi : i ≠ 0) :
    stretchOfOrder nodes i = 0 ∧ shrinkOfStretchOrder nodes i = 0 := by
  constructor
  · apply sum_map_eq_zero
    intro g hg
    rw [List.mem_filter] at hg
    rcases hfin g hg.1 with h0 | h0
    · exact absurd ((of_decide_eq_true hg.2).symm.trans h0) hi
    · exact h0.1
  · apply sum_map_eq_zero
    intro g hg
    rw [List.mem_filter] at hg
    rcases hfin g hg.1 with h0 | h0
    · exact absurd ((of_decide_eq_true hg.2).symm.trans h0) hi
    · exact h0.2

theorem Float64.not_lt_of_le (a b : Float64) (hle : a.le b = true) : b.lt a = false := by
  cases a <;> cases b <;> simp_all [Float64.le, Float64.lt]

theorem hpackBadness_finite_orders (env : Env) (r : Float64) (o : HpackOrders)
    (hs : o.highestOrderStretch = 0) (hz : o.highestOrderShrink = 0)
    (hr : (Float64.fin (-1)).le r = true) :
    hpackBadness env r o =
      min 10000 (Float64.toInt env
        (Float64.round
          (Float64.mul (Float64.powGo (Float64.abs r.double) 3) (Float64.fin 100)).double)) := by
  have hlt := Float64.not_lt_of_le _ _ hr
  simp only [hpackBadness, hlt, hr, hs, hz]
  simp only [if_true, gt_iff_lt, lt_self_iff_false, or_self, if_false, Bool.false_eq_true]
  split
  · rw [min_eq_left]
    omega
  · rw [min_eq_right]
    omega

theorem truncQ_intCast (n : Int) : Float64.truncQ (n : ℚ) = n := by
  unfold Float64.truncQ
  split
  · exact Int.floor_intCast n
  · have : (-(n : ℚ)) = ((-n : Int) : ℚ) := by push_cast; ring
    rw [this, Int.floor_intCast]
    ring

theorem toInt_round_cube_one (env : Env) :
    Float64.toInt env
        (Float64.round
          (Float64.mul (Float64.powGo (Float64.abs (Float64.fin 1).double) 3)
            (Float64.fin 100)).double) = 100 := by
  have h1 : Float64.round
      (Float64.mul (Float64.powGo (Float64.abs (Float64.fin 1).double) 3)
        (Float64.fin 100)).double = Float64.fin 100 := by decide!
  have h2 : Float64.truncQ 100 = 100 := by decide!
  rw [h1]
  simp only [Float64.toInt, h2]
  norm_num

theorem HpackToWithEnd_exact_fit (env : Env) (h : Heap) (firstNode lastNode : Option Ref)
    (width : ScaledPoint) (hS : naturalWidth (scannedNodes h firstNode lastNode) = width) :
    (HpackToWithEnd env h firstNode lastNode width).2.GlueSet = Float64.fin 1 ∧
    ((∀ i : GlueOrder, i ≠ 0 →
        stretchOfOrder (scannedNodes h firstNode lastNode) i = 0 ∧
        shrinkOfStretchOrder (scannedNodes h firstNode lastNode) i = 0) →
      (HpackToWithEnd env h firstNode lastNode width).2.Badness = 100) := by
  have hr : (HpackToWithEnd env h firstNode lastNode width).2.GlueSet = Float64.fin 1 := by
    rw [HpackToWithEnd_GlueSet, hS]
    simp [hpackRatio]
  refine ⟨hr, ?_⟩
  intro h0
  rw [HpackToWithEnd_Badness, hr]
  have hs : (scannedOrders (scannedNodes h firstNode lastNode)).highestOrderStretch = 0 :=
    highestOrder_eq_zero _ (fun i hi => (h0 i hi).1)
  have hz : (scannedOrders (scannedNodes h firstNode lastNode)).highestOrderShrink = 0 :=
    highestOrder_eq_zero _ (fun i hi => (h0 i hi).2)
  rw [hpackBadness_finite_orders env _ _ hs hz (by decide!), toInt_round_cube_one env]
  decide!

/-- C4: boxes of total width 25pt followed by Glue(0pt plus 2pt minus 1pt), packed to 25pt, have
the natural width 25pt; `HpackToWithEnd` sets the glue set to 1, reports the badness 100 and
widens the glue to 2pt. -/
theorem C4_exact_fit_badness :
    naturalWidth (scannedNodes exBoxesThenGlue (some 0) (some 2)) = pt 25 ∧
    (HpackToWithEnd exampleEnv exBoxesThenGlue (some 0) (some 2) (pt 25)).2.GlueSet =
      Float64.fin 1 ∧
    (HpackToWithEnd exampleEnv exBoxesThenGlue (some 0) (some 2) (pt 25)).2.Badness = 100 ∧
    ((HpackToWithEnd exampleEnv exBoxesThenGlue (some 0) (some 2) (pt 25)).1.node 2).map getWidth
      = some (pt 2) := by
  decide!

/-- C5: a line without any stretch that is narrower than the target gets a negative badness.
Box(10pt) packed to 20pt has no glue at all, so no glue of an infinite order contributes; the
natural width 10pt differs from the target; the glue set is the quotient 10pt / 0 = +Inf, which
is at least -1.  The statement `badness = int(math.Round(math.Pow(math.Abs(r), 3) * 100.0))`
converts +Inf to an integer before the test `badness > 10000`; the conversion yields the value
of the machine for an operand out of range, -2^63 on amd64, and this is the badness of the
line, where `min(10000, round(100 * |r|^3))` is 10000. -/
theorem C5_badness_without_stretch :
    gluesOf (scannedNodes exLoneBox (some 0) none) = [] ∧
    naturalWidth (scannedNodes exLoneBox (some 0) none) = pt 10 ∧
    (HpackToWithEnd exampleEnv exLoneBox (some 0) none (pt 20)).2.GlueSet = Float64.pinf ∧
    (Float64.fin (-1)).le
      (HpackToWithEnd exampleEnv exLoneBox (some 0) none (pt 20)).2.GlueSet = true ∧
    (HpackToWithEnd exampleEnv exLoneBox (some 0) none (pt 20)).2.Badness = -(2 ^ 63) ∧
    exampleEnv.indef = -(2 ^ 63) := by
  decide!

/-! ## The widths of the glues after packaging -/

theorem Heap.node_SetNext (h : Heap) (p : Ref) (v : Option Ref) (q : Ref) :
    (h.SetNext p v).node q = h.node q := by
  unfold Heap.SetNext Heap.node
  cases hp : h[p]? with
  | none => rfl
  | some c =>
    simp only
    by_cases hpq : p = q
    · subst hpq
      rw [List.getElem?_set_self', hp]
      rfl
    · rw [List.getElem?_set_ne hpq]

theorem Heap.node_SetPrev (h : Heap) (p : Ref) (v : Option Ref) (q : Ref) :
    (h.SetPrev p v).node q = h.node q := by
  unfold Heap.SetPrev Heap.node
  cases hp : h[p]? with
  | none => rfl
  | some c =>
    simp only
    by_cases hpq : p = q
    · subst hpq
      rw [List.getElem?_set_self', hp]
      rfl
    · rw [List.getElem?_set_ne hpq]

theorem Heap.node_setNode_ne (h : Heap) (p : Ref) (n : Node) (q : Ref) (hpq : p ≠ q) :
    (h.setNode p n).node q = h.node q := by
  unfold Heap.setNode Heap.node
  cases hp : h[p]? with
  | none => rfl
  | some c =>
    simp only
    rw [List.getElem?_set_ne hpq]

theorem Heap.node_setNode_self (h : Heap) (p : Ref) (n v : Node) (hv : h.node p = some v) :
    (h.setNode p n).node p = some n := by
  unfold Heap.node at hv
  unfold Heap.setNode Heap.node
  cases hp : h[p]? with
  | none => rw [hp] at hv; cases hv
  | some c =>
    simp only
    rw [List.getElem?_set_self', hp]
    rfl

theorem hpackScan_node (fuel : Nat) (h : Heap) (lastNode : Option Ref) (q : Ref) :
    ∀ (e : Option Ref) (acc : HpackAcc),
      (hpackScan fuel h e lastNode acc).1.node q = h.node q := by
  induction fuel with
  | zero => intro e acc; cases e <;> rfl
  | succ k ih =>
    intro e acc
    cases e with
    | none => rfl
    | some p =>
      simp only [hpackScan]
      cases hn : h.node p with
      | none => rfl
      | some v =>
        simp only
        split
        · cases h.Next p with
          | none => rfl
          | some nx =>
            simp only
            rw [Heap.node_SetNext, Heap.node_SetPrev]
        · exact ih _ _

theorem hpackChain_node (fuel : Nat) (h : Heap) (lastNode : Option Ref) :
    ∀ (e : Option Ref) (p : Ref) (v : Node),
      (p, v) ∈ hpackChain fuel h e lastNode → h.node p = some v := by
  induction fuel with
  | zero => intro e p v hm; cases e <;> simp [hpackChain] at hm
  | succ k ih =>
    intro e p v hm
    cases e with
    | none => simp [hpackChain] at hm
    | some x =>
      simp only [hpackChain] at hm
      cases hn : h.node x with
      | none => rw [hn] at hm; simp at hm
      | some w =>
        rw [hn] at hm
        simp only at hm
        split at hm
        · simp only [List.mem_singleton, Prod.mk.injEq] at hm
          rw [hm.1, hm.2]
          exact hn
        · simp only [List.mem_cons, Prod.mk.injEq] at hm
          rcases hm with hm | hm
          · rw [hm.1, hm.2]
            exact hn
          · exact ih _ _ _ hm

theorem hpackSetGlue_node_ne (env : Env) (r : Float64) (o : HpackOrders)
    (st : Heap × ScaledPoint) (g q : Ref) (hgq : g ≠ q) :
    (hpackSetGlue env r o st g).1.node q = st.1.node q := by
  unfold hpackSetGlue
  split
  · simp only
    rw [Heap.node_setNode_ne _ _ _ _ hgq]
  · rfl

theorem hpackSetGlue_node_self (env : Env) (r : Float64) (o : HpackOrders)
    (st : Heap × ScaledPoint) (g : Ref) (gl : Glue) (hg : st.1.node g = some (Node.glue gl)) :
    (hpackSetGlue env r o st g).1.node g =
      some (Node.glue { gl with Width := resolvedWidth env r o gl, Stretch := 0, Shrink := 0 })
    := by
  unfold hpackSetGlue
  rw [hg]
  simp only
  rw [Heap.node_setNode_self _ _ _ _ hg]
  rfl

theorem setGlues_node_not_mem (env : Env) (r : Float64) (o : HpackOrders) (q : Ref)
    (l : List Ref) :
    ∀ (st : Heap × ScaledPoint), q ∉ l →
      (l.foldl (hpackSetGlue env r o) st).1.node q = st.1.node q := by
  induction l with
  | nil => intro st _; rfl
  | cons g rest ih =>
    intro st hq
    rw [List.foldl_cons, ih _ (fun hm => hq (List.mem_cons_of_mem _ hm)),
      hpackSetGlue_node_ne env r o st g q (fun hh => hq (hh ▸ List.mem_cons_self _ _))]

theorem setGlues_node_mem (env : Env) (r : Float64) (o : HpackOrders) (q : Ref) (gl : Glue)
    (l : List Ref) :
    ∀ (st : Heap × ScaledPoint), q ∈ l → l.Nodup → st.1.node q = some (Node.glue gl) →
      (l.foldl (hpackSetGlue env r o) st).1.node q =
        some (Node.glue
          { gl with Width := resolvedWidth env r o gl, Stretch := 0, Shrink := 0 }) := by
  induction l with
  | nil => intro st hq; cases hq
  | cons g rest ih =>
    intro st hq hnd hst
    rw [List.nodup_cons] at hnd
    rw [List.foldl_cons]
    by_cases hgq : g = q
    · subst hgq
      rw [setGlues_node_not_mem env r o g rest _ hnd.1]
      exact hpackSetGlue_node_self env r o st g gl hst
    · have hq2 : q ∈ rest := by
        rcases List.mem_cons.mp hq with hh | hh
        · exact absurd hh.symm hgq
        · exact hh
      apply ih _ hq2 hnd.2
      rw [hpackSetGlue_node_ne env r o st g q hgq]
      exact hst

theorem mem_gluePointers (l : List (Ref × Node)) (p : Ref) :
    p ∈ gluePointers l ↔ ∃ gl, (p, Node.glue gl) ∈ l := by
  unfold gluePointers
  rw [List.mem_filterMap]
  constructor
  · rintro ⟨⟨x, v⟩, hm, hv⟩
    cases v <;> simp at hv
    subst hv
    exact ⟨_, hm⟩
  · rintro ⟨gl, hm⟩
    exact ⟨(p, Node.glue gl), hm, rfl⟩

theorem nodup_gluePointers (l : List (Ref × Node)) (hnd : (l.map Prod.fst).Nodup) :
    (gluePointers l).Nodup := by
  induction l with
  | nil => simp [gluePointers]
  | cons pv rest ih =>
    obtain ⟨p, v⟩ := pv
    rw [List.map_cons, List.nodup_cons] at hnd
    have hrest := ih hnd.2
    have hp : p ∉ gluePointers rest := by
      intro hm
      obtain ⟨gl, hgl⟩ := (mem_gluePointers rest p).mp hm
      exact hnd.1 (List.mem_map.mpr ⟨_, hgl, rfl⟩)
    cases v with
    | glue g =>
      have e : gluePointers ((p, Node.glue g) :: rest) = p :: gluePointers rest := rfl
      rw [e, List.nodup_cons]
      exact ⟨hp, hrest⟩
    | _ => exact hrest

/-- The widths of the glues after the call: when the scan of `HpackToWithEnd` visits no node
twice, every scanned glue, with the fields `gl` before the call, has afterwards the width
`resolvedWidth` for the glue set and the highest orders that the packager determines, its stretch
and shrink are zero and its other fields are unchanged. -/
theorem HpackToWithEnd_glue_widths (env : Env) (h : Heap) (firstNode lastNode : Option Ref)
    (width : ScaledPoint) (g : Ref) (gl : Glue)
    (hnodup : ((hpackChain h.length h firstNode lastNode).map Prod.fst).Nodup)
    (hmem : (g, Node.glue gl) ∈ hpackChain h.length h firstNode lastNode) :
    (HpackToWithEnd env h firstNode lastNode width).1.node g =
      some (Node.glue
        { gl with
          Width :=
            resolvedWidth env (HpackToWithEnd env h firstNode lastNode width).2.GlueSet
              (scannedOrders (scannedNodes h firstNode lastNode)) gl
          Stretch := 0
          Shrink := 0 }) := by
  have hglues : (hpackScan h.length h firstNode lastNode HpackAcc.init).2.glues =
      gluePointers (hpackChain h.length h firstNode lastNode) := by
    rw [hpackScan_acc, hpackStep_fold_glues]
    rfl
  have hg : g ∈ gluePointers (hpackChain h.length h firstNode lastNode) :=
    (mem_gluePointers _ g).mpr ⟨gl, hmem⟩
  have hnode : (hpackScan h.length h firstNode lastNode HpackAcc.init).1.node g =
      some (Node.glue gl) := by
    rw [hpackScan_node]
    exact hpackChain_node _ _ _ _ _ _ hmem
  have key := setGlues_node_mem env
    (HpackToWithEnd env h firstNode lastNode width).2.GlueSet
    (scannedOrders (scannedNodes h firstNode lastNode)) g gl
    (gluePointers (hpackChain h.length h firstNode lastNode))
    ((hpackScan h.length h firstNode lastNode HpackAcc.init).1,
      (hpackScan h.length h firstNode lastNode HpackAcc.init).2.nonGlueSumWd)
    hg (nodup_gluePointers _ hnodup) hnode
  rw [← key]
  simp only [HpackToWithEnd, hglues, hpackScan_orders, hpackScan_sumwd]

/-- C6: glues whose `ShrinkOrder` is the highest shrink order keep their width on a line that
has to shrink.  Box(10pt), Glue(0pt plus 1fil minus 4pt), Glue(0pt minus 4pt) is packed to 8pt.
Both glues have the `ShrinkOrder` 0, so the highest order with shrink is the finite one.  The
packager files the 4pt of shrink of the first glue under its `StretchOrder` fil (see C2),
takes fil as the highest shrink order and sets the glue set (8pt - 10pt) / 4pt = -1/2.  With
`-1 <= r <= 0` every glue of the highest shrink order is to get the width 0pt + r * 4pt = -2pt;
the test `highestOrderShrink == g.ShrinkOrder` fails for both glues and both keep the width
0pt, so that the nodes are still 10pt wide in a list of the width 8pt. -/
theorem C6_shrinking_glues_keep_width :
    (gluesOf (scannedNodes exShrinkOrders (some 0) none)).map
      (fun g => (g.Width, g.Shrink, g.ShrinkOrder)) = [(0, pt 4, 0), (0, pt 4, 0)] ∧
    highestOrder (shrinkOfOrder (scannedNodes exShrinkOrders (some 0) none)) = 0 ∧
    (scannedOrders (scannedNodes exShrinkOrders (some 0) none)).highestOrderShrink = 1 ∧
    (HpackToWithEnd exampleEnv exShrinkOrders (some 0) none (pt 8)).2.GlueSet =
      Float64.fin (-1 / 2) ∧
    (HpackToWithEnd exampleEnv exShrinkOrders (some 0) none (pt 8)).2.Width = pt 8 ∧
    (gluesOf (scannedNodes (HpackToWithEnd exampleEnv exShrinkOrders (some 0) none (pt 8)).1
      (some 0) none)).map (fun g => (g.Width, g.Shrink)) = [(0, 0), (0, 0)] ∧
    naturalWidth (scannedNodes (HpackToWithEnd exampleEnv exShrinkOrders (some 0) none (pt 8)).1
      (some 0) none) = pt 10 := by
  decide!

/-! ## The example paragraph at 30pt -/

/-- C7 (counterexample): for Box(10pt), Glue(5pt plus 2pt minus 1pt), Box(10pt) with the
forced-end helper and `HSize` 30pt, `Linebreak` returns no single line for which one of the
following holds: the glue set of the line or the ratio of a returned break point is 5/2, the
badness is 1562, or the glue between the boxes has the width 10pt. -/
theorem C7_counterexample :
    ¬ ∃ hl : HList,
      (Linebreak exampleEnv exParagraph (some 0) (exSettings 30)).vert = [Node.hlist hl] ∧
      (hl.GlueSet = Float64.fin (5 / 2) ∨
       (∃ b ∈ (Linebreak exampleEnv exParagraph (some 0) (exSettings 30)).bps,
          b.R = Float64.fin (5 / 2)) ∨
       hl.Badness = 1562 ∨
       ((Linebreak exampleEnv exParagraph (some 0) (exSettings 30)).heap.node 1).map getWidth
          = some (pt 10)) := by
  rintro ⟨hl, hv, hor⟩
  have hvert : (Linebreak exampleEnv exParagraph (some 0) (exSettings 30)).vert
      = [Node.hlist exLine30] := by decide!
  rw [hvert] at hv
  injection hv with hv _
  injection hv with hv
  rw [← hv] at hor
  revert hor
  decide!

/-- C7 (amended): for Box(10pt), Glue(5pt plus 2pt minus 1pt), Box(10pt) with the forced-end
helper and `HSize` 30pt, `Linebreak` returns a single line of width 30pt with the glue set
(30 - 25) / 1 = 5 and the badness 0; the glue between the boxes keeps its width 5pt and the fil
glue of the helper gets the width 5pt; the one break point returned is at the final penalty and
has the ratio 0. -/
theorem C7_example_line :
    (Linebreak exampleEnv exParagraph (some 0) (exSettings 30)).vert = [Node.hlist exLine30] ∧
    exLine30.Width = pt 30 ∧ exLine30.GlueSet = Float64.fin 5 ∧ exLine30.Badness = 0 ∧
    ((Linebreak exampleEnv exParagraph (some 0) (exSettings 30)).heap.node 1).map getWidth
      = some (pt 5) ∧
    ((Linebreak exampleEnv exParagraph (some 0) (exSettings 30)).heap.node 4).map getWidth
      = some (pt 5) ∧
    (Linebreak exampleEnv exParagraph (some 0) (exSettings 30)).bps.map
      (fun b => (b.Position, b.R)) = [(5, Float64.fin 0)] := by
  decide!

/-! ## The choice of the last break point -/

/-- C8 (counterexample): for Box(10pt), Glue, Box(10pt), Glue, Box(200pt) with the forced-end
helper and `HSize` 30pt the active list is empty at the end of the walk, and the break point that
`Linebreak` chooses has the demerits 10201 while the inactive list holds a break point with the
demerits 0. -/
theorem C8_counterexample :
    (linebreakWalk exampleEnv exOverfullParagraph 0 (exSettings 30)).lb.activeNodesA = [] ∧
    ¬ ∀ c, chooseLastNode (linebreakWalk exampleEnv exOverfullParagraph 0 (exSettings 30)).lb
        = some c →
      ∀ b ∈ (linebreakWalk exampleEnv exOverfullParagraph 0 (exSettings 30)).lb.inactiveNodesP,
        c.Demerits ≤ b.Demerits := by
  refine ⟨by decide!, ?_⟩
  intro hall
  have hc : ∃ c, chooseLastNode
      (linebreakWalk exampleEnv exOverfullParagraph 0 (exSettings 30)).lb = some c ∧
      c.Demerits = 10201 := by decide!
  obtain ⟨c, hc1, hc2⟩ := hc
  have hb : ∃ b ∈ (linebreakWalk exampleEnv exOverfullParagraph 0
      (exSettings 30)).lb.inactiveNodesP, b.Demerits = 0 := by decide!
  obtain ⟨b, hb1, hb2⟩ := hb
  have := hall c hc1 b hb1
  omega

theorem packLine_bps (env : Env) (lb : linebreaker) (e : Breakpoint) (startPos : Option Ref)
    (st : BacktraceState) : ∃ l, (packLine env lb e startPos st).bps = st.bps ++ l := by
  unfold packLine
  simp only
  split
  · exact ⟨[e], rfl⟩
  · exact ⟨[], by simp⟩

theorem backtraceStep_bps (env : Env) (lb : linebreaker) (e : Breakpoint)
    (st : BacktraceState) : ∃ l, (backtraceStep env lb e st).bps = st.bps ++ l := by
  unfold backtraceStep
  simp only
  split
  · exact ⟨[], by simp⟩
  · exact packLine_bps env lb e _ _

theorem backtraceLoop_bps (fuel : Nat) (env : Env) (lb : linebreaker) :
    ∀ (e : Option Breakpoint) (st : BacktraceState),
      ∃ l, (backtraceLoop fuel env lb e st).bps = st.bps ++ l := by
  induction fuel with
  | zero => intro e st; cases e <;> exact ⟨[], by simp [backtraceLoop]⟩
  | succ k ih =>
    intro e st
    cases e with
    | none => exact ⟨[], by simp [backtraceLoop]⟩
    | some b =>
      simp only [backtraceLoop]
      obtain ⟨l1, h1⟩ := backtraceStep_bps env lb b st
      obtain ⟨l2, h2⟩ := ih (bpFrom lb b) (backtraceStep env lb b st)
      exact ⟨l1 ++ l2, by rw [h2, h1, List.append_assoc]⟩

theorem Linebreak_bps_getLast (env : Env) (h : Heap) (p : Ref) (settings : LinebreakSettings)
    (c : Breakpoint) (hc : chooseLastNode (linebreakWalk env h p settings).lb = some c) :
    (Linebreak env h (some p) settings).bps.getLast? = some c := by
  simp only [Linebreak, hc]
  obtain ⟨l, hl⟩ := backtraceLoop_bps (linebreakWalk env h p settings).lb.nextId env
    (linebreakWalk env h p settings).lb (some c)
    { heap := h, curPre := none, vert := [],
      endNode := (linebreakWalk env h p settings).endNode, bps := [c] }
  rw [hl]
  simp

/-- C8 (amended): when the active list is empty at the end of the item list, `Linebreak`
chooses the head of the inactive list, the break point that was deactivated last, and this
break point ends the sequence of break points that `Linebreak` returns. -/
theorem C8_fallback_head (env : Env) (h : Heap) (p : Ref) (settings : LinebreakSettings)
    (hempty : (linebreakWalk env h p settings).lb.activeNodesA = []) :
    chooseLastNode (linebreakWalk env h p settings).lb =
      (linebreakWalk env h p settings).lb.inactiveNodesP.head? ∧
    ∀ c, (linebreakWalk env h p settings).lb.inactiveNodesP.head? = some c →
      (Linebreak env h (some p) settings).bps.getLast? = some c := by
  have hchoose : chooseLastNode (linebreakWalk env h p settings).lb =
      (linebreakWalk env h p settings).lb.inactiveNodesP.head? := by
    simp [chooseLastNode, hempty]
  refine ⟨hchoose, ?_⟩
  intro c hc
  exact Linebreak_bps_getLast env h p settings c (hchoose.trans hc)

/-- Witness for C8: the end of the walk over the overfull example paragraph. -/
theorem C8_fallback_head_witness :
    (linebreakWalk exampleEnv exOverfullParagraph 0 (exSettings 30)).lb.activeNodesA = [] ∧
    chooseLastNode (linebreakWalk exampleEnv exOverfullParagraph 0 (exSettings 30)).lb =
      (linebreakWalk exampleEnv exOverfullParagraph 0 (exSettings 30)).lb.inactiveNodesP.head? :=
  ⟨by decide!, (C8_fallback_head exampleEnv exOverfullParagraph 0 (exSettings 30)
    (by decide!)).1⟩

theorem chooseFold_spec (l : List Breakpoint) :
    ∀ (d : Int) (x : Option Breakpoint),
      ((l.foldl (fun (st : Int × Option Breakpoint) e =>
            if e.Demerits < st.1 then (e.Demerits, some e) else st) (d, x)) = (d, x) ∧
        ∀ b ∈ l, d ≤ b.Demerits) ∨
      ∃ pre c post, l = pre ++ c :: post ∧
        (l.foldl (fun (st : Int × Option Breakpoint) e =>
            if e.Demerits < st.1 then (e.Demerits, some e) else st) (d, x)) =
          (c.Demerits, some c) ∧
        c.Demerits < d ∧ (∀ b ∈ pre, c.Demerits < b.Demerits) ∧
        ∀ b ∈ post, c.Demerits ≤ b.Demerits := by
  induction l with
  | nil => intro d x; left; exact ⟨rfl, fun b hb => by cases hb⟩
  | cons a rest ih =>
    intro d x
    rw [List.foldl_cons]
    by_cases ha : a.Demerits < d
    · simp only [ha, if_true]
      right
      rcases ih a.Demerits (some a) with ⟨heq, hall⟩ | ⟨pre, c, post, hl, heq, hlt, hpre, hpost⟩
      · exact ⟨[], a, rest, rfl, heq, ha, (fun b hb => by cases hb), hall⟩
      · refine ⟨a :: pre, c, post, by rw [hl]; rfl, heq, by omega, ?_, hpost⟩
        intro b hb
        rcases List.mem_cons.mp hb with hb | hb
        · rw [hb]; exact hlt
        · exact hpre b hb
    · simp only [ha, if_false]
      rcases ih d x with ⟨heq, hall⟩ | ⟨pre, c, post, hl, heq, hlt, hpre, hpost⟩
      · left
        refine ⟨heq, ?_⟩
        intro b hb
        rcases List.mem_cons.mp hb with hb | hb
        · rw [hb]; omega
        · exact hall b hb
      · right
        refine ⟨a :: pre, c, post, by rw [hl]; rfl, heq, hlt, ?_, hpost⟩
        intro b hb
        rcases List.mem_cons.mp hb with hb | hb
        · rw [hb]; omega
        · exact hpre b hb

/-- C9: when the active list is not empty at the end of the item list (all demerits being
values of Go's `int`), the break point that `Linebreak` chooses is on the active list, its
demerits are at most the demerits of every active break point, and every active break point in
front of it has larger demerits, so that it is the first one with the minimal demerits. -/
theorem C9_chosen_minimal (lb : linebreaker) (hne : lb.activeNodesA ≠ [])
    (hrange : ∀ e ∈ lb.activeNodesA, e.Demerits ≤ MaxInt) :
    ∃ pre c post, lb.activeNodesA = pre ++ c :: post ∧ chooseLastNode lb = some c ∧
      (∀ b ∈ lb.activeNodesA, c.Demerits ≤ b.Demerits) ∧
      ∀ b ∈ pre, c.Demerits < b.Demerits := by
  unfold chooseLastNode
  cases hact : lb.activeNodesA with
  | nil => exact absurd hact hne
  | cons a rest =>
    simp only
    rw [hact] at hrange
    rcases chooseFold_spec (a :: rest) MaxInt (some a) with
      ⟨heq, hall⟩ | ⟨pre, c, post, hl, heq, _, hpre, hpost⟩
    · refine ⟨[], a, rest, rfl, by rw [heq], ?_, fun b hb => by cases hb⟩
      intro b hb
      have h1 := hall b hb
      have h2 := hrange a (List.mem_cons_self _ _)
      omega
    · refine ⟨pre, c, post, hl, by rw [heq], ?_, hpre⟩
      intro b hb
      rw [hl] at hb
      rcases List.mem_append.mp hb with hb | hb
      · exact le_of_lt (hpre b hb)
      · rcases List.mem_cons.mp hb with hb | hb
        · rw [hb]
        · exact hpost b hb

/-- Witness for C9: the end of the walk over the example paragraph at 30pt, where the active
list holds the break point at the final penalty. -/
theorem C9_chosen_minimal_witness :
    (linebreakWalk exampleEnv exParagraph 0 (exSettings 30)).lb.activeNodesA ≠ [] ∧
    (∀ e ∈ (linebreakWalk exampleEnv exParagraph 0 (exSettings 30)).lb.activeNodesA,
      e.Demerits ≤ MaxInt) ∧
    ∃ pre c post,
      (linebreakWalk exampleEnv exParagraph 0 (exSettings 30)).lb.activeNodesA
        = pre ++ c :: post ∧
      chooseLastNode (linebreakWalk exampleEnv exParagraph 0 (exSettings 30)).lb = some c ∧
      (∀ b ∈ (linebreakWalk exampleEnv exParagraph 0 (exSettings 30)).lb.activeNodesA,
        c.Demerits ≤ b.Demerits) ∧
      ∀ b ∈ pre, c.Demerits < b.Demerits :=
  ⟨by decide!, by decide!, C9_chosen_minimal _ (by decide!) (by decide!)⟩

/-! ## The demerits for two consecutive hyphenated lines -/

theorem lineDemerits_doublehyphen (env : Env) (h : Heap) (lb : linebreaker) (n : Ref)
    (a : Breakpoint) (r : Float64) (d : Int) :
    lineDemerits env h
        { lb with settings := { lb.settings with DoublehyphenDemerits := d } } n a r =
      lineDemerits env h lb n a r := rfl

/-- C10: in Box(10pt), Disc, Box(10pt), Disc, Box(10pt) with the forced-end helper and `HSize`
10pt the chosen chain breaks at both discretionaries, the second one from a break point whose
position is the first one.  The demerits recorded for the break points are 2501, 5002 and 5003
with `DoublehyphenDemerits` 3000 and the same with `DoublehyphenDemerits` 0: the sum that
`mainLoop` starts with `DoublehyphenDemerits` is overwritten by the assignment of the badness
term. -/
theorem C10_doublehyphen_demerits_lost :
    (Linebreak exampleEnv exDiscParagraph (some 0) (exSettings 10)).bps.map
        (fun b => (b.id, b.from_, b.Position, b.Demerits)) =
      [(1, some 0, 1, 2501), (2, some 1, 3, 5002), (3, some 2, 7, 5003)] ∧
    isDisc exDiscParagraph 1 = true ∧ isDisc exDiscParagraph 3 = true ∧
    (exSettings 10).DoublehyphenDemerits = 3000 ∧
    (Linebreak exampleEnv exDiscParagraph (some 0)
        { exSettings 10 with DoublehyphenDemerits := 0 }).bps.map
        (fun b => (b.id, b.from_, b.Position, b.Demerits)) =
      [(1, some 0, 1, 2501), (2, some 1, 3, 5002), (3, some 2, 7, 5003)] := by
  decide!

/-! ## Heaps that hold one list: the scan covers the whole list -/

theorem mkList_length (nodes : List Node) : (mkList nodes).length = nodes.length := by
  simp [mkList]

theorem mkList_node (nodes : List Node) (i : Nat) : (mkList nodes).node i = nodes[i]? := by
  unfold Heap.node mkList
  rw [List.getElem?_map, List.getElem?_enum]
  cases nodes[i]? <;> rfl

theorem mkList_Next (nodes : List Node) (i : Nat) (hi : i < nodes.length) :
    (mkList nodes).Next i = if i + 1 < nodes.length then some (i + 1) else none := by
  unfold Heap.Next mkList
  rw [List.getElem?_map, List.getElem?_enum, List.getElem?_eq_getElem hi]
  rfl

theorem hpackChain_mkList (nodes : List Node) (fuel : Nat) :
    ∀ i : Nat, nodes.length ≤ fuel + i →
      (hpackChain fuel (mkList nodes) (some i) none).map Prod.snd = nodes.drop i := by
  induction fuel with
  | zero =>
    intro i hi
    simp only [hpackChain, List.map_nil]
    rw [List.drop_eq_nil_of_le (by omega)]
  | succ k ih =>
    intro i hi
    simp only [hpackChain]
    rw [mkList_node]
    by_cases hlt : i < nodes.length
    · rw [List.getElem?_eq_getElem hlt]
      simp only [reduceCtorEq, if_false, List.map_cons]
      rw [List.drop_eq_getElem_cons hlt, mkList_Next nodes i hlt]
      by_cases hlt2 : i + 1 < nodes.length
      · rw [if_pos hlt2, ih (i + 1) (by omega)]
      · rw [if_neg hlt2, List.drop_eq_nil_of_le (by omega)]
        simp [hpackChain]
    · rw [List.getElem?_eq_none (by omega), List.drop_eq_nil_of_le (by omega)]
      rfl

theorem scannedNodes_mkList (nodes : List Node) :
    scannedNodes (mkList nodes) (some 0) none = nodes := by
  unfold scannedNodes
  rw [mkList_length, hpackChain_mkList nodes nodes.length 0 (by omega)]
  rfl

/-! ## The break points that the main loop creates -/

theorem deactivate_frame (h : Heap) (n : Ref) (a : Breakpoint) (r : Float64)
    (lb : linebreaker) : (deactivate h n a r lb).frame = lb.frame := by
  unfold deactivate
  split <;> rfl

theorem createStep_frame (env : Env) (h : Heap) (n : Ref) (bk : Buckets) (s : Sums)
    (lb : linebreaker) (c : Fin 4) : (createStep env h n bk s lb c).frame = lb.frame := by
  unfold createStep
  split
  · split <;> rfl
  · rfl

theorem createSteps_frame (env : Env) (h : Heap) (n : Ref) (bk : Buckets) (s : Sums)
    (cs : List (Fin 4)) :
    ∀ lb : linebreaker, (cs.foldl (createStep env h n bk s) lb).frame = lb.frame := by
  induction cs with
  | nil => intro lb; rfl
  | cons c rest ih => intro lb; rw [List.foldl_cons, ih, createStep_frame]

theorem createBreakpoints_frame (env : Env) (h : Heap) (n : Ref) (lb : linebreaker)
    (bk : Buckets) : (createBreakpoints env h n lb bk).frame = lb.frame := by
  unfold createBreakpoints
  split
  · exact createSteps_frame env h n bk _ _ lb
  · rfl

theorem computeAdjustmentRatio_frame (h : Heap) (lb lb1 : linebreaker) (n : Ref)
    (a : Breakpoint) (hf : lb1.frame = lb.frame) :
    computeAdjustmentRatio h lb1 n a = computeAdjustmentRatio h lb n a := by
  have e1 : computeAdjustmentRatio h lb1 n a = computeAdjustmentRatio h lb1.frame n a := rfl
  have e2 : computeAdjustmentRatio h lb n a = computeAdjustmentRatio h lb.frame n a := rfl
  rw [e1, e2, hf]

theorem computeSum_frame (h : Heap) (lb lb1 : linebreaker) (n : Ref)
    (hf : lb1.frame = lb.frame) : computeSum h lb1 n = computeSum h lb n := by
  have e1 : computeSum h lb1 n = computeSum h lb1.frame n := rfl
  have e2 : computeSum h lb n = computeSum h lb.frame n := rfl
  rw [e1, e2, hf]

theorem lineDemerits_frame (env : Env) (h : Heap) (lb lb1 : linebreaker) (n : Ref)
    (a : Breakpoint) (r : Float64) (hf : lb1.frame = lb.frame) :
    lineDemerits env h lb1 n a r = lineDemerits env h lb n a r := by
  have e1 : lineDemerits env h lb1 n a r = lineDemerits env h lb1.frame n a r := rfl
  have e2 : lineDemerits env h lb n a r = lineDemerits env h lb.frame n a r := rfl
  rw [e1, e2, hf]

theorem examine_frame (env : Env) (h : Heap) (lb lb1 : linebreaker) (n : Ref)
    (a : Breakpoint) (r : Float64) (bk : Buckets) (hf : lb1.frame = lb.frame) :
    examine env h lb1 n a r bk = examine env h lb n a r bk := by
  have e1 : examine env h lb1 n a r bk = examine env h lb1.frame n a r bk := rfl
  have e2 : examine env h lb n a r bk = examine env h lb.frame n a r bk := rfl
  rw [e1, e2, hf]

theorem settings_of_frame (lb lb1 : linebreaker) (hf : lb1.frame = lb.frame) :
    lb1.settings = lb.settings := by
  have e1 : lb1.settings = lb1.frame.settings := rfl
  have e2 : lb.settings = lb.frame.settings := rfl
  rw [e1, e2, hf]

theorem sumW_of_frame (lb lb1 : linebreaker) (hf : lb1.frame = lb.frame) :
    lb1.sumW = lb.sumW := by
  have e1 : lb1.sumW = lb1.frame.sumW := rfl
  have e2 : lb.sumW = lb.frame.sumW := rfl
  rw [e1, e2, hf]

theorem bucketsFrom_init (env : Env) (h : Heap) (lb : linebreaker) (n : Ref)
    (src : List Breakpoint) : BucketsFrom env h lb n src Buckets.init := by
  intro c a hac
  simp [Buckets.init] at hac

theorem examine_bucketsFrom (env : Env) (h : Heap) (lb : linebreaker) (n : Ref)
    (src : List Breakpoint) (bk : Buckets) (a : Breakpoint) (ha : a ∈ src)
    (hbk : BucketsFrom env h lb n src bk) :
    BucketsFrom env h lb n src (examine env h lb n a (computeAdjustmentRatio h lb n a) bk) := by
  unfold examine
  split
  · rename_i hfeas
    unfold Buckets.record
    split
    · intro c b hb
      simp only at hb ⊢
      by_cases hc : c = fitnessClass (computeAdjustmentRatio h lb n a)
      · subst hc
        rw [Function.update_same] at hb
        injection hb with hb
        subst hb
        rw [Function.update_same, Function.update_same]
        refine ⟨ha, ?_, rfl, rfl, rfl⟩
        simp [feasible, hfeas.1, hfeas.2]
      · rw [Function.update_noteq hc] at hb
        rw [Function.update_noteq hc, Function.update_noteq hc]
        exact hbk c b hb
    · exact hbk
  · exact hbk

theorem deactivate_eq (h : Heap) (lb0 lb : linebreaker) (n : Ref) (a : Breakpoint) :
    deactivate h n a (computeAdjustmentRatio h lb0 n a) lb =
      if deactivates h lb0 n a = true then { lb with inactiveNodesP := a :: lb.inactiveNodesP }
      else { lb with activeNodesA := lb.activeNodesA ++ [a] } := by
  unfold deactivate deactivates
  simp only [Bool.or_eq_true]

theorem newBreakpoint_eq (env : Env) (h : Heap) (lb0 lb : linebreaker) (n : Ref)
    (src : List Breakpoint) (bk : Buckets) (c : Fin 4) (a : Breakpoint) (id : Nat)
    (hf : lb.frame = lb0.frame) (hbk : BucketsFrom env h lb0 n src bk)
    (hac : bk.ac c = some a) :
    newBreakpoint env h lb n bk (computeSum h lb0 n) c a id = createdFrom env h lb0 n a id := by
  obtain ⟨_, _, hc, hr, hd⟩ := hbk c a hac
  unfold newBreakpoint createdFrom
  rw [hr, hd, hc, sumW_of_frame lb0 lb hf]

theorem createSteps_spec (env : Env) (h : Heap) (n : Ref) (lb0 : linebreaker)
    (src : List Breakpoint) (bk : Buckets) (hbk : BucketsFrom env h lb0 n src bk)
    (cs : List (Fin 4)) :
    ∀ lb : linebreaker, lb.frame = lb0.frame →
      ∃ news : List Breakpoint,
        (cs.foldl (createStep env h n bk (computeSum h lb0 n)) lb).activeNodesA =
          lb.activeNodesA ++ news ∧
        (cs.foldl (createStep env h n bk (computeSum h lb0 n)) lb).inactiveNodesP =
          lb.inactiveNodesP ∧
        (cs.foldl (createStep env h n bk (computeSum h lb0 n)) lb).nextId =
          lb.nextId + news.length ∧
        news.map Breakpoint.id = List.range' lb.nextId news.length ∧
        (∀ bp ∈ news, Created env h lb0 n src bp) ∧
        ∀ bp ∈ news, ∃ c a, bk.ac c = some a ∧ bp = createdFrom env h lb0 n a bp.id := by
  induction cs with
  | nil =>
    intro lb _
    exact ⟨[], by simp, rfl, rfl, rfl, (fun bp hb => by cases hb), (fun bp hb => by cases hb)⟩
  | cons c rest ih =>
    intro lb hf
    rw [List.foldl_cons]
    have hf1 : (createStep env h n bk (computeSum h lb0 n) lb c).frame = lb0.frame := by
      rw [createStep_frame, hf]
    by_cases hcond : bk.dc c ≤ wrap64 (bk.dmin + lb.settings.DemeritsFitness)
    · cases hac : bk.ac c with
      | none =>
        have hstep : createStep env h n bk (computeSum h lb0 n) lb c = lb := by
          simp [createStep, hcond, hac]
        rw [hstep]
        exact ih lb hf
      | some a =>
        have hstep : createStep env h n bk (computeSum h lb0 n) lb c =
            { lb with
              activeNodesA := lb.activeNodesA ++ [createdFrom env h lb0 n a lb.nextId]
              nextId := lb.nextId + 1 } := by
          simp only [createStep, hcond, hac, if_true]
          rw [newBreakpoint_eq env h lb0 lb n src bk c a lb.nextId hf hbk hac]
        rw [hstep] at hf1 ⊢
        obtain ⟨news, h1, h2, h3, h4, h5, h6⟩ := ih _ hf1
        simp only at h1 h2 h3 h4
        refine ⟨createdFrom env h lb0 n a lb.nextId :: news, ?_, h2, ?_, ?_, ?_, ?_⟩
        · rw [h1, List.append_assoc]
          rfl
        · rw [h3, List.length_cons]
          omega
        · rw [List.map_cons, h4, List.length_cons, List.range'_succ]
          rfl
        · intro bp hb
          rcases List.mem_cons.mp hb with hb | hb
          · obtain ⟨ha, hfe, _, _, _⟩ := hbk c a hac
            refine ⟨a, ha, hfe, ?_⟩
            rw [hb]
            rfl
          · exact h5 bp hb
        · intro bp hb
          rcases List.mem_cons.mp hb with hb | hb
          · refine ⟨c, a, hac, ?_⟩
            rw [hb]
            rfl
          · exact h6 bp hb
    · have hstep : createStep env h n bk (computeSum h lb0 n) lb c = lb := by
        simp [createStep, hcond]
      rw [hstep]
      exact ih lb hf

theorem createBreakpoints_spec (env : Env) (h : Heap) (n : Ref) (lb0 lb : linebreaker)
    (src : List Breakpoint) (bk : Buckets) (hbk : BucketsFrom env h lb0 n src bk)
    (hf : lb.frame = lb0.frame) :
    ∃ news : List Breakpoint,
      (createBreakpoints env h n lb bk).activeNodesA = lb.activeNodesA ++ news ∧
      (createBreakpoints env h n lb bk).inactiveNodesP = lb.inactiveNodesP ∧
      (createBreakpoints env h n lb bk).nextId = lb.nextId + news.length ∧
      news.map Breakpoint.id = List.range' lb.nextId news.length ∧
      (∀ bp ∈ news, Created env h lb0 n src bp) ∧
      ∀ bp ∈ news, ∃ c a, bk.ac c = some a ∧ bp = createdFrom env h lb0 n a bp.id := by
  unfold createBreakpoints
  split
  · rw [computeSum_frame h lb0 lb n hf]
    exact createSteps_spec env h n lb0 src bk hbk _ lb hf
  · exact ⟨[], by simp, rfl, rfl, rfl, (fun bp hb => by cases hb), (fun bp hb => by cases hb)⟩

theorem deactivate_lists (h : Heap) (lb0 lb : linebreaker) (n : Ref) (a : Breakpoint)
    (rest : List Breakpoint) :
    (deactivate h n a (computeAdjustmentRatio h lb0 n a) lb).activeNodesA ++
        rest.filter (fun x => !deactivates h lb0 n x) =
      lb.activeNodesA ++ (a :: rest).filter (fun x => !deactivates h lb0 n x) ∧
    (rest.filter (deactivates h lb0 n)).reverse ++
        (deactivate h n a (computeAdjustmentRatio h lb0 n a) lb).inactiveNodesP =
      ((a :: rest).filter (deactivates h lb0 n)).reverse ++ lb.inactiveNodesP ∧
    (deactivate h n a (computeAdjustmentRatio h lb0 n a) lb).nextId = lb.nextId := by
  rw [deactivate_eq]
  cases hdc : deactivates h lb0 n a <;> simp [List.filter_cons, hdc]

/-- The outcome of the scan of `mainLoop` over the chain `l`, started with the buckets `bk`. -/
theorem mainLoopScan_spec (env : Env) (h : Heap) (n : Ref) (lb0 : linebreaker)
    (src : List Breakpoint) :
    ∀ (l : List Breakpoint) (lb : linebreaker) (bk : Buckets),
      l ⊆ src → lb.frame = lb0.frame → BucketsFrom env h lb0 n src bk →
      ∃ news : List Breakpoint,
        (mainLoopScan env h n l lb bk).activeNodesA.Perm
          (lb.activeNodesA ++ l.filter (fun a => !deactivates h lb0 n a) ++ news) ∧
        (mainLoopScan env h n l lb bk).inactiveNodesP =
          (l.filter (deactivates h lb0 n)).reverse ++ lb.inactiveNodesP ∧
        (mainLoopScan env h n l lb bk).nextId = lb.nextId + news.length ∧
        news.map Breakpoint.id = List.range' lb.nextId news.length ∧
        (∀ bp ∈ news, Created env h lb0 n src bp) ∧
        (mainLoopScan env h n l lb bk).frame = lb0.frame := by
  intro l
  induction l with
  | nil =>
    intro lb bk _ hf _
    exact ⟨[], by simp [mainLoopScan], by simp [mainLoopScan], rfl, rfl,
      (fun bp hb => by cases hb), hf⟩
  | cons a rest ih =>
    intro lb bk hsub hf hbk
    have ha : a ∈ src := hsub (List.mem_cons_self a rest)
    have hrest : rest ⊆ src := fun x hx => hsub (List.mem_cons_of_mem a hx)
    have hr : computeAdjustmentRatio h lb n a = computeAdjustmentRatio h lb0 n a :=
      computeAdjustmentRatio_frame h lb0 lb n a hf
    have hbk1 : BucketsFrom env h lb0 n src
        (examine env h lb n a (computeAdjustmentRatio h lb n a) bk) := by
      rw [examine_frame env h lb0 lb n a _ bk hf, hr]
      exact examine_bucketsFrom env h lb0 n src bk a ha hbk
    have hf1 : (deactivate h n a (computeAdjustmentRatio h lb n a) lb).frame = lb0.frame := by
      rw [deactivate_frame, hf]
    have hd := deactivate_lists h lb0 lb n a
    rw [← hr] at hd
    generalize hlb1 : deactivate h n a (computeAdjustmentRatio h lb n a) lb = lb1 at hd hf1
    generalize hbke : examine env h lb n a (computeAdjustmentRatio h lb n a) bk = bk1 at hbk1
    obtain ⟨news, h1, h2, h3, h4, h5, _⟩ :=
      createBreakpoints_spec env h n lb0 lb1 src bk1 hbk1 hf1
    have hf2 : (createBreakpoints env h n lb1 bk1).frame = lb0.frame := by
      rw [createBreakpoints_frame, hf1]
    cases rest with
    | nil =>
      rw [mainLoopScan_single, hlb1, hbke]
      obtain ⟨e1, e2, e3⟩ := hd []
      simp only [List.filter_nil, List.append_nil, List.reverse_nil, List.nil_append] at e1 e2
      refine ⟨news, ?_, ?_, ?_, ?_, h5, hf2⟩
      · rw [h1, e1]
      · rw [h2, e2]
      · rw [h3, e3]
      · rw [← e3]
        exact h4
    | cons b rest2 =>
      rw [mainLoopScan_cons_cons, hlb1, hbke]
      obtain ⟨e1, e2, e3⟩ := hd (b :: rest2)
      split
      · obtain ⟨news2, g1, g2, g3, g4, g5, g6⟩ :=
          ih _ Buckets.init hrest hf2 (bucketsFrom_init env h lb0 n src)
        refine ⟨news ++ news2, ?_, ?_, ?_, ?_, ?_, g6⟩
        · refine g1.trans ?_
          rw [h1, ← e1]
          simp only [List.append_assoc]
          refine List.Perm.append_left _ ?_
          rw [← List.append_assoc, ← List.append_assoc]
          exact List.Perm.append_right _ List.perm_append_comm
        · rw [g2, h2, e2]
        · rw [g3, h3, e3, List.length_append]
          omega
        · rw [h3] at g4
          rw [e3] at h4 g4
          rw [List.map_append, h4, g4, List.length_append]
          have hra := List.range'_append lb.nextId news.length news2.length 1
          rw [Nat.one_mul, Nat.add_comm news2.length] at hra
          exact hra
        · intro bp hb
          rcases List.mem_append.mp hb with hb | hb
          · exact h5 bp hb
          · exact g5 bp hb
      · obtain ⟨news2, g1, g2, g3, g4, g5, g6⟩ := ih lb1 bk1 hrest hf1 hbk1
        refine ⟨news2, ?_, ?_, ?_, ?_, g5, g6⟩
        · rw [← e1]
          exact g1
        · rw [g2, e2]
        · rw [g3, e3]
        · rw [← e3]
          exact g4

/-! ## Height and depth of the packed box -/

theorem hpackStep_fold_max (l : List (Ref × Node)) :
    ∀ (acc : HpackAcc),
      (l.foldl (fun acc pv => hpackStep pv.1 pv.2 acc) acc).maxht =
        (glyphRuleHeights (l.map Prod.snd)).foldl max acc.maxht ∧
      (l.foldl (fun acc pv => hpackStep pv.1 pv.2 acc) acc).maxdp =
        (glyphRuleDepths (l.map Prod.snd)).foldl max acc.maxdp := by
  induction l with
  | nil => intro acc; exact ⟨rfl, rfl⟩
  | cons pv rest ih =>
    intro acc
    obtain ⟨p, v⟩ := pv
    rw [List.foldl_cons]
    obtain ⟨i1, i2⟩ := ih (hpackStep p v acc)
    rw [i1, i2]
    have hmax : ∀ a b : ScaledPoint, (if b > a then b else a) = max a b := by
      intro a b
      by_cases hab : b > a
      · rw [if_pos hab, max_eq_right (le_of_lt hab)]
      · rw [if_neg hab, max_eq_left (not_lt.mp hab)]
    cases v <;>
      simp [hpackStep, glyphRuleHeights, glyphRuleDepths, List.filterMap_cons, hmax]

/-- C35, counterexample: in the list Box(10pt), HList(height 10pt, depth 3pt) the greatest
height of an item is 10pt and the greatest depth is 3pt, but the box that `HpackToWithEnd`
returns for this list has height 0 and depth 0. -/
theorem C35_counterexample :
    ((scannedNodes exNestedBox (some 0) (some 1)).map itemHeight).foldl max 0 = pt 10 ∧
    ((scannedNodes exNestedBox (some 0) (some 1)).map itemDepth).foldl max 0 = pt 3 ∧
    (HpackToWithEnd exampleEnv exNestedBox (some 0) (some 1) (pt 15)).2.Height = 0 ∧
    (HpackToWithEnd exampleEnv exNestedBox (some 0) (some 1) (pt 15)).2.Depth = 0 := by
  decide!

/-- C35, amended: the box that `HpackToWithEnd` returns has as `Height` the greatest height and
as `Depth` the greatest depth of the glyphs and rules among the scanned nodes, and 0 where there
is none or none is positive; the other kinds of nodes do not count. -/
theorem C35_height_depth_of_glyphs_and_rules (env : Env) (h : Heap)
    (firstNode lastNode : Option Ref) (width : ScaledPoint) :
    (HpackToWithEnd env h firstNode lastNode width).2.Height =
      (glyphRuleHeights (scannedNodes h firstNode lastNode)).foldl max 0 ∧
    (HpackToWithEnd env h firstNode lastNode width).2.Depth =
      (glyphRuleDepths (scannedNodes h firstNode lastNode)).foldl max 0 := by
  have hs := hpackScan_acc h.length h lastNode firstNode HpackAcc.init
  have hm := hpackStep_fold_max (hpackChain h.length h firstNode lastNode) HpackAcc.init
  rw [← hs] at hm
  exact hm

/-! ## Negative demerits in the main loop -/

theorem record_negative (bk : Buckets) (c : Fin 4) (d : Int) (a : Breakpoint) (r : Float64)
    (hd : d < 0) (hdc : bk.dc c = MaxInt) (hmin : bk.dmin = MaxInt) :
    (bk.record c d a r).dmin = MaxInt := by
  have hM : d < MaxInt := lt_trans hd (by decide)
  simp only [Buckets.record, hdc, hmin, hM, if_true, hd]

/-- C31: when the only active break point `a` gives a feasible line to the candidate `n` whose
demerits are negative, `mainLoop` creates no break point at `n`: the active list afterwards holds
at most `a` itself and no break point has been allocated. -/
theorem C31_negative_demerits_suppressed (env : Env) (h : Heap) (lb : linebreaker) (n : Ref)
    (a : Breakpoint) (hact : lb.activeNodesA = [a])
    (hfeas : feasible lb (computeAdjustmentRatio h lb n a) = true)
    (hneg : lineDemerits env h lb n a (computeAdjustmentRatio h lb n a) < 0) :
    (mainLoop env h lb n).nextId = lb.nextId ∧
    ∀ bp ∈ (mainLoop env h lb n).activeNodesA, bp = a := by
  have hr : computeAdjustmentRatio h { lb with activeNodesA := [] } n a =
      computeAdjustmentRatio h lb n a := rfl
  have hex : examine env h { lb with activeNodesA := [] } n a
      (computeAdjustmentRatio h lb n a) Buckets.init =
      Buckets.init.record (fitnessClass (computeAdjustmentRatio h lb n a))
        (lineDemerits env h lb n a (computeAdjustmentRatio h lb n a)) a
        (computeAdjustmentRatio h lb n a) := by
    unfold examine
    simp only [feasible, Bool.and_eq_true] at hfeas
    rw [if_pos hfeas]
    rfl
  have hmin := record_negative Buckets.init (fitnessClass (computeAdjustmentRatio h lb n a))
    (lineDemerits env h lb n a (computeAdjustmentRatio h lb n a)) a
    (computeAdjustmentRatio h lb n a) hneg rfl rfl
  unfold mainLoop
  rw [hact, mainLoopScan_single, hr, hex]
  unfold createBreakpoints
  rw [if_neg (by rw [hmin]; exact lt_irrefl _)]
  unfold deactivate
  split
  · exact ⟨rfl, fun bp hb => by cases hb⟩
  · refine ⟨rfl, fun bp hb => ?_⟩
    simpa using hb

/-- Witness for C31: at the Penalty(-50) of Box(10pt), Penalty(-50), Box(10pt) with `HSize` 10pt
the start break point gives the ratio 0 and the demerits 1 - 2500; no break point is created. -/
theorem C31_negative_demerits_suppressed_witness :
    (walkPrefix 1 exampleEnv exNegPenalty 0 (exSettings 10)).lb.activeNodesA =
      [startBreakpoint 0] ∧
    computeAdjustmentRatio exNegPenalty
      (walkPrefix 1 exampleEnv exNegPenalty 0 (exSettings 10)).lb 1 (startBreakpoint 0) =
      Float64.fin 0 ∧
    lineDemerits exampleEnv exNegPenalty
      (walkPrefix 1 exampleEnv exNegPenalty 0 (exSettings 10)).lb 1 (startBreakpoint 0)
      (Float64.fin 0) = -2499 ∧
    ((mainLoop exampleEnv exNegPenalty
        (walkPrefix 1 exampleEnv exNegPenalty 0 (exSettings 10)).lb 1).nextId =
      (walkPrefix 1 exampleEnv exNegPenalty 0 (exSettings 10)).lb.nextId ∧
    ∀ bp ∈ (mainLoop exampleEnv exNegPenalty
        (walkPrefix 1 exampleEnv exNegPenalty 0 (exSettings 10)).lb 1).activeNodesA,
      bp = startBreakpoint 0) :=
  ⟨by decide!, by decide!, by decide!,
    C31_negative_demerits_suppressed exampleEnv exNegPenalty
      (walkPrefix 1 exampleEnv exNegPenalty 0 (exSettings 10)).lb 1 (startBreakpoint 0)
      (by decide!) (by decide!) (by decide!)⟩

/-! ## The order of the active list -/

theorem deactivate_active (h : Heap) (n : Ref) (a : Breakpoint) (r : Float64)
    (lb : linebreaker) :
    (deactivate h n a r lb).activeNodesA = lb.activeNodesA ∨
      (deactivate h n a r lb).activeNodesA = lb.activeNodesA ++ [a] := by
  unfold deactivate
  split
  · exact Or.inl rfl
  · exact Or.inr rfl

theorem examine_lines (env : Env) (h : Heap) (lb : linebreaker) (n : Ref) (a : Breakpoint)
    (r : Float64) (bk : Buckets) (hl : ∀ c x, bk.ac c = some x → x.Line = a.Line) :
    ∀ c x, (examine env h lb n a r bk).ac c = some x → x.Line = a.Line := by
  unfold examine
  split
  · unfold Buckets.record
    split
    · intro c x hx
      simp only at hx
      by_cases hc : c = fitnessClass r
      · subst hc
        rw [Function.update_same] at hx
        injection hx with hx
        rw [hx]
      · rw [Function.update_noteq hc] at hx
        exact hl c x hx
    · exact hl
  · exact hl

theorem lineSorted_append_created (P news : List Breakpoint) (L : Int)
    (hP : LineSorted P) (hPL : ∀ x ∈ P, x.Line ≤ L) (hn : ∀ bp ∈ news, bp.Line = L + 1) :
    LineSorted (P ++ news) := by
  unfold LineSorted at hP ⊢
  rw [List.pairwise_append]
  refine ⟨hP, ?_, ?_⟩
  · rw [List.pairwise_iff_forall_sublist]
    intro x y hxy
    have hx := hn x (hxy.subset (List.mem_cons_self _ _))
    have hy := hn y (hxy.subset (List.mem_cons_of_mem _ (List.mem_cons_self _ _)))
    omega
  · intro x hx y hy
    have := hPL x hx
    have := hn y hy
    omega

theorem mainLoopScan_sorted (env : Env) (h : Heap) (n : Ref) (lb0 : linebreaker)
    (src : List Breakpoint) :
    ∀ (l : List Breakpoint) (lb : linebreaker) (bk : Buckets),
      l ⊆ src → lb.frame = lb0.frame → BucketsFrom env h lb0 n src bk →
      LineSorted (lb.activeNodesA ++ l) →
      (∀ b, l.head? = some b → ∀ c x, bk.ac c = some x → x.Line = b.Line) →
      LineSorted (mainLoopScan env h n l lb bk).activeNodesA := by
  intro l
  induction l with
  | nil =>
    intro lb bk _ _ _ hs _
    simpa [mainLoopScan] using hs
  | cons a rest ih =>
    intro lb bk hsub hf hbk hs hbl
    have ha : a ∈ src := hsub (List.mem_cons_self a rest)
    have hrest : rest ⊆ src := fun x hx => hsub (List.mem_cons_of_mem a hx)
    have hr : computeAdjustmentRatio h lb n a = computeAdjustmentRatio h lb0 n a :=
      computeAdjustmentRatio_frame h lb0 lb n a hf
    have hbk1 : BucketsFrom env h lb0 n src
        (examine env h lb n a (computeAdjustmentRatio h lb n a) bk) := by
      rw [examine_frame env h lb0 lb n a _ bk hf, hr]
      exact examine_bucketsFrom env h lb0 n src bk a ha hbk
    have hl1 := examine_lines env h lb n a (computeAdjustmentRatio h lb n a) bk (hbl a rfl)
    have hf1 : (deactivate h n a (computeAdjustmentRatio h lb n a) lb).frame = lb0.frame := by
      rw [deactivate_frame, hf]
    have hd := deactivate_active h n a (computeAdjustmentRatio h lb n a) lb
    generalize hlb1 : deactivate h n a (computeAdjustmentRatio h lb n a) lb = lb1 at hd hf1
    generalize hbke : examine env h lb n a (computeAdjustmentRatio h lb n a) bk = bk1
      at hbk1 hl1
    obtain ⟨news, h1, _, _, _, _, h6⟩ :=
      createBreakpoints_spec env h n lb0 lb1 src bk1 hbk1 hf1
    have hf2 : (createBreakpoints env h n lb1 bk1).frame = lb0.frame := by
      rw [createBreakpoints_frame, hf1]
    have hnews : ∀ bp ∈ news, bp.Line = a.Line + 1 := by
      intro bp hb
      obtain ⟨c, x, hx, hbp⟩ := h6 bp hb
      rw [hbp]
      show x.Line + 1 = a.Line + 1
      rw [hl1 c x hx]
    have hs0 := hs
    unfold LineSorted at hs
    rw [List.pairwise_append] at hs
    obtain ⟨hsP, hsl, hsPl⟩ := hs
    rw [List.pairwise_cons] at hsl
    have hsub1 : ∀ x ∈ lb1.activeNodesA, x ∈ lb.activeNodesA ∨ x = a := by
      intro x hx
      rcases hd with hd | hd
      · rw [hd] at hx
        exact Or.inl hx
      · rw [hd] at hx
        rcases List.mem_append.mp hx with hx | hx
        · exact Or.inl hx
        · exact Or.inr (by simpa using hx)
    have hP1 : LineSorted lb1.activeNodesA := by
      unfold LineSorted
      rcases hd with hd | hd
      · rw [hd]
        exact hsP
      · rw [hd, List.pairwise_append]
        refine ⟨hsP, List.pairwise_singleton _ _, ?_⟩
        intro x hx y hy
        rw [List.mem_singleton] at hy
        rw [hy]
        exact hsPl x hx a (List.mem_cons_self _ _)
    have hP1L : ∀ x ∈ lb1.activeNodesA, x.Line ≤ a.Line := by
      intro x hx
      rcases hsub1 x hx with hx | hx
      · exact hsPl x hx a (List.mem_cons_self _ _)
      · rw [hx]
    have hcross : ∀ x ∈ lb1.activeNodesA, ∀ y ∈ rest, x.Line ≤ y.Line := by
      intro x hx y hy
      rcases hsub1 x hx with hx | hx
      · exact hsPl x hx y (List.mem_cons_of_mem _ hy)
      · rw [hx]
        exact hsl.1 y hy
    cases rest with
    | nil =>
      rw [mainLoopScan_single, hlb1, hbke, h1]
      exact lineSorted_append_created _ _ a.Line hP1 hP1L hnews
    | cons b rest2 =>
      rw [mainLoopScan_cons_cons, hlb1, hbke]
      split
      · rename_i hbr
        refine ih _ Buckets.init hrest hf2 (bucketsFrom_init env h lb0 n src) ?_ ?_
        · rw [h1]
          unfold LineSorted
          rw [List.pairwise_append]
          refine ⟨lineSorted_append_created _ _ a.Line hP1 hP1L hnews, hsl.2, ?_⟩
          intro x hx y hy
          rcases List.mem_append.mp hx with hx | hx
          · exact hcross x hx y hy
          · have h2 := hnews x hx
            have h3 : b.Line ≤ y.Line := by
              rcases List.mem_cons.mp hy with hy | hy
              · rw [hy]
              · exact (List.pairwise_cons.mp hsl.2).1 y hy
            omega
        · intro b2 _ c x hx
          simp [Buckets.init] at hx
      · rename_i hbr
        refine ih lb1 bk1 hrest hf1 hbk1 ?_ ?_
        · unfold LineSorted
          rw [List.pairwise_append]
          exact ⟨hP1, hsl.2, hcross⟩
        · intro b2 hb2 c x hx
          simp only [List.head?_cons, Option.some.injEq] at hb2
          rw [← hb2, hl1 c x hx]
          have := hsl.1 b (List.mem_cons_self _ _)
          omega

/-! ## Invariants of the walk -/

theorem addGlue_lists (lb : linebreaker) (t : Glue) :
    (addGlue lb t).activeNodesA = lb.activeNodesA ∧
    (addGlue lb t).inactiveNodesP = lb.inactiveNodesP ∧
    (addGlue lb t).nextId = lb.nextId ∧ (addGlue lb t).settings = lb.settings := by
  unfold addGlue
  split_ifs <;> exact ⟨rfl, rfl, rfl, rfl⟩

theorem walkStep_inv (env : Env) (h : Heap) (I : linebreaker → Prop)
    (hcongr : ∀ lb lb1 : linebreaker, lb1.activeNodesA = lb.activeNodesA →
      lb1.inactiveNodesP = lb.inactiveNodesP → lb1.nextId = lb.nextId →
      lb1.settings = lb.settings → I lb → I lb1)
    (hmain : ∀ lb e, I lb → I (mainLoop env h lb e))
    (e : Ref) (v : Node) (st : WalkState) (hI : I st.lb) : I (walkStep env h e v st).lb := by
  have hg : ∀ lb t, I lb → I (addGlue lb t) := fun lb t hlb =>
    hcongr lb _ (addGlue_lists lb t).1 (addGlue_lists lb t).2.1 (addGlue_lists lb t).2.2.1
      (addGlue_lists lb t).2.2.2 hlb
  have hw : ∀ lb w, I lb → I { lb with sumW := w } := fun lb w hlb =>
    hcongr lb _ rfl rfl rfl rfl hlb
  cases v with
  | glue t =>
    simp only [walkStep]
    split
    · exact hg _ _ (hmain _ _ hI)
    · exact hg _ _ hI
  | penalty p w =>
    simp only [walkStep]
    split
    · exact hmain _ _ hI
    · exact hI
  | disc pre p =>
    simp only [walkStep]
    exact hmain _ _ hI
  | glyph w ht dp => exact hw _ _ hI
  | rule w ht dp => exact hw _ _ hI
  | hlist hl => exact hw _ _ hI
  | vlist vl => exact hw _ _ hI
  | image w ht => exact hw _ _ hI
  | kern k => exact hw _ _ hI
  | startStop => exact hw _ _ hI
  | lang => exact hw _ _ hI

theorem walkLoop_inv (env : Env) (h : Heap) (I : linebreaker → Prop)
    (hcongr : ∀ lb lb1 : linebreaker, lb1.activeNodesA = lb.activeNodesA →
      lb1.inactiveNodesP = lb.inactiveNodesP → lb1.nextId = lb.nextId →
      lb1.settings = lb.settings → I lb → I lb1)
    (hmain : ∀ lb e, I lb → I (mainLoop env h lb e)) (fuel : Nat) :
    ∀ (e : Option Ref) (st : WalkState), I st.lb → I (walkLoop fuel env h e st).lb := by
  induction fuel with
  | zero => intro e st hI; cases e <;> exact hI
  | succ k ih =>
    intro e st hI
    cases e with
    | none => exact hI
    | some p =>
      simp only [walkLoop]
      split
      · exact hI
      · exact ih _ _ (walkStep_inv env h I hcongr hmain p _ st hI)

/-- The outcome of `mainLoop`: the break points that stay active and new ones on the active
list, the deactivated ones in front of the inactive list. -/
theorem mainLoop_spec (env : Env) (h : Heap) (lb : linebreaker) (n : Ref) :
    ∃ news : List Breakpoint,
      (mainLoop env h lb n).activeNodesA.Perm
        (lb.activeNodesA.filter (fun a => !deactivates h lb n a) ++ news) ∧
      (mainLoop env h lb n).inactiveNodesP =
        (lb.activeNodesA.filter (deactivates h lb n)).reverse ++ lb.inactiveNodesP ∧
      (mainLoop env h lb n).nextId = lb.nextId + news.length ∧
      news.map Breakpoint.id = List.range' lb.nextId news.length ∧
      (∀ bp ∈ news, Created env h lb n lb.activeNodesA bp) ∧
      (mainLoop env h lb n).frame = lb.frame := by
  obtain ⟨news, h1, h2, h3, h4, h5, h6⟩ :=
    mainLoopScan_spec env h n lb lb.activeNodesA lb.activeNodesA
      { lb with activeNodesA := [] } Buckets.init (fun _ hx => hx) rfl
      (bucketsFrom_init env h lb n lb.activeNodesA)
  refine ⟨news, ?_, h2, h3, h4, h5, h6⟩
  simpa using h1

theorem mainLoop_all_perm (env : Env) (h : Heap) (lb : linebreaker) (n : Ref) :
    ∃ news : List Breakpoint,
      (mainLoop env h lb n).all.Perm (lb.all ++ news) ∧
      (mainLoop env h lb n).nextId = lb.nextId + news.length ∧
      news.map Breakpoint.id = List.range' lb.nextId news.length ∧
      (∀ bp ∈ news, bp ∈ (mainLoop env h lb n).activeNodesA) ∧
      (∀ bp ∈ (mainLoop env h lb n).activeNodesA, bp ∈ lb.activeNodesA ∨ bp ∈ news) ∧
      ∀ bp ∈ news, Created env h lb n lb.activeNodesA bp := by
  obtain ⟨news, h1, h2, h3, h4, h5, _⟩ := mainLoop_spec env h lb n
  refine ⟨news, ?_, h3, h4, ?_, ?_, h5⟩
  · unfold linebreaker.all
    rw [h2]
    refine (List.Perm.append_right _ h1).trans ?_
    have hfil : (lb.activeNodesA.filter (fun a => !deactivates h lb n a) ++
        (lb.activeNodesA.filter (deactivates h lb n)).reverse).Perm lb.activeNodesA := by
      refine (List.Perm.append_left _ (List.reverse_perm _)).trans ?_
      exact (List.perm_append_comm).trans (List.filter_append_perm _ _)
    have e1 := Multiset.coe_eq_coe.mpr h1
    have e2 := Multiset.coe_eq_coe.mpr hfil
    rw [← Multiset.coe_eq_coe]
    simp only [← Multiset.coe_add] at e1 e2 ⊢
    rw [← e2]
    abel
  · intro bp hb
    exact h1.symm.subset (List.mem_append_right _ hb)
  · intro bp hb
    rcases List.mem_append.mp (h1.subset hb) with hb | hb
    · exact Or.inl (List.mem_filter.mp hb).1
    · exact Or.inr hb

theorem mainLoop_lbInv (env : Env) (h : Heap) (lb : linebreaker) (n : Ref)
    (hinv : LbInv lb) : LbInv (mainLoop env h lb n) := by
  obtain ⟨news, hp, hn, hid, _, _, hc⟩ := mainLoop_all_perm env h lb n
  obtain ⟨hnd, hlt, hfrom⟩ := hinv
  have hnewid : ∀ bp ∈ news, lb.nextId ≤ bp.id ∧ bp.id < lb.nextId + news.length := by
    intro bp hb
    have hm : bp.id ∈ news.map Breakpoint.id := List.mem_map_of_mem _ hb
    rw [hid, List.mem_range'_1] at hm
    exact hm
  refine ⟨?_, ?_, ?_⟩
  · rw [(hp.map Breakpoint.id).nodup_iff, List.map_append, List.nodup_append]
    refine ⟨hnd, ?_, ?_⟩
    · rw [hid]
      exact List.nodup_range' _ _
    · intro i hi1 hi2
      obtain ⟨e, he, hei⟩ := List.mem_map.mp hi1
      obtain ⟨bp, hb, hbi⟩ := List.mem_map.mp hi2
      have := hlt e he
      have := (hnewid bp hb).1
      omega
  · intro e he
    rw [hn]
    rcases List.mem_append.mp (hp.subset he) with he | he
    · have := hlt e he
      omega
    · exact (hnewid e he).2
  · intro e he i hi
    rcases List.mem_append.mp (hp.subset he) with he | he
    · obtain ⟨b, hb, hbi, hl⟩ := hfrom e he i hi
      exact ⟨b, hp.symm.subset (List.mem_append_left _ hb), hbi, hl⟩
    · obtain ⟨a, ha, _, hbp⟩ := hc e he
      refine ⟨a, hp.symm.subset (List.mem_append_left _ (List.mem_append_left _ ha)), ?_, ?_⟩
      · rw [hbp] at hi
        have hi2 : some a.id = some i := hi
        injection hi2
      · rw [hbp]
        rfl

theorem mainLoop_sorted (env : Env) (h : Heap) (lb : linebreaker) (n : Ref)
    (hs : LineSorted lb.activeNodesA) : LineSorted (mainLoop env h lb n).activeNodesA := by
  refine mainLoopScan_sorted env h n lb lb.activeNodesA lb.activeNodesA
    { lb with activeNodesA := [] } Buckets.init (fun _ hx => hx) rfl
    (bucketsFrom_init env h lb n lb.activeNodesA) ?_ ?_
  · simpa using hs
  · intro b _ c x hx
    simp [Buckets.init] at hx

theorem lbInv_congr (lb lb1 : linebreaker) (ha : lb1.activeNodesA = lb.activeNodesA)
    (hi : lb1.inactiveNodesP = lb.inactiveNodesP) (hn : lb1.nextId = lb.nextId)
    (hinv : LbInv lb) : LbInv lb1 := by
  unfold LbInv linebreaker.all at hinv ⊢
  rw [ha, hi, hn]
  exact hinv

theorem lbInv_start (p : Ref) (settings : LinebreakSettings) :
    LbInv { newLinebreaker settings with activeNodesA := [startBreakpoint p], nextId := 1 } := by
  refine ⟨by simp [linebreaker.all, newLinebreaker], ?_, ?_⟩
  · intro e he
    simp only [linebreaker.all, newLinebreaker, List.append_nil, List.mem_singleton] at he
    rw [he]
    exact Nat.zero_lt_one
  · intro e he i hi
    simp only [linebreaker.all, newLinebreaker, List.append_nil, List.mem_singleton] at he
    rw [he] at hi
    cases hi

theorem walkPrefix_lbInv (k : Nat) (env : Env) (h : Heap) (p : Ref)
    (settings : LinebreakSettings) : LbInv (walkPrefix k env h p settings).lb :=
  walkLoop_inv env h LbInv (fun lb lb1 ha hi hn _ hinv => lbInv_congr lb lb1 ha hi hn hinv)
    (fun lb e hinv => mainLoop_lbInv env h lb e hinv) k _ _ (lbInv_start p settings)

theorem walkPrefix_sorted (k : Nat) (env : Env) (h : Heap) (p : Ref)
    (settings : LinebreakSettings) :
    LineSorted (walkPrefix k env h p settings).lb.activeNodesA :=
  walkLoop_inv env h (fun lb => LineSorted lb.activeNodesA)
    (fun lb lb1 ha _ _ _ hs => by show LineSorted lb1.activeNodesA; rw [ha]; exact hs)
    (fun lb e hs => mainLoop_sorted env h lb e hs) k _ _
    (by simp [LineSorted, newLinebreaker])

theorem bpFrom_spec (lb : linebreaker) (hinv : LbInv lb) (e b : Breakpoint)
    (he : e ∈ lb.all) (hb : bpFrom lb e = some b) :
    b ∈ lb.all ∧ e.from_ = some b.id ∧ e.Line = b.Line + 1 := by
  obtain ⟨hnd, _, hfrom⟩ := hinv
  unfold bpFrom at hb
  cases hfr : e.from_ with
  | none => rw [hfr] at hb; cases hb
  | some i =>
    rw [hfr] at hb
    have hb : (lb.inactiveNodesP ++ lb.activeNodesA).find? (fun b => b.id == i) = some b := hb
    have hmem := List.mem_of_find?_eq_some hb
    have hid := List.find?_some hb
    simp only [beq_iff_eq] at hid
    have hball : b ∈ lb.all := by
      unfold linebreaker.all
      rcases List.mem_append.mp hmem with hm | hm
      · exact List.mem_append_right _ hm
      · exact List.mem_append_left _ hm
    obtain ⟨b1, hb1, hb1i, hl⟩ := hfrom e he i hfr
    have heq : b1 = b := List.inj_on_of_nodup_map hnd hb1 hball (by rw [hb1i, hid])
    rw [heq] at hl
    exact ⟨hball, by rw [hid], hl⟩

/-- C36: `mainLoop` keeps the active list ordered by `Line`, and every break point of the active
list that was not on it before has `Line` one more than the active break point its `from` names.
The active list is therefore ordered by `Line` at every point of the walk of `Linebreak`, and
there the break point that `from` points to always has a strictly smaller `Line`. -/
theorem C36_active_list_sorted (env : Env) (h : Heap) (lb : linebreaker) (n : Ref)
    (hs : LineSorted lb.activeNodesA) :
    LineSorted (mainLoop env h lb n).activeNodesA ∧
    (∀ bp ∈ (mainLoop env h lb n).activeNodesA, bp ∈ lb.activeNodesA ∨
      ∃ a ∈ lb.activeNodesA, bp.from_ = some a.id ∧ bp.Line = a.Line + 1) ∧
    ∀ (k : Nat) (p : Ref) (settings : LinebreakSettings),
      LineSorted (walkPrefix k env h p settings).lb.activeNodesA ∧
      ∀ e ∈ (walkPrefix k env h p settings).lb.all, ∀ b,
        bpFrom (walkPrefix k env h p settings).lb e = some b → b.Line < e.Line := by
  refine ⟨mainLoop_sorted env h lb n hs, ?_, ?_⟩
  · obtain ⟨news, _, _, _, _, hsub, hc⟩ := mainLoop_all_perm env h lb n
    intro bp hb
    rcases hsub bp hb with hb | hb
    · exact Or.inl hb
    · obtain ⟨a, ha, _, hbp⟩ := hc bp hb
      refine Or.inr ⟨a, ha, ?_, ?_⟩ <;> rw [hbp] <;> rfl
  · intro k p settings
    refine ⟨walkPrefix_sorted k env h p settings, ?_⟩
    intro e he b hb
    have := (bpFrom_spec _ (walkPrefix_lbInv k env h p settings) e b he hb).2.2
    omega

/-- Witness for C36: the call of `mainLoop` at the glue of the example paragraph, where the
active list holds the start break point. -/
theorem C36_active_list_sorted_witness :
    LineSorted (walkPrefix 1 exampleEnv exParagraph 0 (exSettings 25)).lb.activeNodesA ∧
    LineSorted (mainLoop exampleEnv exParagraph
      (walkPrefix 1 exampleEnv exParagraph 0 (exSettings 25)).lb 1).activeNodesA :=
  ⟨by decide!, (C36_active_list_sorted exampleEnv exParagraph
    (walkPrefix 1 exampleEnv exParagraph 0 (exSettings 25)).lb 1 (by decide!)).1⟩

/-! ## One inner loop of the main loop -/

theorem firstBest_init (env : Env) (h : Heap) (lb : linebreaker) (n : Ref) :
    FirstBest env h lb n [] Buckets.init := by
  intro c
  refine ⟨fun _ => ⟨rfl, fun b hb => by cases hb⟩, fun a ha => ?_⟩
  simp [Buckets.init] at ha

theorem firstBest_all (env : Env) (h : Heap) (lb : linebreaker) (n : Ref)
    (seen : List Breakpoint) (bk : Buckets) (hfb : FirstBest env h lb n seen bk) (c : Fin 4) :
    ∀ b ∈ seen, feasible lb (computeAdjustmentRatio h lb n b) = true →
      fitnessClass (computeAdjustmentRatio h lb n b) = c →
      bk.dc c ≤ lineDemerits env h lb n b (computeAdjustmentRatio h lb n b) := by
  intro b hb hfe hcl
  cases hac : bk.ac c with
  | none =>
    obtain ⟨hdc, hall⟩ := (hfb c).1 hac
    rw [hdc]
    exact hall b hb hfe hcl
  | some a =>
    obtain ⟨pre, post, hseen, _, _, _, hdc, hpre, hpost⟩ := (hfb c).2 a hac
    rw [hdc]
    rw [hseen] at hb
    rcases List.mem_append.mp hb with hb | hb
    · exact le_of_lt (hpre b hb hfe hcl)
    · rcases List.mem_cons.mp hb with hb | hb
      · rw [hb]
      · exact hpost b hb hfe hcl

theorem examine_firstBest (env : Env) (h : Heap) (lb : linebreaker) (n : Ref)
    (seen : List Breakpoint) (bk : Buckets) (x : Breakpoint)
    (hfb : FirstBest env h lb n seen bk) :
    FirstBest env h lb n (seen ++ [x])
      (examine env h lb n x (computeAdjustmentRatio h lb n x) bk) := by
  have hkeep : ∀ c : Fin 4,
      (feasible lb (computeAdjustmentRatio h lb n x) = true →
        fitnessClass (computeAdjustmentRatio h lb n x) = c →
        bk.dc c ≤ lineDemerits env h lb n x (computeAdjustmentRatio h lb n x)) →
      (bk.ac c = none → bk.dc c = MaxInt ∧
        ∀ b ∈ seen ++ [x], feasible lb (computeAdjustmentRatio h lb n b) = true →
          fitnessClass (computeAdjustmentRatio h lb n b) = c →
          MaxInt ≤ lineDemerits env h lb n b (computeAdjustmentRatio h lb n b)) ∧
      ∀ a, bk.ac c = some a →
        ∃ pre post, seen ++ [x] = pre ++ a :: post ∧
          feasible lb (computeAdjustmentRatio h lb n a) = true ∧
          fitnessClass (computeAdjustmentRatio h lb n a) = c ∧
          bk.rc c = computeAdjustmentRatio h lb n a ∧
          bk.dc c = lineDemerits env h lb n a (computeAdjustmentRatio h lb n a) ∧
          (∀ b ∈ pre, feasible lb (computeAdjustmentRatio h lb n b) = true →
            fitnessClass (computeAdjustmentRatio h lb n b) = c →
            lineDemerits env h lb n a (computeAdjustmentRatio h lb n a) <
              lineDemerits env h lb n b (computeAdjustmentRatio h lb n b)) ∧
          ∀ b ∈ post, feasible lb (computeAdjustmentRatio h lb n b) = true →
            fitnessClass (computeAdjustmentRatio h lb n b) = c →
            lineDemerits env h lb n a (computeAdjustmentRatio h lb n a) ≤
              lineDemerits env h lb n b (computeAdjustmentRatio h lb n b) := by
    intro c hx
    refine ⟨fun hac => ?_, fun a hac => ?_⟩
    · obtain ⟨hdc, hall⟩ := (hfb c).1 hac
      refine ⟨hdc, fun b hb hfe hcl => ?_⟩
      rcases List.mem_append.mp hb with hb | hb
      · exact hall b hb hfe hcl
      · rw [List.mem_singleton] at hb
        subst hb
        rw [← hdc]
        exact hx hfe hcl
    · obtain ⟨pre, post, hseen, h1, h2, h3, h4, hpre, hpost⟩ := (hfb c).2 a hac
      refine ⟨pre, post ++ [x], ?_, h1, h2, h3, h4, hpre, fun b hb hfe hcl => ?_⟩
      · rw [hseen, List.append_assoc, List.cons_append]
      · rcases List.mem_append.mp hb with hb | hb
        · exact hpost b hb hfe hcl
        · rw [List.mem_singleton] at hb
          subst hb
          rw [← h4]
          exact hx hfe hcl
  unfold examine
  split
  · rename_i hfeas
    have hfe : feasible lb (computeAdjustmentRatio h lb n x) = true := by
      simp [feasible, hfeas.1, hfeas.2]
    unfold Buckets.record
    split
    · rename_i hlt
      intro c
      by_cases hc : c = fitnessClass (computeAdjustmentRatio h lb n x)
      · subst hc
        refine ⟨fun hac => ?_, fun a hac => ?_⟩
        · simp only [Function.update_same] at hac
          cases hac
        · simp only [Function.update_same] at hac ⊢
          injection hac with hac
          subst hac
          refine ⟨seen, [], rfl, hfe, rfl, rfl, rfl, fun b hb hfb1 hcl => ?_,
            fun b hb => by cases hb⟩
          exact lt_of_lt_of_le hlt (firstBest_all env h lb n seen bk hfb _ b hb hfb1 hcl)
      · have hk := hkeep c (fun _ hcl => absurd hcl.symm hc)
        simp only [Function.update_noteq hc]
        exact hk
    · rename_i hnlt
      intro c
      refine hkeep c (fun _ hcl => ?_)
      rw [← hcl]
      exact not_lt.mp hnlt
  · rename_i hnf
    intro c
    refine hkeep c (fun hfe _ => ?_)
    exfalso
    apply hnf
    simpa [feasible] using hfe

theorem scanBuckets_firstBest (env : Env) (h : Heap) (lb : linebreaker) (n : Ref)
    (seg : List Breakpoint) :
    ∀ (seen : List Breakpoint) (bk : Buckets), FirstBest env h lb n seen bk →
      FirstBest env h lb n (seen ++ seg) (scanBuckets env h lb n seg bk) := by
  induction seg with
  | nil =>
    intro seen bk hfb
    rw [List.append_nil]
    exact hfb
  | cons x rest ih =>
    intro seen bk hfb
    have := ih (seen ++ [x]) _ (examine_firstBest env h lb n seen bk x hfb)
    rw [List.append_assoc] at this
    exact this

theorem scanBuckets_bucketsFrom (env : Env) (h : Heap) (lb : linebreaker) (n : Ref)
    (src : List Breakpoint) (seg : List Breakpoint) :
    ∀ bk : Buckets, seg ⊆ src → BucketsFrom env h lb n src bk →
      BucketsFrom env h lb n src (scanBuckets env h lb n seg bk) := by
  induction seg with
  | nil => intro bk _ hbk; exact hbk
  | cons x rest ih =>
    intro bk hsub hbk
    exact ih _ (fun y hy => hsub (List.mem_cons_of_mem x hy))
      (examine_bucketsFrom env h lb n src bk x (hsub (List.mem_cons_self x rest)) hbk)

theorem scanDeactivate_lists (h : Heap) (lb0 : linebreaker) (n : Ref) (seg : List Breakpoint) :
    ∀ lb : linebreaker,
      (scanDeactivate h lb0 n seg lb).activeNodesA =
        lb.activeNodesA ++ seg.filter (fun a => !deactivates h lb0 n a) ∧
      (scanDeactivate h lb0 n seg lb).inactiveNodesP =
        (seg.filter (deactivates h lb0 n)).reverse ++ lb.inactiveNodesP ∧
      (scanDeactivate h lb0 n seg lb).nextId = lb.nextId ∧
      (scanDeactivate h lb0 n seg lb).frame = lb.frame := by
  induction seg with
  | nil => intro lb; exact ⟨by simp [scanDeactivate], by simp [scanDeactivate], rfl, rfl⟩
  | cons x rest ih =>
    intro lb
    obtain ⟨i1, i2, i3, i4⟩ := ih (deactivate h n x (computeAdjustmentRatio h lb0 n x) lb)
    obtain ⟨e1, e2, e3⟩ := deactivate_lists h lb0 lb n x rest
    refine ⟨?_, ?_, ?_, ?_⟩
    · exact i1.trans e1
    · exact i2.trans e2
    · exact i3.trans e3
    · exact i4.trans (deactivate_frame h n x _ lb)

/-- The inner loop of `mainLoop` over a run `seg` of the active list within which it does not
leave with `break`, and behind which it leaves or the list ends. -/
theorem mainLoopScan_segment (env : Env) (h : Heap) (n : Ref) (lb0 : linebreaker)
    (rest : List Breakpoint) :
    ∀ (seg : List Breakpoint) (lb : linebreaker) (bk : Buckets),
      seg ≠ [] → seg.Chain' (fun a b => ¬ a.Line + 1 ≤ b.Line) →
      (∀ a b, seg.getLast? = some a → rest.head? = some b → a.Line + 1 ≤ b.Line) →
      lb.frame = lb0.frame →
      mainLoopScan env h n (seg ++ rest) lb bk =
        mainLoopScan env h n rest
          (createBreakpoints env h n (scanDeactivate h lb0 n seg lb)
            (scanBuckets env h lb0 n seg bk)) Buckets.init := by
  intro seg
  induction seg with
  | nil => intro lb bk hne; exact absurd rfl hne
  | cons a s ih =>
    intro lb bk _ hch hend hf
    have hr : computeAdjustmentRatio h lb n a = computeAdjustmentRatio h lb0 n a :=
      computeAdjustmentRatio_frame h lb0 lb n a hf
    have hex : examine env h lb n a (computeAdjustmentRatio h lb0 n a) bk =
        examine env h lb0 n a (computeAdjustmentRatio h lb0 n a) bk :=
      examine_frame env h lb0 lb n a _ bk hf
    cases s with
    | nil =>
      cases rest with
      | nil =>
        rw [List.append_nil, mainLoopScan_single, hr, hex]
        rfl
      | cons b r =>
        have hbr : a.Line + 1 ≤ b.Line := hend a b rfl rfl
        rw [List.singleton_append, mainLoopScan_cons_cons, if_pos hbr, hr, hex]
        rfl
    | cons a2 s2 =>
      have hnb : ¬ a.Line + 1 ≤ a2.Line := (List.chain'_cons.mp hch).1
      have hch2 := (List.chain'_cons.mp hch).2
      rw [List.cons_append, List.cons_append, mainLoopScan_cons_cons, if_neg hnb, hr, hex,
        ← List.cons_append]
      rw [ih _ _ (List.cons_ne_nil _ _) hch2 ?_ ?_]
      · rfl
      · intro x b hx hb
        refine hend x b ?_ hb
        rw [List.getLast?_cons_cons]
        exact hx
      · rw [deactivate_frame, hf]

theorem linebreaker_eq_of_frame (lb1 lb2 : linebreaker) (hf : lb1.frame = lb2.frame)
    (ha : lb1.activeNodesA = lb2.activeNodesA) (hi : lb1.inactiveNodesP = lb2.inactiveNodesP)
    (hn : lb1.nextId = lb2.nextId) : lb1 = lb2 := by
  cases lb1
  cases lb2
  simp only [linebreaker.frame, linebreaker.mk.injEq] at hf
  simp only at ha hi hn
  simp only [linebreaker.mk.injEq]
  tauto

/-- C32: one inner loop of `mainLoop` over a run `seg` of the active list (the loop does not
leave within `seg`, and behind it the loop leaves or the list ends) links new break points
`news` behind the break points of `seg` that stay active.  Each new break point names as its
predecessor a break point `a` of `seg` whose line to `n` is feasible, records the ratio, the
class and the demerits of this line, and `a` is the first one in `seg` with the least demerits
of its class: every feasible line of the same class from an earlier break point of `seg` has
strictly more demerits, every one from a later break point at least as many. -/
theorem C32_ties_keep_first (env : Env) (h : Heap) (n : Ref) (lb : linebreaker)
    (seg rest : List Breakpoint) (hne : seg ≠ [])
    (hseg : seg.Chain' (fun a b => ¬ a.Line + 1 ≤ b.Line))
    (hend : ∀ a b, seg.getLast? = some a → rest.head? = some b → a.Line + 1 ≤ b.Line) :
    ∃ news : List Breakpoint,
      mainLoopScan env h n (seg ++ rest) lb Buckets.init =
        mainLoopScan env h n rest
          { lb with
            activeNodesA :=
              lb.activeNodesA ++ seg.filter (fun a => !deactivates h lb n a) ++ news
            inactiveNodesP := (seg.filter (deactivates h lb n)).reverse ++ lb.inactiveNodesP
            nextId := lb.nextId + news.length } Buckets.init ∧
      ∀ bp ∈ news, ∃ pre a post, seg = pre ++ a :: post ∧
        bp.from_ = some a.id ∧ bp.R = computeAdjustmentRatio h lb n a ∧
        bp.Fitness = (fitnessClass (computeAdjustmentRatio h lb n a)).val ∧
        bp.Demerits = lineDemerits env h lb n a (computeAdjustmentRatio h lb n a) ∧
        feasible lb (computeAdjustmentRatio h lb n a) = true ∧
        (∀ b ∈ pre, feasible lb (computeAdjustmentRatio h lb n b) = true →
          fitnessClass (computeAdjustmentRatio h lb n b) =
            fitnessClass (computeAdjustmentRatio h lb n a) →
          lineDemerits env h lb n a (computeAdjustmentRatio h lb n a) <
            lineDemerits env h lb n b (computeAdjustmentRatio h lb n b)) ∧
        ∀ b ∈ post, feasible lb (computeAdjustmentRatio h lb n b) = true →
          fitnessClass (computeAdjustmentRatio h lb n b) =
            fitnessClass (computeAdjustmentRatio h lb n a) →
          lineDemerits env h lb n a (computeAdjustmentRatio h lb n a) ≤
            lineDemerits env h lb n b (computeAdjustmentRatio h lb n b) := by
  have hsegm := mainLoopScan_segment env h n lb rest seg lb Buckets.init hne hseg hend rfl
  obtain ⟨d1, d2, d3, d4⟩ := scanDeactivate_lists h lb n seg lb
  have hbk := scanBuckets_bucketsFrom env h lb n seg seg Buckets.init (fun _ hx => hx)
    (bucketsFrom_init env h lb n seg)
  have hfb := scanBuckets_firstBest env h lb n seg [] Buckets.init (firstBest_init env h lb n)
  rw [List.nil_append] at hfb
  obtain ⟨news, h1, h2, h3, _, _, h6⟩ :=
    createBreakpoints_spec env h n lb (scanDeactivate h lb n seg lb) seg
      (scanBuckets env h lb n seg Buckets.init) hbk d4
  refine ⟨news, ?_, ?_⟩
  · rw [hsegm]
    congr 1
    refine linebreaker_eq_of_frame _ _ ?_ ?_ ?_ ?_
    · rw [createBreakpoints_frame, d4]
      rfl
    · rw [h1, d1]
    · rw [h2, d2]
    · rw [h3, d3]
  · intro bp hb
    obtain ⟨c, a, hac, hbp⟩ := h6 bp hb
    obtain ⟨pre, post, hs, g1, g2, _, _, g5, g6⟩ := (hfb c).2 a hac
    refine ⟨pre, a, post, hs, ?_, ?_, ?_, ?_, g1, ?_, ?_⟩
    · rw [hbp]; rfl
    · rw [hbp]; rfl
    · rw [hbp]; rfl
    · rw [hbp]; rfl
    · intro b hb1 hf1 hc1
      exact g5 b hb1 hf1 (hc1.trans g2)
    · intro b hb1 hf1 hc1
      exact g6 b hb1 hf1 (hc1.trans g2)

/-- Witness for C32: at the third penalty of `exTwoPenalties` the two active break points of
line 1 give lines of the same class with the same demerits 2; the new break point names the
first of them in the active list, the break point 2, as its predecessor. -/
theorem C32_ties_keep_first_witness :
    exTieSeg ≠ [] ∧ exTieSeg.Chain' (fun a b => ¬ a.Line + 1 ≤ b.Line) ∧
    exTieSeg.map Breakpoint.id = [2, 1] ∧
    exTieSeg.map (fun a => lineDemerits exampleEnv exTwoPenalties exTieState 4 a
      (computeAdjustmentRatio exTwoPenalties exTieState 4 a)) = [2, 2] ∧
    (mainLoop exampleEnv exTwoPenalties exTieState 4).activeNodesA.map
      (fun b => (b.id, b.from_)) = [(0, none), (2, some 0), (1, some 0), (3, some 2)] ∧
    ∃ news : List Breakpoint,
      ∀ bp ∈ news, ∃ pre a post, exTieSeg = pre ++ a :: post ∧ bp.from_ = some a.id ∧
        ∀ b ∈ pre, feasible exTieState (computeAdjustmentRatio exTwoPenalties exTieState 4 b)
            = true →
          fitnessClass (computeAdjustmentRatio exTwoPenalties exTieState 4 b) =
            fitnessClass (computeAdjustmentRatio exTwoPenalties exTieState 4 a) →
          lineDemerits exampleEnv exTwoPenalties exTieState 4 a
              (computeAdjustmentRatio exTwoPenalties exTieState 4 a) <
            lineDemerits exampleEnv exTwoPenalties exTieState 4 b
              (computeAdjustmentRatio exTwoPenalties exTieState 4 b) := by
  have hlit : exTieSeg =
      [{ startBreakpoint 2 with
          id := 2, from_ := some 0, Line := 1, Demerits := 1, sumW := pt 10, Width := pt 10 },
        { startBreakpoint 1 with
          id := 1, from_ := some 0, Line := 1, Demerits := 1, sumW := pt 10,
          Width := pt 10 }] := by
    decide!
  have hch : exTieSeg.Chain' (fun a b => ¬ a.Line + 1 ≤ b.Line) := by
    rw [hlit]
    exact List.Chain'.cons (by decide) (List.chain'_singleton _)
  refine ⟨by decide!, hch, by decide!, by decide!, by decide!, ?_⟩
  obtain ⟨news, _, hn⟩ := C32_ties_keep_first exampleEnv exTwoPenalties 4 exTieState exTieSeg []
    (by decide!) hch (fun a b _ hb => by cases hb)
  refine ⟨news, fun bp hb => ?_⟩
  obtain ⟨pre, a, post, h1, h2, _, _, _, _, h7, _⟩ := hn bp hb
  exact ⟨pre, a, post, h1, h2, h7⟩

/-! ## The sums behind a break -/

theorem penaltiesInRange_node (h : Heap) (hpen : penaltiesInRange h = true) (e : Ref) (p : Int)
    (w : ScaledPoint) (hn : h.node e = some (Node.penalty p w)) : -10000 ≤ p := by
  unfold penaltiesInRange at hpen
  rw [List.all_eq_true] at hpen
  unfold Heap.node at hn
  cases hc : h[e]? with
  | none => rw [hc] at hn; cases hn
  | some c =>
    rw [hc] at hn
    have hmem : c ∈ h := List.getElem?_mem hc
    have := hpen c hmem
    simp only [Option.map_some', Option.some.injEq] at hn
    rw [hn] at this
    simpa using this

theorem sumsPlus_nil (s : Sums) : sumsPlus s [] = s := by
  simp [sumsPlus, gluesOf, stretchOfOrder]

theorem stretchOfOrder_cons_glue (t : Glue) (l : List Node) (i : GlueOrder) :
    stretchOfOrder (Node.glue t :: l) i =
      (if t.StretchOrder = i then t.Stretch else 0) + stretchOfOrder l i := by
  unfold stretchOfOrder
  rw [gluesOf_cons_glue, List.filter_cons]
  by_cases hi : t.StretchOrder = i <;> simp [hi]

theorem stretchOfOrder_cons_other (v : Node) (l : List Node) (i : GlueOrder)
    (hv : ∀ g, v ≠ Node.glue g) : stretchOfOrder (v :: l) i = stretchOfOrder l i := by
  unfold stretchOfOrder
  rw [gluesOf_cons_other v l hv]

theorem sumsPlus_cons_other (s : Sums) (v : Node) (l : List Node)
    (hv : ∀ g, v ≠ Node.glue g) : sumsPlus s (v :: l) = sumsPlus s l := by
  unfold sumsPlus
  simp only [stretchOfOrder_cons_other v l _ hv, gluesOf_cons_other v l hv]

theorem sumsPlus_cons_glue (s : Sums) (t : Glue) (l : List Node) :
    sumsPlus s (Node.glue t :: l) =
      sumsPlus
        (if t.StretchOrder = StretchFil then
          { s with w := s.w + t.Width, z := s.z + t.Shrink,
                   stretchFil := s.stretchFil + t.Stretch }
        else if t.StretchOrder = StretchFill then
          { s with w := s.w + t.Width, z := s.z + t.Shrink,
                   stretchFill := s.stretchFill + t.Stretch }
        else if t.StretchOrder = StretchFilll then
          { s with w := s.w + t.Width, z := s.z + t.Shrink,
                   stretchFilll := s.stretchFilll + t.Stretch }
        else { s with w := s.w + t.Width, z := s.z + t.Shrink, y := s.y + t.Stretch }) l := by
  have h4 := fin4_cases t.StretchOrder
  unfold sumsPlus
  simp only [stretchOfOrder_cons_glue, gluesOf_cons_glue, List.map_cons, List.sum_cons]
  rcases h4 with h0 | h0 | h0 | h0 <;> rw [h0] <;>
    simp [StretchFil, StretchFill, StretchFilll, add_assoc]

theorem computeSumLoop_run (h : Heap) (n : Ref) (fuel : Nat) :
    ∀ (e : Option Ref) (s : Sums),
      computeSumLoop fuel h n e s =
        sumsPlus s (((nodesFrom fuel h e).takeWhile (inSumRun n)).map Prod.snd) := by
  induction fuel with
  | zero => intro e s; cases e <;> simp [computeSumLoop, nodesFrom, sumsPlus_nil]
  | succ k ih =>
    intro e s
    cases e with
    | none => simp [computeSumLoop, nodesFrom, sumsPlus_nil]
    | some p =>
      simp only [computeSumLoop, nodesFrom]
      cases hn : h.node p with
      | none => simp [sumsPlus_nil]
      | some v =>
        cases v with
        | glue t =>
          simp only [List.takeWhile_cons, inSumRun, if_true, List.map_cons]
          rw [sumsPlus_cons_glue, ih]
        | penalty q w =>
          simp only [List.takeWhile_cons, inSumRun]
          by_cases hstop : q = -10000 ∧ p ≠ n
          · rw [if_pos hstop]
            have : (!(decide (q = -10000) && decide (p ≠ n))) = false := by
              simp [hstop.1, hstop.2]
            simp only [this, Bool.false_eq_true, if_false, List.map_nil, sumsPlus_nil]
          · rw [if_neg hstop]
            have : (!(decide (q = -10000) && decide (p ≠ n))) = true := by
              simp only [Bool.not_eq_true', Bool.and_eq_false_iff, decide_eq_false_iff_not]
              by_cases hq2 : q = -10000
              · right
                intro hpn
                exact hstop ⟨hq2, hpn⟩
              · left
                exact hq2
            simp only [this, if_true, List.map_cons]
            rw [sumsPlus_cons_other _ _ _ (fun g hg => by cases hg), ih]
        | _ => simp [List.takeWhile_cons, inSumRun, sumsPlus_nil]

theorem inBreakRun_eq (h : Heap) (n : Ref) (hpen : penaltiesInRange h = true) (fuel : Nat) :
    ∀ e : Option Ref,
      (nodesFrom fuel h e).takeWhile (inSumRun n) =
        (nodesFrom fuel h e).takeWhile (inBreakRun n) := by
  induction fuel with
  | zero => intro e; cases e <;> rfl
  | succ k ih =>
    intro e
    cases e with
    | none => rfl
    | some p =>
      simp only [nodesFrom]
      cases hn : h.node p with
      | none => rfl
      | some v =>
        simp only [List.takeWhile_cons]
        have hsame : inSumRun n (p, v) = inBreakRun n (p, v) := by
          cases v with
          | penalty q w =>
            have hq := penaltiesInRange_node h hpen p q w hn
            simp only [inSumRun, inBreakRun]
            congr 2
            rw [decide_eq_decide]
            omega
          | _ => rfl
        rw [hsame, ih]

/-- C33 (counterexample): in Box(10pt), Glue(5pt plus 2pt minus 1pt), Penalty(-20000),
Glue(5pt plus 2pt minus 1pt), Box(10pt) the run behind a break at the first glue, node 1, ends
in the words of the claim before the Penalty(-20000) and holds the first glue alone, which gives
the width 15pt; `computeSum` tests `t.Penalty == -10000`, passes the penalty and adds the second
glue as well: it returns the width 20pt, the stretch 4pt and the shrink 2pt. -/
theorem C33_counterexample :
    exPenaltyBelowForced.node 2 = some (Node.penalty (-20000) 0) ∧
    breakRun exPenaltyBelowForced 1 = [exGlue 5 2 1] ∧
    sumsPlus (walkPrefix 1 exampleEnv exPenaltyBelowForced 0 (exSettings 10)).lb.sums
      (breakRun exPenaltyBelowForced 1) =
      { w := pt 15, y := pt 2, z := pt 1, stretchFil := 0, stretchFill := 0,
        stretchFilll := 0 } ∧
    computeSum exPenaltyBelowForced
      (walkPrefix 1 exampleEnv exPenaltyBelowForced 0 (exSettings 10)).lb 1 =
      { w := pt 20, y := pt 4, z := pt 2, stretchFil := 0, stretchFill := 0,
        stretchFilll := 0 } := by
  decide!

/-- C33, amended: `computeSum` returns the running totals of the line breaker increased by the
contributions of the glues of the run of glues and penalties that starts at `n` and ends before
the first item of another kind or the first penalty of exactly -10000 other than `n`; every
break point that `mainLoop` creates at `n` stores these six values (the run is followed as far
as the nodes of the heap can make up a list).  In a list whose penalties are all at least
-10000 this run is the run up to the first forced break in the sense `p ≤ -10000`. -/
theorem C33_computeSum_run (env : Env) (h : Heap) (lb : linebreaker) (n : Ref) :
    computeSum h lb n = sumsPlus lb.sums (sumRun h n) ∧
    (∀ bp ∈ (mainLoop env h lb n).activeNodesA, bp ∉ lb.activeNodesA →
      bp.sums = computeSum h lb n) ∧
    (penaltiesInRange h = true → sumRun h n = breakRun h n) := by
  refine ⟨computeSumLoop_run h n h.length (some n) lb.sums, ?_, ?_⟩
  · obtain ⟨news, _, _, _, _, hsub, hc⟩ := mainLoop_all_perm env h lb n
    intro bp hb hnot
    rcases hsub bp hb with hb | hb
    · exact absurd hb hnot
    · obtain ⟨a, _, _, hbp⟩ := hc bp hb
      rw [hbp]
      rfl
  · intro hpen
    unfold sumRun breakRun
    rw [inBreakRun_eq h n hpen]

/-- Witness for C33: a break at the first glue of the list with the Penalty(-20000); the run
holds the glue, the penalty and the second glue, and the break point created there stores the
totals 20pt, 4pt and 2pt.  In the example paragraph, whose penalties are in the range, the run
behind the glue is the glue alone in both senses. -/
theorem C33_computeSum_run_witness :
    sumRun exPenaltyBelowForced 1 = [exGlue 5 2 1, Node.penalty (-20000) 0, exGlue 5 2 1] ∧
    (walkPrefix 1 exampleEnv exPenaltyBelowForced 0 (exSettings 10)).lb.sums =
      { w := pt 10, y := 0, z := 0, stretchFil := 0, stretchFill := 0, stretchFilll := 0 } ∧
    (mainLoop exampleEnv exPenaltyBelowForced
      (walkPrefix 1 exampleEnv exPenaltyBelowForced 0 (exSettings 10)).lb 1).activeNodesA.map
        Breakpoint.sums =
      [{ w := 0, y := 0, z := 0, stretchFil := 0, stretchFill := 0, stretchFilll := 0 },
       { w := pt 20, y := pt 4, z := pt 2, stretchFil := 0, stretchFill := 0,
         stretchFilll := 0 }] ∧
    computeSum exPenaltyBelowForced
      (walkPrefix 1 exampleEnv exPenaltyBelowForced 0 (exSettings 10)).lb 1 =
      sumsPlus (walkPrefix 1 exampleEnv exPenaltyBelowForced 0 (exSettings 10)).lb.sums
        (sumRun exPenaltyBelowForced 1) ∧
    penaltiesInRange exParagraph = true ∧
    sumRun exParagraph 1 = breakRun exParagraph 1 :=
  ⟨by decide!, by decide!, by decide!,
    (C33_computeSum_run exampleEnv exPenaltyBelowForced
      (walkPrefix 1 exampleEnv exPenaltyBelowForced 0 (exSettings 10)).lb 1).1,
    by decide!,
    (C33_computeSum_run exampleEnv exParagraph
      (walkPrefix 1 exampleEnv exParagraph 0 (exSettings 10)).lb 1).2.2 (by decide!)⟩

/-! ## The width of a line for the breaker and for the packager -/

/-- C34: for Box(10pt), Penalty(0), Glue(5pt), Box(10pt) with the forced-end helper and `HSize`
10pt the chain has a break point at the penalty (node 1) followed by one at the final penalty
(node 6).  For the line between them the breaker uses the width `lb.sumW - a.sumW` = 10pt and
records the ratio 0, but the items behind the penalty up to the item in front of the final
penalty, which the driver packs into the second line box, have the natural width 15pt: the box
starts at the glue (node 2) and is overfull. -/
theorem C34_glue_behind_break_is_packed :
    (Linebreak exampleEnv exGlueAfterPenalty (some 0) (exSettings 10)).bps.map
      (fun b => (b.id, b.from_, b.Position, b.sumW, b.R)) =
      [(1, some 0, 1, pt 15, Float64.fin 0), (2, some 1, 6, pt 25, Float64.fin 0)] ∧
    (walkPrefix 6 exampleEnv exGlueAfterPenalty 0 (exSettings 10)).lb.sumW - pt 15 = pt 10 ∧
    (∀ a ∈ (walkPrefix 6 exampleEnv exGlueAfterPenalty 0 (exSettings 10)).lb.activeNodesA,
      a.id = 1 →
      computeAdjustmentRatio exGlueAfterPenalty
        (walkPrefix 6 exampleEnv exGlueAfterPenalty 0 (exSettings 10)).lb 6 a =
        Float64.fin 0) ∧
    naturalWidth (scannedNodes exGlueAfterPenalty (some 2) (some 5)) = pt 15 ∧
    (Linebreak exampleEnv exGlueAfterPenalty (some 0) (exSettings 10)).vert.getLast? =
      some (Node.hlist { NewHList with Width := pt 10, GlueSet := Float64.ninf,
                                       List := some 2 }) := by
  decide!

/-! ## The demerits of a line -/

theorem wrap64_of_fits (x : Int) (hx : fits64 x) : wrap64 x = x := by
  unfold fits64 at hx
  unfold wrap64
  norm_num at hx ⊢
  omega

theorem wrap64_add_left (x y : Int) : wrap64 (wrap64 x + y) = wrap64 (x + y) := by
  unfold wrap64
  norm_num
  omega

theorem wrap64_add_right (x y : Int) : wrap64 (x + wrap64 y) = wrap64 (x + y) := by
  unfold wrap64
  norm_num
  omega

theorem wrap64_sub_right (x y : Int) : wrap64 (x - wrap64 y) = wrap64 (x - y) := by
  unfold wrap64
  norm_num
  omega

theorem wrap64_fits (x : Int) : fits64 (wrap64 x) := by
  unfold wrap64 fits64
  norm_num
  omega

theorem Float64.pow2_pos (z : Int) : 0 < Float64.pow2 z := by
  unfold Float64.pow2
  split <;> positivity

theorem Float64.roundHalfEven_nonneg (m : ℚ) (hm : 0 ≤ m) : 0 ≤ Float64.roundHalfEven m := by
  have h0 : (0 : Int) ≤ ⌊m⌋ := Int.floor_nonneg.mpr hm
  unfold Float64.roundHalfEven
  split
  · exact h0
  · split
    · omega
    · split
      · exact h0
      · omega

theorem Float64.roundTo_nonneg (u x : ℚ) (hu : 0 < u) (hx : 0 ≤ x) :
    0 ≤ Float64.roundTo u x := by
  unfold Float64.roundTo
  rw [if_pos hx]
  apply mul_nonneg _ hu.le
  exact_mod_cast Float64.roundHalfEven_nonneg _ (div_nonneg hx hu.le)

theorem Float64.round53_nonneg (x : ℚ) (hx : 0 ≤ x) : 0 ≤ Float64.round53 x := by
  unfold Float64.round53
  split
  · exact le_refl _
  · exact Float64.roundTo_nonneg _ _ (Float64.pow2_pos _) hx

theorem Float64.ofRat_nonneg (x y : ℚ) (hx : 0 ≤ x) (h : Float64.ofRat x = Float64.fin y) :
    0 ≤ y := by
  have hy : 0 ≤ (if |x| < Float64.pow2 (-1022) then Float64.roundTo (Float64.pow2 (-1074)) x
      else Float64.round53 x) := by
    split
    · exact Float64.roundTo_nonneg _ _ (Float64.pow2_pos _) hx
    · exact Float64.round53_nonneg _ hx
  unfold Float64.ofRat at h
  simp only at h
  generalize (if |x| < Float64.pow2 (-1022) then Float64.roundTo (Float64.pow2 (-1074)) x
      else Float64.round53 x) = z at hy h
  by_cases hb : Float64.pow2 1024 ≤ |z|
  · rw [if_pos hb] at h
    split at h <;> exact absurd h (by simp)
  · rw [if_neg hb] at h
    cases h
    exact hy

theorem Float64.powGo_two_nonneg (x : Float64) (y : ℚ) (h : Float64.powGo x 2 = Float64.fin y) :
    0 ≤ y := by
  cases x with
  | fin q =>
    apply Float64.ofRat_nonneg _ y _ h
    simp only [Float64.powLoop]
    norm_num
    exact Float64.round53_nonneg _ (Float64.round53_nonneg _ (mul_self_nonneg q))
  | nan => exact absurd h (by simp [Float64.powGo, Float64.pow])
  | pinf => exact absurd h (by simp [Float64.powGo, Float64.pow])
  | ninf => exact absurd h (by simp [Float64.powGo, Float64.pow])

theorem betaDouble_nonneg (q y : ℚ) (h : betaDouble q = Float64.fin y) : 0 ≤ y :=
  Float64.powGo_two_nonneg _ y h

theorem beta_nonneg (q : ℚ) : 0 ≤ beta q := by
  unfold beta
  split
  · rename_i x hx
    have h0 := betaDouble_nonneg q x hx
    unfold Float64.truncQ
    rw [if_pos h0]
    exact Int.floor_nonneg.mpr h0
  · norm_num

theorem toInt_beta (env : Env) (q : ℚ) (hβ : beta q < 2 ^ 63) :
    Float64.toInt env
      (Float64.powGo (Float64.add (Float64.fin 1)
        (Float64.mul (Float64.fin 100)
          (Float64.powGo (Float64.abs (Float64.fin q).double) 3)).double).double 2) =
      beta q := by
  have hb0 := beta_nonneg q
  change Float64.toInt env (betaDouble q) = beta q
  unfold beta at hβ hb0 ⊢
  cases hd : betaDouble q with
  | fin x =>
    rw [hd] at hβ hb0
    simp only at hβ hb0 ⊢
    simp only [Float64.toInt]
    rw [if_pos ⟨by omega, hβ⟩]
  | nan => rw [hd] at hβ; exact absurd hβ (by norm_num)
  | pinf => rw [hd] at hβ; exact absurd hβ (by norm_num)
  | ninf => rw [hd] at hβ; exact absurd hβ (by norm_num)

theorem fitness_step (D DF aD c af : Int) :
    wrap64 ((if c > af then (if c - af > 1 then wrap64 (D + DF) else D)
      else (if af - c > 1 then wrap64 (D + DF) else D)) + aD) =
      wrap64 (D + (if |c - af| > 1 then DF else 0) + aD) := by
  by_cases hc : c > af
  · by_cases hc2 : c - af > 1
    · have : |c - af| > 1 := by rw [gt_iff_lt, lt_abs]; left; omega
      simp only [hc, hc2, this, if_true, wrap64_add_left]
    · have : ¬ |c - af| > 1 := by rw [gt_iff_lt, lt_abs]; omega
      simp only [hc, hc2, this, if_true, if_false, add_zero]
  · by_cases hc2 : af - c > 1
    · have : |c - af| > 1 := by rw [gt_iff_lt, lt_abs]; right; omega
      simp only [hc, hc2, this, if_true, if_false, wrap64_add_left]
    · have : ¬ |c - af| > 1 := by rw [gt_iff_lt, lt_abs]; omega
      simp only [hc, hc2, this, if_false, add_zero]

theorem penalty_step (b p X : Int) :
    wrap64 ((if p ≥ 0 then wrap64 (b + wrap64 (p * p))
      else if p > -10000 ∧ p < 0 then wrap64 (b - wrap64 (p * p)) else b) + X) =
      wrap64 (b + penaltyPart p + X) := by
  unfold penaltyPart
  rw [sq]
  generalize p * p = s
  by_cases hp : p ≥ 0
  · have hp2 : 0 ≤ p := hp
    rw [if_pos hp, if_pos hp2]
    unfold wrap64
    norm_num
    omega
  · have hp2 : ¬ 0 ≤ p := hp
    rw [if_neg hp, if_neg hp2]
    by_cases hp3 : p > -10000 ∧ p < 0
    · rw [if_pos hp3, if_pos hp3.1]
      unfold wrap64
      norm_num
      omega
    · have hp4 : ¬ -10000 < p := fun h4 => hp3 ⟨h4, by omega⟩
      rw [if_neg hp3, if_neg hp4, add_zero]

theorem lineDemerits_eq (env : Env) (h : Heap) (lb : linebreaker) (n : Ref) (a : Breakpoint)
    (q : ℚ) (hβ : beta q < 2 ^ 63) :
    lineDemerits env h lb n a (Float64.fin q) =
      wrap64 (a.Demerits + (beta q + penaltyPart (curPenalty h lb n).1) +
        fitnessPart lb.settings (fitnessClass (Float64.fin q)).val a.Fitness) := by
  unfold lineDemerits
  simp only [toInt_beta env q hβ]
  generalize (curPenalty h lb n).1 = p
  generalize ((fitnessClass (Float64.fin q)).val : Int) = c
  unfold fitnessPart
  rw [fitness_step, add_assoc, penalty_step]
  congr 1
  ring

theorem lineDemerits_settings (env : Env) (h : Heap) (lb lb1 : linebreaker) (n : Ref)
    (a : Breakpoint) (r : Float64) (hs : lb1.settings = lb.settings) :
    lineDemerits env h lb1 n a r = lineDemerits env h lb n a r := by
  unfold lineDemerits curPenalty
  rw [hs]

theorem feasible_settings (lb lb1 : linebreaker) (r : Float64)
    (hs : lb1.settings = lb.settings) : feasible lb1 r = feasible lb r := by
  unfold feasible
  rw [hs]

theorem feasible_fin (lb : linebreaker) (r : Float64) (hf : feasible lb r = true) :
    ∃ q : ℚ, r = Float64.fin q ∧ -1 ≤ q := by
  unfold feasible at hf
  rw [Bool.and_eq_true] at hf
  cases r with
  | nan => simp [Float64.le] at hf
  | ninf => simp [Float64.le] at hf
  | pinf => simp [Float64.lt] at hf
  | fin q =>
    refine ⟨q, rfl, ?_⟩
    have := hf.1
    simpa [Float64.le] using this

theorem stored_congr (env : Env) (h : Heap) (lb lb1 : linebreaker)
    (ha : lb1.activeNodesA = lb.activeNodesA) (hi : lb1.inactiveNodesP = lb.inactiveNodesP)
    (hs : lb1.settings = lb.settings) (hst : Stored env h lb) : Stored env h lb1 := by
  have hall : lb1.all = lb.all := by unfold linebreaker.all; rw [ha, hi]
  intro e he
  rw [hall] at he
  refine ⟨(hst e he).1, fun i hi => ?_⟩
  obtain ⟨a, hm, h1, h2, h3, h4, h5⟩ := (hst e he).2 i hi
  refine ⟨a, by rw [hall]; exact hm, h1, h2, ?_, h4, ?_⟩
  · rw [feasible_settings lb lb1 _ hs]
    exact h3
  · rw [lineDemerits_settings env h lb lb1 _ _ _ hs]
    exact h5

theorem mainLoop_stored (env : Env) (h : Heap) (lb : linebreaker) (n : Ref)
    (hinv : LbInv lb) (hst : Stored env h lb) : Stored env h (mainLoop env h lb n) := by
  obtain ⟨news, hp, _, hid, _, _, hc⟩ := mainLoop_all_perm env h lb n
  have hs : (mainLoop env h lb n).settings = lb.settings := mainLoop_settings env h lb n
  intro e he
  rcases List.mem_append.mp (hp.subset he) with he | he
  · refine ⟨(hst e he).1, fun i hi => ?_⟩
    obtain ⟨a, hm, h1, h2, h3, h4, h5⟩ := (hst e he).2 i hi
    refine ⟨a, hp.symm.subset (List.mem_append_left _ hm), h1, h2, ?_, h4, ?_⟩
    · rw [feasible_settings lb _ _ hs]
      exact h3
    · rw [lineDemerits_settings env h lb _ _ _ _ hs]
      exact h5
  · obtain ⟨a, ha, hfe, hbp⟩ := hc e he
    have haall : a ∈ lb.all := List.mem_append_left _ ha
    have hid1 : lb.nextId ≤ e.id := by
      have hm : e.id ∈ news.map Breakpoint.id := List.mem_map_of_mem _ he
      rw [hid, List.mem_range'_1] at hm
      exact hm.1
    have hfrom : e.from_ = some a.id := by rw [hbp]; rfl
    refine ⟨fun hnone => ?_, fun i hi => ?_⟩
    · rw [hfrom] at hnone
      cases hnone
    · rw [hfrom] at hi
      injection hi with hi
      refine ⟨a, hp.symm.subset (List.mem_append_left _ haall), hi, ?_, ?_, ?_, ?_⟩
      · have := hinv.2.1 a haall
        omega
      · rw [feasible_settings lb _ _ hs, hbp]
        exact hfe
      · rw [hbp]
        rfl
      · rw [lineDemerits_settings env h lb _ _ _ _ hs, hbp]
        rfl

theorem stored_start (env : Env) (h : Heap) (p : Ref) (settings : LinebreakSettings) :
    Stored env h
      { newLinebreaker settings with activeNodesA := [startBreakpoint p], nextId := 1 } := by
  intro e he
  simp only [linebreaker.all, newLinebreaker, List.append_nil, List.mem_singleton] at he
  rw [he]
  exact ⟨fun _ => ⟨rfl, rfl, rfl, rfl⟩, fun i hi => by cases hi⟩

theorem walkPrefix_stored (k : Nat) (env : Env) (h : Heap) (p : Ref)
    (settings : LinebreakSettings) :
    LbInv (walkPrefix k env h p settings).lb ∧ Stored env h (walkPrefix k env h p settings).lb :=
  walkLoop_inv env h (fun lb => LbInv lb ∧ Stored env h lb)
    (fun lb lb1 ha hi hn hs hinv =>
      ⟨lbInv_congr lb lb1 ha hi hn hinv.1, stored_congr env h lb lb1 ha hi hs hinv.2⟩)
    (fun lb e hinv => ⟨mainLoop_lbInv env h lb e hinv.1, mainLoop_stored env h lb e hinv.1 hinv.2⟩)
    k _ _ ⟨lbInv_start p settings, stored_start env h p settings⟩

theorem chooseLastNode_mem (lb : linebreaker) (c : Breakpoint)
    (hc : chooseLastNode lb = some c) : c ∈ lb.all := by
  unfold chooseLastNode at hc
  unfold linebreaker.all
  cases hact : lb.activeNodesA with
  | nil =>
    rw [hact] at hc
    simp only [List.foldl_nil] at hc
    exact List.mem_append_right _ (List.mem_of_mem_head? hc)
  | cons a rest =>
    rw [hact] at hc
    simp only at hc
    rcases chooseFold_spec (a :: rest) MaxInt (some a) with
      ⟨heq, _⟩ | ⟨pre, c1, post, hl, heq, _⟩
    · rw [heq] at hc
      simp only [Option.some.injEq] at hc
      rw [← hc]
      exact List.mem_append_left _ (List.mem_cons_self _ _)
    · rw [heq] at hc
      simp only [Option.some.injEq] at hc
      rw [← hc, hl]
      exact List.mem_append_left _ (List.mem_append_right _ (List.mem_cons_self _ _))

theorem bpFrom_none (lb : linebreaker) (hinv : LbInv lb) (e : Breakpoint) (he : e ∈ lb.all)
    (hb : bpFrom lb e = none) : e.from_ = none := by
  cases hfr : e.from_ with
  | none => rfl
  | some i =>
    exfalso
    obtain ⟨b, hbm, hbi, _⟩ := hinv.2.2 e he i hfr
    unfold bpFrom at hb
    rw [hfr] at hb
    have hb : (lb.inactiveNodesP ++ lb.activeNodesA).find? (fun b => b.id == i) = none := hb
    rw [List.find?_eq_none] at hb
    have hm : b ∈ lb.inactiveNodesP ++ lb.activeNodesA := by
      rcases List.mem_append.mp hbm with hm | hm
      · exact List.mem_append_right _ hm
      · exact List.mem_append_left _ hm
    have := hb b hm
    simp [hbi] at this

theorem stored_link (env : Env) (h : Heap) (lb : linebreaker) (hinv : LbInv lb)
    (hst : Stored env h lb) (e a : Breakpoint) (he : e ∈ lb.all)
    (hb : bpFrom lb e = some a) :
    a ∈ lb.all ∧ a.id < e.id ∧ feasible lb e.R = true ∧
      e.Fitness = (fitnessClass e.R).val ∧
      e.Demerits = lineDemerits env h lb e.Position a e.R := by
  obtain ⟨ha, hfrom, _⟩ := bpFrom_spec lb hinv e a he hb
  obtain ⟨a1, ha1, h1, h2, h3, h4, h5⟩ := (hst e he).2 a.id hfrom
  have heq : a1 = a := List.inj_on_of_nodup_map hinv.1 ha1 ha h1
  rw [heq] at h2 h5
  exact ⟨ha, h2, h3, h4, h5⟩

theorem demeritsExact_link (h : Heap) (lb : linebreaker) (hex : demeritsExact h lb = true)
    (e a : Breakpoint) (q : ℚ) (he : e ∈ lb.all) (hb : bpFrom lb e = some a)
    (hq : e.R = Float64.fin q) :
    beta q < 2 ^ 63 ∧ fits64 (a.Demerits + lineContribution h lb e a) := by
  unfold demeritsExact at hex
  rw [List.all_eq_true] at hex
  have := hex e he
  rw [hb, hq] at this
  simpa using this

theorem link_demerits (env : Env) (h : Heap) (lb : linebreaker) (hinv : LbInv lb)
    (hst : Stored env h lb) (hex : demeritsExact h lb = true) (e a : Breakpoint)
    (he : e ∈ lb.all) (hb : bpFrom lb e = some a) :
    e.Demerits = a.Demerits + lineContribution h lb e a := by
  obtain ⟨_, _, hfe, hfit, hd⟩ := stored_link env h lb hinv hst e a he hb
  obtain ⟨q, hq, _⟩ := feasible_fin lb e.R hfe
  obtain ⟨hβ, hfits⟩ := demeritsExact_link h lb hex e a q he hb hq
  rw [hd, hq, lineDemerits_eq env h lb e.Position a q hβ]
  have hlc : lineContribution h lb e a =
      beta q + penaltyPart (curPenalty h lb e.Position).1 +
        fitnessPart lb.settings (fitnessClass (Float64.fin q)).val a.Fitness := by
    unfold lineContribution
    rw [hq]
    simp only
    rw [hfit, hq]
  rw [hlc] at hfits ⊢
  have hre : a.Demerits + (beta q + penaltyPart (curPenalty h lb e.Position).1) +
      fitnessPart lb.settings (fitnessClass (Float64.fin q)).val a.Fitness =
      a.Demerits + (beta q + penaltyPart (curPenalty h lb e.Position).1 +
      fitnessPart lb.settings (fitnessClass (Float64.fin q)).val a.Fitness) := by ring
  rw [hre]
  exact wrap64_of_fits _ hfits

theorem chain_demerits (env : Env) (h : Heap) (lb : linebreaker) (hinv : LbInv lb)
    (hst : Stored env h lb) (hex : demeritsExact h lb = true) :
    ∀ (fuel : Nat) (e : Breakpoint), e ∈ lb.all → e.id < fuel →
      e.Demerits = chainContribution h lb fuel e := by
  intro fuel
  induction fuel with
  | zero => intro e _ hlt; exact absurd hlt (Nat.not_lt_zero _)
  | succ k ih =>
    intro e he hlt
    unfold chainContribution
    cases hb : bpFrom lb e with
    | none =>
      simp only
      exact ((hst e he).1 (bpFrom_none lb hinv e he hb)).1
    | some a =>
      simp only
      obtain ⟨ha, hid, _⟩ := stored_link env h lb hinv hst e a he hb
      rw [link_demerits env h lb hinv hst hex e a he hb, ih a ha (by omega)]

theorem curPenalty_of_not_disc (h : Heap) (lb : linebreaker) (n : Ref)
    (hn : isDisc h n = false) : (curPenalty h lb n).1 = penaltyOf h n := by
  unfold curPenalty penaltyOf
  unfold isDisc at hn
  cases hnode : h.node n with
  | none => rfl
  | some v =>
    rw [hnode] at hn
    cases v <;> first | rfl | simp at hn

/-- The break points that `mainLoop` puts on the active list are made from an active break
point with a feasible ratio. -/
theorem mainLoop_new (env : Env) (h : Heap) (lb : linebreaker) (n : Ref) (bp : Breakpoint)
    (hbp : bp ∈ (mainLoop env h lb n).activeNodesA) (hnew : bp ∉ lb.activeNodesA) :
    ∃ a ∈ lb.activeNodesA, feasible lb (computeAdjustmentRatio h lb n a) = true ∧
      bp = createdFrom env h lb n a bp.id := by
  obtain ⟨news, _, _, _, _, hsub, hc⟩ := mainLoop_all_perm env h lb n
  rcases hsub bp hbp with hb | hb
  · exact absurd hb hnew
  · exact hc bp hb

/-- C11 (counterexample): in Box(10pt), Glue(5pt plus 1pt minus 1pt), Box(10pt), Penalty(0),
Box(10pt) with `HSize` 125pt the line from the start to the penalty has the ratio 100 and the
fitness class 3.  The break point that `mainLoop` creates at the penalty has the demerits
10000000200000100: the code computes `math.Pow(1.0+badness, 2)` in `float64`, where the square
of 100000001 is rounded to 10000000200000000, and adds `DemeritsFitness`.  The formula with
floor((1 + 100 * 100^3)^2) = 10000000200000001 gives 10000000200000101. -/
theorem C11_counterexample :
    (walkPrefix 3 exampleEnv exRatio100 0 (exSettings 125)).lb.activeNodesA.map
        (fun b => (b.id, b.Fitness, b.Demerits)) = [(0, 1, 0)] ∧
    (mainLoop exampleEnv exRatio100
      (walkPrefix 3 exampleEnv exRatio100 0 (exSettings 125)).lb 3).activeNodesA.map
        (fun b => (b.id, b.from_, b.R, b.Fitness, b.Demerits)) =
      [(0, none, Float64.fin 0, 1, 0), (1, some 0, Float64.fin 100, 3, 10000000200000100)] ∧
    exRatio100.node 3 = some (Node.penalty 0 0) ∧
    (exSettings 125).DemeritsFitness = 100 ∧
    betaExact 100 = 10000000200000001 ∧
    0 + (betaExact 100 + 0 ^ 2) + (exSettings 125).DemeritsFitness = 10000000200000101 ∧
    beta 100 = 10000000200000000 := by
  refine ⟨?_, ?_, ?_, ?_, ?_, ?_, ?_⟩ <;> decide!

/-- C11: a break point that `mainLoop` creates at a candidate `n` that is not a `Disc` comes
from an active break point `a` with a finite ratio `q`, and when the term `beta` and the sum fit
a 64 bit integer its demerits are `a.Demerits + (beta + penalty part) + fitness part`, with
`p` the value of the penalty or 0 for a glue.  Here `beta` is the value
`int(math.Pow(1.0+badness, 2))` that the code computes in `float64`, every operation rounded.
At the end of the walk of `Linebreak` the demerits of the chosen break point are therefore the
sum of these contributions over the lines of its chain, as long as no sum on the way leaves the
range of the integers.  For the whole ratios from 0 to 98 the term `beta` is
floor((1 + 100 * |r|^3)^2). -/
theorem C11_demerits_formula (env : Env) (h : Heap) (lb : linebreaker) (n : Ref)
    (hn : isDisc h n = false) :
    (∀ bp ∈ (mainLoop env h lb n).activeNodesA, bp ∉ lb.activeNodesA →
      ∃ a ∈ lb.activeNodesA, ∃ q : ℚ, bp.from_ = some a.id ∧
        computeAdjustmentRatio h lb n a = Float64.fin q ∧ bp.R = Float64.fin q ∧
        bp.Fitness = (fitnessClass (Float64.fin q)).val ∧
        (beta q < 2 ^ 63 →
          fits64 (a.Demerits + (beta q + penaltyPart (penaltyOf h n)) +
            fitnessPart lb.settings bp.Fitness a.Fitness) →
          bp.Demerits = a.Demerits + (beta q + penaltyPart (penaltyOf h n)) +
            fitnessPart lb.settings bp.Fitness a.Fitness)) ∧
    (∀ (p : Ref) (settings : LinebreakSettings) (last : Breakpoint),
      demeritsExact h (linebreakWalk env h p settings).lb = true →
      chooseLastNode (linebreakWalk env h p settings).lb = some last →
      last.Demerits =
        chainContribution h (linebreakWalk env h p settings).lb
          (linebreakWalk env h p settings).lb.nextId last) ∧
    ∀ k ∈ List.range 99, beta (k : ℚ) = betaExact (k : ℚ) := by
  refine ⟨?_, ?_, by decide!⟩
  · intro bp hbp hnew
    obtain ⟨a, ha, hfe, hcr⟩ := mainLoop_new env h lb n bp hbp hnew
    obtain ⟨q, hq, _⟩ := feasible_fin lb _ hfe
    have hR : bp.R = Float64.fin q := by rw [hcr, ← hq]; rfl
    have hF : bp.Fitness = (fitnessClass (Float64.fin q)).val := by rw [hcr, ← hq]; rfl
    refine ⟨a, ha, q, by rw [hcr]; rfl, hq, hR, hF, fun hβ hfits => ?_⟩
    have hD : bp.Demerits = lineDemerits env h lb n a (Float64.fin q) := by
      rw [hcr, ← hq]
      rfl
    rw [hD, lineDemerits_eq env h lb n a q hβ, curPenalty_of_not_disc h lb n hn, ← hF]
    exact wrap64_of_fits _ hfits
  · intro p settings last hex hlast
    have hw := walkPrefix_stored h.length env h p settings
    have hm := chooseLastNode_mem _ last hlast
    exact chain_demerits env h _ hw.1 hw.2 hex _ last hm (hw.1.2.1 last hm)

/-- Witness for C11: `mainLoop` at the first penalty of `exTwoPenalties` with `HSize` 10pt
creates a break point with the demerits 0 + (1 + 0) + 0; the chain chosen at the end has three
lines with the contributions 1 each. -/
theorem C11_demerits_formula_witness :
    isDisc exTwoPenalties 1 = false ∧
    (mainLoop exampleEnv exTwoPenalties
      (walkPrefix 1 exampleEnv exTwoPenalties 0 (exSettings 10)).lb 1).activeNodesA.map
        (fun b => (b.id, b.from_, b.R, b.Demerits)) =
      [(0, none, Float64.fin 0, 0), (1, some 0, Float64.fin 0, 1)] ∧
    beta 0 + penaltyPart (penaltyOf exTwoPenalties 1) = 1 ∧
    demeritsExact exTwoPenalties
      (linebreakWalk exampleEnv exTwoPenalties 0 (exSettings 10)).lb = true ∧
    (chooseLastNode (linebreakWalk exampleEnv exTwoPenalties 0 (exSettings 10)).lb).map
      (fun e => (e.Demerits,
        chainContribution exTwoPenalties
          (linebreakWalk exampleEnv exTwoPenalties 0 (exSettings 10)).lb 5 e)) =
      some (3, 3) ∧
    ∀ bp ∈ (mainLoop exampleEnv exTwoPenalties
        (walkPrefix 1 exampleEnv exTwoPenalties 0 (exSettings 10)).lb 1).activeNodesA,
      bp ∉ (walkPrefix 1 exampleEnv exTwoPenalties 0 (exSettings 10)).lb.activeNodesA →
      ∃ a ∈ (walkPrefix 1 exampleEnv exTwoPenalties 0 (exSettings 10)).lb.activeNodesA,
        bp.from_ = some a.id :=
  ⟨by decide!, by decide!, by decide!, by decide!, by decide!, fun bp hbp hnew => by
    obtain ⟨a, ha, q, hfrom, _⟩ := (C11_demerits_formula exampleEnv exTwoPenalties
      (walkPrefix 1 exampleEnv exTwoPenalties 0 (exSettings 10)).lb 1 (by decide!)).1 bp hbp hnew
    exact ⟨a, ha, hfrom⟩⟩

/-- C12 (counterexample): in Box(10pt), Glue(5pt plus 1pt minus 1pt), Box(10pt), Disc, Box(10pt)
with `HSize` 125pt the line from the start to the `Disc` has the ratio 100.  The penalty value
is `Hyphenpenalty` + 0 = 50, and the break point that `mainLoop` creates at the `Disc` has the
demerits 10000000200002600 = 10000000200000000 + 50^2 + 100, with the term of the ratio as
`float64` arithmetic rounds it; floor((1 + 100 * 100^3)^2) + 50^2 + 100 is
10000000200002601. -/
theorem C12_counterexample :
    exRatio100Disc.node 3 = some (Node.disc none 0) ∧
    (curPenalty exRatio100Disc
      (walkPrefix 3 exampleEnv exRatio100Disc 0 (exSettings 125)).lb 3).1 = 50 ∧
    (mainLoop exampleEnv exRatio100Disc
      (walkPrefix 3 exampleEnv exRatio100Disc 0 (exSettings 125)).lb 3).activeNodesA.map
        (fun b => (b.id, b.from_, b.R, b.Fitness, b.Demerits)) =
      [(0, none, Float64.fin 0, 1, 0), (1, some 0, Float64.fin 100, 3, 10000000200002600)] ∧
    0 + (betaExact 100 + ((exSettings 125).Hyphenpenalty + 0) ^ 2) +
      (exSettings 125).DemeritsFitness = 10000000200002601 := by
  refine ⟨?_, ?_, ?_, ?_⟩ <;> decide!

/-- C12: at a candidate `n` that is a `Disc` the penalty value of the demerits is
`Hyphenpenalty + n.Penalty`; when this value is not negative, a break point that `mainLoop`
creates at `n` from the active break point `a` with the ratio `q` has the demerits
`a.Demerits + (beta + (Hyphenpenalty + n.Penalty)^2) + fitness part`, provided the term `beta`
and the sum fit a 64 bit integer.  Here `beta` is the value `int(math.Pow(1.0+badness, 2))`
that the code computes in `float64`, every operation rounded; for the ratios 0, 1/2, 1, 3/2
up to 16 it is floor((1 + 100 * |r|^3)^2). -/
theorem C12_disc_penalty (env : Env) (h : Heap) (lb : linebreaker) (n : Ref)
    (pre : Option Ref) (pd : Int) (hn : h.node n = some (Node.disc pre pd))
    (hp : 0 ≤ lb.settings.Hyphenpenalty + pd) (hpf : fits64 (lb.settings.Hyphenpenalty + pd)) :
    (curPenalty h lb n).1 = lb.settings.Hyphenpenalty + pd ∧
    (∀ bp ∈ (mainLoop env h lb n).activeNodesA, bp ∉ lb.activeNodesA →
      ∃ a ∈ lb.activeNodesA, ∃ q : ℚ, bp.from_ = some a.id ∧
        computeAdjustmentRatio h lb n a = Float64.fin q ∧ bp.R = Float64.fin q ∧
        (beta q < 2 ^ 63 →
          fits64 (a.Demerits + (beta q + (lb.settings.Hyphenpenalty + pd) ^ 2) +
            fitnessPart lb.settings bp.Fitness a.Fitness) →
          bp.Demerits = a.Demerits + (beta q + (lb.settings.Hyphenpenalty + pd) ^ 2) +
            fitnessPart lb.settings bp.Fitness a.Fitness)) ∧
    ∀ k ∈ List.range 33, beta ((k : ℚ) / 2) = betaExact ((k : ℚ) / 2) := by
  have hcp : (curPenalty h lb n).1 = lb.settings.Hyphenpenalty + pd := by
    unfold curPenalty
    rw [hn]
    exact wrap64_of_fits _ hpf
  refine ⟨hcp, ?_, by decide!⟩
  intro bp hbp hnew
  obtain ⟨a, ha, hfe, hcr⟩ := mainLoop_new env h lb n bp hbp hnew
  obtain ⟨q, hq, _⟩ := feasible_fin lb _ hfe
  have hR : bp.R = Float64.fin q := by rw [hcr, ← hq]; rfl
  have hF : bp.Fitness = (fitnessClass (Float64.fin q)).val := by rw [hcr, ← hq]; rfl
  refine ⟨a, ha, q, by rw [hcr]; rfl, hq, hR, fun hβ hfits => ?_⟩
  have hD : bp.Demerits = lineDemerits env h lb n a (Float64.fin q) := by
    rw [hcr, ← hq]
    rfl
  have hpp : penaltyPart (lb.settings.Hyphenpenalty + pd) =
      (lb.settings.Hyphenpenalty + pd) ^ 2 := by
    unfold penaltyPart
    rw [if_pos hp]
  rw [hD, lineDemerits_eq env h lb n a q hβ, hcp, hpp, ← hF]
  exact wrap64_of_fits _ hfits

/-- Witness for C12: the first `Disc` of Box(10pt), Disc, Box(10pt), Disc, Box(10pt) at `HSize`
10pt: the penalty value is 50 + 0 and the new break point has the demerits 1 + 50^2. -/
theorem C12_disc_penalty_witness :
    exDiscParagraph.node 1 = some (Node.disc none 0) ∧
    (0 : Int) ≤ (exSettings 10).Hyphenpenalty + 0 ∧
    (curPenalty exDiscParagraph
      (walkPrefix 1 exampleEnv exDiscParagraph 0 (exSettings 10)).lb 1).1 = 50 ∧
    (mainLoop exampleEnv exDiscParagraph
      (walkPrefix 1 exampleEnv exDiscParagraph 0 (exSettings 10)).lb 1).activeNodesA.map
        (fun b => (b.id, b.from_, b.R, b.Demerits)) =
      [(0, none, Float64.fin 0, 0), (1, some 0, Float64.fin 0, 2501)] :=
  ⟨by decide!, by decide!,
    (C12_disc_penalty exampleEnv exDiscParagraph
      (walkPrefix 1 exampleEnv exDiscParagraph 0 (exSettings 10)).lb 1 none 0
      (by decide!) (by decide!) (by decide!)).1.trans (by decide!),
    by decide!⟩

/-! ## Demerits along the chosen chain -/

theorem bpFrom_mem (lb : linebreaker) (e a : Breakpoint) (hb : bpFrom lb e = some a) :
    a ∈ lb.all := by
  unfold bpFrom at hb
  cases hfr : e.from_ with
  | none => rw [hfr] at hb; cases hb
  | some i =>
    rw [hfr] at hb
    have hb : (lb.inactiveNodesP ++ lb.activeNodesA).find? (fun b => b.id == i) = some a := hb
    have hmem := List.mem_of_find?_eq_some hb
    unfold linebreaker.all
    rcases List.mem_append.mp hmem with hm | hm
    · exact List.mem_append_right _ hm
    · exact List.mem_append_left _ hm

theorem chainFrom_subset (lb : linebreaker) :
    ∀ (fuel : Nat) (e : Breakpoint), e ∈ lb.all → ∀ x ∈ chainFrom lb fuel e, x ∈ lb.all := by
  intro fuel
  induction fuel with
  | zero => intro e _ x hx; cases hx
  | succ k ih =>
    intro e he x hx
    unfold chainFrom at hx
    rcases List.mem_cons.mp hx with hx | hx
    · rw [hx]; exact he
    · cases hb : bpFrom lb e with
      | none => rw [hb] at hx; cases hx
      | some a =>
        rw [hb] at hx
        exact ih a (bpFrom_mem lb e a hb) x hx

theorem chosenChain_subset (env : Env) (h : Heap) (p : Ref) (settings : LinebreakSettings) :
    ∀ x ∈ chosenChain env h p settings, x ∈ (linebreakWalk env h p settings).lb.all := by
  intro x hx
  unfold chosenChain at hx
  cases hc : chooseLastNode (linebreakWalk env h p settings).lb with
  | none => rw [hc] at hx; cases hx
  | some last =>
    rw [hc] at hx
    exact chainFrom_subset _ _ last (chooseLastNode_mem _ last hc) x hx

/-- C13 (counterexample): for Box(10pt), Glue, Box(10pt), Glue, Box(30pt), Penalty(-50),
Box(30pt) with the forced-end helper and `HSize` 30pt the chosen chain has the demerits 0, 10201,
7702, 7703 from the start to the end: the break point at the Penalty(-50) has fewer demerits
than its predecessor. -/
theorem C13_counterexample :
    exDecreasing.node 5 = some (Node.penalty (-50) 0) ∧
    penaltiesInRange exDecreasing = true ∧
    (chosenChain exampleEnv exDecreasing 0 (exSettings 30)).map
      (fun b => (b.id, b.from_, b.Position, b.Demerits)) =
      [(3, some 2, 9, 7703), (2, some 1, 5, 7702), (1, some 0, 3, 10201), (0, none, 0, 0)] ∧
    demeritsMonotone (linebreakWalk exampleEnv exDecreasing 0 (exSettings 30)).lb
      (chosenChain exampleEnv exDecreasing 0 (exSettings 30)) = false := by
  decide!

/-- C13, amended: on the chain that `Linebreak` chooses, a break point has at least the demerits
of its predecessor unless its position is a candidate with a penalty value between -10000 and 0
(both excluded), provided `DemeritsFitness` is not negative and the demerits stay in the range
of a 64 bit integer. -/
theorem C13_demerits_monotone (env : Env) (h : Heap) (p : Ref) (settings : LinebreakSettings)
    (hDF : 0 ≤ settings.DemeritsFitness)
    (hex : demeritsExact h (linebreakWalk env h p settings).lb = true) :
    ∀ b ∈ chosenChain env h p settings, ∀ a,
      bpFrom (linebreakWalk env h p settings).lb b = some a →
      ¬ (-10000 < (curPenalty h (linebreakWalk env h p settings).lb b.Position).1 ∧
        (curPenalty h (linebreakWalk env h p settings).lb b.Position).1 < 0) →
      a.Demerits ≤ b.Demerits := by
  intro b hb a hba hpen
  have hw : LbInv (linebreakWalk env h p settings).lb ∧
      Stored env h (linebreakWalk env h p settings).lb :=
    walkPrefix_stored h.length env h p settings
  have hball := chosenChain_subset env h p settings b hb
  have hs : (linebreakWalk env h p settings).lb.settings = settings :=
    linebreakWalk_settings env h p settings
  have hlink := link_demerits env h _ hw.1 hw.2 hex b a hball hba
  rw [hlink]
  have hnn : 0 ≤ lineContribution h (linebreakWalk env h p settings).lb b a := by
    unfold lineContribution
    cases b.R with
    | fin q =>
      simp only
      have h1 := beta_nonneg q
      have h2 : 0 ≤ penaltyPart
          (curPenalty h (linebreakWalk env h p settings).lb b.Position).1 := by
        unfold penaltyPart
        split
        · positivity
        · split
          · rename_i h3 h4
            exact absurd ⟨h4, by omega⟩ hpen
          · exact le_refl _
      have h3 : 0 ≤ fitnessPart (linebreakWalk env h p settings).lb.settings b.Fitness
          a.Fitness := by
        unfold fitnessPart
        rw [hs]
        split
        · exact hDF
        · exact le_refl _
      omega
    | nan => exact le_refl _
    | ninf => exact le_refl _
    | pinf => exact le_refl _
  omega

/-- Witness for C13: the chain of `exTwoPenalties` at `HSize` 10pt, with the demerits
0, 1, 2, 3. -/
theorem C13_demerits_monotone_witness :
    (0 : Int) ≤ (exSettings 10).DemeritsFitness ∧
    demeritsExact exTwoPenalties
      (linebreakWalk exampleEnv exTwoPenalties 0 (exSettings 10)).lb = true ∧
    (chosenChain exampleEnv exTwoPenalties 0 (exSettings 10)).map
      (fun b => (b.id, b.from_, b.Demerits)) =
      [(4, some 3, 3), (3, some 2, 2), (2, some 0, 1), (0, none, 0)] ∧
    ∀ b ∈ chosenChain exampleEnv exTwoPenalties 0 (exSettings 10), ∀ a,
      bpFrom (linebreakWalk exampleEnv exTwoPenalties 0 (exSettings 10)).lb b = some a →
      ¬ (-10000 < (curPenalty exTwoPenalties
          (linebreakWalk exampleEnv exTwoPenalties 0 (exSettings 10)).lb b.Position).1 ∧
        (curPenalty exTwoPenalties
          (linebreakWalk exampleEnv exTwoPenalties 0 (exSettings 10)).lb b.Position).1 < 0) →
      a.Demerits ≤ b.Demerits :=
  ⟨by decide!, by decide!, by decide!,
    C13_demerits_monotone exampleEnv exTwoPenalties 0 (exSettings 10) (by decide!)
      (by decide!)⟩

/-! ## The break points that are returned -/

theorem packLine_bps_mem (env : Env) (lb : linebreaker) (e : Breakpoint)
    (startPos : Option Ref) (st : BacktraceState) :
    ∀ x ∈ (packLine env lb e startPos st).bps, x ∈ st.bps ∨ x = e := by
  unfold packLine
  simp only
  split
  · intro x hx
    rcases List.mem_append.mp hx with hx | hx
    · exact Or.inl hx
    · exact Or.inr (List.mem_singleton.mp hx)
  · intro x hx
    exact Or.inl hx

theorem backtraceStep_bps_mem (env : Env) (lb : linebreaker) (e : Breakpoint)
    (st : BacktraceState) :
    ∀ x ∈ (backtraceStep env lb e st).bps, x ∈ st.bps ∨ x = e := by
  unfold backtraceStep
  simp only
  split
  · intro x hx
    exact Or.inl hx
  · exact packLine_bps_mem env lb e _ _

theorem backtraceLoop_bps_mem (fuel : Nat) (env : Env) (lb : linebreaker) :
    ∀ (e : Option Breakpoint) (st : BacktraceState),
      ∀ x ∈ (backtraceLoop fuel env lb e st).bps,
        x ∈ st.bps ∨ ∃ e0, e = some e0 ∧ x ∈ chainFrom lb fuel e0 := by
  induction fuel with
  | zero =>
    intro e st x hx
    cases e <;> exact Or.inl hx
  | succ k ih =>
    intro e st x hx
    cases e with
    | none => exact Or.inl hx
    | some b =>
      simp only [backtraceLoop] at hx
      rcases ih (bpFrom lb b) (backtraceStep env lb b st) x hx with h1 | ⟨e0, he0, hx0⟩
      · rcases backtraceStep_bps_mem env lb b st x h1 with h2 | h2
        · exact Or.inl h2
        · refine Or.inr ⟨b, rfl, ?_⟩
          rw [h2]
          unfold chainFrom
          exact List.mem_cons_self _ _
      · refine Or.inr ⟨b, rfl, ?_⟩
        unfold chainFrom
        rw [he0]
        exact List.mem_cons_of_mem _ hx0

theorem Linebreak_bps_chain (env : Env) (h : Heap) (p : Ref) (settings : LinebreakSettings) :
    ∀ x ∈ (Linebreak env h (some p) settings).bps, x ∈ chosenChain env h p settings := by
  intro x hx
  unfold chosenChain
  simp only [Linebreak] at hx
  cases hc : chooseLastNode (linebreakWalk env h p settings).lb with
  | none =>
    rw [hc] at hx
    cases hx
  | some last =>
    rw [hc] at hx
    simp only [List.mem_reverse] at hx
    rcases backtraceLoop_bps_mem _ env _ (some last) _ x hx with h1 | ⟨e0, he0, hx0⟩
    · simp only [List.mem_singleton] at h1
      rw [h1]
      have hpos : 0 < (linebreakWalk env h p settings).lb.nextId := by
        have hw := walkPrefix_stored h.length env h p settings
        have := hw.1.2.1 last (chooseLastNode_mem _ last hc)
        exact Nat.lt_of_le_of_lt (Nat.zero_le _) this
      obtain ⟨k, hk⟩ := Nat.exists_eq_succ_of_ne_zero (Nat.pos_iff_ne_zero.mp hpos)
      rw [hk]
      unfold chainFrom
      exact List.mem_cons_self _ _
    · injection he0 with he0
      rw [he0]
      exact hx0

theorem stored_feasible (env : Env) (h : Heap) (lb : linebreaker) (hst : Stored env h lb)
    (htol : (Float64.fin 0).lt lb.settings.Tolerance = true) :
    ∀ e ∈ lb.all, feasible lb e.R = true := by
  intro e he
  cases hfr : e.from_ with
  | none =>
    rw [((hst e he).1 hfr).2.1]
    unfold feasible
    rw [htol]
    rfl
  | some i =>
    obtain ⟨_, _, _, _, hfe, _⟩ := (hst e he).2 i hfr
    exact hfe

/-- C14: when the tolerance is positive, every break point in the sequence that `Linebreak`
returns has a recorded ratio `R` with `-1 ≤ R` and `R < Tolerance`. -/
theorem C14_ratio_in_window (env : Env) (h : Heap) (n : Option Ref)
    (settings : LinebreakSettings) (htol : (Float64.fin 0).lt settings.Tolerance = true) :
    ∀ b ∈ (Linebreak env h n settings).bps,
      (Float64.fin (-1)).le b.R = true ∧ b.R.lt settings.Tolerance = true := by
  intro b hb
  cases n with
  | none => cases hb
  | some p =>
    have hw : LbInv (linebreakWalk env h p settings).lb ∧
        Stored env h (linebreakWalk env h p settings).lb :=
      walkPrefix_stored h.length env h p settings
    have hs : (linebreakWalk env h p settings).lb.settings = settings :=
      linebreakWalk_settings env h p settings
    have hall := chosenChain_subset env h p settings b (Linebreak_bps_chain env h p settings b hb)
    have hfe := stored_feasible env h _ hw.2 (by rw [hs]; exact htol) b hall
    unfold feasible at hfe
    rw [hs, Bool.and_eq_true] at hfe
    exact hfe

/-- Witness for C14: the example paragraph at 25pt with the default tolerance, infinity. -/
theorem C14_ratio_in_window_witness :
    (Float64.fin 0).lt (exSettings 25).Tolerance = true ∧
    (Linebreak exampleEnv exParagraph (some 0) (exSettings 25)).bps.map Breakpoint.R =
      [Float64.fin 0] ∧
    ∀ b ∈ (Linebreak exampleEnv exParagraph (some 0) (exSettings 25)).bps,
      (Float64.fin (-1)).le b.R = true ∧ b.R.lt (exSettings 25).Tolerance = true :=
  ⟨by decide!, by decide!,
    C14_ratio_in_window exampleEnv exParagraph (some 0) (exSettings 25) (by decide!)⟩

/-! ## The walk, one iteration at a time -/

theorem walkLoop_zero (env : Env) (h : Heap) (e : Option Ref) (st : WalkState) :
    walkLoop 0 env h e st = st := by
  cases e <;> rfl

theorem walkLoop_succ (env : Env) (h : Heap) (k : Nat) :
    ∀ (e : Option Ref) (st : WalkState),
      walkLoop (k + 1) env h e st =
        match (walkCursor k h e).bind (fun c => (h.node c).map (fun v => (c, v))) with
        | some cv => walkStep env h cv.1 cv.2 (walkLoop k env h e st)
        | none => walkLoop k env h e st := by
  induction k with
  | zero =>
    intro e st
    cases e with
    | none => rfl
    | some x =>
      cases hn : h.node x with
      | none => simp [walkLoop, walkCursor, hn]
      | some v => simp [walkLoop, walkCursor, hn, walkLoop_zero]
  | succ k ih =>
    intro e st
    cases e with
    | none => rfl
    | some x =>
      cases hn : h.node x with
      | none => simp [walkLoop, walkCursor, hn]
      | some v =>
        have e1 : walkLoop (k + 1 + 1) env h (some x) st =
            walkLoop (k + 1) env h (h.Next x) (walkStep env h x v st) := by
          simp only [walkLoop, hn]
        have e2 : walkLoop (k + 1) env h (some x) st =
            walkLoop k env h (h.Next x) (walkStep env h x v st) := by
          simp only [walkLoop, hn]
        have e3 : walkCursor (k + 1) h (some x) = walkCursor k h (h.Next x) := by
          simp only [walkCursor, hn]
        rw [e1, e2, e3, ih]

theorem walkCursor_none (h : Heap) (k : Nat) : walkCursor k h none = none := by
  cases k <;> rfl

theorem walkCursor_succ (h : Heap) (k : Nat) :
    ∀ e : Option Ref,
      walkCursor (k + 1) h e =
        (walkCursor k h e).bind (fun c => (h.node c).bind (fun _ => h.Next c)) := by
  induction k with
  | zero =>
    intro e
    cases e with
    | none => rfl
    | some x =>
      cases hn : h.node x with
      | none => simp [walkCursor, hn]
      | some v => simp [walkCursor, hn]
  | succ k ih =>
    intro e
    cases e with
    | none => rfl
    | some x =>
      cases hn : h.node x with
      | none => simp [walkCursor, hn]
      | some v =>
        have e3 : ∀ j, walkCursor (j + 1) h (some x) = walkCursor j h (h.Next x) := by
          intro j
          simp only [walkCursor, hn]
        rw [e3, e3, ih]

theorem walkLoop_stable (env : Env) (h : Heap) (k : Nat) (e : Option Ref) (st : WalkState)
    (hc : walkCursor k h e = none) :
    ∀ j, walkLoop (k + j) env h e st = walkLoop k env h e st := by
  intro j
  induction j with
  | zero => rfl
  | succ j ih =>
    have hcj : walkCursor (k + j) h e = none := by
      clear ih
      induction j with
      | zero => exact hc
      | succ j ihj =>
        have := walkCursor_succ h (k + j) e
        rw [ihj] at this
        exact this
    rw [← Nat.add_assoc, walkLoop_succ, hcj]
    exact ih

/-! ## Forced breaks -/

theorem forcedBreak_eq (h : Heap) (n : Ref) (hpen : penaltiesInRange h = true) :
    forcedBreak h n = isForcedBreak h n := by
  unfold forcedBreak isForcedBreak
  cases hn : h.node n with
  | none => rfl
  | some v =>
    cases v with
    | penalty p w =>
      have := penaltiesInRange_node h hpen n p w hn
      simp only [decide_eq_decide]
      omega
    | _ => rfl

theorem created_position (env : Env) (h : Heap) (lb : linebreaker) (n : Ref)
    (src : List Breakpoint) (bp : Breakpoint) (hc : Created env h lb n src bp) :
    bp.Position = n := by
  obtain ⟨a, _, _, hbp⟩ := hc
  rw [hbp]
  rfl

theorem mainLoop_forced (env : Env) (h : Heap) (lb : linebreaker) (n : Ref)
    (hf : isForcedBreak h n = true) :
    (∀ b ∈ (mainLoop env h lb n).activeNodesA, b.Position = n) ∧
    (mainLoop env h lb n).inactiveNodesP = lb.activeNodesA.reverse ++ lb.inactiveNodesP := by
  obtain ⟨news, h1, h2, _, _, h5, _⟩ := mainLoop_spec env h lb n
  have hd : ∀ a, deactivates h lb n a = true := by
    intro a
    unfold deactivates
    rw [hf, Bool.or_true]
  have hfil : lb.activeNodesA.filter (deactivates h lb n) = lb.activeNodesA :=
    List.filter_eq_self.mpr (fun a _ => hd a)
  have hfil2 : lb.activeNodesA.filter (fun a => !deactivates h lb n a) = [] :=
    List.filter_eq_nil_iff.mpr (fun a _ => by rw [hd a]; simp)
  refine ⟨fun b hb => ?_, by rw [h2, hfil]⟩
  have := h1.subset hb
  rw [hfil2, List.nil_append] at this
  exact created_position env h lb n _ b (h5 b this)

theorem chooseLastNode_active (lb : linebreaker) (hne : lb.activeNodesA ≠ []) :
    ∃ c, chooseLastNode lb = some c ∧ c ∈ lb.activeNodesA := by
  unfold chooseLastNode
  cases hact : lb.activeNodesA with
  | nil => exact absurd hact hne
  | cons a rest =>
    simp only
    rcases chooseFold_spec (a :: rest) MaxInt (some a) with
      ⟨heq, _⟩ | ⟨pre, c1, post, hl, heq, _⟩
    · exact ⟨a, by rw [heq], List.mem_cons_self _ _⟩
    · refine ⟨c1, by rw [heq], ?_⟩
      rw [hl]
      exact List.mem_append_right _ (List.mem_cons_self _ _)

/-- The state of the walk when its last node `n`, reached after `k` iterations, has been
handled. -/
theorem linebreakWalk_last (env : Env) (h : Heap) (p : Ref) (settings : LinebreakSettings)
    (k : Nat) (n : Ref) (v : Node) (hk : k < h.length)
    (hcur : walkCursor k h (some p) = some n) (hnode : h.node n = some v)
    (hlast : h.Next n = none) :
    linebreakWalk env h p settings = walkStep env h n v (walkPrefix k env h p settings) := by
  have hc1 : walkCursor (k + 1) h (some p) = none := by
    rw [walkCursor_succ, hcur]
    simp [hnode, hlast]
  obtain ⟨j, hj⟩ : ∃ j, h.length = k + 1 + j := ⟨h.length - (k + 1), by omega⟩
  unfold linebreakWalk walkPrefix
  rw [hj, walkLoop_stable env h (k + 1) _ _ hc1 j, walkLoop_succ, hcur]
  simp [hnode]

/-- C17: for a nil list `Linebreak` returns a nil vertical list and no break points, whatever
the settings are. -/
theorem C17_nil_list (env : Env) (h : Heap) (settings : LinebreakSettings) :
    (Linebreak env h none settings).vl = none ∧ (Linebreak env h none settings).vert = [] ∧
    (Linebreak env h none settings).bps = [] ∧ (Linebreak env h none settings).heap = h :=
  ⟨rfl, rfl, rfl, rfl⟩

/-- C30 (counterexample): `mainLoop` at the Penalty(-20000), node 2, of Box(10pt), Glue(5pt
plus 2pt minus 1pt), Penalty(-20000), Glue, Box(10pt) with `HSize` 10pt.  The penalty is a forced
break in the words of the claim (`p ≤ -10000`).  Before the call the start break point and the
break point at the glue, node 1, are active; the line from the latter to the penalty has the
ratio +Inf, which is not less than -1, and the test `p.Penalty == -10000` fails, so this break
point stays on the active list: after the call it is active, it is not on the inactive list
and its position is not the penalty. -/
theorem C30_counterexample :
    forcedBreak exPenaltyBelowForced 2 = true ∧
    (walkPrefix 2 exampleEnv exPenaltyBelowForced 0 (exSettings 10)).lb.activeNodesA.map
      (fun b => (b.id, b.Position)) = [(0, 0), (1, 1)] ∧
    ((walkPrefix 2 exampleEnv exPenaltyBelowForced 0 (exSettings 10)).lb.activeNodesA.map
      fun a => computeAdjustmentRatio exPenaltyBelowForced
        (walkPrefix 2 exampleEnv exPenaltyBelowForced 0 (exSettings 10)).lb 2 a) =
      [Float64.fin (-5), Float64.pinf] ∧
    (mainLoop exampleEnv exPenaltyBelowForced
      (walkPrefix 2 exampleEnv exPenaltyBelowForced 0 (exSettings 10)).lb 2).activeNodesA.map
        (fun b => (b.id, b.Position)) = [(1, 1)] ∧
    (mainLoop exampleEnv exPenaltyBelowForced
      (walkPrefix 2 exampleEnv exPenaltyBelowForced 0 (exSettings 10)).lb 2).inactiveNodesP.map
        (fun b => (b.id, b.Position)) = [(0, 0)] := by
  decide!

/-- C30, amended: `mainLoop` moves exactly the active break points whose ratio is less than -1,
or all of them when `n` is a penalty of exactly -10000, to the front of the inactive list (the
one scanned last comes first); the others stay on the active list, together with the break
points created at `n`.  After `mainLoop` at a penalty of exactly -10000 every break point that
was active is on the inactive list and every active break point is positioned at `n`.  In a
list whose penalties are all at least -10000 the test is the one of the claim, `r < -1` or
`p ≤ -10000`. -/
theorem C30_deactivation (env : Env) (h : Heap) (lb : linebreaker) (n : Ref) :
    (∃ news : List Breakpoint,
      (mainLoop env h lb n).activeNodesA.Perm
        (lb.activeNodesA.filter (fun a => !deactivates h lb n a) ++ news) ∧
      ∀ bp ∈ news, bp.Position = n ∧ lb.nextId ≤ bp.id) ∧
    (mainLoop env h lb n).inactiveNodesP =
      (lb.activeNodesA.filter (deactivates h lb n)).reverse ++ lb.inactiveNodesP ∧
    (isForcedBreak h n = true →
      (∀ a ∈ lb.activeNodesA, a ∈ (mainLoop env h lb n).inactiveNodesP) ∧
      ∀ b ∈ (mainLoop env h lb n).activeNodesA, b.Position = n) ∧
    (penaltiesInRange h = true → tooWideOrForced h lb n = deactivates h lb n) := by
  obtain ⟨news, h1, h2, _, h4, h5, _⟩ := mainLoop_spec env h lb n
  refine ⟨⟨news, h1, ?_⟩, h2, ?_, ?_⟩
  · intro bp hb
    refine ⟨created_position env h lb n _ bp (h5 bp hb), ?_⟩
    have hm : bp.id ∈ news.map Breakpoint.id := List.mem_map_of_mem _ hb
    rw [h4, List.mem_range'_1] at hm
    exact hm.1
  · intro hf
    obtain ⟨g1, g2⟩ := mainLoop_forced env h lb n hf
    refine ⟨fun a ha => ?_, g1⟩
    rw [g2]
    exact List.mem_append_left _ (List.mem_reverse.mpr ha)
  · intro hpen
    funext a
    unfold tooWideOrForced deactivates
    rw [forcedBreak_eq h n hpen]

/-- Witness for C30: `mainLoop` at the final penalty of the example paragraph at 25pt, a
penalty of -10000. -/
theorem C30_deactivation_witness :
    isForcedBreak exParagraph 5 = true ∧ penaltiesInRange exParagraph = true ∧
    (walkPrefix 5 exampleEnv exParagraph 0 (exSettings 25)).lb.activeNodesA.map
      Breakpoint.Position = [0] ∧
    (mainLoop exampleEnv exParagraph
      (walkPrefix 5 exampleEnv exParagraph 0 (exSettings 25)).lb 5).activeNodesA.map
        Breakpoint.Position = [5] ∧
    (∀ a ∈ (walkPrefix 5 exampleEnv exParagraph 0 (exSettings 25)).lb.activeNodesA,
      a ∈ (mainLoop exampleEnv exParagraph
        (walkPrefix 5 exampleEnv exParagraph 0 (exSettings 25)).lb 5).inactiveNodesP) ∧
    tooWideOrForced exParagraph (walkPrefix 5 exampleEnv exParagraph 0 (exSettings 25)).lb 5 =
      deactivates exParagraph (walkPrefix 5 exampleEnv exParagraph 0 (exSettings 25)).lb 5 :=
  ⟨by decide!, by decide!, by decide!, by decide!,
    ((C30_deactivation exampleEnv exParagraph
      (walkPrefix 5 exampleEnv exParagraph 0 (exSettings 25)).lb 5).2.2.1 (by decide!)).1,
    (C30_deactivation exampleEnv exParagraph
      (walkPrefix 5 exampleEnv exParagraph 0 (exSettings 25)).lb 5).2.2.2 (by decide!)⟩

/-! ## The adjustment ratio -/

theorem computeAdjustmentRatio_eq (h : Heap) (lb : linebreaker) (n : Ref) (a : Breakpoint) :
    computeAdjustmentRatio h lb n a =
      if candidateWidth h lb n a < lb.settings.HSize then
        if lb.sumY - a.sumY > 0 then
          if lb.stretchFil > 0 ∨ lb.stretchFill > 0 ∨ lb.stretchFilll > 0 then Float64.fin 0
          else
            Float64.div (Float64.ofInt (lb.settings.HSize - candidateWidth h lb n a))
              (Float64.ofInt (lb.sumY - a.sumY))
        else positiveInf
      else if lb.settings.HSize < candidateWidth h lb n a then
        if lb.sumZ - a.sumZ > 0 then
          Float64.div (Float64.ofInt (lb.settings.HSize - candidateWidth h lb n a))
            (Float64.ofInt (lb.sumZ - a.sumZ))
        else positiveInf
      else Float64.fin 0 := by
  unfold computeAdjustmentRatio candidateWidth
  cases hn : h.node n with
  | none => simp
  | some v => cases v <;> simp

theorem div_ofInt (x y : Int) (hy : y ≠ 0) :
    Float64.div (Float64.ofInt x) (Float64.ofInt y) = Float64.fin ((x : ℚ) / (y : ℚ)) := by
  unfold Float64.ofInt Float64.div
  have : (y : ℚ) ≠ 0 := by exact_mod_cast hy
  simp [this]

/-- C27: when the candidate line is narrower than `HSize` and the finite stretch of the run from
`a` to `n` is not positive, `computeAdjustmentRatio` returns +Inf, whether or not the totals of
infinite stretch are positive. -/
theorem C27_infinite_stretch_needs_finite (h : Heap) (lb : linebreaker) (n : Ref)
    (a : Breakpoint) (hL : candidateWidth h lb n a < lb.settings.HSize)
    (hy : lb.sumY - a.sumY ≤ 0) :
    computeAdjustmentRatio h lb n a = positiveInf := by
  rw [computeAdjustmentRatio_eq, if_pos hL, if_neg (by linarith)]

/-- Witness for C27: at the final penalty of Box(10pt) with the forced-end helper and `HSize`
20pt the line from the start has the width 10pt and the run holds the glue 0pt plus 1fil,
but the ratio is +Inf, so that no break point is created there. -/
theorem C27_infinite_stretch_needs_finite_witness :
    candidateWidth exSingleBox (walkPrefix 3 exampleEnv exSingleBox 0 (exSettings 20)).lb 3
      (startBreakpoint 0) = pt 10 ∧
    (walkPrefix 3 exampleEnv exSingleBox 0 (exSettings 20)).lb.stretchFil -
      (startBreakpoint 0).stretchFil = pt 1 ∧
    (walkPrefix 3 exampleEnv exSingleBox 0 (exSettings 20)).lb.activeNodesA =
      [startBreakpoint 0] ∧
    (linebreakWalk exampleEnv exSingleBox 0 (exSettings 20)).lb.activeNodesA = [] ∧
    computeAdjustmentRatio exSingleBox
      (walkPrefix 3 exampleEnv exSingleBox 0 (exSettings 20)).lb 3 (startBreakpoint 0) =
      positiveInf :=
  ⟨by decide!, by decide!, by decide!, by decide!,
    C27_infinite_stretch_needs_finite exSingleBox
      (walkPrefix 3 exampleEnv exSingleBox 0 (exSettings 20)).lb 3 (startBreakpoint 0)
      (by decide!) (by decide!)⟩

/-- C28: with the candidate width `L` and no positive total of infinite stretch,
`computeAdjustmentRatio` returns 0 for `L = HSize`; for `L < HSize` the quotient
`(HSize - L) / (lb.sumY - a.sumY)` when this stretch is positive and +Inf otherwise; for
`L > HSize` the quotient `(HSize - L) / (lb.sumZ - a.sumZ)` when this shrink is positive and
+Inf otherwise. -/
theorem C28_adjustment_ratio (h : Heap) (lb : linebreaker) (n : Ref) (a : Breakpoint)
    (hinf : ¬ (lb.stretchFil > 0 ∨ lb.stretchFill > 0 ∨ lb.stretchFilll > 0)) :
    (candidateWidth h lb n a = lb.settings.HSize →
      computeAdjustmentRatio h lb n a = Float64.fin 0) ∧
    (candidateWidth h lb n a < lb.settings.HSize → 0 < lb.sumY - a.sumY →
      computeAdjustmentRatio h lb n a =
        Float64.fin (((lb.settings.HSize - candidateWidth h lb n a : Int) : ℚ) /
          ((lb.sumY - a.sumY : Int) : ℚ))) ∧
    (candidateWidth h lb n a < lb.settings.HSize → lb.sumY - a.sumY ≤ 0 →
      computeAdjustmentRatio h lb n a = positiveInf) ∧
    (lb.settings.HSize < candidateWidth h lb n a → 0 < lb.sumZ - a.sumZ →
      computeAdjustmentRatio h lb n a =
        Float64.fin (((lb.settings.HSize - candidateWidth h lb n a : Int) : ℚ) /
          ((lb.sumZ - a.sumZ : Int) : ℚ))) ∧
    (lb.settings.HSize < candidateWidth h lb n a → lb.sumZ - a.sumZ ≤ 0 →
      computeAdjustmentRatio h lb n a = positiveInf) := by
  refine ⟨fun h1 => ?_, fun h1 h2 => ?_, fun h1 h2 => ?_, fun h1 h2 => ?_, fun h1 h2 => ?_⟩
  · rw [computeAdjustmentRatio_eq, if_neg (by linarith), if_neg (by linarith)]
  · rw [computeAdjustmentRatio_eq, if_pos h1, if_pos (by linarith), if_neg hinf,
      div_ofInt _ _ (by linarith)]
  · rw [computeAdjustmentRatio_eq, if_pos h1, if_neg (by linarith)]
  · rw [computeAdjustmentRatio_eq, if_neg (by linarith), if_pos h1, if_pos (by linarith),
      div_ofInt _ _ (by linarith)]
  · rw [computeAdjustmentRatio_eq, if_neg (by linarith), if_pos h1, if_neg (by linarith)]

/-- Witness for C28: the line from the start of `exStretchLine` over Box(10pt), Glue(5pt plus 2pt
minus 1pt), Box(10pt) at `HSize` 30pt has the ratio (30 - 25) / 2. -/
theorem C28_adjustment_ratio_witness :
    candidateWidth exParagraph (walkPrefix 3 exampleEnv exParagraph 0 (exSettings 30)).lb 3
      (startBreakpoint 0) = pt 25 ∧
    (walkPrefix 3 exampleEnv exParagraph 0 (exSettings 30)).lb.sumY -
      (startBreakpoint 0).sumY = pt 2 ∧
    computeAdjustmentRatio exParagraph
      (walkPrefix 3 exampleEnv exParagraph 0 (exSettings 30)).lb 3 (startBreakpoint 0) =
      Float64.fin
        ((((walkPrefix 3 exampleEnv exParagraph 0 (exSettings 30)).lb.settings.HSize -
          candidateWidth exParagraph (walkPrefix 3 exampleEnv exParagraph 0 (exSettings 30)).lb 3
            (startBreakpoint 0) : Int) : ℚ) /
          (((walkPrefix 3 exampleEnv exParagraph 0 (exSettings 30)).lb.sumY -
            (startBreakpoint 0).sumY : Int) : ℚ)) ∧
    computeAdjustmentRatio exParagraph
      (walkPrefix 3 exampleEnv exParagraph 0 (exSettings 30)).lb 3 (startBreakpoint 0) =
      Float64.fin (5 / 2) :=
  ⟨by decide!, by decide!,
    (C28_adjustment_ratio exParagraph (walkPrefix 3 exampleEnv exParagraph 0 (exSettings 30)).lb
      3 (startBreakpoint 0) (by decide!)).2.1 (by decide!) (by decide!),
    by decide!⟩

theorem fitnessClass_fin (q : ℚ) :
    ((fitnessClass (Float64.fin q)).val : Int) = classOfRatio q := by
  unfold fitnessClass classOfRatio
  simp only [Float64.lt, Float64.le, decide_eq_true_eq]
  split_ifs <;> rfl

/-- C29: a break point that `mainLoop` creates stores a finite ratio `q` and the fitness class
of this ratio: 0 for `q < -0.5`, 1 for `-0.5 ≤ q ≤ 0.5`, 2 for `0.5 < q ≤ 1` and 3 for `q > 1`;
the class is one of 0, 1, 2, 3. -/
theorem C29_fitness_class (env : Env) (h : Heap) (lb : linebreaker) (n : Ref)
    (bp : Breakpoint) (hbp : bp ∈ (mainLoop env h lb n).activeNodesA)
    (hnew : bp ∉ lb.activeNodesA) :
    ∃ q : ℚ, bp.R = Float64.fin q ∧ bp.Fitness = classOfRatio q ∧
      (q < -1 / 2 → bp.Fitness = 0) ∧ (-1 / 2 ≤ q → q ≤ 1 / 2 → bp.Fitness = 1) ∧
      (1 / 2 < q → q ≤ 1 → bp.Fitness = 2) ∧ (1 < q → bp.Fitness = 3) ∧
      0 ≤ bp.Fitness ∧ bp.Fitness ≤ 3 := by
  obtain ⟨a, _, hfe, hcr⟩ := mainLoop_new env h lb n bp hbp hnew
  obtain ⟨q, hq, _⟩ := feasible_fin lb _ hfe
  have hR : bp.R = Float64.fin q := by rw [hcr, ← hq]; rfl
  have hF : bp.Fitness = classOfRatio q := by
    rw [← fitnessClass_fin, hcr, ← hq]
    rfl
  refine ⟨q, hR, hF, ?_, ?_, ?_, ?_, ?_, ?_⟩
  · intro h1
    rw [hF]
    unfold classOfRatio
    rw [if_pos h1]
  · intro h1 h2
    rw [hF]
    unfold classOfRatio
    rw [if_neg (not_lt.mpr h1), if_pos h2]
  · intro h1 h2
    rw [hF]
    unfold classOfRatio
    rw [if_neg (by linarith), if_neg (not_le.mpr h1), if_pos h2]
  · intro h1
    rw [hF]
    unfold classOfRatio
    rw [if_neg (by linarith), if_neg (by linarith), if_neg (not_le.mpr h1)]
  · rw [hF]
    unfold classOfRatio
    split_ifs <;> decide
  · rw [hF]
    unfold classOfRatio
    split_ifs <;> decide

/-- Witness for C29: the break point created at the first penalty of `exTwoPenalties` at
`HSize` 10pt has the ratio 0 and the class 1. -/
theorem C29_fitness_class_witness :
    createdFrom exampleEnv exTwoPenalties
      (walkPrefix 1 exampleEnv exTwoPenalties 0 (exSettings 10)).lb 1 (startBreakpoint 0) 1 ∈
      (mainLoop exampleEnv exTwoPenalties
        (walkPrefix 1 exampleEnv exTwoPenalties 0 (exSettings 10)).lb 1).activeNodesA ∧
    createdFrom exampleEnv exTwoPenalties
      (walkPrefix 1 exampleEnv exTwoPenalties 0 (exSettings 10)).lb 1 (startBreakpoint 0) 1 ∉
      (walkPrefix 1 exampleEnv exTwoPenalties 0 (exSettings 10)).lb.activeNodesA ∧
    (createdFrom exampleEnv exTwoPenalties
      (walkPrefix 1 exampleEnv exTwoPenalties 0 (exSettings 10)).lb 1 (startBreakpoint 0)
      1).Fitness = 1 ∧
    ∃ q : ℚ, (createdFrom exampleEnv exTwoPenalties
      (walkPrefix 1 exampleEnv exTwoPenalties 0 (exSettings 10)).lb 1 (startBreakpoint 0)
      1).R = Float64.fin q :=
  ⟨by decide!, by decide!, by decide!, by
    obtain ⟨q, hq, _⟩ := C29_fitness_class exampleEnv exTwoPenalties
      (walkPrefix 1 exampleEnv exTwoPenalties 0 (exSettings 10)).lb 1
      (createdFrom exampleEnv exTwoPenalties
        (walkPrefix 1 exampleEnv exTwoPenalties 0 (exSettings 10)).lb 1 (startBreakpoint 0) 1)
      (by decide!) (by decide!)
    exact ⟨q, hq⟩⟩

/-! ## Links after an insertion -/

theorem Heap.length_SetNext (h : Heap) (p : Nat) (v : Option Ref) :
    (h.SetNext p v).length = h.length := by
  unfold Heap.SetNext
  cases h[p]? <;> simp

theorem Heap.length_SetPrev (h : Heap) (p : Nat) (v : Option Ref) :
    (h.SetPrev p v).length = h.length := by
  unfold Heap.SetPrev
  cases h[p]? <;> simp

theorem Heap.Next_SetNext (h : Heap) (p : Nat) (v : Option Ref) (q : Nat) :
    (h.SetNext p v).Next q = if q = p ∧ p < h.length then v else h.Next q := by
  unfold Heap.SetNext Heap.Next
  cases hp : h[p]? with
  | none =>
    have : ¬ p < h.length := by
      intro hlt
      rw [List.getElem?_eq_getElem hlt] at hp
      cases hp
    simp [this]
  | some c =>
    have hlt : p < h.length := by
      by_contra hge
      rw [List.getElem?_eq_none (by omega)] at hp
      cases hp
    simp only
    by_cases hpq : q = p
    · subst hpq
      rw [List.getElem?_set_self hlt]
      simp [hlt]
    · rw [List.getElem?_set_ne (fun h1 => hpq h1.symm)]
      simp [hpq]

theorem Heap.Prev_SetPrev (h : Heap) (p : Nat) (v : Option Ref) (q : Nat) :
    (h.SetPrev p v).Prev q = if q = p ∧ p < h.length then v else h.Prev q := by
  unfold Heap.SetPrev Heap.Prev
  cases hp : h[p]? with
  | none =>
    have : ¬ p < h.length := by
      intro hlt
      rw [List.getElem?_eq_getElem hlt] at hp
      cases hp
    simp [this]
  | some c =>
    have hlt : p < h.length := by
      by_contra hge
      rw [List.getElem?_eq_none (by omega)] at hp
      cases hp
    simp only
    by_cases hpq : q = p
    · subst hpq
      rw [List.getElem?_set_self hlt]
      simp [hlt]
    · rw [List.getElem?_set_ne (fun h1 => hpq h1.symm)]
      simp [hpq]

theorem Heap.Next_SetPrev (h : Heap) (p : Nat) (v : Option Ref) (q : Nat) :
    (h.SetPrev p v).Next q = h.Next q := by
  unfold Heap.SetPrev Heap.Next
  cases hp : h[p]? with
  | none => rfl
  | some c =>
    simp only
    by_cases hpq : p = q
    · subst hpq
      rw [List.getElem?_set_self', hp]
      rfl
    · rw [List.getElem?_set_ne hpq]

theorem Heap.Prev_SetNext (h : Heap) (p : Nat) (v : Option Ref) (q : Nat) :
    (h.SetNext p v).Prev q = h.Prev q := by
  unfold Heap.SetNext Heap.Prev
  cases hp : h[p]? with
  | none => rfl
  | some c =>
    simp only
    by_cases hpq : p = q
    · subst hpq
      rw [List.getElem?_set_self', hp]
      rfl
    · rw [List.getElem?_set_ne hpq]

theorem Heap.Next_of_ge (h : Heap) (q : Nat) (hq : h.length ≤ q) : h.Next q = none := by
  unfold Heap.Next
  rw [List.getElem?_eq_none hq]
  rfl

theorem Heap.Prev_of_ge (h : Heap) (q : Nat) (hq : h.length ≤ q) : h.Prev q = none := by
  unfold Heap.Prev
  rw [List.getElem?_eq_none hq]
  rfl

theorem Heap.node_of_ge (h : Heap) (q : Nat) (hq : h.length ≤ q) : h.node q = none := by
  unfold Heap.node
  rw [List.getElem?_eq_none hq]
  rfl

theorem Heap.alloc_length (h : Heap) (v : Node) : (h.alloc v).1.length = h.length + 1 := by
  simp [Heap.alloc]

theorem Heap.alloc_ref (h : Heap) (v : Node) : (h.alloc v).2 = h.length := rfl

theorem Heap.alloc_Next (h : Heap) (v : Node) (q : Nat) : (h.alloc v).1.Next q = h.Next q := by
  unfold Heap.alloc Heap.Next
  by_cases hq : q < h.length
  · rw [List.getElem?_append_left hq]
  · by_cases hq2 : q = h.length
    · subst hq2
      simp
    · rw [List.getElem?_eq_none (by simp; omega), List.getElem?_eq_none (by omega)]

theorem Heap.alloc_Prev (h : Heap) (v : Node) (q : Nat) : (h.alloc v).1.Prev q = h.Prev q := by
  unfold Heap.alloc Heap.Prev
  by_cases hq : q < h.length
  · rw [List.getElem?_append_left hq]
  · by_cases hq2 : q = h.length
    · subst hq2
      simp
    · rw [List.getElem?_eq_none (by simp; omega), List.getElem?_eq_none (by omega)]

theorem Heap.alloc_node (h : Heap) (v : Node) (q : Nat) :
    (h.alloc v).1.node q = if q = h.length then some v else h.node q := by
  unfold Heap.alloc Heap.node
  by_cases hq : q < h.length
  · rw [List.getElem?_append_left hq, if_neg (by omega)]
  · by_cases hq2 : q = h.length
    · subst hq2
      simp
    · rw [List.getElem?_eq_none (by simp; omega), List.getElem?_eq_none (by omega),
        if_neg hq2]

/-- The links after `InsertAfter` with a current node `c`: all pointers concerned address
cells of the heap. -/
theorem InsertAfter_links (h : Heap) (head : Option Ref) (c ins : Nat) (hc : c < h.length)
    (hi : ins < h.length) (hcn : ∀ cn : Nat, h.Next c = some cn → cn < h.length)
    (hne : ins ≠ c) :
    (∀ q : Nat, (InsertAfter h head (some c) ins).1.Next q =
      if q = c then some ins
      else if q = ins then (if (h.Next c).isSome then h.Next c else h.Next ins)
      else h.Next q) ∧
    (∀ q : Nat, (InsertAfter h head (some c) ins).1.Prev q =
      if q = ins then some c else if h.Next c = some q then some ins else h.Prev q) ∧
    (∀ q : Nat, (InsertAfter h head (some c) ins).1.node q = h.node q) ∧
    (InsertAfter h head (some c) ins).1.length = h.length ∧
    (InsertAfter h head (some c) ins).2 = some (head.getD c) := by
  have hfst : (InsertAfter h head (some c) ins).1 =
      (((match h.Next c with
        | some cn => (h.SetNext ins (some cn)).SetPrev cn (some ins)
        | none => h).SetNext c (some ins)).SetPrev ins (some c)) := by
    unfold InsertAfter
    cases head <;> rfl
  have hsnd : (InsertAfter h head (some c) ins).2 = some (head.getD c) := by
    unfold InsertAfter
    cases head <;> rfl
  refine ⟨fun q => ?_, fun q => ?_, fun q => ?_, ?_, hsnd⟩
  · rw [hfst, Heap.Next_SetPrev, Heap.Next_SetNext]
    cases hnx : h.Next c with
    | none =>
      simp only [Option.isSome_none, Bool.false_eq_true, if_false]
      by_cases hq : q = c
      · simp [hq, hc]
      · by_cases hq2 : q = ins
        · simp [hq, hq2, hne]
        · simp [hq, hq2]
    | some cn =>
      simp only [Option.isSome_some, if_true, Heap.length_SetPrev, Heap.length_SetNext,
        Heap.Next_SetPrev, Heap.Next_SetNext]
      by_cases hq : q = c
      · simp [hq, hc]
      · by_cases hq2 : q = ins
        · simp [hq2, hi, hne]
        · simp [hq, hq2]
  · rw [hfst, Heap.Prev_SetPrev, Heap.Prev_SetNext, Heap.length_SetNext]
    cases hnx : h.Next c with
    | none =>
      simp only
      by_cases hq : q = ins
      · simp [hq, hi]
      · simp [hq]
    | some cn =>
      have hcnl := hcn cn hnx
      simp only [Heap.length_SetPrev, Heap.length_SetNext, Heap.Prev_SetPrev,
        Heap.Prev_SetNext, Option.some.injEq]
      by_cases hq : q = ins
      · simp [hq, hi]
      · by_cases hq2 : q = cn
        · have hq4 : ¬ cn = ins := fun h1 => hq (hq2.trans h1)
          simp [hq2, hcnl, hq4]
        · have hq3 : ¬ cn = q := fun h1 => hq2 h1.symm
          simp [hq, hq2, hq3]
  · rw [hfst, Heap.node_SetPrev, Heap.node_SetNext]
    cases hnx : h.Next c with
    | none => rfl
    | some cn => simp only [Heap.node_SetPrev, Heap.node_SetNext]
  · rw [hfst, Heap.length_SetPrev, Heap.length_SetNext]
    cases hnx : h.Next c with
    | none => rfl
    | some cn => simp only [Heap.length_SetPrev, Heap.length_SetNext]

/-- C24: `InsertAfter(head, cur, insert)` with a current node `c` and a single node `ins` links
`ins` directly behind `c`: `c.next` is `ins`, `ins.prev` is `c`, the former successor of `c`, if
any, follows `ins` and has `ins` as its `prev`; no other link and no node changes, and `head` is
returned.  With a nil current node the heap is left as it is and `ins` is returned. -/
theorem C24_InsertAfter (h : Heap) (head c ins : Ref) (hc : c < h.length)
    (hi : ins < h.length) (hne : ins ≠ c)
    (hcn : ∀ cn, h.Next c = some cn → cn < h.length ∧ cn ≠ ins)
    (hsingle : h.Next ins = none ∧ h.Prev ins = none) :
    (InsertAfter h (some head) (some c) ins).2 = some head ∧
    (InsertAfter h (some head) (some c) ins).1.Next c = some ins ∧
    (InsertAfter h (some head) (some c) ins).1.Prev ins = some c ∧
    (InsertAfter h (some head) (some c) ins).1.Next ins = h.Next c ∧
    (∀ cn, h.Next c = some cn →
      (InsertAfter h (some head) (some c) ins).1.Prev cn = some ins) ∧
    (∀ q, q ≠ c → q ≠ ins → (InsertAfter h (some head) (some c) ins).1.Next q = h.Next q) ∧
    (∀ q, q ≠ ins → h.Next c ≠ some q →
      (InsertAfter h (some head) (some c) ins).1.Prev q = h.Prev q) ∧
    (∀ q, (InsertAfter h (some head) (some c) ins).1.node q = h.node q) ∧
    ∀ hd, InsertAfter h hd none ins = (h, some ins) := by
  obtain ⟨hN, hP, hnode, _, hhd⟩ :=
    InsertAfter_links h (some head) c ins hc hi (fun cn h1 => (hcn cn h1).1) hne
  refine ⟨hhd, ?_, ?_, ?_, ?_, ?_, ?_, hnode, fun hd => rfl⟩
  · rw [hN, if_pos rfl]
  · rw [hP, if_pos rfl]
  · rw [hN, if_neg hne, if_pos rfl]
    cases hnx : h.Next c with
    | none => simp [hsingle.1]
    | some cn => simp
  · intro cn h1
    rw [hP, if_neg (hcn cn h1).2, if_pos h1]
  · intro q h1 h2
    rw [hN, if_neg h1, if_neg h2]
  · intro q h1 h2
    rw [hP, if_neg h1, if_neg h2]

/-- Witness for C24: the single Box(5pt), node 2, is inserted behind the first node of the list
Box(10pt), Box(20pt). -/
theorem C24_InsertAfter_witness :
    exTwoBoxesAndOne.Next 0 = some 1 ∧
    (exTwoBoxesAndOne.Next 2 = none ∧ exTwoBoxesAndOne.Prev 2 = none) ∧
    (InsertAfter exTwoBoxesAndOne (some 0) (some 0) 2).1.Next 0 = some 2 ∧
    (InsertAfter exTwoBoxesAndOne (some 0) (some 0) 2).1.Next 2 = some 1 ∧
    (InsertAfter exTwoBoxesAndOne (some 0) (some 0) 2).1.Prev 1 = some 2 ∧
    (InsertAfter exTwoBoxesAndOne (some 0) (some 0) 2).1.Prev 2 = some 0 ∧
    (InsertAfter exTwoBoxesAndOne (some 0) (some 0) 2).2 = some 0 :=
  ⟨by decide!, by decide!, by decide!, by decide!, by decide!, by decide!,
    (C24_InsertAfter exTwoBoxesAndOne 0 0 2 (by decide!) (by decide!) (by decide)
      (fun cn h1 => by
        have h2 : exTwoBoxesAndOne.Next 0 = some 1 := by decide!
        rw [h2] at h1
        injection h1 with h1
        rw [← h1]
        exact ⟨by decide!, by decide⟩)
      (by decide!)).1⟩

/-- C23: `AppendLineEndAfter(n)` allocates exactly three nodes and links them directly behind
`n` in this order: a penalty 10000, a glue of width 0 with the stretch `1 * bag.Factor` of order
fil, and a penalty -10000; the former successor of `n`, if any, follows the last of them.  The
nodes that existed before keep their contents, and their links change only at `n.next` and at
the `prev` of the former successor. -/
theorem C23_AppendLineEndAfter (env : Env) (h : Heap) (c : Nat) (hc : c < h.length)
    (hcn : ∀ cn : Nat, h.Next c = some cn → cn < h.length) :
    (AppendLineEndAfter env h (some c)).length = h.length + 3 ∧
    ((AppendLineEndAfter env h (some c)).node h.length = some (Node.penalty 10000 0) ∧
      (AppendLineEndAfter env h (some c)).node (h.length + 1) =
        some (helperGlue env) ∧
      (AppendLineEndAfter env h (some c)).node (h.length + 2) =
        some (Node.penalty (-10000) 0)) ∧
    ((AppendLineEndAfter env h (some c)).Next c = some h.length ∧
      (AppendLineEndAfter env h (some c)).Next h.length = some (h.length + 1) ∧
      (AppendLineEndAfter env h (some c)).Next (h.length + 1) = some (h.length + 2) ∧
      (AppendLineEndAfter env h (some c)).Next (h.length + 2) = h.Next c) ∧
    ((AppendLineEndAfter env h (some c)).Prev h.length = some c ∧
      (AppendLineEndAfter env h (some c)).Prev (h.length + 1) = some h.length ∧
      (AppendLineEndAfter env h (some c)).Prev (h.length + 2) = some (h.length + 1) ∧
      ∀ cn, h.Next c = some cn →
        (AppendLineEndAfter env h (some c)).Prev cn = some (h.length + 2)) ∧
    (∀ q, q < h.length → (AppendLineEndAfter env h (some c)).node q = h.node q) ∧
    (∀ q, q < h.length → q ≠ c → (AppendLineEndAfter env h (some c)).Next q = h.Next q) ∧
    (∀ q, q < h.length → h.Next c ≠ some q →
      (AppendLineEndAfter env h (some c)).Prev q = h.Prev q) := by
  have hcL : (c : Nat) < h.length := hc
  -- first insertion
  have a1len := Heap.alloc_length h (Node.penalty 10000 0)
  obtain ⟨N1, P1, D1, L1, _⟩ := InsertAfter_links (h.alloc (Node.penalty 10000 0)).1 (some c) c
    h.length (by rw [a1len]; omega) (by rw [a1len]; omega)
    (fun cn h1 => by
      rw [Heap.alloc_Next] at h1
      have := hcn cn h1
      rw [a1len]
      omega)
    (by omega)
  simp only [Heap.alloc_Next, Heap.alloc_Prev, Heap.alloc_node, a1len] at N1 P1 D1 L1
  generalize hh1 : (InsertAfter (h.alloc (Node.penalty 10000 0)).1 (some c) (some c)
    h.length).1 = h1 at N1 P1 D1 L1
  -- second insertion
  have a2len := Heap.alloc_length h1 (helperGlue env)
  have hN1L : h1.Next h.length = if (h.Next c).isSome then h.Next c else none := by
    rw [N1, if_neg (by omega), if_pos rfl, Heap.Next_of_ge h h.length (le_refl _)]
  obtain ⟨N2, P2, D2, L2, _⟩ := InsertAfter_links
    (h1.alloc (helperGlue env)).1 (some c) h.length (h.length + 1)
    (by rw [a2len, L1]; omega) (by rw [a2len, L1]; omega)
    (fun cn h1n => by
      rw [Heap.alloc_Next, hN1L] at h1n
      rw [a2len, L1]
      cases hnx : h.Next c with
      | none => rw [hnx] at h1n; simp at h1n
      | some x =>
        rw [hnx] at h1n
        simp only [Option.isSome_some, if_true, Option.some.injEq] at h1n
        have h5 : cn < h.length := h1n ▸ hcn x hnx
        omega)
    (by omega)
  simp only [Heap.alloc_Next, Heap.alloc_Prev, Heap.alloc_node, a2len, L1] at N2 P2 D2 L2
  generalize hh2 : (InsertAfter (h1.alloc (helperGlue env)).1 (some c) (some h.length)
    (h.length + 1)).1 = h2 at N2 P2 D2 L2
  -- third insertion
  have a3len := Heap.alloc_length h2 (Node.penalty (-10000) 0)
  have hN2L : h2.Next (h.length + 1) = if (h.Next c).isSome then h.Next c else none := by
    rw [N2, if_neg (by omega), if_pos rfl, hN1L, Heap.Next_of_ge h1 (h.length + 1) (by omega)]
    cases h.Next c <;> simp
  obtain ⟨N3, P3, D3, L3, _⟩ := InsertAfter_links (h2.alloc (Node.penalty (-10000) 0)).1
    (some c) (h.length + 1) (h.length + 2)
    (by rw [a3len, L2]; omega) (by rw [a3len, L2]; omega)
    (fun cn h1n => by
      rw [Heap.alloc_Next, hN2L] at h1n
      rw [a3len, L2]
      cases hnx : h.Next c with
      | none => rw [hnx] at h1n; simp at h1n
      | some x =>
        rw [hnx] at h1n
        simp only [Option.isSome_some, if_true, Option.some.injEq] at h1n
        have h5 : cn < h.length := h1n ▸ hcn x hnx
        omega)
    (by omega)
  simp only [Heap.alloc_Next, Heap.alloc_Prev, Heap.alloc_node, a3len, L2] at N3 P3 D3 L3
  have hres : AppendLineEndAfter env h (some c) =
      (InsertAfter (h2.alloc (Node.penalty (-10000) 0)).1 (some c) (some (h.length + 1))
        (h.length + 2)).1 := by
    have hdef : AppendLineEndAfter env h (some c) =
        (InsertAfter ((InsertAfter ((InsertAfter (h.alloc (Node.penalty 10000 0)).1 (some c)
          (some c) h.length).1.alloc (helperGlue env)).1 (some c) (some h.length)
          (InsertAfter (h.alloc (Node.penalty 10000 0)).1 (some c) (some c)
            h.length).1.length).1.alloc (Node.penalty (-10000) 0)).1 (some c)
          (some (InsertAfter (h.alloc (Node.penalty 10000 0)).1 (some c) (some c)
            h.length).1.length)
          (InsertAfter ((InsertAfter (h.alloc (Node.penalty 10000 0)).1 (some c)
            (some c) h.length).1.alloc (helperGlue env)).1 (some c) (some h.length)
            (InsertAfter (h.alloc (Node.penalty 10000 0)).1 (some c) (some c)
              h.length).1.length).1.length).1 := rfl
    rw [hdef, hh1, L1, hh2, L2]
  rw [hres]
  generalize (InsertAfter (h2.alloc (Node.penalty (-10000) 0)).1 (some c)
    (some (h.length + 1)) (h.length + 2)).1 = h3 at N3 P3 D3 L3
  have e1 : h.length ≠ c := by omega
  have e2 : h.length + 1 ≠ c := by omega
  have e3 : h.length + 2 ≠ c := by omega
  have g0 : h.Next h.length = none := Heap.Next_of_ge h _ (le_refl _)
  have g1 : h.Next (h.length + 1) = none := Heap.Next_of_ge h _ (by omega)
  have g2 : h.Next (h.length + 2) = none := Heap.Next_of_ge h _ (by omega)
  have p0 : h.Prev h.length = none := Heap.Prev_of_ge h _ (le_refl _)
  have p1 : h.Prev (h.length + 1) = none := Heap.Prev_of_ge h _ (by omega)
  have p2 : h.Prev (h.length + 2) = none := Heap.Prev_of_ge h _ (by omega)
  have n0 : h.node h.length = none := Heap.node_of_ge h _ (le_refl _)
  have n1 : h.node (h.length + 1) = none := Heap.node_of_ge h _ (by omega)
  have n2 : h.node (h.length + 2) = none := Heap.node_of_ge h _ (by omega)
  have c0 : h.Next c ≠ some h.length := fun h1 => absurd (hcn _ h1) (lt_irrefl _)
  have c1 : h.Next c ≠ some (h.length + 1) := fun h1 => absurd (hcn _ h1) (by omega)
  have c2 : h.Next c ≠ some (h.length + 2) := fun h1 => absurd (hcn _ h1) (by omega)
  have hNc : ∀ x : Option Ref, (if x.isSome = true then x else none) = x := by
    intro x
    cases x <;> rfl
  simp only [hNc] at hN1L hN2L
  have hN1' : ∀ q : Nat, h1.Next q =
      if q = c then some h.length else if q = h.length then h.Next c else h.Next q := by
    intro q
    rw [N1, g0, hNc]
  have hN2' : ∀ q : Nat, h2.Next q =
      if q = h.length then some (h.length + 1)
      else if q = h.length + 1 then h.Next c else h1.Next q := by
    intro q
    rw [N2, hN1L, Heap.Next_of_ge h1 (h.length + 1) (by omega), hNc]
  have hN3' : ∀ q : Nat, h3.Next q =
      if q = h.length + 1 then some (h.length + 2)
      else if q = h.length + 2 then h.Next c else h2.Next q := by
    intro q
    rw [N3, hN2L, Heap.Next_of_ge h2 (h.length + 2) (by omega), hNc]
  have hP2' : ∀ q : Nat, h2.Prev q =
      if q = h.length + 1 then some h.length
      else if h.Next c = some q then some (h.length + 1) else h1.Prev q := by
    intro q
    rw [P2, hN1L]
  have hP3' : ∀ q : Nat, h3.Prev q =
      if q = h.length + 2 then some (h.length + 1)
      else if h.Next c = some q then some (h.length + 2) else h2.Prev q := by
    intro q
    rw [P3, hN2L]
  refine ⟨by omega, ⟨?_, ?_, ?_⟩, ⟨?_, ?_, ?_, ?_⟩, ⟨?_, ?_, ?_, ?_⟩, ?_, ?_, ?_⟩
  · rw [D3, if_neg (by omega), D2, if_neg (by omega), D1, if_pos rfl]
  · rw [D3, if_neg (by omega), D2, if_pos rfl]
  · rw [D3, if_pos rfl]
  · rw [hN3', if_neg (by omega), if_neg (by omega), hN2', if_neg (by omega),
      if_neg (by omega), hN1', if_pos rfl]
  · rw [hN3', if_neg (by omega), if_neg (by omega), hN2', if_pos rfl]
  · rw [hN3', if_pos rfl]
  · rw [hN3', if_neg (by omega), if_pos rfl]
  · rw [hP3', if_neg (by omega), if_neg c0, hP2', if_neg (by omega), if_neg c0, P1,
      if_pos rfl]
  · rw [hP3', if_neg (by omega), if_neg c1, hP2', if_pos rfl]
  · rw [hP3', if_pos rfl]
  · intro cn hnx
    have hcnl := hcn cn hnx
    rw [hP3', if_neg (by omega), if_pos hnx]
  · intro q hq
    rw [D3, if_neg (by omega), D2, if_neg (by omega), D1, if_neg (by omega)]
  · intro q hq hqc
    rw [hN3', if_neg (by omega), if_neg (by omega), hN2', if_neg (by omega),
      if_neg (by omega), hN1', if_neg hqc, if_neg (by omega)]
  · intro q hq hqn
    rw [hP3', if_neg (by omega), if_neg hqn, hP2', if_neg (by omega), if_neg hqn, P1,
      if_neg (by omega), if_neg hqn]

/-- Witness for C23: the helper nodes are added behind the first node of the list Box(10pt),
Box(20pt): the list becomes node 0, nodes 2, 3, 4 (the new ones), node 1. -/
theorem C23_AppendLineEndAfter_witness :
    (mkList [exBox 10, exBox 20]).Next 0 = some 1 ∧
    (AppendLineEndAfter exampleEnv (mkList [exBox 10, exBox 20]) (some 0)).Next 0 = some 2 ∧
    (AppendLineEndAfter exampleEnv (mkList [exBox 10, exBox 20]) (some 0)).Next 4 = some 1 ∧
    (AppendLineEndAfter exampleEnv (mkList [exBox 10, exBox 20]) (some 0)).Prev 1 = some 4 ∧
    (AppendLineEndAfter exampleEnv (mkList [exBox 10, exBox 20]) (some 0)).length =
      (mkList [exBox 10, exBox 20]).length + 3 :=
  ⟨by decide!, by decide!, by decide!, by decide!,
    (C23_AppendLineEndAfter exampleEnv (mkList [exBox 10, exBox 20]) 0 (by decide!)
      (fun cn h1 => by
        have h2 : (mkList [exBox 10, exBox 20]).Next 0 = some 1 := by decide!
        rw [h2] at h1
        have h3 : (1 : Nat) = cn := Option.some.inj h1
        rw [← h3]
        decide!)).1⟩

/-! ## Where the main loop is invoked -/

theorem walkPrefix_succ (env : Env) (h : Heap) (p : Ref) (settings : LinebreakSettings)
    (k : Nat) :
    walkPrefix (k + 1) env h p settings =
      match (walkCursor k h (some p)).bind (fun c => (h.node c).map (fun v => (c, v))) with
      | some cv => walkStep env h cv.1 cv.2 (walkPrefix k env h p settings)
      | none => walkPrefix k env h p settings := by
  unfold walkPrefix
  exact walkLoop_succ env h k _ _

theorem mainLoop_all_mem (env : Env) (h : Heap) (lb : linebreaker) (c : Ref) :
    ∀ e ∈ (mainLoop env h lb c).all, e ∈ lb.all ∨ e.Position = c := by
  obtain ⟨news, hp, _, _, _, _, hc⟩ := mainLoop_all_perm env h lb c
  intro e he
  rcases List.mem_append.mp (hp.subset he) with h1 | h1
  · exact Or.inl h1
  · exact Or.inr (created_position env h lb c _ e (hc e h1))

theorem addGlue_all (lb : linebreaker) (t : Glue) : (addGlue lb t).all = lb.all := by
  unfold linebreaker.all
  rw [(addGlue_lists lb t).1, (addGlue_lists lb t).2.1]

/-- The break points after one iteration of the walk are the old ones and, when the node is
one at which `mainLoop` is invoked, break points at this node. -/
theorem walkStep_new_bps (env : Env) (h : Heap) (c : Ref) (v : Node) (st : WalkState) :
    ∀ e ∈ (walkStep env h c v st).lb.all, e ∈ st.lb.all ∨
      (e.Position = c ∧
        match v with
        | Node.penalty pv _ => pv < 10000
        | Node.disc _ _ => True
        | Node.glue _ => st.prevItemBox = true
        | _ => False) := by
  intro e he
  cases v with
  | glue t =>
    simp only [walkStep, addGlue_all] at he
    by_cases hb : st.prevItemBox = true
    · rw [if_pos hb] at he
      rcases mainLoop_all_mem env h st.lb c e he with h1 | h1
      · exact Or.inl h1
      · exact Or.inr ⟨h1, hb⟩
    · rw [if_neg hb] at he
      exact Or.inl he
  | penalty pv w =>
    simp only [walkStep] at he
    by_cases hb : pv < 10000
    · rw [if_pos hb] at he
      rcases mainLoop_all_mem env h st.lb c e he with h1 | h1
      · exact Or.inl h1
      · exact Or.inr ⟨h1, hb⟩
    · rw [if_neg hb] at he
      exact Or.inl he
  | disc pre pv =>
    simp only [walkStep] at he
    rcases mainLoop_all_mem env h st.lb c e he with h1 | h1
    · exact Or.inl h1
    · exact Or.inr ⟨h1, trivial⟩
  | _ => exact Or.inl he

theorem walkStep_prevItemBox (env : Env) (h : Heap) (c : Ref) (v : Node) (st : WalkState) :
    (walkStep env h c v st).prevItemBox = setsPrevItemBox v := by
  cases v <;> rfl

theorem walkPrefix_succ_some (env : Env) (h : Heap) (p : Ref) (settings : LinebreakSettings)
    (k : Nat) (c : Ref) (v : Node) (hcur : walkCursor k h (some p) = some c)
    (hnode : h.node c = some v) :
    walkPrefix (k + 1) env h p settings = walkStep env h c v (walkPrefix k env h p settings) := by
  have hb : (walkCursor k h (some p)).bind (fun c => (h.node c).map (fun v => (c, v))) =
      some (c, v) := by
    rw [hcur]
    simp [hnode]
  rw [walkPrefix_succ, hb]

theorem mainLoop_none_active (env : Env) (h : Heap) (lb : linebreaker) (e : Ref)
    (hA : lb.activeNodesA = []) : mainLoop env h lb e = lb := by
  unfold mainLoop
  rw [hA]
  simp only [mainLoopScan]
  cases lb
  simp only at hA
  simp [hA]

theorem chooseLastNode_none_active (lb : linebreaker) (hA : lb.activeNodesA = []) :
    chooseLastNode lb = lb.inactiveNodesP.head? := by
  unfold chooseLastNode
  rw [hA]
  rfl

theorem noneActive_walkPrefix (env : Env) (h : Heap) (p : Ref) (settings : LinebreakSettings)
    (l : List Breakpoint) (i k : Nat)
    (h0 : NoneActive l i (walkPrefix k env h p settings).lb) :
    ∀ j, NoneActive l i (walkPrefix (k + j) env h p settings).lb := by
  intro j
  induction j with
  | zero => exact h0
  | succ j ih =>
    rw [← Nat.add_assoc, walkPrefix_succ]
    split
    · exact walkStep_inv env h (NoneActive l i)
        (fun lb lb1 ha hi hn _ hI => ⟨ha.trans hI.1, hi.trans hI.2.1, hn.trans hI.2.2⟩)
        (fun lb e hI => by rw [mainLoop_none_active env h lb e hI.1]; exact hI) _ _ _ ih
    · exact ih

theorem pastForced_mainLoop (env : Env) (h : Heap) (n : Ref) (n0 n1 : Nat) (lb : linebreaker)
    (e : Ref) (hI : PastForced n n0 n1 lb) : PastForced n n0 n1 (mainLoop env h lb e) := by
  obtain ⟨h1, h2, h3, h4, h5⟩ := hI
  obtain ⟨news, hperm, hnext, hids, _, hact, hcr⟩ := mainLoop_all_perm env h lb e
  have hnew : ∀ b ∈ news, lb.nextId ≤ b.id ∧ ∃ i, b.from_ = some i ∧ n0 ≤ i := by
    intro b hb
    have hm : b.id ∈ news.map Breakpoint.id := List.mem_map_of_mem _ hb
    rw [hids, List.mem_range'_1] at hm
    obtain ⟨a, ha, _, hc⟩ := hcr b hb
    refine ⟨hm.1, a.id, ?_, h2 a ha⟩
    rw [hc]
    rfl
  refine ⟨⟨h1.1, by omega⟩, ?_, ?_, ?_, ?_⟩
  · intro b hb
    rcases hact b hb with hb1 | hb1
    · exact h2 b hb1
    · have := (hnew b hb1).1
      omega
  · intro b hb hb0 hb1
    rcases List.mem_append.mp (hperm.subset hb) with hm | hm
    · exact h3 b hm hb0 hb1
    · have := (hnew b hm).1
      omega
  · intro b hb hb1
    rcases List.mem_append.mp (hperm.subset hb) with hm | hm
    · exact h4 b hm hb1
    · exact (hnew b hm).2
  · intro hA
    obtain ⟨news2, hp2, hin2, _⟩ := mainLoop_spec env h lb e
    rw [hA] at hp2
    have hnil := List.append_eq_nil.mp (List.Perm.nil_eq hp2).symm
    have hall : lb.activeNodesA.filter (deactivates h lb e) = lb.activeNodesA := by
      rw [List.filter_eq_self]
      intro a ha
      have h6 := (List.filter_eq_nil_iff.mp hnil.1) a ha
      simpa using h6
    rw [hin2, hall]
    cases hl : lb.activeNodesA.reverse with
    | nil =>
      have hl2 : lb.activeNodesA = [] := List.reverse_eq_nil_iff.mp hl
      simpa using h5 hl2
    | cons c rest =>
      refine ⟨c, rfl, h2 c ?_⟩
      have : c ∈ lb.activeNodesA.reverse := by rw [hl]; exact List.mem_cons_self _ _
      exact List.mem_reverse.mp this

theorem pastForced_congr (n : Ref) (n0 n1 : Nat) (lb lb1 : linebreaker)
    (ha : lb1.activeNodesA = lb.activeNodesA) (hi : lb1.inactiveNodesP = lb.inactiveNodesP)
    (hn : lb1.nextId = lb.nextId) (hI : PastForced n n0 n1 lb) : PastForced n n0 n1 lb1 := by
  unfold PastForced linebreaker.all at *
  rw [ha, hi, hn]
  exact hI

theorem pastForced_walkPrefix (env : Env) (h : Heap) (p : Ref) (settings : LinebreakSettings)
    (n : Ref) (n0 n1 k : Nat)
    (h0 : PastForced n n0 n1 (walkPrefix k env h p settings).lb) :
    ∀ j, PastForced n n0 n1 (walkPrefix (k + j) env h p settings).lb := by
  intro j
  induction j with
  | zero => exact h0
  | succ j ih =>
    rw [← Nat.add_assoc, walkPrefix_succ]
    split
    · exact walkStep_inv env h (PastForced n n0 n1)
        (fun lb lb1 ha hi hn _ hI => pastForced_congr n n0 n1 lb lb1 ha hi hn hI)
        (fun lb e hI => pastForced_mainLoop env h n n0 n1 lb e hI) _ _ _ ih
    · exact ih

theorem pastForced_chain (env : Env) (h : Heap) (n : Ref) (n0 n1 : Nat) (lb : linebreaker)
    (hinv : LbInv lb) (hst : Stored env h lb) (hI : PastForced n n0 n1 lb) :
    ∀ (fuel : Nat) (e : Breakpoint), e ∈ lb.all → n0 ≤ e.id → e.id < fuel →
      ∃ x ∈ chainFrom lb fuel e, x.Position = n := by
  intro fuel
  induction fuel with
  | zero => intro e _ _ hlt; omega
  | succ f ih =>
    intro e he h0 hlt
    by_cases h1 : e.id < n1
    · exact ⟨e, by simp [chainFrom], hI.2.2.1 e he h0 h1⟩
    · obtain ⟨i, hfrom, hi⟩ := hI.2.2.2.1 e he (by omega)
      cases hb : bpFrom lb e with
      | none =>
        have := bpFrom_none lb hinv e he hb
        rw [hfrom] at this
        cases this
      | some a =>
        obtain ⟨ha, hlt2, _⟩ := stored_link env h lb hinv hst e a he hb
        have hfa := (bpFrom_spec lb hinv e a he hb).2.1
        rw [hfrom] at hfa
        have hai : i = a.id := Option.some.inj hfa
        obtain ⟨x, hx, hpos⟩ := ih a ha (by omega) (by omega)
        refine ⟨x, ?_, hpos⟩
        simp only [chainFrom, hb]
        exact List.mem_cons_of_mem _ hx

/-- C15 (counterexample): the walk over Box(10pt), Glue, Box(10pt), Glue, Box(200pt) with the
forced-end helper and `HSize` 30pt reaches the forced break, node 7, but no line that ends there
is feasible: no break point of the line breaker, and none that `Linebreak` returns, is
positioned at this penalty. -/
theorem C15_counterexample :
    walkCursor 7 exOverfullParagraph (some 0) = some 7 ∧
    exOverfullParagraph.node 7 = some (Node.penalty (-10000) 0) ∧
    (Linebreak exampleEnv exOverfullParagraph (some 0) (exSettings 30)).bps.map
      Breakpoint.Position = [3, 3] ∧
    (linebreakWalk exampleEnv exOverfullParagraph 0 (exSettings 30)).lb.all.map
      Breakpoint.Position = [3, 0] := by
  decide!

/-- C15, amended: when the walk of `Linebreak` reaches, after `k` iterations, a penalty `n` of
exactly -10000, it invokes `mainLoop` at `n`; this moves every active break point to the
inactive list, and every break point that is active afterwards was created at `n` from a break
point that was active before and whose line to `n` has a feasible ratio.  If there is such a
break point, `Linebreak` chooses a last break point, which ends the sequence it returns, and the
chain from the chosen break point back along `from` holds a break point positioned at `n`; when
`n` is the last node the chosen break point itself is positioned at `n`.  If there is none, the
active list is empty after every later iteration of the walk, the inactive list and the next
identity stay as `mainLoop` left them at `n`, so that no break point is created any more, and
`Linebreak` chooses the head of the inactive list, the active break point that `mainLoop`
deactivated last at `n`. -/
theorem C15_forced_break_chosen (env : Env) (h : Heap) (p : Ref) (settings : LinebreakSettings)
    (k : Nat) (n : Ref) (w : ScaledPoint) (hk : k < h.length)
    (hcur : walkCursor k h (some p) = some n)
    (hnode : h.node n = some (Node.penalty (-10000) w)) :
    (walkPrefix (k + 1) env h p settings).lb =
      mainLoop env h (walkPrefix k env h p settings).lb n ∧
    (mainLoop env h (walkPrefix k env h p settings).lb n).inactiveNodesP =
      (walkPrefix k env h p settings).lb.activeNodesA.reverse ++
        (walkPrefix k env h p settings).lb.inactiveNodesP ∧
    (∀ b ∈ (mainLoop env h (walkPrefix k env h p settings).lb n).activeNodesA,
      b.Position = n ∧
      Created env h (walkPrefix k env h p settings).lb n
        (walkPrefix k env h p settings).lb.activeNodesA b) ∧
    ((mainLoop env h (walkPrefix k env h p settings).lb n).activeNodesA ≠ [] →
      ∃ c, chooseLastNode (linebreakWalk env h p settings).lb = some c ∧
        (Linebreak env h (some p) settings).bps.getLast? = some c ∧
        (∃ x ∈ chosenChain env h p settings, x.Position = n) ∧
        (h.Next n = none → c.Position = n)) ∧
    ((mainLoop env h (walkPrefix k env h p settings).lb n).activeNodesA = [] →
      (∀ j, NoneActive
        ((walkPrefix k env h p settings).lb.activeNodesA.reverse ++
          (walkPrefix k env h p settings).lb.inactiveNodesP)
        (walkPrefix k env h p settings).lb.nextId
        (walkPrefix (k + 1 + j) env h p settings).lb) ∧
      (linebreakWalk env h p settings).lb.activeNodesA = [] ∧
      (linebreakWalk env h p settings).lb.inactiveNodesP =
        (walkPrefix k env h p settings).lb.activeNodesA.reverse ++
          (walkPrefix k env h p settings).lb.inactiveNodesP ∧
      (linebreakWalk env h p settings).lb.nextId = (walkPrefix k env h p settings).lb.nextId ∧
      chooseLastNode (linebreakWalk env h p settings).lb =
        ((walkPrefix k env h p settings).lb.activeNodesA.reverse ++
          (walkPrefix k env h p settings).lb.inactiveNodesP).head?) := by
  have hf : isForcedBreak h n = true := by
    unfold isForcedBreak
    rw [hnode]
    simp
  have hstep : (walkPrefix (k + 1) env h p settings).lb =
      mainLoop env h (walkPrefix k env h p settings).lb n := by
    rw [walkPrefix_succ_some env h p settings k n _ hcur hnode]
    simp [walkStep]
  have hE : linebreakWalk env h p settings =
      walkPrefix (k + 1 + (h.length - (k + 1))) env h p settings := by
    have hlen : k + 1 + (h.length - (k + 1)) = h.length := by omega
    rw [hlen]
    rfl
  obtain ⟨hpos, hin⟩ := mainLoop_forced env h (walkPrefix k env h p settings).lb n hf
  obtain ⟨news, hperm, _, hnext, hids, hcr, _⟩ :=
    mainLoop_spec env h (walkPrefix k env h p settings).lb n
  have hfil : (walkPrefix k env h p settings).lb.activeNodesA.filter
      (fun a => !deactivates h (walkPrefix k env h p settings).lb n a) = [] := by
    rw [List.filter_eq_nil_iff]
    intro a _
    simp [deactivates, hf]
  rw [hfil, List.nil_append] at hperm
  have hact : ∀ b ∈ (mainLoop env h (walkPrefix k env h p settings).lb n).activeNodesA,
      b ∈ news := fun b hb => hperm.subset hb
  have hinv0 := walkPrefix_lbInv k env h p settings
  refine ⟨hstep, hin, fun b hb => ⟨hpos b hb, hcr b (hact b hb)⟩, ?_, ?_⟩
  · intro hne
    have hP : PastForced n (walkPrefix k env h p settings).lb.nextId
        (mainLoop env h (walkPrefix k env h p settings).lb n).nextId
        (walkPrefix (k + 1) env h p settings).lb := by
      rw [hstep]
      refine ⟨⟨by omega, le_refl _⟩, ?_, ?_, ?_, ?_⟩
      · intro b hb
        have hm : b.id ∈ news.map Breakpoint.id := List.mem_map_of_mem _ (hact b hb)
        rw [hids, List.mem_range'_1] at hm
        exact hm.1
      · intro b hb hb0 _
        rcases List.mem_append.mp hb with hm | hm
        · exact hpos b hm
        · exfalso
          rw [hin] at hm
          have hall : b ∈ (walkPrefix k env h p settings).lb.all := by
            rcases List.mem_append.mp hm with hm1 | hm1
            · exact List.mem_append_left _ (List.mem_reverse.mp hm1)
            · exact List.mem_append_right _ hm1
          have := hinv0.2.1 b hall
          omega
      · intro b hb hb1
        exfalso
        have := (mainLoop_lbInv env h _ n hinv0).2.1 b hb
        omega
      · intro hA
        exact absurd hA hne
    have hPE := pastForced_walkPrefix env h p settings n _ _ (k + 1) hP (h.length - (k + 1))
    rw [← hE] at hPE
    have hinvE : LbInv (linebreakWalk env h p settings).lb :=
      walkPrefix_lbInv h.length env h p settings
    have hstE : Stored env h (linebreakWalk env h p settings).lb :=
      (walkPrefix_stored h.length env h p settings).2
    have hc : ∃ c, chooseLastNode (linebreakWalk env h p settings).lb = some c ∧
        (walkPrefix k env h p settings).lb.nextId ≤ c.id := by
      by_cases hA : (linebreakWalk env h p settings).lb.activeNodesA = []
      · obtain ⟨c, hc1, hc2⟩ := hPE.2.2.2.2 hA
        exact ⟨c, by rw [chooseLastNode_none_active _ hA, hc1], hc2⟩
      · obtain ⟨c, hc1, hc2⟩ := chooseLastNode_active _ hA
        exact ⟨c, hc1, hPE.2.1 c hc2⟩
    obtain ⟨c, hc1, hc2⟩ := hc
    have hcm := chooseLastNode_mem _ c hc1
    refine ⟨c, hc1, Linebreak_bps_getLast env h p settings c hc1, ?_, ?_⟩
    · unfold chosenChain
      rw [hc1]
      exact pastForced_chain env h n _ _ _ hinvE hstE hPE _ c hcm hc2 (hinvE.2.1 c hcm)
    · intro hlast
      have hw := linebreakWalk_last env h p settings k n _ hk hcur hnode hlast
      have hlb : (linebreakWalk env h p settings).lb =
          mainLoop env h (walkPrefix k env h p settings).lb n := by
        rw [hw]
        simp [walkStep]
      rw [hlb] at hc1
      obtain ⟨c2, hc3, hc4⟩ := chooseLastNode_active _ hne
      rw [hc1] at hc3
      cases hc3
      exact hpos c hc4
  · intro hA
    have h0 : NoneActive
        ((walkPrefix k env h p settings).lb.activeNodesA.reverse ++
          (walkPrefix k env h p settings).lb.inactiveNodesP)
        (walkPrefix k env h p settings).lb.nextId
        (walkPrefix (k + 1) env h p settings).lb := by
      rw [hstep]
      refine ⟨hA, hin, ?_⟩
      rw [hA] at hperm
      have hn0 : news = [] := (List.Perm.nil_eq hperm).symm
      rw [hnext, hn0]
      rfl
    have hN := noneActive_walkPrefix env h p settings _ _ (k + 1) h0 (h.length - (k + 1))
    rw [← hE] at hN
    refine ⟨noneActive_walkPrefix env h p settings _ _ (k + 1) h0, hN.1, hN.2.1, hN.2.2, ?_⟩
    rw [chooseLastNode_none_active _ hN.1, hN.2.1]

/-- Witness for C15: Box(10pt), Penalty(-10000), Box(10pt) with the forced-end helper at
`HSize` 10pt.  The walk reaches the forced break, node 1, after one iteration; the break point
created there is on the chosen chain, whose positions are 5, 1 and 0, and in the sequence that
`Linebreak` returns. -/
theorem C15_forced_break_chosen_witness :
    1 < exForcedMid.length ∧ walkCursor 1 exForcedMid (some 0) = some 1 ∧
    exForcedMid.node 1 = some (Node.penalty (-10000) 0) ∧
    (mainLoop exampleEnv exForcedMid
      (walkPrefix 1 exampleEnv exForcedMid 0 (exSettings 10)).lb 1).activeNodesA.map
        (fun b => (b.id, b.from_, b.Position)) = [(1, some 0, 1)] ∧
    (chosenChain exampleEnv exForcedMid 0 (exSettings 10)).map Breakpoint.Position =
      [5, 1, 0] ∧
    (Linebreak exampleEnv exForcedMid (some 0) (exSettings 10)).bps.map Breakpoint.Position =
      [1, 5] ∧
    ∃ x ∈ chosenChain exampleEnv exForcedMid 0 (exSettings 10), x.Position = 1 :=
  ⟨by decide!, by decide!, by decide!, by decide!, by decide!, by decide!,
    Exists.elim
      ((C15_forced_break_chosen exampleEnv exForcedMid 0 (exSettings 10) 1 1 0 (by decide!)
        (by decide!) (by decide!)).2.2.2.1 (by decide!))
      (fun _ hc => hc.2.2.1)⟩

theorem walkPrefix_succ_none (env : Env) (h : Heap) (p : Ref) (settings : LinebreakSettings)
    (k : Nat) (hn : nodeAt h p k = none) :
    walkPrefix (k + 1) env h p settings = walkPrefix k env h p settings := by
  have hb : (walkCursor k h (some p)).bind (fun c => (h.node c).map (fun v => (c, v))) =
      none := by
    unfold nodeAt at hn
    cases hcur : walkCursor k h (some p) with
    | none => rfl
    | some c =>
      rw [hcur] at hn
      have hn1 : h.node c = none := hn
      simp [hn1]
  rw [walkPrefix_succ, hb]

theorem nodeAt_succ_none (h : Heap) (p : Ref) (k : Nat) (hn : nodeAt h p k = none) :
    walkCursor (k + 1) h (some p) = none := by
  rw [walkCursor_succ]
  unfold nodeAt at hn
  cases hcur : walkCursor k h (some p) with
  | none => rfl
  | some c =>
    rw [hcur] at hn
    have hn1 : h.node c = none := hn
    simp [hn1]

theorem walkPrefix_legal (env : Env) (h : Heap) (p : Ref) (settings : LinebreakSettings) :
    ∀ k : Nat,
      (∀ e ∈ (walkPrefix k env h p settings).lb.all, e.from_ ≠ none →
        ∃ j, j < k ∧ walkCursor j h (some p) = some e.Position ∧
          invokesMainLoop h p j = true) ∧
      (match k with
        | 0 => (walkPrefix k env h p settings).prevItemBox = false
        | j + 1 => ∀ v, nodeAt h p j = some v →
          (walkPrefix k env h p settings).prevItemBox = setsPrevItemBox v) := by
  intro k
  induction k with
  | zero =>
    refine ⟨fun e he hfrom => ?_, rfl⟩
    have he2 : e = startBreakpoint p := by
      simpa [walkPrefix, walkLoop_zero, linebreaker.all, newLinebreaker] using he
    rw [he2] at hfrom
    exact absurd rfl hfrom
  | succ k ih =>
    obtain ⟨ih1, ih2⟩ := ih
    cases hnk : nodeAt h p k with
    | none =>
      rw [walkPrefix_succ_none env h p settings k hnk]
      refine ⟨fun e he hfrom => ?_, fun v hv => by rw [hnk] at hv; cases hv⟩
      obtain ⟨j, hj, h1, h2⟩ := ih1 e he hfrom
      exact ⟨j, by omega, h1, h2⟩
    | some v =>
      have hex : ∃ c, walkCursor k h (some p) = some c ∧ h.node c = some v := by
        unfold nodeAt at hnk
        cases hcur : walkCursor k h (some p) with
        | none => rw [hcur] at hnk; exact absurd hnk (by simp)
        | some c =>
          rw [hcur] at hnk
          exact ⟨c, rfl, hnk⟩
      obtain ⟨c, hcur, hnode⟩ := hex
      rw [walkPrefix_succ_some env h p settings k c v hcur hnode]
      refine ⟨fun e he hfrom => ?_, fun v1 hv1 => ?_⟩
      · rcases walkStep_new_bps env h c v _ e he with h1 | ⟨hpos, hinv⟩
        · obtain ⟨j, hj, h2, h3⟩ := ih1 e h1 hfrom
          exact ⟨j, by omega, h2, h3⟩
        · refine ⟨k, by omega, by rw [hcur, hpos], ?_⟩
          unfold invokesMainLoop
          rw [hnk]
          cases v with
          | penalty pv w => simpa using hinv
          | disc pre pv => rfl
          | glue t =>
            simp only at hinv ⊢
            cases k with
            | zero =>
              simp only at ih2
              rw [ih2] at hinv
              cases hinv
            | succ j =>
              simp only at ih2 ⊢
              cases hnj : nodeAt h p j with
              | none =>
                rw [nodeAt_succ_none h p j hnj] at hcur
                cases hcur
              | some vj =>
                simp only
                rw [← ih2 vj hnj]
                exact hinv
          | _ => exact absurd hinv (by simp)
      · rw [hnk] at hv1
        injection hv1 with hv1
        rw [← hv1]
        exact walkStep_prevItemBox env h c v _

theorem walkPrefix_prevItemBox (env : Env) (h : Heap) (p : Ref) (settings : LinebreakSettings)
    (k : Nat) (c : Ref) (t : Glue) (hcur : walkCursor k h (some p) = some c)
    (hnode : h.node c = some (Node.glue t)) :
    (walkPrefix k env h p settings).prevItemBox = invokesMainLoop h p k := by
  have hnk : nodeAt h p k = some (Node.glue t) := by
    unfold nodeAt
    rw [hcur]
    exact hnode
  have h2 := (walkPrefix_legal env h p settings k).2
  unfold invokesMainLoop
  rw [hnk]
  cases k with
  | zero => exact h2
  | succ j =>
    simp only at h2 ⊢
    cases hnj : nodeAt h p j with
    | none =>
      rw [nodeAt_succ_none h p j hnj] at hcur
      cases hcur
    | some vj => exact h2 vj hnj

/-- The iteration `k` of the walk calls `mainLoop` exactly when `invokesMainLoop` holds. -/
theorem walkPrefix_step_all (env : Env) (h : Heap) (p : Ref) (settings : LinebreakSettings)
    (k : Nat) :
    (invokesMainLoop h p k = true →
      ∃ c, walkCursor k h (some p) = some c ∧
        (walkPrefix (k + 1) env h p settings).lb.all =
          (mainLoop env h (walkPrefix k env h p settings).lb c).all) ∧
    (invokesMainLoop h p k = false →
      (walkPrefix (k + 1) env h p settings).lb.all =
        (walkPrefix k env h p settings).lb.all) := by
  cases hnk : nodeAt h p k with
  | none =>
    have hinv : invokesMainLoop h p k = false := by
      unfold invokesMainLoop
      rw [hnk]
    rw [walkPrefix_succ_none env h p settings k hnk]
    exact ⟨(fun h1 => by rw [hinv] at h1; cases h1), (fun _ => rfl)⟩
  | some v =>
    have hex : ∃ c, walkCursor k h (some p) = some c ∧ h.node c = some v := by
      unfold nodeAt at hnk
      cases hcur : walkCursor k h (some p) with
      | none => rw [hcur] at hnk; exact absurd hnk (by simp)
      | some c =>
        rw [hcur] at hnk
        exact ⟨c, rfl, hnk⟩
    obtain ⟨c, hcur, hnode⟩ := hex
    rw [walkPrefix_succ_some env h p settings k c v hcur hnode]
    cases v with
    | glue t =>
      have hpb := walkPrefix_prevItemBox env h p settings k c t hcur hnode
      simp only [walkStep, addGlue_all]
      rw [hpb]
      refine ⟨fun h1 => ⟨c, hcur, by rw [if_pos h1]⟩, fun h1 => ?_⟩
      rw [h1]
      rfl
    | penalty pv w =>
      have hinv : invokesMainLoop h p k = decide (pv < 10000) := by
        unfold invokesMainLoop
        rw [hnk]
      rw [hinv]
      simp only [walkStep, decide_eq_true_eq, decide_eq_false_iff_not]
      exact ⟨fun h1 => ⟨c, hcur, by rw [if_pos h1]⟩, fun h1 => by rw [if_neg h1]⟩
    | disc pre pv =>
      have hinv : invokesMainLoop h p k = true := by
        unfold invokesMainLoop
        rw [hnk]
      rw [hinv]
      exact ⟨fun _ => ⟨c, hcur, rfl⟩, fun h1 => by cases h1⟩
    | _ =>
      refine ⟨fun h1 => ?_, fun _ => rfl⟩
      unfold invokesMainLoop at h1
      rw [hnk] at h1
      cases h1

/-- C16 (counterexample): in Box(10pt), Lang, Glue, Box(10pt) with the forced-end helper and
`HSize` 10pt the glue, node 2, follows a `Lang` node, which is not a box; still `Linebreak`
returns a break point that is positioned at this glue. -/
theorem C16_counterexample :
    exLangGlue.node 1 = some Node.lang ∧ isBox Node.lang = false ∧
    exLangGlue.node 2 = some (exGlue 5 2 1) ∧ exLangGlue.Prev 2 = some 1 ∧
    (Linebreak exampleEnv exLangGlue (some 0) (exSettings 10)).bps.map
      (fun b => (b.id, b.from_, b.Position)) = [(1, some 0, 2), (2, some 1, 6)] := by
  decide!

/-- C16, amended: the iteration `k` of the walk of `Linebreak` invokes `mainLoop` exactly when
its node is a penalty below 10000, a `Disc`, or a glue whose preceding node is not a glue, a
penalty or a `Disc` (every other kind of node counts as a box, also `Lang`, `StartStop` and
`VList`); in all other iterations the break points stay as they are.  Hence every break point
other than the start break point is positioned at such a node: never at a penalty of 10000 or
more, at a glue at the start of the paragraph, or at a glue behind a glue, a penalty or a
`Disc`. -/
theorem C16_main_loop_invoked (env : Env) (h : Heap) (p : Ref) (settings : LinebreakSettings)
    (k : Nat) :
    (invokesMainLoop h p k = true →
      ∃ c, walkCursor k h (some p) = some c ∧
        (walkPrefix (k + 1) env h p settings).lb.all =
          (mainLoop env h (walkPrefix k env h p settings).lb c).all) ∧
    (invokesMainLoop h p k = false →
      (walkPrefix (k + 1) env h p settings).lb.all =
        (walkPrefix k env h p settings).lb.all) ∧
    ∀ e ∈ (walkPrefix k env h p settings).lb.all, e.from_ ≠ none →
      ∃ j, j < k ∧ walkCursor j h (some p) = some e.Position ∧
        invokesMainLoop h p j = true ∧
        (∀ pv w, nodeAt h p j = some (Node.penalty pv w) → pv < 10000) ∧
        ∀ t, nodeAt h p j = some (Node.glue t) →
          ∃ i v, j = i + 1 ∧ nodeAt h p i = some v ∧ setsPrevItemBox v = true := by
  refine ⟨(walkPrefix_step_all env h p settings k).1,
    (walkPrefix_step_all env h p settings k).2, ?_⟩
  intro e he hfrom
  obtain ⟨j, hj, h1, h2⟩ := (walkPrefix_legal env h p settings k).1 e he hfrom
  refine ⟨j, hj, h1, h2, ?_, ?_⟩
  · intro pv w hn
    unfold invokesMainLoop at h2
    rw [hn] at h2
    simpa using h2
  · intro t hn
    unfold invokesMainLoop at h2
    rw [hn] at h2
    cases j with
    | zero => cases h2
    | succ i =>
      simp only at h2
      cases hni : nodeAt h p i with
      | none => rw [hni] at h2; cases h2
      | some v =>
        rw [hni] at h2
        exact ⟨i, v, rfl, hni, h2⟩

/-! ## The inter-line glue -/

theorem packLine_interline (env : Env) (lb : linebreaker) (e : Breakpoint)
    (startPos : Option Ref) (st : BacktraceState)
    (hst : interlineOK lb.settings st.vert) :
    interlineOK lb.settings (packLine env lb e startPos st).vert := by
  unfold packLine
  simp only
  split
  · exact ⟨rfl, hst⟩
  · exact hst

theorem backtraceStep_interline (env : Env) (lb : linebreaker) (e : Breakpoint)
    (st : BacktraceState) (hst : interlineOK lb.settings st.vert) :
    interlineOK lb.settings (backtraceStep env lb e st).vert := by
  unfold backtraceStep
  simp only
  split
  · exact hst
  · exact packLine_interline env lb e _ _ hst

theorem backtraceLoop_interline (fuel : Nat) (env : Env) (lb : linebreaker) :
    ∀ (e : Option Breakpoint) (st : BacktraceState),
      interlineOK lb.settings st.vert →
      interlineOK lb.settings (backtraceLoop fuel env lb e st).vert := by
  induction fuel with
  | zero => intro e st hst; cases e <;> exact hst
  | succ k ih =>
    intro e st hst
    cases e with
    | none => exact hst
    | some b =>
      simp only [backtraceLoop]
      exact ih _ _ (backtraceStep_interline env lb b st hst)

theorem lineskipGlue_Width (settings : LinebreakSettings) (x : ScaledPoint) :
    (lineskipGlue settings x).Width = max 0 (settings.LineHeight - x) := by
  unfold lineskipGlue
  split
  · rename_i hlt
    rw [max_eq_right (by linarith)]
  · rename_i hlt
    rw [max_eq_left (by linarith)]
    rfl

/-- C22 (counterexample): Box(10pt, height 8pt), Glue, Box(10pt, height 3pt) with `HSize` 10pt
and `LineHeight` 12pt gives two lines of the heights 8pt and 3pt; the glue between them has the
width 9pt = 12pt - 3pt, not 12pt - 8pt = 4pt. -/
theorem C22_counterexample :
    (Linebreak exampleEnv exTwoHeights (some 0) exSettingsLineHeight).vert =
      [Node.hlist { NewHList with Width := pt 10, Height := pt 8, GlueSet := Float64.fin 1,
                                  Badness := 100, List := some 0 },
       Node.glue { NewGlue with Width := pt 9 },
       Node.hlist { NewHList with Width := pt 10, Height := pt 3, GlueSet := Float64.fin 1,
                                  List := some 2 }] ∧
    max 0 (exSettingsLineHeight.LineHeight - (pt 8 + 0)) = pt 4 ∧
    max 0 (exSettingsLineHeight.LineHeight - (pt 3 + 0)) = pt 9 := by
  decide!

/-- C22, amended: the vertical list that `Linebreak` returns holds line boxes and glues; every
glue is directly followed by a line box and is the inter-line glue of that box, the line behind
the glue: a glue without stretch and shrink of the width
`max(0, LineHeight - (Height + Depth))`. -/
theorem C22_interline_glue (env : Env) (h : Heap) (n : Option Ref)
    (settings : LinebreakSettings) :
    interlineOK settings (Linebreak env h n settings).vert ∧
    ∀ x, lineskipGlue settings x = { NewGlue with Width := max 0 (settings.LineHeight - x) } := by
  refine ⟨?_, ?_⟩
  · unfold Linebreak
    cases n with
    | none => exact True.intro
    | some p =>
      simp only
      split
      · exact True.intro
      · rename_i last _
        have key := backtraceLoop_interline (linebreakWalk env h p settings).lb.nextId env
          (linebreakWalk env h p settings).lb (some last)
          { heap := h, curPre := none, vert := [],
            endNode := (linebreakWalk env h p settings).endNode, bps := [last] } True.intro
        rw [linebreakWalk_settings] at key
        exact key
  · intro x
    rw [← lineskipGlue_Width]
    unfold lineskipGlue
    split <;> rfl

/-! ## The order of the returned break points -/

theorem packLine_bps_sub (env : Env) (lb : linebreaker) (e : Breakpoint)
    (startPos : Option Ref) (st : BacktraceState) :
    ∃ l, (packLine env lb e startPos st).bps = st.bps ++ l ∧ l.Sublist [e] := by
  unfold packLine
  simp only
  split
  · exact ⟨[e], rfl, List.Sublist.refl _⟩
  · exact ⟨[], by simp, List.nil_sublist _⟩

theorem backtraceStep_bps_sub (env : Env) (lb : linebreaker) (e : Breakpoint)
    (st : BacktraceState) :
    ∃ l, (backtraceStep env lb e st).bps = st.bps ++ l ∧ l.Sublist [e] := by
  unfold backtraceStep
  simp only
  split
  · exact ⟨[], by simp, List.nil_sublist _⟩
  · exact packLine_bps_sub env lb e _ _

theorem backtraceLoop_bps_sub (fuel : Nat) (env : Env) (lb : linebreaker) :
    ∀ (e : Breakpoint) (st : BacktraceState),
      ∃ l, (backtraceLoop fuel env lb (some e) st).bps = st.bps ++ l ∧
        l.Sublist (chainFrom lb fuel e) := by
  induction fuel with
  | zero => intro e st; exact ⟨[], by simp [backtraceLoop], List.nil_sublist _⟩
  | succ k ih =>
    intro e st
    simp only [backtraceLoop]
    obtain ⟨l1, h1, s1⟩ := backtraceStep_bps_sub env lb e st
    cases hb : bpFrom lb e with
    | none =>
      refine ⟨l1, ?_, ?_⟩
      · cases k <;> simp [backtraceLoop, h1]
      · unfold chainFrom
        rw [hb]
        exact s1
    | some a =>
      obtain ⟨l2, h2, s2⟩ := ih a (backtraceStep env lb e st)
      refine ⟨l1 ++ l2, by rw [h2, h1, List.append_assoc], ?_⟩
      unfold chainFrom
      rw [hb]
      exact List.Sublist.append s1 s2

theorem chainFrom_lines (lb : linebreaker) (hinv : LbInv lb) :
    ∀ (fuel : Nat) (e : Breakpoint), e ∈ lb.all →
      (chainFrom lb fuel e).Pairwise (fun a b => b.Line < a.Line) ∧
      ∀ x ∈ chainFrom lb fuel e, x.Line ≤ e.Line := by
  intro fuel
  induction fuel with
  | zero => intro e _; exact ⟨List.Pairwise.nil, fun x hx => by cases hx⟩
  | succ k ih =>
    intro e he
    unfold chainFrom
    cases hb : bpFrom lb e with
    | none =>
      simp only
      refine ⟨List.pairwise_singleton _ _, fun x hx => ?_⟩
      rw [List.mem_singleton] at hx
      rw [hx]
    | some a =>
      simp only
      obtain ⟨ha, _, hl⟩ := bpFrom_spec lb hinv e a he hb
      obtain ⟨i1, i2⟩ := ih a ha
      refine ⟨List.pairwise_cons.mpr ⟨fun x hx => ?_, i1⟩, fun x hx => ?_⟩
      · have := i2 x hx
        omega
      · rcases List.mem_cons.mp hx with hx | hx
        · rw [hx]
        · have := i2 x hx
          omega

/-- C21: the start break point is missing from the returned sequence.  For Box(10pt),
Glue(5pt plus 2pt minus 1pt), Box(10pt) with the forced-end helper and `HSize` 25pt the chain
consists of the start break point and the break point at the final penalty, but `Linebreak`
returns the latter alone: a break point is appended only inside `if e.next != nil`, and the
field `next` of the start break point, the only one on the inactive list, is nil. -/
theorem C21_start_missing :
    (chosenChain exampleEnv exParagraph 0 (exSettings 25)).map
      (fun b => (b.id, b.Position, b.Line)) = [(1, 5, 1), (0, 0, 0)] ∧
    (Linebreak exampleEnv exParagraph (some 0) (exSettings 25)).bps.map
      (fun b => (b.id, b.Position, b.Line)) = [(1, 5, 1)] := by
  decide!

/-! ## Paper sizes -/

theorem ToLower_ascii (unicodeToLower : Char → Char) (s : String)
    (hs : s.data.all (fun c => decide (c.toNat < 128)) = true) :
    ToLower unicodeToLower s = ToLower (fun c => c) s := by
  unfold ToLower
  congr 1
  apply List.map_congr_left
  intro c hc
  have h1 := List.all_eq_true.mp hs c hc
  simp only [decide_eq_true_eq] at h1
  rw [if_pos h1, if_pos h1]

theorem PapersizeWdHt_ascii (unicodeToLower : Char → Char) (s : String)
    (hs : s.data.all (fun c => decide (c.toNat < 128)) = true) :
    PapersizeWdHt unicodeToLower s = PapersizeWdHt (fun c => c) s := by
  unfold PapersizeWdHt
  rw [ToLower_ascii unicodeToLower s hs]

/-- C26: a paper size of two lengths with the keyword `landscape` in front of it loses its
first length: `PapersizeWdHt` returns the second length and the empty string, while the same
lengths without the keyword, or with the keyword behind them, and the known names with the
keyword on either side, give the expected pairs.  The strings are ASCII, so the case table of
`strings.ToLower` plays no part. -/
theorem C26_landscape_before_lengths (unicodeToLower : Char → Char) :
    PapersizeWdHt unicodeToLower "A4" = ("210mm", "297mm") ∧
    PapersizeWdHt unicodeToLower "letter" = ("8.5in", "11in") ∧
    PapersizeWdHt unicodeToLower "20cm" = ("20cm", "20cm") ∧
    PapersizeWdHt unicodeToLower "20cm 30cm" = ("20cm", "30cm") ∧
    PapersizeWdHt unicodeToLower "A4 landscape" = ("297mm", "210mm") ∧
    PapersizeWdHt unicodeToLower "landscape A4" = ("297mm", "210mm") ∧
    PapersizeWdHt unicodeToLower "20cm 30cm landscape" = ("30cm", "20cm") ∧
    PapersizeWdHt unicodeToLower "landscape 20cm 30cm" = ("30cm", "") ∧
    PapersizeWdHt unicodeToLower "landscape 20cm" = ("20cm", "") ∧
    PapersizeWdHt unicodeToLower "portrait 20cm 30cm" = ("", "30cm") := by
  refine ⟨?_, ?_, ?_, ?_, ?_, ?_, ?_, ?_, ?_, ?_⟩ <;>
    (rw [PapersizeWdHt_ascii unicodeToLower _ (by decide!)]; decide!)

/-! ## Style attributes -/

theorem setFour_margin (resolved values : StrMap) :
    setFour resolved "margin-" "" values =
      (((resolved.set "margin-top" (values.get "top")).set "margin-right"
        (values.get "right")).set "margin-bottom" (values.get "bottom")).set "margin-left"
        (values.get "left") := by
  have e1 : ("margin-" ++ "top" ++ "" : String) = "margin-top" := by decide
  have e2 : ("margin-" ++ "right" ++ "" : String) = "margin-right" := by decide
  have e3 : ("margin-" ++ "bottom" ++ "" : String) = "margin-bottom" := by decide
  have e4 : ("margin-" ++ "left" ++ "" : String) = "margin-left" := by decide
  simp only [setFour, toprightbottomleft, List.foldl_cons, List.foldl_nil, e1, e2, e3, e4]

theorem setFour_padding (resolved values : StrMap) :
    setFour resolved "padding-" "" values =
      (((resolved.set "padding-top" (values.get "top")).set "padding-right"
        (values.get "right")).set "padding-bottom" (values.get "bottom")).set "padding-left"
        (values.get "left") := by
  have e1 : ("padding-" ++ "top" ++ "" : String) = "padding-top" := by decide
  have e2 : ("padding-" ++ "right" ++ "" : String) = "padding-right" := by decide
  have e3 : ("padding-" ++ "bottom" ++ "" : String) = "padding-bottom" := by decide
  have e4 : ("padding-" ++ "left" ++ "" : String) = "padding-left" := by decide
  simp only [setFour, toprightbottomleft, List.foldl_cons, List.foldl_nil, e1, e2, e3, e4]

theorem resolveStep_margin (rx : Regexps) (st : StrMap × StrMap) (v : String) :
    resolveStep rx st { Key := "!margin", Val := v } =
      (setFour st.1 "margin-" "" (getFourValues v), st.2) := by
  have h1 : startsWith "!margin" "!" = true := by decide
  have h2 : trimBang "!margin" = "margin" := by decide
  simp only [resolveStep, h1, h2, resolveStyleKey, not_true_eq_false, if_false, if_true]

theorem resolveStep_padding (rx : Regexps) (st : StrMap × StrMap) (v : String) :
    resolveStep rx st { Key := "!padding", Val := v } =
      (setFour st.1 "padding-" "" (getFourValues v), st.2) := by
  have h1 : startsWith "!padding" "!" = true := by decide
  have h2 : trimBang "!padding" = "padding" := by decide
  have h3 : ¬ ("padding" : String) = "margin" := by decide
  have h4 : ¬ ("padding" : String) = "list-style" := by decide
  simp only [resolveStep, h1, h2, h3, h4, resolveStyleKey, not_true_eq_false, if_false,
    if_true]

theorem foldl_resolveStep_plain (rx : Regexps) (attrs : List Attribute) (k : String) :
    ∀ st : StrMap × StrMap,
      (attrs.foldl (resolveStep rx) st).2 k =
        match lastPlain attrs k with
        | some v => some v
        | none => st.2 k := by
  induction attrs with
  | nil => intro st; rfl
  | cons a rest ih =>
    intro st
    rw [List.foldl_cons, ih]
    unfold lastPlain
    by_cases hs : isStyleRule a = true
    · have hstep : (resolveStep rx st a).2 = st.2 := by
        unfold resolveStep
        unfold isStyleRule at hs
        simp [hs]
      simp only [List.filter_cons, hs, Bool.not_true, Bool.false_eq_true, if_false, hstep]
    · have hs2 : isStyleRule a = false := by simpa using hs
      have hstep : (resolveStep rx st a).2 = st.2.set a.Key a.Val := by
        unfold resolveStep
        unfold isStyleRule at hs2
        simp [hs2]
      simp only [List.filter_cons, hs2, Bool.not_false, if_true, List.reverse_cons,
        List.find?_append, hstep]
      cases hf : ((rest.filter fun a => !isStyleRule a).reverse.find? fun a => a.Key = k) with
      | some b => simp
      | none =>
        simp only [Option.none_or, List.find?_cons, List.find?_nil, Option.map_none']
        unfold StrMap.set
        by_cases hk : a.Key = k
        · simp [hk]
        · have hk2 : ¬ k = a.Key := fun h1 => hk h1.symm
          simp [hk, hk2]

theorem resolveStep_fst (rx : Regexps) (st st2 : StrMap × StrMap) (a : Attribute)
    (h : st.1 = st2.1) : (resolveStep rx st a).1 = (resolveStep rx st2 a).1 := by
  unfold resolveStep
  by_cases hs : startsWith a.Key "!" = true
  · simp [hs, h]
  · simp [hs, h]

theorem foldl_resolveStep_fst (rx : Regexps) (attrs : List Attribute) :
    ∀ st st2 : StrMap × StrMap, st.1 = st2.1 →
      (attrs.foldl (resolveStep rx) st).1 = (attrs.foldl (resolveStep rx) st2).1 := by
  induction attrs with
  | nil => intro st st2 h; exact h
  | cons a rest ih =>
    intro st st2 h
    rw [List.foldl_cons, List.foldl_cons]
    exact ih _ _ (resolveStep_fst rx st st2 a h)

theorem foldl_resolveStep_styles (rx : Regexps) (attrs : List Attribute) :
    ∀ st : StrMap × StrMap,
      (attrs.foldl (resolveStep rx) st).1 =
        ((attrs.filter isStyleRule).foldl (resolveStep rx) st).1 := by
  induction attrs with
  | nil => intro st; rfl
  | cons a rest ih =>
    intro st
    rw [List.foldl_cons]
    by_cases hs : isStyleRule a = true
    · rw [List.filter_cons, if_pos hs, List.foldl_cons]
      exact ih _
    · rw [List.filter_cons, if_neg hs, ih]
      have hs2 : isStyleRule a = false := by simpa using hs
      have hstep : (resolveStep rx st a).1 = st.1 := by
        unfold resolveStep
        unfold isStyleRule at hs2
        simp [hs2]
      exact foldl_resolveStep_fst rx _ _ _ hstep

theorem getFourValues_spec (v t r b l : String)
    (hv : specShorthand (Fields v) = some (t, r, b, l)) :
    (getFourValues v).get "top" = t ∧ (getFourValues v).get "right" = r ∧
    (getFourValues v).get "bottom" = b ∧ (getFourValues v).get "left" = l := by
  unfold getFourValues
  generalize Fields v = fs at hv
  rcases fs with _ | ⟨a1, _ | ⟨a2, _ | ⟨a3, _ | ⟨a4, _ | ⟨a5, fs⟩⟩⟩⟩⟩ <;>
    simp [specShorthand] at hv <;>
    obtain ⟨h1, h2, h3, h4⟩ := hv <;>
    subst h1 h2 h3 h4 <;>
    simp [StrMap.get, StrMap.set]

theorem ResolveAttributes_fst_of_ne (rx : Regexps) (attrs : List Attribute) (k : String)
    (hk : k ≠ "text-decoration-style") :
    (ResolveAttributes rx attrs).1 k =
      (attrs.foldl (resolveStep rx) (StrMap.empty, StrMap.empty)).1 k := by
  unfold ResolveAttributes
  simp only
  split
  · split
    · simp [StrMap.set, hk]
    · rfl
  · rfl

theorem ResolveAttributes_snd (rx : Regexps) (attrs : List Attribute) :
    (ResolveAttributes rx attrs).2 =
      (attrs.foldl (resolveStep rx) (StrMap.empty, StrMap.empty)).2 := rfl

/-- C25: a style rule `!margin` (likewise `!padding`) whose value has one to four fields, as
the last attribute, sets the four keys `margin-top`, `margin-right`, `margin-bottom` and
`margin-left` of the resolved map after the CSS shorthand rule; the attributes map holds for
every key the value of the last attribute with that key among the attributes without the
exclamation mark, and nothing else; and the resolved map is the one of the style rules alone,
so that no attribute without the exclamation mark is in it. -/
theorem C25_margin_padding_shorthand (rx : Regexps) (attrs before : List Attribute)
    (v t r b l k : String) (hv : specShorthand (Fields v) = some (t, r, b, l)) :
    ((ResolveAttributes rx (before ++ [{ Key := "!margin", Val := v }])).1 "margin-top" = some t ∧
     (ResolveAttributes rx (before ++ [{ Key := "!margin", Val := v }])).1 "margin-right" =
       some r ∧
     (ResolveAttributes rx (before ++ [{ Key := "!margin", Val := v }])).1 "margin-bottom" =
       some b ∧
     (ResolveAttributes rx (before ++ [{ Key := "!margin", Val := v }])).1 "margin-left" =
       some l) ∧
    ((ResolveAttributes rx (before ++ [{ Key := "!padding", Val := v }])).1 "padding-top" =
       some t ∧
     (ResolveAttributes rx (before ++ [{ Key := "!padding", Val := v }])).1 "padding-right" =
       some r ∧
     (ResolveAttributes rx (before ++ [{ Key := "!padding", Val := v }])).1 "padding-bottom" =
       some b ∧
     (ResolveAttributes rx (before ++ [{ Key := "!padding", Val := v }])).1 "padding-left" =
       some l) ∧
    (ResolveAttributes rx attrs).2 k = lastPlain attrs k ∧
    (ResolveAttributes rx attrs).1 = (ResolveAttributes rx (attrs.filter isStyleRule)).1 := by
  obtain ⟨h1, h2, h3, h4⟩ := getFourValues_spec v t r b l hv
  refine ⟨⟨?_, ?_, ?_, ?_⟩, ⟨?_, ?_, ?_, ?_⟩, ?_, ?_⟩
  · rw [ResolveAttributes_fst_of_ne rx _ _ (by decide), List.foldl_append, List.foldl_cons,
      List.foldl_nil, resolveStep_margin, setFour_margin]
    simp [StrMap.set, h1]
  · rw [ResolveAttributes_fst_of_ne rx _ _ (by decide), List.foldl_append, List.foldl_cons,
      List.foldl_nil, resolveStep_margin, setFour_margin]
    simp [StrMap.set, h2]
  · rw [ResolveAttributes_fst_of_ne rx _ _ (by decide), List.foldl_append, List.foldl_cons,
      List.foldl_nil, resolveStep_margin, setFour_margin]
    simp [StrMap.set, h3]
  · rw [ResolveAttributes_fst_of_ne rx _ _ (by decide), List.foldl_append, List.foldl_cons,
      List.foldl_nil, resolveStep_margin, setFour_margin]
    simp [StrMap.set, h4]
  · rw [ResolveAttributes_fst_of_ne rx _ _ (by decide), List.foldl_append, List.foldl_cons,
      List.foldl_nil, resolveStep_padding, setFour_padding]
    simp [StrMap.set, h1]
  · rw [ResolveAttributes_fst_of_ne rx _ _ (by decide), List.foldl_append, List.foldl_cons,
      List.foldl_nil, resolveStep_padding, setFour_padding]
    simp [StrMap.set, h2]
  · rw [ResolveAttributes_fst_of_ne rx _ _ (by decide), List.foldl_append, List.foldl_cons,
      List.foldl_nil, resolveStep_padding, setFour_padding]
    simp [StrMap.set, h3]
  · rw [ResolveAttributes_fst_of_ne rx _ _ (by decide), List.foldl_append, List.foldl_cons,
      List.foldl_nil, resolveStep_padding, setFour_padding]
    simp [StrMap.set, h4]
  · rw [ResolveAttributes_snd, foldl_resolveStep_plain]
    cases lastPlain attrs k <;> rfl
  · unfold ResolveAttributes
    simp only
    rw [foldl_resolveStep_styles]

/-- C25, an instance: `margin: 1cm` behind a `class` attribute gives all four margins 1cm, and
the `class` attribute is in the attributes map. -/
theorem C25_margin_padding_shorthand_witness :
    specShorthand (Fields "1cm") = some ("1cm", "1cm", "1cm", "1cm") ∧
    (ResolveAttributes exRegexps [{ Key := "!margin", Val := "1cm" }]).1 "margin-top" =
      some "1cm" ∧
    (ResolveAttributes exRegexps [{ Key := "!margin", Val := "1cm" }]).1 "margin-right" =
      some "1cm" ∧
    (ResolveAttributes exRegexps [{ Key := "!margin", Val := "1cm" }]).1 "margin-bottom" =
      some "1cm" ∧
    (ResolveAttributes exRegexps [{ Key := "!margin", Val := "1cm" }]).1 "margin-left" =
      some "1cm" ∧
    (ResolveAttributes exRegexps
      [{ Key := "class", Val := "x" }, { Key := "!margin", Val := "1cm" }]).2 "class" =
      some "x" ∧
    (ResolveAttributes exRegexps
      [{ Key := "class", Val := "x" }, { Key := "!margin", Val := "1cm" }]).1 "class" = none :=
  have h := C25_margin_padding_shorthand exRegexps
    [{ Key := "class", Val := "x" }, { Key := "!margin", Val := "1cm" }] [] "1cm" "1cm" "1cm"
    "1cm" "1cm" "class" (by decide!)
  ⟨by decide!, h.1.1, h.1.2.1, h.1.2.2.1, h.1.2.2.2, by rw [h.2.2.1]; decide!,
    by rw [h.2.2.2]; decide!⟩

/-! ## The items of the lines -/

/-- C20: a box can occur in two lines.  In the paragraph Box(25pt), Glue(5pt plus 2pt minus
100pt), Box(25pt), Glue(5pt plus 2pt minus 1pt), Box(10pt), Glue(5pt plus 2pt minus 1pt) with
the forced-end helper and `HSize` 25pt the chosen chain breaks at the first and at the second
glue, nodes 1 and 3.  The break point at node 1 is the first one that `mainLoop` deactivates, so
its field `next` is nil, and the loop that builds the lines then keeps `endNode` at node 3:
the first line is packed up to the end of the list that is left, and the box at node 2 is in
the first and in the second line.  The break point at node 1 is missing from the returned
break points. -/
theorem C20_box_in_two_lines :
    exOverlap.node 2 = some (exBox 25) ∧
    linesOf (Linebreak exampleEnv exOverlap (some 0) (exSettings 25)) =
      [[0, 1, 2, 10], [2, 10], [4, 5, 6, 7, 9]] ∧
    (chosenChain exampleEnv exOverlap 0 (exSettings 25)).map Breakpoint.Position =
      [8, 3, 1, 0] ∧
    (Linebreak exampleEnv exOverlap (some 0) (exSettings 25)).bps.map Breakpoint.Position =
      [0, 3, 8] ∧
    (walkPrefix 6 exampleEnv exOverlap 0 (exSettings 25)).lb.inactiveNodesP.map
      Breakpoint.Position = [1] := by
  decide!

/-! ## The output of `Linebreak` -/

/-- C18: with `DemeritsFitness` at 2^63 - 2 the walk over Box(10pt),
Glue(5pt plus 2pt minus 1pt), Box(10pt) with the forced-end helper and `HSize` 10pt ends in the
nil dereference.  At the glue the line from the start has r = 0 and demerits 1, so `dmin` is 1
and `dmin + DemeritsFitness` is `MaxInt`; the test `dc[c] <= dmin+DemeritsFitness` holds for
the empty classes, whose `dc[c]` is `MaxInt`, and `ac[c].Line` is read through a nil pointer. -/
theorem C18_nil_dereference :
    WellFormed exParagraph 0 = true ∧ exParagraph.Prev 0 = none ∧
    LinebreakRun exampleEnv exParagraph (some 0) exHugeFitness = none := by
  decide!

theorem Heap.length_setNode (h : Heap) (p : Nat) (v : Node) :
    (h.setNode p v).length = h.length := by
  unfold Heap.setNode
  cases h[p]? <;> simp

theorem Heap.Next_setNode (h : Heap) (p : Nat) (v : Node) (q : Nat) :
    (h.setNode p v).Next q = h.Next q := by
  unfold Heap.setNode Heap.Next
  cases hp : h[p]? with
  | none => rfl
  | some c =>
    simp only
    by_cases hpq : p = q
    · subst hpq
      rw [List.getElem?_set_self', hp]
      rfl
    · rw [List.getElem?_set_ne hpq]

theorem Heap.Prev_setNode (h : Heap) (p : Nat) (v : Node) (q : Nat) :
    (h.setNode p v).Prev q = h.Prev q := by
  unfold Heap.setNode Heap.Prev
  cases hp : h[p]? with
  | none => rfl
  | some c =>
    simp only
    by_cases hpq : p = q
    · subst hpq
      rw [List.getElem?_set_self', hp]
      rfl
    · rw [List.getElem?_set_ne hpq]

theorem headFree_SetNext (p x : Nat) (v : Option Ref) (h : Heap) (hf : HeadFree p h)
    (hv : v ≠ some p) : HeadFree p (h.SetNext x v) := by
  refine ⟨?_, ?_, fun q => ?_⟩
  · rw [Heap.length_SetNext]; exact hf.1
  · rw [Heap.Prev_SetNext]; exact hf.2.1
  · rw [Heap.Next_SetNext]
    split
    · exact hv
    · exact hf.2.2 q

theorem headFree_SetPrev (p x : Nat) (v : Option Ref) (h : Heap) (hf : HeadFree p h)
    (hv : x ≠ p ∨ v = none) : HeadFree p (h.SetPrev x v) := by
  refine ⟨?_, ?_, fun q => ?_⟩
  · rw [Heap.length_SetPrev]; exact hf.1
  · rw [Heap.Prev_SetPrev]
    split
    · rename_i hc
      rcases hv with hv | hv
      · exact absurd hc.1.symm hv
      · exact hv
    · exact hf.2.1
  · rw [Heap.Next_SetPrev]; exact hf.2.2 q

theorem headFree_setNode (p x : Nat) (v : Node) (h : Heap) (hf : HeadFree p h) :
    HeadFree p (h.setNode x v) := by
  refine ⟨?_, ?_, fun q => ?_⟩
  · rw [Heap.length_setNode]; exact hf.1
  · rw [Heap.Prev_setNode]; exact hf.2.1
  · rw [Heap.Next_setNode]; exact hf.2.2 q

theorem headFree_alloc (p : Nat) (v : Node) (h : Heap) (hf : HeadFree p h) :
    HeadFree p (h.alloc v).1 := by
  refine ⟨?_, ?_, fun q => ?_⟩
  · rw [Heap.alloc_length]; exact Nat.lt_succ_of_lt hf.1
  · rw [Heap.alloc_Prev]; exact hf.2.1
  · rw [Heap.alloc_Next]; exact hf.2.2 q

theorem headFree_InsertAfter (p : Nat) (h : Heap) (head cur : Option Ref) (ins : Nat)
    (hf : HeadFree p h) (hi : ins ≠ p) : HeadFree p (InsertAfter h head cur ins).1 := by
  unfold InsertAfter
  cases cur with
  | none => exact hf
  | some c =>
    have hip : (some ins : Option Ref) ≠ some p := fun h1 => hi (Option.some.inj h1)
    simp only
    have h1 : HeadFree p
        (match h.Next c with
        | some cn => (h.SetNext ins (some cn)).SetPrev cn (some ins)
        | none => h) := by
      cases hn : h.Next c with
      | none => exact hf
      | some cn =>
        have hcn : cn ≠ p := by
          intro h2
          rw [h2] at hn
          exact hf.2.2 c hn
        exact headFree_SetPrev p cn _ _
          (headFree_SetNext p ins _ h hf (fun h2 => hcn (Option.some.inj h2))) (Or.inl hcn)
    have h3 := headFree_SetPrev p ins (some c) _ (headFree_SetNext p c (some ins) _ h1 hip)
      (Or.inl hi)
    cases head <;> exact h3

theorem headFree_hpackScan (p : Nat) (lastNode : Option Ref) :
    ∀ (fuel : Nat) (h : Heap) (e : Option Ref) (acc : HpackAcc), HeadFree p h →
      HeadFree p (hpackScan fuel h e lastNode acc).1 := by
  intro fuel
  induction fuel with
  | zero =>
    intro h e acc hf
    cases e <;> exact hf
  | succ k ih =>
    intro h e acc hf
    cases e with
    | none => exact hf
    | some e =>
      simp only [hpackScan]
      cases hn : h.node e with
      | none => exact hf
      | some v =>
        simp only
        split
        · cases hx : h.Next e with
          | none => exact hf
          | some nx =>
            exact headFree_SetNext p e none _ (headFree_SetPrev p nx none h hf (Or.inr rfl))
              (by simp)
        · exact ih _ _ _ hf

theorem headFree_hpackSetGlue (p : Nat) (env : Env) (r : Float64) (o : HpackOrders)
    (st : Heap × ScaledPoint) (g : Ref) (hf : HeadFree p st.1) :
    HeadFree p (hpackSetGlue env r o st g).1 := by
  unfold hpackSetGlue
  split
  · exact headFree_setNode p g _ _ hf
  · exact hf

theorem headFree_hpackSetGlue_fold (p : Nat) (env : Env) (r : Float64) (o : HpackOrders) :
    ∀ (gs : List Ref) (st : Heap × ScaledPoint), HeadFree p st.1 →
      HeadFree p (gs.foldl (hpackSetGlue env r o) st).1 := by
  intro gs
  induction gs with
  | nil => intro st hf; exact hf
  | cons g rest ih =>
    intro st hf
    rw [List.foldl_cons]
    exact ih _ (headFree_hpackSetGlue p env r o st g hf)

theorem headFree_HpackToWithEnd (p : Nat) (env : Env) (h : Heap)
    (firstNode lastNode : Option Ref) (width : ScaledPoint) (hf : HeadFree p h) :
    HeadFree p (HpackToWithEnd env h firstNode lastNode width).1 := by
  unfold HpackToWithEnd
  exact headFree_hpackSetGlue_fold p env _ _ _ _
    (headFree_hpackScan p lastNode _ h firstNode _ hf)

theorem headFree_packLine (p : Nat) (env : Env) (lb : linebreaker) (e : Breakpoint)
    (startPos : Option Ref) (st : BacktraceState) (hf : HeadFree p st.heap) :
    HeadFree p (packLine env lb e startPos st).heap ∧
    (packLine env lb e startPos st).curPre = st.curPre ∧
    ∃ hl, Node.hlist hl ∈ (packLine env lb e startPos st).vert := by
  have hne : (st.heap.alloc (Node.glue { NewGlue with Subtype := GlueSubtype.GluelineEnd })).2
      ≠ p := by
    rw [Heap.alloc_ref]
    exact fun h1 => absurd hf.1 (by rw [h1]; exact Nat.lt_irrefl _)
  unfold packLine
  simp only
  split
  · refine ⟨?_, rfl, _, List.mem_cons_of_mem _ (List.mem_cons_self _ _)⟩
    exact headFree_HpackToWithEnd p env _ _ _ _
      (headFree_InsertAfter p _ _ _ _ (headFree_alloc p _ _ hf) hne)
  · refine ⟨?_, rfl, _, List.mem_cons_self _ _⟩
    exact headFree_HpackToWithEnd p env _ _ _ _
      (headFree_InsertAfter p _ _ _ _ (headFree_alloc p _ _ hf) hne)

theorem headFree_splicePre (p : Nat) (h : Heap) (startPos endNode curPre : Option Ref)
    (hf : HeadFree p h) (hc : curPre ≠ some p) :
    HeadFree p (splicePre h startPos endNode curPre) := by
  unfold splicePre
  cases curPre with
  | none => exact hf
  | some cp => exact headFree_InsertAfter p h _ _ cp hf (fun h1 => hc (by rw [h1]))

theorem headFree_backtraceStep (p : Nat) (env : Env) (lb : linebreaker) (e : Breakpoint)
    (st : BacktraceState) (hf : HeadFree p st.heap) (hc : st.curPre ≠ some p) :
    HeadFree p (backtraceStep env lb e st).heap ∧ (backtraceStep env lb e st).curPre = e.Pre := by
  have h1 := headFree_splicePre p st.heap (lineStart st.heap e) st.endNode st.curPre hf hc
  unfold backtraceStep
  simp only
  cases hs : lineStart st.heap e with
  | none =>
    rw [hs] at h1
    exact ⟨h1, rfl⟩
  | some s =>
    rw [hs] at h1
    simp only
    obtain ⟨h2, h3, _⟩ := headFree_packLine p env lb e (some s)
      { st with heap := splicePre st.heap (some s) st.endNode st.curPre, curPre := e.Pre } h1
    exact ⟨h2, h3⟩

theorem backtraceStep_line (p : Nat) (env : Env) (lb : linebreaker) (e : Breakpoint)
    (st : BacktraceState) (hf : HeadFree p st.heap) (hc : st.curPre ≠ some p)
    (hpos : e.Position = p) : ∃ hl, Node.hlist hl ∈ (backtraceStep env lb e st).vert := by
  have h1 := headFree_splicePre p st.heap (lineStart st.heap e) st.endNode st.curPre hf hc
  have hs : lineStart st.heap e = some p := by
    unfold lineStart
    rw [hpos, hf.2.1]
    rfl
  unfold backtraceStep
  simp only
  rw [hs] at h1 ⊢
  simp only
  exact (headFree_packLine p env lb e (some p)
    { st with heap := splicePre st.heap (some p) st.endNode st.curPre, curPre := e.Pre } h1).2.2

theorem backtraceLoop_line (p : Nat) (env : Env) (lb : linebreaker) (hinv : LbInv lb)
    (hch : ChainInv p lb) :
    ∀ (fuel : Nat) (e : Breakpoint) (st : BacktraceState), e ∈ lb.all → e.Line < fuel →
      HeadFree p st.heap → st.curPre ≠ some p →
      ∃ hl, Node.hlist hl ∈ (backtraceLoop fuel env lb (some e) st).vert := by
  intro fuel
  induction fuel with
  | zero =>
    intro e st he hl
    have := (hch e he).1
    simp only [Nat.cast_zero] at hl
    omega
  | succ k ih =>
    intro e st he hl hf hc
    simp only [backtraceLoop]
    cases hb : bpFrom lb e with
    | none =>
      have hfr := bpFrom_none lb hinv e he hb
      have hpos := (hch e he).2.2.1 hfr
      have hline := backtraceStep_line p env lb e st hf hc hpos
      cases k <;> exact hline
    | some b =>
      obtain ⟨hbm, _, hbl⟩ := bpFrom_spec lb hinv e b he hb
      obtain ⟨hf1, hc1⟩ := headFree_backtraceStep p env lb e st hf hc
      refine ih b _ hbm (by push_cast at hl; omega) hf1 ?_
      rw [hc1]
      exact (hch e he).2.2.2

theorem wellFormed_spec (h : Heap) (p : Nat) (hwf : WellFormed h p = true) :
    p < h.length ∧ (∀ q : Nat, h.Next q ≠ some p) ∧
    ∀ (q : Nat) (pre : Option Ref) (pen : Int), h.node q = some (Node.disc pre pen) →
      pre ≠ some p := by
  unfold WellFormed at hwf
  simp only [Bool.and_eq_true, decide_eq_true_eq, List.all_eq_true, List.mem_range] at hwf
  obtain ⟨⟨h1, _⟩, h3⟩ := hwf
  refine ⟨h1, fun q => ?_, fun q pre pen hq => ?_⟩
  · by_cases hq : q < h.length
    · have := (h3 q hq).1
      simpa using this
    · rw [Heap.Next_of_ge h q (by omega)]
      simp
  · by_cases hql : q < h.length
    · have := (h3 q hql).2
      rw [hq] at this
      simpa using this
    · rw [Heap.node_of_ge h q (by omega)] at hq
      cases hq

theorem mainLoop_chainInv (env : Env) (h : Heap) (lb : linebreaker) (n p : Nat)
    (hd : ∀ (pre : Option Ref) (pen : Int), h.node n = some (Node.disc pre pen) → pre ≠ some p)
    (hinv : LbInv lb) (hch : ChainInv p lb) : ChainInv p (mainLoop env h lb n) := by
  obtain ⟨news, hp, _, hid, _, _, hc⟩ := mainLoop_all_perm env h lb n
  intro e he
  rcases List.mem_append.mp (hp.subset he) with he | he
  · exact hch e he
  · obtain ⟨a, ha, _, hbp⟩ := hc e he
    have haall : a ∈ lb.all := List.mem_append_left _ ha
    have hid1 : lb.nextId ≤ e.id := by
      have hm : e.id ∈ news.map Breakpoint.id := List.mem_map_of_mem _ he
      rw [hid, List.mem_range'_1] at hm
      exact hm.1
    have hlt := hinv.2.1 a haall
    have hline : e.Line = a.Line + 1 := by rw [hbp]; rfl
    have hfrom : e.from_ = some a.id := by rw [hbp]; rfl
    have hpre : e.Pre =
        match h.node n with
        | some (Node.disc pre _) => pre
        | _ => none := by rw [hbp]; rfl
    obtain ⟨ha0, ha1, _, _⟩ := hch a haall
    refine ⟨by omega, by omega, fun h1 => ?_, ?_⟩
    · rw [hfrom] at h1
      cases h1
    · rw [hpre]
      split
      · rename_i pre pen hn
        exact hd pre pen hn
      · simp

theorem linebreakWalk_chainInv (env : Env) (h : Heap) (p : Nat) (settings : LinebreakSettings)
    (hd : ∀ (q : Nat) (pre : Option Ref) (pen : Int), h.node q = some (Node.disc pre pen) →
      pre ≠ some p) :
    LbInv (linebreakWalk env h p settings).lb ∧ ChainInv p (linebreakWalk env h p settings).lb ∧
      (linebreakWalk env h p settings).lb.all ≠ [] := by
  refine walkLoop_inv env h (fun lb => LbInv lb ∧ ChainInv p lb ∧ lb.all ≠ []) ?_ ?_ h.length
    _ _ ⟨lbInv_start p settings, ?_, ?_⟩
  · intro lb lb1 ha hi hn _ hI
    refine ⟨lbInv_congr lb lb1 ha hi hn hI.1, ?_, ?_⟩
    · have := hI.2.1
      unfold ChainInv linebreaker.all at this ⊢
      rw [ha, hi]
      exact this
    · have := hI.2.2
      unfold linebreaker.all at this ⊢
      rw [ha, hi]
      exact this
  · intro lb e hI
    refine ⟨mainLoop_lbInv env h lb e hI.1, mainLoop_chainInv env h lb e p (hd e) hI.1 hI.2.1, ?_⟩
    obtain ⟨news, hp, _⟩ := mainLoop_all_perm env h lb e
    intro hnil
    have hlen := hp.length_eq
    rw [hnil, List.length_append] at hlen
    have : lb.all.length = 0 := by simp only [List.length_nil] at hlen; omega
    exact hI.2.2 (List.length_eq_zero.mp this)
  · intro e he
    simp only [linebreaker.all, newLinebreaker, List.append_nil, List.mem_singleton] at he
    rw [he]
    exact ⟨le_refl _, le_refl _, fun _ => rfl, by simp [startBreakpoint]⟩
  · simp [linebreaker.all]

theorem chooseLastNode_some (lb : linebreaker) (hne : lb.all ≠ []) :
    ∃ c, chooseLastNode lb = some c := by
  cases hact : lb.activeNodesA with
  | cons a rest =>
    obtain ⟨c, hc, _⟩ := chooseLastNode_active lb (by rw [hact]; simp)
    exact ⟨c, hc⟩
  | nil =>
    unfold linebreaker.all at hne
    rw [hact, List.nil_append] at hne
    unfold chooseLastNode
    rw [hact]
    cases hin : lb.inactiveNodesP with
    | nil => exact absurd hin hne
    | cons b rest => exact ⟨b, rfl⟩

/-- The output apart from the nil dereference: for a heap with a well-formed item list at `p`
whose head has no predecessor, a call of `Linebreak` that does not end in the nil dereference
of the creation loop returns a vertical list with at least one line box and a sequence of break
points that is not empty.  This holds for all settings and whether or not any break point is
feasible: the loop that builds the lines follows the chain of the chosen break point down to
the break point at the start of the paragraph, whose line is always packed. -/
theorem Linebreak_output (env : Env) (h : Heap) (p : Ref)
    (settings : LinebreakSettings) (hwf : WellFormed h p = true) (hprev : h.Prev p = none)
    (hrun : LinebreakRun env h (some p) settings ≠ none) :
    ∃ r, LinebreakRun env h (some p) settings = some r ∧
      (∃ hl, Node.hlist hl ∈ r.vert) ∧ r.vl.isSome = true ∧ r.bps ≠ [] := by
  obtain ⟨hp, hnext, hd⟩ := wellFormed_spec h p hwf
  obtain ⟨hinv, hch, hne⟩ := linebreakWalk_chainInv env h p settings hd
  obtain ⟨c, hc⟩ := chooseLastNode_some _ hne
  have hcm := chooseLastNode_mem _ c hc
  have hfuel : c.Line < ((linebreakWalk env h p settings).lb.nextId : Int) := by
    have h1 := (hch c hcm).2.1
    have h2 := hinv.2.1 c hcm
    omega
  have hline := backtraceLoop_line p env _ hinv hch _ c
    { heap := h, curPre := none, vert := [],
      endNode := (linebreakWalk env h p settings).endNode, bps := [c] }
    hcm hfuel ⟨hp, hprev, hnext⟩ (by simp)
  obtain ⟨l, hl, _⟩ := backtraceLoop_bps_sub (linebreakWalk env h p settings).lb.nextId env
    (linebreakWalk env h p settings).lb c
    { heap := h, curPre := none, vert := [],
      endNode := (linebreakWalk env h p settings).endNode, bps := [c] }
  unfold LinebreakRun at hrun ⊢
  simp only at hrun ⊢
  split
  · rename_i hw
    rw [if_pos hw] at hrun
    exact absurd rfl hrun
  · refine ⟨_, rfl, ?_, ?_, ?_⟩
    · simp only [Linebreak, hc]
      exact hline
    · simp only [Linebreak, hc]
      rfl
    · simp only [Linebreak, hc, hl]
      simp

/-- An instance: the overfull paragraph Box(10pt), Glue, Box(10pt), Glue, Box(200pt) with
the forced-end helper and `HSize` 30pt, in which no break point is feasible at the end, gives
a line box and break points. -/
theorem Linebreak_output_overfull :
    WellFormed exOverfullParagraph 0 = true ∧ exOverfullParagraph.Prev 0 = none ∧
    (linebreakWalk exampleEnv exOverfullParagraph 0 (exSettings 30)).lb.activeNodesA = [] ∧
    ∃ r, LinebreakRun exampleEnv exOverfullParagraph (some 0) (exSettings 30) = some r ∧
      (∃ hl, Node.hlist hl ∈ r.vert) ∧ r.vl.isSome = true ∧ r.bps ≠ [] :=
  ⟨by decide!, by decide!, by decide!,
    Linebreak_output exampleEnv exOverfullParagraph 0 (exSettings 30) (by decide!)
      (by decide!) (by decide!)⟩

/-! ## A paragraph of one box -/

theorem oneBox_heap (env : Env) (v : Node) :
    oneBoxParagraph env v =
      [{ node := v, prev := none, next := some 1 },
       { node := Node.penalty 10000 0, prev := some 0, next := some 2 },
       { node := Node.glue { NewGlue with Width := 0, Stretch := 1 * env.Factor, StretchOrder := 1 },
         prev := some 1, next := some 3 },
       { node := Node.penalty (-10000) 0, prev := some 2, next := none }] := by
  simp [oneBoxParagraph, AppendLineEndAfter, mkList, InsertAfter, Heap.alloc, Heap.SetNext,
    Heap.SetPrev, Heap.Next, List.enum, List.enumFrom]

theorem oneBox_links (env : Env) (v : Node) :
    (oneBoxParagraph env v).length = 4 ∧
    (oneBoxParagraph env v).node 0 = some v ∧
    (oneBoxParagraph env v).node 1 = some (Node.penalty 10000 0) ∧
    (oneBoxParagraph env v).node 2 =
      some (Node.glue { NewGlue with Width := 0, Stretch := 1 * env.Factor, StretchOrder := 1 }) ∧
    (oneBoxParagraph env v).node 3 = some (Node.penalty (-10000) 0) ∧
    (oneBoxParagraph env v).Next 0 = some 1 ∧ (oneBoxParagraph env v).Next 1 = some 2 ∧
    (oneBoxParagraph env v).Next 2 = some 3 ∧ (oneBoxParagraph env v).Next 3 = none ∧
    (oneBoxParagraph env v).Prev 0 = none ∧ (oneBoxParagraph env v).Prev 3 = some 2 := by
  rw [oneBox_heap]
  refine ⟨rfl, rfl, rfl, rfl, rfl, rfl, rfl, rfl, rfl, rfl, rfl⟩

theorem oneBox_cursor (env : Env) (v : Node) :
    walkCursor 0 (oneBoxParagraph env v) (some 0) = some 0 ∧
    walkCursor 1 (oneBoxParagraph env v) (some 0) = some 1 ∧
    walkCursor 2 (oneBoxParagraph env v) (some 0) = some 2 ∧
    walkCursor 3 (oneBoxParagraph env v) (some 0) = some 3 ∧
    walkCursor 4 (oneBoxParagraph env v) (some 0) = none := by
  obtain ⟨_, n0, n1, n2, n3, x0, x1, x2, x3, _, _⟩ := oneBox_links env v
  have c0 : walkCursor 0 (oneBoxParagraph env v) (some 0) = some 0 := rfl
  have c1 : walkCursor 1 (oneBoxParagraph env v) (some 0) = some 1 := by
    rw [walkCursor_succ, c0]; simp [n0, x0]
  have c2 : walkCursor 2 (oneBoxParagraph env v) (some 0) = some 2 := by
    rw [walkCursor_succ, c1]; simp [n1, x1]
  have c3 : walkCursor 3 (oneBoxParagraph env v) (some 0) = some 3 := by
    rw [walkCursor_succ, c2]; simp [n2, x2]
  have c4 : walkCursor 4 (oneBoxParagraph env v) (some 0) = none := by
    rw [walkCursor_succ, c3]; simp [n3, x3]
  exact ⟨c0, c1, c2, c3, c4⟩

theorem oneBox_walk3 (env : Env) (v : Node) (hv : isBox v = true) (hsize : ScaledPoint) :
    walkPrefix 3 env (oneBoxParagraph env v) 0 (settingsWithHSize hsize) =
      { lb := oneBoxState env (getWidth v) hsize, prevItemBox := false, endNode := some 2 } := by
  obtain ⟨_, n0, n1, n2, _, _⟩ := oneBox_links env v
  obtain ⟨c0, c1, c2, _, _⟩ := oneBox_cursor env v
  rw [walkPrefix_succ_some env _ 0 _ 2 2 _ c2 n2, walkPrefix_succ_some env _ 0 _ 1 1 _ c1 n1,
    walkPrefix_succ_some env _ 0 _ 0 0 _ c0 n0]
  have h0 : walkPrefix 0 env (oneBoxParagraph env v) 0 (settingsWithHSize hsize) =
      { lb := { newLinebreaker (settingsWithHSize hsize) with
                activeNodesA := [startBreakpoint 0], nextId := 1 }
        prevItemBox := false, endNode := none } := rfl
  rw [h0]
  cases v <;> first | rfl | cases hv

theorem oneBox_ratio (env : Env) (h : Heap) (w hsize : ScaledPoint)
    (n3 : h.node 3 = some (Node.penalty (-10000) 0)) (lb : linebreaker)
    (hlb : lb = oneBoxState env w hsize ∨
      lb = { oneBoxState env w hsize with activeNodesA := [] }) :
    computeAdjustmentRatio h lb 3 (startBreakpoint 0) =
      if w = hsize then Float64.fin 0 else positiveInf := by
  have hs : lb.sumW = 0 + w + 0 ∧ lb.sumY = 0 ∧ lb.sumZ = 0 + 0 ∧ lb.settings.HSize = hsize := by
    rcases hlb with hlb | hlb <;> rw [hlb] <;> exact ⟨rfl, rfl, rfl, rfl⟩
  obtain ⟨s1, s2, s3, s4⟩ := hs
  unfold computeAdjustmentRatio
  simp only [n3, s1, s2, s3, s4, startBreakpoint]
  by_cases h1 : w = hsize
  · subst h1
    simp
  · rw [if_neg h1]
    simp
    intro a b
    exact absurd (le_antisymm b a) h1

theorem oneBox_forced (h : Heap) (n3 : h.node 3 = some (Node.penalty (-10000) 0)) :
    isForcedBreak h 3 = true := by
  unfold isForcedBreak
  rw [n3]
  rfl

theorem oneBox_mainLoop_ne (env : Env) (h : Heap) (w hsize : ScaledPoint)
    (n3 : h.node 3 = some (Node.penalty (-10000) 0)) (hne : w ≠ hsize) :
    mainLoop env h (oneBoxState env w hsize) 3 =
      { oneBoxState env w hsize with
        activeNodesA := [], inactiveNodesP := [startBreakpoint 0] } ∧
    mainLoopDerefsNil env h 3 (oneBoxState env w hsize).activeNodesA
      { oneBoxState env w hsize with activeNodesA := [] } Buckets.init = false := by
  have hr := oneBox_ratio env h w hsize n3 { oneBoxState env w hsize with activeNodesA := [] }
    (Or.inr rfl)
  rw [if_neg hne] at hr
  have hf := oneBox_forced h n3
  have hex : examine env h { oneBoxState env w hsize with activeNodesA := [] } 3
      (startBreakpoint 0) positiveInf Buckets.init = Buckets.init := by
    unfold examine
    rw [if_neg]
    intro hc
    have := hc.2
    simp [oneBoxState, settingsWithHSize, NewLinebreakSettings, positiveInf, Float64.lt] at this
  have hde : deactivate h 3 (startBreakpoint 0) positiveInf
      { oneBoxState env w hsize with activeNodesA := [] } =
      { oneBoxState env w hsize with
        activeNodesA := [], inactiveNodesP := [startBreakpoint 0] } := by
    unfold deactivate
    rw [if_pos (Or.inr hf)]
    rfl
  constructor
  · unfold mainLoop
    have ha : (oneBoxState env w hsize).activeNodesA = [startBreakpoint 0] := rfl
    rw [ha]
    simp only [mainLoopScan]
    rw [hr, hex, hde]
    unfold createBreakpoints
    rw [if_neg (by simp [Buckets.init])]
  · have ha : (oneBoxState env w hsize).activeNodesA = [startBreakpoint 0] := rfl
    rw [ha]
    simp only [mainLoopDerefsNil]
    rw [hr, hex, hde]
    simp [createDerefsNil, Buckets.init]

theorem oneBox_examine_eq (env : Env) (h : Heap) (w : ScaledPoint)
    (n3 : h.node 3 = some (Node.penalty (-10000) 0)) :
    examine env h { oneBoxState env w w with activeNodesA := [] } 3 (startBreakpoint 0)
      (Float64.fin 0) Buckets.init =
      { dmin := 1
        dc := Function.update Buckets.init.dc 1 1
        ac := Function.update Buckets.init.ac 1 (some (startBreakpoint 0))
        rc := Function.update Buckets.init.rc 1 (Float64.fin 0) } := by
  have hb : beta 0 = 1 := by decide!
  have hd := lineDemerits_eq env h { oneBoxState env w w with activeNodesA := [] } 3
    (startBreakpoint 0) 0 (by rw [hb]; norm_num)
  have hcp : (curPenalty h { oneBoxState env w w with activeNodesA := [] } 3).1 = -10000 := by
    unfold curPenalty
    rw [n3]
  have hfc : fitnessClass (Float64.fin 0) = 1 := by decide!
  have hd1 : lineDemerits env h { oneBoxState env w w with activeNodesA := [] } 3
      (startBreakpoint 0) (Float64.fin 0) = 1 := by
    rw [hd, hcp, hb, hfc]
    simp [penaltyPart, fitnessPart, startBreakpoint, wrap64]
  unfold examine
  rw [if_pos, hfc, hd1]
  · unfold Buckets.record
    simp [Buckets.init, MaxInt]
  · constructor
    · decide!
    · simp [oneBoxState, settingsWithHSize, NewLinebreakSettings, positiveInf, Float64.lt]

theorem oneBox_mainLoop_eq (env : Env) (h : Heap) (w : ScaledPoint)
    (n3 : h.node 3 = some (Node.penalty (-10000) 0)) :
    (∃ b : Breakpoint,
      mainLoop env h (oneBoxState env w w) 3 =
        { oneBoxState env w w with
          activeNodesA := [b], inactiveNodesP := [startBreakpoint 0], nextId := 2 } ∧
      b.Position = 3 ∧ b.from_ = some 0 ∧ b.id = 1 ∧ b.Pre = none) ∧
    mainLoopDerefsNil env h 3 (oneBoxState env w w).activeNodesA
      { oneBoxState env w w with activeNodesA := [] } Buckets.init = false := by
  have hr := oneBox_ratio env h w w n3 { oneBoxState env w w with activeNodesA := [] }
    (Or.inr rfl)
  rw [if_pos rfl] at hr
  have hf := oneBox_forced h n3
  have hex := oneBox_examine_eq env h w n3
  have hde : deactivate h 3 (startBreakpoint 0) (Float64.fin 0)
      { oneBoxState env w w with activeNodesA := [] } =
      { oneBoxState env w w with
        activeNodesA := [], inactiveNodesP := [startBreakpoint 0] } := by
    unfold deactivate
    rw [if_pos (Or.inr hf)]
    rfl
  have ha : (oneBoxState env w w).activeNodesA = [startBreakpoint 0] := rfl
  have hw : wrap64 101 = 101 := by decide
  constructor
  · refine ⟨newBreakpoint env h
      { oneBoxState env w w with activeNodesA := [], inactiveNodesP := [startBreakpoint 0] } 3
      { dmin := 1
        dc := Function.update Buckets.init.dc 1 1
        ac := Function.update Buckets.init.ac 1 (some (startBreakpoint 0))
        rc := Function.update Buckets.init.rc 1 (Float64.fin 0) }
      (computeSum h
        { oneBoxState env w w with activeNodesA := [], inactiveNodesP := [startBreakpoint 0] } 3)
      1 (startBreakpoint 0) 1, ?_, rfl, rfl, rfl, ?_⟩
    · unfold mainLoop
      rw [ha]
      simp only [mainLoopScan]
      rw [hr, hex, hde]
      unfold createBreakpoints
      rw [if_pos (by simp [MaxInt])]
      simp [createStep, oneBoxState, settingsWithHSize, NewLinebreakSettings, hw, Buckets.init,
        MaxInt, Function.update]
    · unfold newBreakpoint
      simp only [n3]
  · rw [ha]
    simp only [mainLoopDerefsNil]
    rw [hr, hex, hde]
    simp [createDerefsNil, oneBoxState, settingsWithHSize, NewLinebreakSettings, hw,
      Buckets.init, MaxInt, Function.update]

theorem oneBox_linebreakWalk (env : Env) (v : Node) (hv : isBox v = true) (hsize : ScaledPoint) :
    linebreakWalk env (oneBoxParagraph env v) 0 (settingsWithHSize hsize) =
      { lb := mainLoop env (oneBoxParagraph env v) (oneBoxState env (getWidth v) hsize) 3
        prevItemBox := false, endNode := some 3 } := by
  obtain ⟨hl, _, _, _, n3, _, _, _, x3, _, _⟩ := oneBox_links env v
  obtain ⟨_, _, _, c3, _⟩ := oneBox_cursor env v
  rw [linebreakWalk_last env _ 0 _ 3 3 _ (by rw [hl]; decide) c3 n3 x3, oneBox_walk3 env v hv]
  rfl

theorem oneBox_derefs (env : Env) (v : Node) (hv : isBox v = true) (hsize : ScaledPoint) :
    walkDerefsNil (oneBoxParagraph env v).length env (oneBoxParagraph env v) (some 0)
      { lb := { newLinebreaker (settingsWithHSize hsize) with
                activeNodesA := [startBreakpoint 0], nextId := 1 }
        prevItemBox := false, endNode := none } =
      mainLoopDerefsNil env (oneBoxParagraph env v) 3
        (oneBoxState env (getWidth v) hsize).activeNodesA
        { oneBoxState env (getWidth v) hsize with activeNodesA := [] } Buckets.init := by
  obtain ⟨hl, n0, n1, n2, n3, x0, x1, x2, x3, _, _⟩ := oneBox_links env v
  rw [hl]
  generalize oneBoxParagraph env v = h at *
  simp only [walkDerefsNil, n0, n1, n2, n3, x0, x1, x2, x3]
  cases v <;> simp only [isBox, Bool.false_eq_true] at hv <;>
    simp [walkStepDerefsNil, walkStep, addGlue, oneBoxState, newLinebreaker, getWidth,
      StretchFil, StretchFill, StretchFilll, NewGlue]

theorem oneBox_start_step (env : Env) (lb : linebreaker) (st : BacktraceState)
    (hp0 : st.heap.Prev 0 = none) (hvert : st.vert = [])
    (hnext : bpNext lb (startBreakpoint 0) = none) :
    ∃ hl, (backtraceStep env lb (startBreakpoint 0) st).vert = [Node.hlist hl] := by
  have hs : lineStart st.heap (startBreakpoint 0) = some 0 := by
    unfold lineStart
    simp [startBreakpoint, hp0]
  unfold backtraceStep
  simp only [hs]
  unfold packLine
  simp only [hnext, hvert]
  exact ⟨_, rfl⟩

theorem oneBox_vert_ne (env : Env) (h : Heap) (lb : linebreaker) (endNode : Option Ref)
    (hp0 : h.Prev 0 = none) (hact : lb.activeNodesA = [])
    (hin : lb.inactiveNodesP = [startBreakpoint 0]) (hid : lb.nextId = 1) :
    chooseLastNode lb = some (startBreakpoint 0) ∧
    ∃ hl, (backtraceLoop lb.nextId env lb (some (startBreakpoint 0))
      { heap := h, curPre := none, vert := [], endNode := endNode,
        bps := [startBreakpoint 0] }).vert = [Node.hlist hl] := by
  constructor
  · unfold chooseLastNode
    rw [hact, hin]
    rfl
  · have hnext : bpNext lb (startBreakpoint 0) = none := by
      unfold bpNext
      rw [hact, hin]
      rfl
    obtain ⟨hl, hv⟩ := oneBox_start_step env lb
      { heap := h, curPre := none, vert := [], endNode := endNode,
        bps := [startBreakpoint 0] } hp0 rfl hnext
    refine ⟨hl, ?_⟩
    rw [hid]
    simp only [backtraceLoop]
    cases bpFrom lb (startBreakpoint 0) <;> exact hv

theorem oneBox_vert_eq (env : Env) (h : Heap) (lb : linebreaker) (endNode : Option Ref)
    (b : Breakpoint) (hp0 : h.Prev 0 = none) (hp3 : h.Prev 3 = some 2) (hx3 : h.Next 3 = none)
    (hact : lb.activeNodesA = [b]) (hin : lb.inactiveNodesP = [startBreakpoint 0])
    (hid : lb.nextId = 2) (hpos : b.Position = 3) (hfrom : b.from_ = some 0) (hbid : b.id = 1)
    (hpre : b.Pre = none) :
    chooseLastNode lb = some b ∧
    ∃ hl, (backtraceLoop lb.nextId env lb (some b)
      { heap := h, curPre := none, vert := [], endNode := endNode, bps := [b] }).vert =
        [Node.hlist hl] := by
  constructor
  · unfold chooseLastNode
    rw [hact]
    simp only [List.foldl_cons, List.foldl_nil]
    split <;> rfl
  · have hnext : bpNext lb (startBreakpoint 0) = none := by
      unfold bpNext
      rw [hact, hin]
      simp [nextIn, startBreakpoint, hbid]
    have hfr : bpFrom lb b = some (startBreakpoint 0) := by
      unfold bpFrom
      rw [hfrom, hin, hact]
      simp [startBreakpoint]
    have hs : lineStart h b = none := by
      unfold lineStart
      rw [hpos, hp3, hx3]
      rfl
    have hstep : backtraceStep env lb b
        { heap := h, curPre := none, vert := [], endNode := endNode, bps := [b] } =
        { heap := h, curPre := none, vert := [], endNode := endNode, bps := [b] } := by
      unfold backtraceStep
      simp only [hs, hpre, splicePre]
    obtain ⟨hl, hv⟩ := oneBox_start_step env lb
      { heap := h, curPre := none, vert := [], endNode := endNode, bps := [b] } hp0 rfl hnext
    refine ⟨hl, ?_⟩
    rw [hid]
    simp only [backtraceLoop, hfr, hstep]
    cases bpFrom lb (startBreakpoint 0) <;> exact hv

/-- C19: for a paragraph of a single box `v` (a glyph, rule, hlist, image or kern of any
width) followed by the nodes of `AppendLineEndAfter`, and for every `HSize` with the other
settings at their defaults, `Linebreak` returns, without meeting the nil dereference, a vertical
list that consists of exactly one line box: no second line and no inter-line glue. -/
theorem C19_single_box_one_line (env : Env) (v : Node) (hsize : ScaledPoint)
    (hv : isBox v = true) :
    ∃ r hl, LinebreakRun env (oneBoxParagraph env v) (some 0) (settingsWithHSize hsize) =
      some r ∧ r.vert = [Node.hlist hl] := by
  obtain ⟨_, _, _, _, n3, _, _, _, x3, p0, p3⟩ := oneBox_links env v
  have hwalk := oneBox_linebreakWalk env v hv hsize
  have hder := oneBox_derefs env v hv hsize
  unfold LinebreakRun
  simp only
  rw [hder]
  by_cases hw : getWidth v = hsize
  · subst hw
    obtain ⟨⟨b, hml, hpos, hfrom, hbid, hpre⟩, hdn⟩ :=
      oneBox_mainLoop_eq env (oneBoxParagraph env v) (getWidth v) n3
    obtain ⟨hch, hl, hvert⟩ := oneBox_vert_eq env (oneBoxParagraph env v)
      (mainLoop env (oneBoxParagraph env v) (oneBoxState env (getWidth v) (getWidth v)) 3)
      (some 3) b p0 p3 x3 (by rw [hml]) (by rw [hml]) (by rw [hml]) hpos hfrom hbid hpre
    rw [hdn]
    refine ⟨_, hl, rfl, ?_⟩
    simp only [Linebreak, hwalk, hch]
    exact hvert
  · obtain ⟨hml, hdn⟩ := oneBox_mainLoop_ne env (oneBoxParagraph env v) (getWidth v) hsize n3 hw
    obtain ⟨hch, hl, hvert⟩ := oneBox_vert_ne env (oneBoxParagraph env v)
      (mainLoop env (oneBoxParagraph env v) (oneBoxState env (getWidth v) hsize) 3)
      (some 3) p0 (by rw [hml]) (by rw [hml]) (by rw [hml]; rfl)
    rw [hdn]
    refine ⟨_, hl, rfl, ?_⟩
    simp only [Linebreak, hwalk, hch]
    exact hvert

/-- C19, an instance: a box of 10pt at a line width of 20pt. -/
theorem C19_single_box_one_line_witness :
    isBox (exBox 10) = true ∧
    ∃ r hl, LinebreakRun exampleEnv (oneBoxParagraph exampleEnv (exBox 10)) (some 0)
      (settingsWithHSize (pt 20)) = some r ∧ r.vert = [Node.hlist hl] :=
  ⟨by decide, C19_single_box_one_line exampleEnv (exBox 10) (pt 20) (by decide)⟩

end Boxesandglue
